import Mathlib

/-!
IPP-Polynomials: sparse multivariate polynomials (`poly.c`)

A shallow embedding of the polynomial kernel of `src/poly.c` together with the
properties of the specification that are stated about it.

* `poly_coeff_t` is `long`: coefficients are integers, every arithmetic result
  is reduced to the signed 64-bit range by `wrap64`.
* `poly_exp_t` is `int`: exponents are integers, the exponent sum formed by
  `PolyMul` is reduced to the signed 32-bit range by `wrap32`.
* A `Poly` is either a coefficient (`arr == NULL`) or an array of monomials;
  arrays are lists, a monomial `Mono` is the pair `(p, exp)`.
* Ownership and allocation are not modelled: `PolyClone` is a deep copy of an
  immutable value, and the three `Poly*Monos` constructors compute the same value.
-/

set_option linter.unusedTactic false
set_option linter.unreachableTactic false
set_option linter.unusedVariables false

namespace IPP

/-! ## Data model -/

/-- The type `Poly` of `poly.h`: a constant `coeff c` (the case `arr == NULL`) or
the array `arr` of monomials, each monomial being a pair `(p, exp)`. -/
inductive Poly where
  | coeff (c : Int) : Poly
  | sum (arr : List (Poly × Int)) : Poly

/-- The type `Mono` of `poly.h`: the coefficient `p` and the exponent `exp`. -/
@[reducible] def Mono : Type := Poly × Int

/-- Bound of `long`: values lie in `[-2^63, 2^63)`. -/
def LONG_BOUND : Int := 9223372036854775808

/-- Bound of `int`: values lie in `[-2^31, 2^31)`. -/
def INT_BOUND : Int := 2147483648

/-- Two's-complement wraparound of a `long` result. -/
def wrap64 (x : Int) : Int :=
  (x + 9223372036854775808) % 18446744073709551616 - 9223372036854775808

/-- Two's-complement wraparound of an `int` result. -/
def wrap32 (x : Int) : Int :=
  (x + 2147483648) % 4294967296 - 2147483648

/-- Function `MonoGetExp` of `poly.h`. -/
def MonoGetExp (m : Mono) : Int := m.2

/-- Function `PolyFromCoeff` of `poly.h`. -/
def PolyFromCoeff (c : Int) : Poly := Poly.coeff c

/-- Function `PolyZero` of `poly.h`. -/
def PolyZero : Poly := PolyFromCoeff 0

/-- Function `PolyIsCoeff` of `poly.h`. -/
def PolyIsCoeff : Poly → Bool
  | Poly.coeff _ => true
  | Poly.sum _ => false

/-- Function `PolyIsZero` of `poly.h`: a constant whose coefficient is `0`. -/
def PolyIsZero : Poly → Bool
  | Poly.coeff c => decide (c = 0)
  | Poly.sum _ => false

mutual
/-- Number of nodes of a polynomial (the measure the recursive operations decrease). -/
def Poly.size : Poly → Nat
  | Poly.coeff _ => 1
  | Poly.sum arr => 1 + monosSize arr
/-- Number of nodes of an array of monomials. -/
def monosSize : List (Poly × Int) → Nat
  | [] => 0
  | (p, _) :: tl => 1 + p.size + monosSize tl
end

mutual
/-- Function `PolyClone` of `poly.c`: a constant is rebuilt by `PolyFromCoeff`, an array is
copied monomial by monomial with `MonoClone`. -/
def PolyClone : Poly → Poly
  | Poly.coeff c => PolyFromCoeff c
  | Poly.sum arr => Poly.sum (CloneMonoArr arr)
/-- Function `CloneMonoArr` of `poly.c` (the loop of `MonoClone` calls). -/
def CloneMonoArr : List (Poly × Int) → List (Poly × Int)
  | [] => []
  | (p, e) :: tl => (PolyClone p, e) :: CloneMonoArr tl
end

/-- Function `BuildPolyFromMonos` of `poly.c`, on the `numOfMonos` monomials written to
the array: no monomial gives zero, a single constant monomial of exponent `0`
gives that constant, anything else is the array itself. -/
def BuildPolyFromMonos : List Mono → Poly
  | [] => PolyZero
  | [(Poly.coeff c, 0)] => PolyFromCoeff c
  | m :: tl => Poly.sum (m :: tl)

/-- The store of the loops of `SumPolyPoly`, `SubPolyPoly` and `MulCoeffPoly`:
a monomial is written to the output array unless its coefficient is zero. -/
def keepMono (m : Mono) (out : List Mono) : List Mono :=
  if PolyIsZero m.1 then out else m :: out

/-! ## PolyAdd -/

mutual
/-- Function `PolyAdd` of `poly.c`. -/
def PolyAdd : Poly → Poly → Poly
  | Poly.coeff a, Poly.coeff b => PolyFromCoeff (wrap64 (a + b))
  | Poly.coeff a, Poly.sum qs =>
      if a = 0 then PolyClone (Poly.sum qs) else SumConstPoly a qs
  | Poly.sum ps, Poly.coeff b => PolyAdd (Poly.coeff b) (Poly.sum ps)
  | Poly.sum ps, Poly.sum qs => SumPolyPoly ps qs
termination_by p q => (p.size + q.size, 4 + (if PolyIsCoeff q then 1 else 0))
decreasing_by
  all_goals simp only [Poly.size, monosSize, PolyIsCoeff, Prod.lex_def]
  all_goals first
    | omega
    | (simp; done)
    | (simp; omega)
/-- Function `SumConstPoly` of `poly.c`: the constant `a` plus the array `qs`. Without a
term of exponent `0` the constant becomes the first monomial. (The C code reads
`arr[0]`; an empty array, which no `Poly` holds, is given the first branch.) -/
def SumConstPoly (a : Int) : List (Poly × Int) → Poly
  | [] => Poly.sum [(PolyFromCoeff a, 0)]
  | (q0, e0) :: tl =>
      if e0 ≠ 0 then
        Poly.sum ((PolyFromCoeff a, 0) :: CloneMonoArr ((q0, e0) :: tl))
      else SumConstPoly0 a q0 tl
termination_by qs => (1 + (1 + monosSize qs), 3)
decreasing_by
  all_goals simp only [Poly.size, monosSize, PolyIsCoeff, Prod.lex_def]
  all_goals first
    | omega
    | (simp; done)
    | (simp; omega)
/-- Function `SumConstPoly0` of `poly.c`: the constant `a` plus the array `(q0, 0) :: tl`.
The new constant term is `a + q0`; it is dropped when it is zero. -/
def SumConstPoly0 (a : Int) (q0 : Poly) (tl : List (Poly × Int)) : Poly :=
  let tmpMono : Mono := (PolyAdd (Poly.coeff a) q0, 0)
  if PolyIsZero tmpMono.1 then Poly.sum (CloneMonoArr tl)
  else Poly.sum (tmpMono :: CloneMonoArr tl)
termination_by (1 + (1 + (1 + q0.size + monosSize tl)), 2)
decreasing_by
  all_goals simp only [Poly.size, monosSize, PolyIsCoeff, Prod.lex_def]
  all_goals first
    | omega
    | (simp; done)
    | (simp; omega)
/-- Function `SumPolyPoly` of `poly.c`: the merge loop followed by `BuildPolyFromMonos`. -/
def SumPolyPoly (ps qs : List (Poly × Int)) : Poly :=
  BuildPolyFromMonos (SumPolyPolyLoop ps qs)
termination_by (1 + monosSize ps + (1 + monosSize qs), 1)
decreasing_by
  all_goals simp only [Poly.size, monosSize, PolyIsCoeff, Prod.lex_def]
  all_goals first
    | omega
    | (simp; done)
    | (simp; omega)
/-- The `while` loop of `SumPolyPoly` from the indices `i`, `j` on (`ps`, `qs` are
the monomials not yet consumed); each round takes the monomial `NextMonoAdd`
returns: the one of smaller exponent, or the sum of both when the exponents agree. -/
def SumPolyPolyLoop : List (Poly × Int) → List (Poly × Int) → List (Poly × Int)
  | [], [] => []
  | (p, e) :: ps, [] => keepMono (PolyClone p, e) (SumPolyPolyLoop ps [])
  | [], (q, f) :: qs => keepMono (PolyClone q, f) (SumPolyPolyLoop [] qs)
  | (p, e) :: ps, (q, f) :: qs =>
      if e < f then keepMono (PolyClone p, e) (SumPolyPolyLoop ps ((q, f) :: qs))
      else if e > f then keepMono (PolyClone q, f) (SumPolyPolyLoop ((p, e) :: ps) qs)
      else keepMono (PolyAdd p q, e) (SumPolyPolyLoop ps qs)
termination_by ps qs => (1 + monosSize ps + (1 + monosSize qs), 0)
decreasing_by
  all_goals simp only [Poly.size, monosSize, PolyIsCoeff, Prod.lex_def]
  all_goals first
    | omega
    | (simp; done)
    | (simp; omega)
end

/-! ## PolyAddMonos, PolyOwnMonos, PolyCloneMonos -/

/-- Function `CopyMonoArr` of `poly.c`: the array is copied element by element. -/
def CopyMonoArr (monos : List Mono) : List Mono := monos

/-- Comparison `MonoCmp` of `poly.c`, as the order `qsort` sorts by: exponents compared. -/
def MonoLe (p q : Mono) : Prop := MonoGetExp p ≤ MonoGetExp q

instance MonoLe.decidable : DecidableRel MonoLe :=
  fun p q => inferInstanceAs (Decidable (MonoGetExp p ≤ MonoGetExp q))

/-- Function `SortMonos` of `poly.c`: `qsort` by `MonoCmp`. `qsort` leaves the order of
monomials of equal exponent unspecified; the model takes the insertion sort, and
`IsSortOf` describes every array `qsort` may leave. -/
def SortMonos (monos : List Mono) : List Mono := List.insertionSort MonoLe monos

/-- The arrays `qsort` may leave for `monos`: a rearrangement of `monos` in
non-decreasing order of exponent. -/
def IsSortOf (sorted monos : List Mono) : Prop :=
  List.Perm sorted monos ∧ List.Sorted MonoLe sorted

/-- The `for` loop of `PolyOwnMonos`: `done` are the monomials at the indices below
`index`, `cur` is `monos[index]`, the list is `monos[i..count)`. A monomial of the
same exponent is added into `monos[index]`; a new exponent advances `index`, or
overwrites `monos[index]` when that is zero. The end of the list is the step after
the loop: a zero `monos[index]` is dropped. The result is the final `monos[0..index)`. -/
def OwnMonosLoop (done : List Mono) (cur : Mono) : List Mono → List Mono
  | [] => if PolyIsZero cur.1 then done else done ++ [cur]
  | m :: rest =>
      if MonoGetExp cur = MonoGetExp m then
        OwnMonosLoop done (PolyAdd cur.1 m.1, cur.2) rest
      else if !PolyIsZero cur.1 then OwnMonosLoop (done ++ [cur]) m rest
      else OwnMonosLoop done m rest

/-- Function `PolyOwnMonos` of `poly.c` after the call of `SortMonos`, on the sorted array. -/
def PolyOwnMonosSorted : List Mono → Poly
  | [] => PolyZero
  | m :: rest => BuildPolyFromMonos (OwnMonosLoop [] m rest)

/-- Function `PolyOwnMonos` of `poly.c`. -/
def PolyOwnMonos (monos : List Mono) : Poly :=
  if monos.length = 0 then PolyZero else PolyOwnMonosSorted (SortMonos monos)

/-- Function `PolyAddMonos` of `poly.c`. -/
def PolyAddMonos (monos : List Mono) : Poly :=
  if monos.length = 0 then PolyZero else PolyOwnMonos (CopyMonoArr monos)

/-- Function `PolyCloneMonos` of `poly.c`. -/
def PolyCloneMonos (monos : List Mono) : Poly :=
  if monos.length = 0 then PolyZero else PolyOwnMonos (CloneMonoArr monos)

/-! ## PolyMul, PolyNeg -/

mutual
/-- Function `PolyMul` of `poly.c`. -/
def PolyMul : Poly → Poly → Poly
  | Poly.coeff a, Poly.coeff b => PolyFromCoeff (wrap64 (a * b))
  | Poly.coeff a, Poly.sum qs => if a = 0 then PolyZero else MulCoeffPoly a qs
  | Poly.sum ps, Poly.coeff b => PolyMul (Poly.coeff b) (Poly.sum ps)
  | Poly.sum ps, Poly.sum qs => PolyOwnMonos (MulMonos ps qs)
termination_by p q => (p.size + q.size, 4 + (if PolyIsCoeff q then 1 else 0))
decreasing_by
  all_goals simp only [Poly.size, monosSize, PolyIsCoeff, Prod.lex_def]
  all_goals first
    | omega
    | (simp; done)
    | (simp; omega)
/-- Function `MulCoeffPoly` of `poly.c`: the loop followed by `BuildPolyFromMonos`. -/
def MulCoeffPoly (a : Int) (qs : List (Poly × Int)) : Poly :=
  BuildPolyFromMonos (MulCoeffPolyLoop a qs)
termination_by (1 + (1 + monosSize qs), 3)
decreasing_by
  all_goals simp only [Poly.size, monosSize, PolyIsCoeff, Prod.lex_def]
  all_goals first
    | omega
    | (simp; done)
    | (simp; omega)
/-- The `for` loop of `MulCoeffPoly`: every coefficient is multiplied by the
constant `a`; a product that is zero is not stored. -/
def MulCoeffPolyLoop (a : Int) : List (Poly × Int) → List (Poly × Int)
  | [] => []
  | (q, e) :: tl => keepMono (PolyMul (Poly.coeff a) q, MonoGetExp (q, e)) (MulCoeffPolyLoop a tl)
termination_by qs => (1 + (1 + monosSize qs), 2)
decreasing_by
  all_goals simp only [Poly.size, monosSize, PolyIsCoeff, Prod.lex_def]
  all_goals first
    | omega
    | (simp; done)
    | (simp; omega)
/-- The outer `for` loop of `PolyMul` over the monomials of `p`: the array
`newArr`, row `i` holding the products of `p->arr[i]` with the monomials of `q`. -/
def MulMonos : List (Poly × Int) → List (Poly × Int) → List (Poly × Int)
  | [], _ => []
  | (p, e) :: ps, qs => MulMonosRow p e qs ++ MulMonos ps qs
termination_by ps qs => (1 + monosSize ps + (1 + monosSize qs), 3)
decreasing_by
  all_goals simp only [Poly.size, monosSize, PolyIsCoeff, Prod.lex_def]
  all_goals first
    | omega
    | (simp; done)
    | (simp; omega)
/-- The inner `for` loop of `PolyMul`: the monomial `(p, e)` times each monomial of
`q`, exponents added in `int`. -/
def MulMonosRow (p : Poly) (e : Int) : List (Poly × Int) → List (Poly × Int)
  | [] => []
  | (q, f) :: qs => (PolyMul p q, wrap32 (e + f)) :: MulMonosRow p e qs
termination_by qs => (1 + (1 + p.size) + (1 + monosSize qs), 2)
decreasing_by
  all_goals simp only [Poly.size, monosSize, PolyIsCoeff, Prod.lex_def]
  all_goals first
    | omega
    | (simp; done)
    | (simp; omega)
end

/-- Function `PolyNeg` of `poly.c`: the product with the constant `-1`. -/
def PolyNeg (p : Poly) : Poly :=
  let tmp := PolyFromCoeff (-1)
  PolyMul p tmp

/-- The loops of `SubConstPoly0`, `SubConstPoly`: every monomial of the array is
replaced by its opposite, `(PolyNeg p, exp)`. -/
def NegMonoArr : List Mono → List Mono
  | [] => []
  | (p, e) :: tl => (PolyNeg p, MonoGetExp (p, e)) :: NegMonoArr tl

/-! ## PolySub -/

mutual
/-- Function `PolySub` of `poly.c`. -/
def PolySub : Poly → Poly → Poly
  | Poly.coeff a, Poly.coeff b => PolyFromCoeff (wrap64 (a - b))
  | Poly.coeff a, Poly.sum qs =>
      if a = 0 then PolyNeg (Poly.sum qs) else SubConstPoly a qs
  | Poly.sum ps, Poly.coeff b =>
      if b = 0 then PolyClone (Poly.sum ps) else SubPolyConst ps b
  | Poly.sum ps, Poly.sum qs => SubPolyPoly ps qs
termination_by p q => (p.size + q.size, 4)
decreasing_by
  all_goals simp only [Poly.size, monosSize, PolyIsCoeff, Prod.lex_def]
  all_goals first
    | omega
    | (simp; done)
    | (simp; omega)
/-- Function `SubConstPoly` of `poly.c`: the constant `a` minus the array `qs`. (The C code
reads `arr[0]`; an empty array, which no `Poly` holds, is given the second branch.) -/
def SubConstPoly (a : Int) : List (Poly × Int) → Poly
  | [] => Poly.sum [(PolyClone (Poly.coeff a), 0)]
  | (q0, e0) :: tl =>
      if e0 = 0 then SubConstPoly0 a q0 tl
      else Poly.sum ((PolyClone (Poly.coeff a), 0) :: NegMonoArr ((q0, e0) :: tl))
termination_by qs => (1 + (1 + monosSize qs), 3)
decreasing_by
  all_goals simp only [Poly.size, monosSize, PolyIsCoeff, Prod.lex_def]
  all_goals first
    | omega
    | (simp; done)
    | (simp; omega)
/-- Function `SubConstPoly0` of `poly.c`: the constant `a` minus the array `(q0, 0) :: tl`. -/
def SubConstPoly0 (a : Int) (q0 : Poly) (tl : List (Poly × Int)) : Poly :=
  let zeroMono : Mono := (PolySub (Poly.coeff a) q0, 0)
  if PolyIsZero zeroMono.1 then Poly.sum (NegMonoArr tl)
  else Poly.sum (zeroMono :: NegMonoArr tl)
termination_by (1 + (1 + (1 + q0.size + monosSize tl)), 2)
decreasing_by
  all_goals simp only [Poly.size, monosSize, PolyIsCoeff, Prod.lex_def]
  all_goals first
    | omega
    | (simp; done)
    | (simp; omega)
/-- Function `SubPolyConst` of `poly.c`: the array `ps` minus the non-zero constant `b`.
(An empty array, which no `Poly` holds, is given the first branch.) -/
def SubPolyConst : List (Poly × Int) → Int → Poly
  | [], b => Poly.sum [(PolyNeg (Poly.coeff b), 0)]
  | (p0, e0) :: tl, b =>
      if e0 ≠ 0 then
        Poly.sum ((PolyNeg (Poly.coeff b), 0) :: CloneMonoArr ((p0, e0) :: tl))
      else SubPolyConst0 p0 tl b
termination_by ps b => (1 + monosSize ps + 1, 3)
decreasing_by
  all_goals simp only [Poly.size, monosSize, PolyIsCoeff, Prod.lex_def]
  all_goals first
    | omega
    | (simp; done)
    | (simp; omega)
/-- Function `SubPolyConst0` of `poly.c`: the array `(p0, 0) :: tl` minus the constant `b`.
A zero constant term is dropped; if it was the only monomial the result is zero. -/
def SubPolyConst0 (p0 : Poly) (tl : List (Poly × Int)) (b : Int) : Poly :=
  let zeroMono : Mono := (PolySub p0 (Poly.coeff b), 0)
  if PolyIsZero zeroMono.1 then
    if tl.length + 1 > 1 then Poly.sum (CloneMonoArr tl) else PolyZero
  else Poly.sum (zeroMono :: CloneMonoArr tl)
termination_by (1 + (1 + p0.size + monosSize tl) + 1, 2)
decreasing_by
  all_goals simp only [Poly.size, monosSize, PolyIsCoeff, Prod.lex_def]
  all_goals first
    | omega
    | (simp; done)
    | (simp; omega)
/-- Function `SubPolyPoly` of `poly.c`: the merge loop followed by `BuildPolyFromMonos`. -/
def SubPolyPoly (ps qs : List (Poly × Int)) : Poly :=
  BuildPolyFromMonos (SubPolyPolyLoop ps qs)
termination_by (1 + monosSize ps + (1 + monosSize qs), 1)
decreasing_by
  all_goals simp only [Poly.size, monosSize, PolyIsCoeff, Prod.lex_def]
  all_goals first
    | omega
    | (simp; done)
    | (simp; omega)
/-- The `while` loop of `SubPolyPoly`; each round takes the monomial `NextMonoSub`
returns: the monomial of `p` of smaller exponent, the opposite of the monomial of
`q` of smaller exponent, or the difference of both when the exponents agree. -/
def SubPolyPolyLoop : List (Poly × Int) → List (Poly × Int) → List (Poly × Int)
  | [], [] => []
  | (p, e) :: ps, [] => keepMono (PolyClone p, e) (SubPolyPolyLoop ps [])
  | [], (q, f) :: qs => keepMono (PolyNeg q, f) (SubPolyPolyLoop [] qs)
  | (p, e) :: ps, (q, f) :: qs =>
      if e < f then keepMono (PolyClone p, e) (SubPolyPolyLoop ps ((q, f) :: qs))
      else if e > f then keepMono (PolyNeg q, f) (SubPolyPolyLoop ((p, e) :: ps) qs)
      else keepMono (PolySub p q, e) (SubPolyPolyLoop ps qs)
termination_by ps qs => (1 + monosSize ps + (1 + monosSize qs), 0)
decreasing_by
  all_goals simp only [Poly.size, monosSize, PolyIsCoeff, Prod.lex_def]
  all_goals first
    | omega
    | (simp; done)
    | (simp; omega)

end

/-! ## PolyIsEq -/

mutual
/-- Function `PolyIsEq` of `poly.c`. -/
def PolyIsEq : Poly → Poly → Bool
  | Poly.coeff a, Poly.coeff b => decide (a = b)
  | Poly.coeff _, Poly.sum _ => false
  | Poly.sum _, Poly.coeff _ => false
  | Poly.sum ps, Poly.sum qs =>
      if ps.length ≠ qs.length then false else MonosIsEq ps qs
/-- The `for` loop of `PolyIsEq` over two arrays of the same size. -/
def MonosIsEq : List (Poly × Int) → List (Poly × Int) → Bool
  | [], _ => true
  | _ :: _, [] => true
  | (p, e) :: ps, (q, f) :: qs =>
      if e ≠ f then false
      else if !PolyIsEq p q then false
      else MonosIsEq ps qs
end

/-! ## PolyCompose -/

/-- The `while` loop of `PolyFastExp`: square-and-multiply on the `int` exponent
`exp`, whose division and remainder round towards zero. -/
def PolyFastExpLoop (acc result : Poly) (exp : Int) : Poly :=
  if h : exp ≠ 0 then
    let acc1 := if Int.tmod exp 2 ≠ 0 then PolyMul acc result else acc
    let result1 := if exp ≠ 1 then PolyMul result result else result
    PolyFastExpLoop acc1 result1 (Int.tdiv exp 2)
  else acc
termination_by exp.natAbs
decreasing_by
  have h2 : (Int.tdiv exp 2).natAbs = exp.natAbs / 2 := Int.natAbs_tdiv exp 2
  omega

/-- Function `PolyFastExp` of `poly.c`. -/
def PolyFastExp (p : Poly) (exp : Int) : Poly :=
  if exp = 0 then PolyFromCoeff 1
  else if exp = 1 then PolyClone p
  else PolyFastExpLoop (PolyFromCoeff 1) (PolyClone p) exp

/-- Function `SmartPolyMul` of `poly.c`. -/
def SmartPolyMul (p q : Poly) : Poly := PolyMul p q

/-- Function `SmartPolyAdd` of `poly.c`. -/
def SmartPolyAdd (p q : Poly) : Poly := PolyAdd p q

mutual
/-- Function `AuxPolyCompose` of `poly.c`; `q` is the array of `k` polynomials, an index
outside the list reads the zero polynomial. (The C code reads `arr[0]`; an empty
array, which no `Poly` holds, is given the branch of a non-zero first exponent.) -/
def AuxPolyCompose : Poly → Nat → Nat → List Poly → Poly
  | Poly.coeff c, _, _, _ => PolyClone (Poly.coeff c)
  | Poly.sum [], level, k, q =>
      if level + 1 > k || PolyIsZero (q.getD level PolyZero) then PolyZero
      else AuxPolyComposeLoop [] level k q PolyZero (PolyFromCoeff 1) 0
  | Poly.sum ((p0, e0) :: tl), level, k, q =>
      if level + 1 > k || PolyIsZero (q.getD level PolyZero) then
        if e0 = 0 then AuxPolyCompose p0 (level + 1) k q else PolyZero
      else AuxPolyComposeLoop ((p0, e0) :: tl) level k q PolyZero (PolyFromCoeff 1) 0
/-- The `for` loop of `AuxPolyCompose` over the monomials not yet visited, with
the running `sum`, the running power `exp` of `q[level]` and its exponent `expVal`. -/
def AuxPolyComposeLoop : List (Poly × Int) → Nat → Nat → List Poly →
    Poly → Poly → Int → Poly
  | [], _, _, _, sum, _, _ => sum
  | (p, e) :: rest, level, k, q, sum, exp, expVal =>
      let tmp := AuxPolyCompose p (level + 1) k q
      if !PolyIsZero tmp then
        let tmp2 := PolyFastExp (q.getD level PolyZero) (wrap32 (MonoGetExp (p, e) - expVal))
        if !PolyIsZero tmp2 then
          let exp1 := SmartPolyMul exp tmp2
          let expVal1 := MonoGetExp (p, e)
          if !PolyIsZero exp1 then
            let tmp3 := PolyMul tmp exp1
            if !PolyIsZero tmp3 then
              AuxPolyComposeLoop rest level k q (SmartPolyAdd sum tmp3) exp1 expVal1
            else AuxPolyComposeLoop rest level k q sum exp1 expVal1
          else AuxPolyComposeLoop rest level k q sum exp1 expVal1
        else AuxPolyComposeLoop rest level k q sum exp expVal
      else AuxPolyComposeLoop rest level k q sum exp expVal
end

/-- Function `PolyCompose` of `poly.c`. -/
def PolyCompose (p : Poly) (k : Nat) (q : List Poly) : Poly :=
  AuxPolyCompose p 0 k q

/-! ## Canonical form (spec §3) and representable values -/

/-- Invariant 3 of §3: the exponents of the array are in strictly increasing order. -/
def ExpsIncreasing (arr : List Mono) : Prop :=
  List.Pairwise (fun m n : Mono => MonoGetExp m < MonoGetExp n) arr

instance ExpsIncreasing.decidable (arr : List Mono) : Decidable (ExpsIncreasing arr) :=
  inferInstanceAs (Decidable (List.Pairwise _ arr))

/-- Invariant 4 of §3 names this array: a single monomial `(Scalar, 0)`. -/
def IsLoneConst : List Mono → Bool
  | [(Poly.coeff _, 0)] => true
  | _ => false

mutual
/-- Canonical form of §3, as a check: a constant is canonical; an array is
canonical when it is non-empty, every monomial has a canonical non-zero
coefficient and an exponent `≥ 0`, the exponents strictly increase, and it is not
a single monomial `(Scalar, 0)`. -/
def Poly.isCanonical : Poly → Bool
  | Poly.coeff _ => true
  | Poly.sum arr =>
      !arr.isEmpty && monosCanonical arr && decide (ExpsIncreasing arr) && !IsLoneConst arr
/-- Every monomial has a canonical coefficient that is not zero, and an exponent `≥ 0`. -/
def monosCanonical : List (Poly × Int) → Bool
  | [] => true
  | (p, e) :: tl => p.isCanonical && !PolyIsZero p && decide (0 ≤ e) && monosCanonical tl
end

/-- A `Poly` in the canonical form of §3. -/
def Canonical (p : Poly) : Prop := p.isCanonical = true

instance Canonical.decidable (p : Poly) : Decidable (Canonical p) :=
  inferInstanceAs (Decidable (p.isCanonical = true))

mutual
/-- The values the C types hold: every coefficient is a `long`, every exponent an `int`. -/
def Poly.inRange : Poly → Bool
  | Poly.coeff c => decide (-LONG_BOUND ≤ c ∧ c < LONG_BOUND)
  | Poly.sum arr => monosInRange arr
/-- Every monomial of the array holds a `Poly` and an `int`. -/
def monosInRange : List (Poly × Int) → Bool
  | [] => true
  | (p, e) :: tl => p.inRange && decide (-INT_BOUND ≤ e ∧ e < INT_BOUND) && monosInRange tl
end

/-- A `Poly` whose coefficients and exponents are values of `long` and `int`. -/
def InRange (p : Poly) : Prop := p.inRange = true

instance InRange.decidable (p : Poly) : Decidable (InRange p) :=
  inferInstanceAs (Decidable (p.inRange = true))

mutual
/-- Every exponent sum `p.e + q.e` that `PolyMul p q` forms, at every nesting
level, is a value of `int` (is left unchanged by `wrap32`). The recursion is the
one of `PolyMul`; a constant factor forms no exponent sum. -/
def MulExpFits : Poly → Poly → Bool
  | Poly.coeff _, Poly.coeff _ => true
  | Poly.coeff _, Poly.sum _ => true
  | Poly.sum _, Poly.coeff _ => true
  | Poly.sum ps, Poly.sum qs => MulMonosFits ps qs
termination_by p q => (p.size + q.size, 4)
decreasing_by
  all_goals simp only [Poly.size, monosSize, PolyIsCoeff, Prod.lex_def]
  all_goals first
    | omega
    | (simp; done)
    | (simp; omega)
/-- The condition `MulExpFits` over the rows of `MulMonos`. -/
def MulMonosFits : List (Poly × Int) → List (Poly × Int) → Bool
  | [], _ => true
  | (p, e) :: ps, qs => MulMonosRowFits p e qs && MulMonosFits ps qs
termination_by ps qs => (1 + monosSize ps + (1 + monosSize qs), 3)
decreasing_by
  all_goals simp only [Poly.size, monosSize, PolyIsCoeff, Prod.lex_def]
  all_goals first
    | omega
    | (simp; done)
    | (simp; omega)
/-- The condition `MulExpFits` over one row of `MulMonos`. -/
def MulMonosRowFits (p : Poly) (e : Int) : List (Poly × Int) → Bool
  | [] => true
  | (q, f) :: qs =>
      decide (-INT_BOUND ≤ e + f ∧ e + f < INT_BOUND) && MulExpFits p q && MulMonosRowFits p e qs
termination_by qs => (1 + (1 + p.size) + (1 + monosSize qs), 2)
decreasing_by
  all_goals simp only [Poly.size, monosSize, PolyIsCoeff, Prod.lex_def]
  all_goals first
    | omega
    | (simp; done)
    | (simp; omega)

end

/-! ## Denotation: formal polynomials over the integers modulo `2^64` -/

mutual
/-- The formal polynomial in `x_0, x_1, ...` over the integers modulo `2^64` that
a `Poly` denotes: `coeff c` denotes `c`; an array denotes the sum over its
monomials `(p, e)` of `x_0 ^ e` times the denotation of `p` with every variable
index raised by one. -/
noncomputable def den : Poly → MvPolynomial ℕ (ZMod (2 ^ 64))
  | Poly.coeff c => MvPolynomial.C (c : ZMod (2 ^ 64))
  | Poly.sum arr => denMonos arr
/-- The sum of the denotations of the monomials of an array. -/
noncomputable def denMonos : List (Poly × Int) → MvPolynomial ℕ (ZMod (2 ^ 64))
  | [] => 0
  | (p, e) :: tl =>
      MvPolynomial.X 0 ^ e.toNat * MvPolynomial.rename Nat.succ (den p) + denMonos tl
end

/-- The monomials of a canonical array: canonical non-zero coefficients,
exponents `≥ 0`, strictly increasing. -/
def MonosOK (arr : List Mono) : Prop :=
  (∀ m ∈ arr, Canonical m.1 ∧ PolyIsZero m.1 = false ∧ 0 ≤ m.2) ∧ ExpsIncreasing arr

instance MonoLe.isTotal : IsTotal Mono MonoLe :=
  ⟨fun a b => le_total (MonoGetExp a) (MonoGetExp b)⟩

instance MonoLe.isTrans : IsTrans Mono MonoLe :=
  ⟨fun _ _ _ h1 h2 => le_trans h1 h2⟩

/-- The denotation of one monomial `(p, e)`: `x_0 ^ e` times the denotation of `p`
with every variable index raised by one. -/
noncomputable def monoDen (m : Mono) : MvPolynomial ℕ (ZMod (2 ^ 64)) :=
  MvPolynomial.X 0 ^ m.2.toNat * MvPolynomial.rename Nat.succ (den m.1)

/-- A formal polynomial in `x_0, x_1, ...` read as a polynomial in `x_0` whose
coefficients are polynomials in the remaining variables, renumbered from `0`. -/
noncomputable def splitX0 :
    MvPolynomial ℕ (ZMod (2 ^ 64)) →ₐ[ZMod (2 ^ 64)] Polynomial (MvPolynomial ℕ (ZMod (2 ^ 64))) :=
  MvPolynomial.aeval (fun i : ℕ =>
    match i with
    | 0 => Polynomial.X
    | j + 1 => Polynomial.C (MvPolynomial.X j))

/-- Every monomial of the array holds a `Poly` of `long`s and `int`s and an `int`. -/
def MonosIR (arr : List Mono) : Prop :=
  ∀ m ∈ arr, InRange m.1 ∧ (-INT_BOUND ≤ m.2 ∧ m.2 < INT_BOUND)

/-- The one-term polynomial of a monomial `(c, e)`, in the words of the
specification: `Scalar(0)` if `c` is zero, `c` if `c` is a Scalar and `e = 0`, and
the array `[(c, e)]` otherwise. -/
def MonoAsPoly (m : Mono) : Poly :=
  if PolyIsZero m.1 then Poly.coeff 0
  else if PolyIsCoeff m.1 && decide (m.2 = 0) then m.1
  else Poly.sum [m]

/-- The algebraic sum of a list of monomials, in the words of the specification:
the left fold of `PolyAdd`, starting from `Scalar(0)`, over the one-term polynomials. -/
def SumOfMonos (ms : List Mono) : Poly :=
  (ms.map MonoAsPoly).foldl PolyAdd (Poly.coeff 0)

/-- Every exponent sum formed by the `PolyMul` calls of the loop of `PolyFastExp`
fits in `int`; the recursion is the one of `PolyFastExpLoop`. -/
def PolyFastExpLoopFits (acc result : Poly) (exp : Int) : Bool :=
  if h : exp ≠ 0 then
    let fits1 := if Int.tmod exp 2 ≠ 0 then MulExpFits acc result else true
    let acc1 := if Int.tmod exp 2 ≠ 0 then PolyMul acc result else acc
    let fits2 := if exp ≠ 1 then MulExpFits result result else true
    let result1 := if exp ≠ 1 then PolyMul result result else result
    fits1 && fits2 && PolyFastExpLoopFits acc1 result1 (Int.tdiv exp 2)
  else true
termination_by exp.natAbs
decreasing_by
  have h2 : (Int.tdiv exp 2).natAbs = exp.natAbs / 2 := Int.natAbs_tdiv exp 2
  omega

/-- Every exponent sum formed by the `PolyMul` calls of `PolyFastExp p exp` fits in `int`. -/
def PolyFastExpFits (p : Poly) (exp : Int) : Bool :=
  if exp = 0 then true
  else if exp = 1 then true
  else PolyFastExpLoopFits (PolyFromCoeff 1) (PolyClone p) exp

mutual
/-- Every exponent sum formed by the `PolyMul` calls of `AuxPolyCompose p level k q`
(those of `PolyFastExp`, of the running power and of the products with it, at every
nesting level) fits in `int`; the recursion is the one of `AuxPolyCompose`. -/
def AuxPolyComposeFits : Poly → Nat → Nat → List Poly → Bool
  | Poly.coeff _, _, _, _ => true
  | Poly.sum [], _, _, _ => true
  | Poly.sum ((p0, e0) :: tl), level, k, q =>
      if level + 1 > k || PolyIsZero (q.getD level PolyZero) then
        if e0 = 0 then AuxPolyComposeFits p0 (level + 1) k q else true
      else AuxPolyComposeLoopFits ((p0, e0) :: tl) level k q (PolyFromCoeff 1) 0
/-- The condition of `AuxPolyComposeFits` along the loop `AuxPolyComposeLoop`. -/
def AuxPolyComposeLoopFits : List (Poly × Int) → Nat → Nat → List Poly → Poly → Int → Bool
  | [], _, _, _, _, _ => true
  | (p, e) :: rest, level, k, q, exp, expVal =>
      AuxPolyComposeFits p (level + 1) k q &&
      (let tmp := AuxPolyCompose p (level + 1) k q
       if !PolyIsZero tmp then
         PolyFastExpFits (q.getD level PolyZero) (wrap32 (MonoGetExp (p, e) - expVal)) &&
         (let tmp2 := PolyFastExp (q.getD level PolyZero) (wrap32 (MonoGetExp (p, e) - expVal))
          if !PolyIsZero tmp2 then
            MulExpFits exp tmp2 &&
            (let exp1 := SmartPolyMul exp tmp2
             let expVal1 := MonoGetExp (p, e)
             if !PolyIsZero exp1 then
               MulExpFits tmp exp1 && AuxPolyComposeLoopFits rest level k q exp1 expVal1
             else AuxPolyComposeLoopFits rest level k q exp1 expVal1)
          else AuxPolyComposeLoopFits rest level k q exp expVal)
       else AuxPolyComposeLoopFits rest level k q exp expVal)
end

/-- Example input: `1 + x_0 * x_1^2147483647`, the array
`[(1, 0), ([(1, 2147483647)], 1)]`. -/
def exOverflowP : Poly :=
  Poly.sum [(Poly.coeff 1, 0), (Poly.sum [(Poly.coeff 1, 2147483647)], 1)]

/-- Example input: `x_1 + x_0`, the array `[([(1, 1)], 0), (1, 1)]`. -/
def exOverflowQ : Poly :=
  Poly.sum [(Poly.sum [(Poly.coeff 1, 1)], 0), (Poly.coeff 1, 1)]

/-- Example input: `1 + x_0`, the array `[(1, 0), (1, 1)]`. -/
def exOnePlusX : Poly := Poly.sum [(Poly.coeff 1, 0), (Poly.coeff 1, 1)]

/-- Example input: `x_0 * x_1^5`, the array `[([(1, 5)], 1)]`. -/
def exXY5 : Poly := Poly.sum [(Poly.sum [(Poly.coeff 1, 5)], 1)]

/-- Example input: `1 + x_0 * x_1^2147483647 + x_0^2 * x_1^2147483647`. -/
def exCommP : Poly :=
  Poly.sum [(Poly.coeff 1, 0), (Poly.sum [(Poly.coeff 1, 2147483647)], 1),
    (Poly.sum [(Poly.coeff 1, 2147483647)], 2)]

/-- Example input: `x_1^2 + x_0 * x_1 + x_0^2`. -/
def exCommQ : Poly :=
  Poly.sum [(Poly.sum [(Poly.coeff 1, 2)], 0), (Poly.sum [(Poly.coeff 1, 1)], 1),
    (Poly.coeff 1, 2)]

/-! ## PolyDegBy, PolyDeg -/

/-- The first `for` loop of `PolyDegBy` (the case `var_idx == 0`): the largest
exponent of the array, starting from `maxExp`. -/
def PolyDegByLoop0 : List (Poly × Int) → Int → Int
  | [], maxExp => maxExp
  | (p, e) :: tl, maxExp =>
      if MonoGetExp (p, e) > maxExp then PolyDegByLoop0 tl (MonoGetExp (p, e))
      else PolyDegByLoop0 tl maxExp

mutual
/-- Function `PolyDegBy` of `poly.c`; `var_idx` is a `size_t`. -/
def PolyDegBy : Poly → Nat → Int
  | Poly.coeff c, _ => if PolyIsZero (Poly.coeff c) then -1 else 0
  | Poly.sum arr, var_idx =>
      if var_idx = 0 then PolyDegByLoop0 arr (-1)
      else PolyDegByLoop arr (var_idx - 1) (-1)
/-- The second `for` loop of `PolyDegBy`: the largest result of `PolyDegBy` on the
coefficients, starting from `maxExp`. -/
def PolyDegByLoop : List (Poly × Int) → Nat → Int → Int
  | [], _, maxExp => maxExp
  | (p, _) :: tl, idx, maxExp =>
      let tmpResult := PolyDegBy p idx
      if tmpResult > maxExp then PolyDegByLoop tl idx tmpResult
      else PolyDegByLoop tl idx maxExp
end

mutual
/-- Function `PolyDeg` of `poly.c`; the sum `PolyDeg(p) + exp` is formed in `int`. -/
def PolyDeg : Poly → Int
  | Poly.coeff c => if PolyIsZero (Poly.coeff c) then -1 else 0
  | Poly.sum arr => PolyDegLoop arr (-1)
/-- The `for` loop of `PolyDeg`, starting from `maxExp`. -/
def PolyDegLoop : List (Poly × Int) → Int → Int
  | [], maxExp => maxExp
  | (p, e) :: tl, maxExp =>
      let tmpResult := wrap32 (PolyDeg p + MonoGetExp (p, e))
      if tmpResult > maxExp then PolyDegLoop tl tmpResult
      else PolyDegLoop tl maxExp
end

/-- The largest element of a list of natural numbers, `0` for the empty list. -/
def listMax (l : List ℕ) : ℕ := l.foldr max 0

/-- The monomial `x_0 ^ e` times a monomial in the variables renumbered from `1`. -/
noncomputable def shiftMono (e : ℕ) (m : ℕ →₀ ℕ) : ℕ →₀ ℕ :=
  Finsupp.single 0 e + Finsupp.mapDomain Nat.succ m

/-- Example input: the Poly of the literal `((1,2),3)+((1,0),1)`. -/
def exDegLiteral : Poly :=
  Poly.sum [(Poly.coeff 1, 1), (Poly.sum [(Poly.coeff 1, 2)], 3)]

/-- Example input: `x_0 * x_1^2147483647`, the array `[([(1, 2147483647)], 1)]`. -/
def exDegOverflow : Poly := Poly.sum [(Poly.sum [(Poly.coeff 1, 2147483647)], 1)]

/-- Example input: `x_0^2147483647 * x_1^2147483647`. -/
def exDegOverflow2 : Poly :=
  Poly.sum [(Poly.sum [(Poly.coeff 1, 2147483647)], 2147483647)]

mutual
/-- An upper bound of the total degree of a `Poly`, computed without wraparound:
`0` for a constant, the largest `exp + degBound p` over the monomials of an array. -/
def degBound : Poly → ℕ
  | Poly.coeff _ => 0
  | Poly.sum arr => degBoundMonos arr
/-- The largest `exp + degBound p` over the monomials of an array. -/
def degBoundMonos : List (Poly × Int) → ℕ
  | [] => 0
  | (p, e) :: tl => max (e.toNat + degBound p) (degBoundMonos tl)
end

/-! ## PolyAt -/

/-- The `while` loop of `FastExp` of `poly.c`: square-and-multiply on `long` values,
every product reduced by `wrap64`; `exp` is an `int`. -/
def FastExpLoop (accumulator base exp : Int) : Int :=
  if h : exp > 0 then
    let accumulator1 :=
      if Int.tmod exp 2 ≠ 0 then wrap64 (accumulator * base) else accumulator
    FastExpLoop accumulator1 (wrap64 (base * base)) (Int.tdiv exp 2)
  else accumulator
termination_by exp.natAbs
decreasing_by
  have h2 : (Int.tdiv exp 2).natAbs = exp.natAbs / 2 := Int.natAbs_tdiv exp 2
  omega

/-- Function `FastExp` of `poly.c`. -/
def FastExp (base exp : Int) : Int := FastExpLoop 1 base exp

/-- The `for` loop of `PolyAt` over the monomials not yet visited, with the running
`result`. -/
def PolyAtLoop (x : Int) : List (Poly × Int) → Poly → Poly
  | [], result => result
  | (p, e) :: rest, result =>
      let tmp1 := PolyFromCoeff (FastExp x e)
      let tmp1 := PolyMul p tmp1
      let tmp2 := PolyAdd result tmp1
      PolyAtLoop x rest tmp2

/-- Function `PolyAt` of `poly.c`. (The C code reads `arr[0]` when `x` is `0`; an empty
array, which no `Poly` holds, is given the branch of a non-zero first exponent.) -/
def PolyAt : Poly → Int → Poly
  | Poly.coeff c, _ => PolyClone (Poly.coeff c)
  | Poly.sum [], x => if x = 0 then PolyZero else PolyAtLoop x [] PolyZero
  | Poly.sum ((p0, e0) :: tl), x =>
      if x = 0 then
        if MonoGetExp (p0, e0) = 0 then PolyClone p0 else PolyZero
      else PolyAtLoop x ((p0, e0) :: tl) PolyZero

/-- A polynomial in the variables `x_0, x_1, ...` read as the same polynomial in
`x_1, x_2, ...`: a constant stays, an array becomes the coefficient of an exponent-0
term. -/
def LiftPoly : Poly → Poly
  | Poly.coeff c => Poly.coeff c
  | Poly.sum arr => Poly.sum [(Poly.sum arr, 0)]

/-- The canonical `Poly` of the single variable `x_i`: `Sum[(Scalar 1, 1)]` wrapped
`i` times as the coefficient of an exponent-0 term. -/
def VarPoly : Nat → Poly
  | 0 => Poly.sum [(Poly.coeff 1, 1)]
  | i + 1 => LiftPoly (VarPoly i)

/-- The list `[X_0, ..., X_(d-1)]` of the first `d` variables. -/
def VarList : Nat → List Poly
  | 0 => []
  | d + 1 => VarPoly 0 :: (VarList d).map LiftPoly

mutual
/-- The nesting depth of a `Poly`: `0` for a constant, one more than the deepest
coefficient for an array. A canonical `Poly` of depth `n` is a polynomial in
`x_0, ..., x_(n-1)`. -/
def PolyDepth : Poly → Nat
  | Poly.coeff _ => 0
  | Poly.sum arr => 1 + monosDepth arr
/-- The largest depth of a coefficient of an array. -/
def monosDepth : List (Poly × Int) → Nat
  | [] => 0
  | (p, _) :: tl => max (PolyDepth p) (monosDepth tl)
end

/-- The scalar at the end of the chain of exponent-0 first terms of a `Poly`, `0` when
the chain breaks at a first term of non-zero exponent. -/
def ConstChain : Poly → Int
  | Poly.coeff c => c
  | Poly.sum [] => 0
  | Poly.sum ((p0, e0) :: _) => if e0 = 0 then ConstChain p0 else 0

/-- The power `x_0 ^ n` as a `Poly`: the constant `1` for `n = 0`, the array `[(1, n)]`
otherwise. -/
def VarPow (n : Int) : Poly :=
  if n = 0 then Poly.coeff 1 else Poly.sum [(Poly.coeff 1, n)]

/-! ## The polynomial stack (`polystack.c`) -/

/-- One more than `SIZE_MAX`, for a 64-bit `size_t`. -/
def SIZE_BOUND : Nat := 18446744073709551616

/-- Constant `SIZE_MAX` of `stdint.h`, for a 64-bit `size_t`. -/
def SIZE_MAX : Nat := 18446744073709551615

/-- Constant `DEFAULT_SIZE` of `polystack.c`. -/
def DEFAULT_SIZE : Nat := 4

/-- Constant `MAX_SIZE` of `polystack.c`. -/
def MAX_SIZE : Nat := SIZE_MAX

/-- The value of `sizeof(Poly)`: a union of a `long` and a `size_t`, and a pointer. -/
def SIZEOF_POLY : Nat := 16

/-- The ways a call ends without returning: `exit(1)`, a failed `assert`, or an access
outside the allocated array; `outOfFuel` is the end of a recursion of this embedding that
was given too few steps. -/
inductive Fault
  | exit
  | assertFail
  | outOfBounds
  | outOfFuel
  deriving DecidableEq

/-- Type `stack_t` of `polystack.h`. The array behind the pointer `polys` is the list of
its allocated slots; a slot that C leaves indeterminate holds `PolyZero`. -/
structure stack_t where
  /-- The slots of the allocated array. -/
  polys : List Poly
  /-- The number of polynomials on the stack. -/
  size : Nat
  /-- The number of polynomials the array is meant to hold. -/
  maxSize : Nat

/-- The state of a stack the library is used on: the array has `maxSize` slots, `size`
is at most `maxSize`, and the byte size of the array is a value of `size_t`. -/
def stack_t.valid (s : stack_t) : Prop :=
  s.polys.length = s.maxSize ∧ s.size ≤ s.maxSize ∧ s.maxSize * SIZEOF_POLY < SIZE_BOUND

instance stack_t.valid.decidable (s : stack_t) : Decidable s.valid := by
  unfold stack_t.valid
  infer_instance

/-- The polynomials on the stack, bottom first: the slots below `size`. -/
def StackPolys (s : stack_t) : List Poly := s.polys.take s.size

/-- Function `CreateStack` of `polystack.c`. -/
def CreateStack : stack_t := { polys := [], size := 0, maxSize := 0 }

/-- Function `StackSize` of `polystack.c`. -/
def StackSize (stack : stack_t) : Nat := stack.size

/-- Function `StackIsEmpty` of `polystack.c`. -/
def StackIsEmpty (stack : stack_t) : Bool := stack.size == 0

/-- Function `MinSize_t` of `polystack.c`. -/
def MinSize_t (num1 num2 : Nat) : Nat := if num1 < num2 then num1 else num2

/-- The array `malloc` returns for `bytes` bytes: as many slots as fit. -/
def mallocPolys (bytes : Nat) : List Poly := List.replicate (bytes / SIZEOF_POLY) PolyZero

/-- The array `realloc` returns for `bytes` bytes: the old slots that fit, then new ones. -/
def reallocPolys (old : List Poly) (bytes : Nat) : List Poly :=
  old.take (bytes / SIZEOF_POLY) ++
    List.replicate (bytes / SIZEOF_POLY - old.length) PolyZero

/-- Function `ResizeStack` of `polystack.c`. The oracle `mem n` tells whether `malloc`
or `realloc` of `n` bytes returns a pointer; `CHECK_PTR` exits on `NULL`. The byte
count is a `size_t` product. -/
def ResizeStack (mem : Nat → Bool) (stack : stack_t) (newSize : Nat) : Except Fault stack_t :=
  if newSize = stack.maxSize then Except.ok stack
  else if newSize = 0 then
    Except.ok { polys := [], size := MinSize_t stack.size newSize, maxSize := newSize }
  else
    let bytes := (newSize * SIZEOF_POLY) % SIZE_BOUND
    if mem bytes then
      let newPolyArr :=
        if stack.maxSize = 0 then mallocPolys bytes else reallocPolys stack.polys bytes
      Except.ok { polys := newPolyArr, size := MinSize_t stack.size newSize, maxSize := newSize }
    else Except.error Fault.exit

/-- Function `ChooseNewSize` of `polystack.c`. -/
def ChooseNewSize (currentSize : Nat) : Nat :=
  if currentSize < MAX_SIZE / 2 then (2 * currentSize) % SIZE_BOUND else MAX_SIZE

/-- The store `stack->polys[StackSize(stack)] = p; stack->size++` of `PushPoly`. -/
def PushPolyStore (stack : stack_t) (p : Poly) : Except Fault stack_t :=
  if StackSize stack < stack.polys.length then
    Except.ok { polys := stack.polys.set (StackSize stack) p,
                size := (stack.size + 1) % SIZE_BOUND, maxSize := stack.maxSize }
  else Except.error Fault.outOfBounds

/-- Function `PushPoly` of `polystack.c`. -/
def PushPoly (mem : Nat → Bool) (stack : stack_t) (p : Poly) : Except Fault stack_t :=
  if stack.size ≥ stack.maxSize then
    if stack.maxSize = MAX_SIZE then Except.error Fault.exit
    else if stack.maxSize = 0 then
      match ResizeStack mem stack DEFAULT_SIZE with
      | Except.ok stack1 => PushPolyStore stack1 p
      | Except.error f => Except.error f
    else
      match ResizeStack mem stack (ChooseNewSize stack.maxSize) with
      | Except.ok stack1 => PushPolyStore stack1 p
      | Except.error f => Except.error f
  else PushPolyStore stack p

/-- Function `ShowTop` of `polystack.c`. -/
def ShowTop (stack : stack_t) : Except Fault Poly :=
  if StackIsEmpty stack then Except.error Fault.assertFail
  else
    match stack.polys.get? (stack.size - 1) with
    | some p => Except.ok p
    | none => Except.error Fault.outOfBounds

/-- Function `TakePoly` of `polystack.c`: the polynomial returned and the stack left. -/
def TakePoly (stack : stack_t) : Except Fault (Poly × stack_t) :=
  if StackIsEmpty stack then Except.error Fault.assertFail
  else
    match stack.polys.get? (stack.size - 1) with
    | some p => Except.ok (p, { polys := stack.polys, size := stack.size - 1,
                                maxSize := stack.maxSize })
    | none => Except.error Fault.outOfBounds

/-- Function `AdjustStack` of `polystack.c`. -/
def AdjustStack (mem : Nat → Bool) (stack : stack_t) : Except Fault stack_t :=
  if stack.size < stack.maxSize / DEFAULT_SIZE + 1 then
    ResizeStack mem stack ((stack.size * DEFAULT_SIZE) % SIZE_BOUND)
  else Except.ok stack

/-- A stack of capacity `20` holding four polynomials. -/
def exStack20 : stack_t :=
  { polys := [Poly.coeff 1, Poly.coeff 2, Poly.coeff 3, Poly.coeff 4] ++
      List.replicate 16 PolyZero,
    size := 4, maxSize := 20 }

/-! ## The commands of the calculator (`calc.c`) -/

/-- Type `InputErr` of `calc.c`. -/
inductive InputErr
  | InvalidCommandName
  | NoParam
  | NoDegByParam
  | NoAtParam
  | NoComposeParam
  | StackUnderflow
  | ParsingErr
  | NoError
  deriving DecidableEq

/-- What a command function leaves: the value it returns, the stack, and the text it
wrote to the standard output. -/
abbrev Outcome := Except Fault (InputErr × stack_t × String)

/-- Function `ExecuteZero` of `calc.c`. -/
def ExecuteZero (mem : Nat → Bool) (stack : stack_t) : Outcome :=
  match PushPoly mem stack PolyZero with
  | Except.ok stack1 => Except.ok (InputErr.NoError, stack1, "")
  | Except.error f => Except.error f

/-- Function `ExecuteIsCoeff` of `calc.c`. -/
def ExecuteIsCoeff (stack : stack_t) : Outcome :=
  if StackIsEmpty stack then Except.ok (InputErr.StackUnderflow, stack, "")
  else
    match ShowTop stack with
    | Except.ok topPoly =>
        if PolyIsCoeff topPoly then Except.ok (InputErr.NoError, stack, "1\n")
        else Except.ok (InputErr.NoError, stack, "0\n")
    | Except.error f => Except.error f

/-- Function `ExecuteIsZero` of `calc.c`. -/
def ExecuteIsZero (stack : stack_t) : Outcome :=
  if StackIsEmpty stack then Except.ok (InputErr.StackUnderflow, stack, "")
  else
    match ShowTop stack with
    | Except.ok topPoly =>
        if PolyIsZero topPoly then Except.ok (InputErr.NoError, stack, "1\n")
        else Except.ok (InputErr.NoError, stack, "0\n")
    | Except.error f => Except.error f

/-- Function `ExecuteClone` of `calc.c`. -/
def ExecuteClone (mem : Nat → Bool) (stack : stack_t) : Outcome :=
  if StackIsEmpty stack then Except.ok (InputErr.StackUnderflow, stack, "")
  else
    match ShowTop stack with
    | Except.ok topPoly =>
        match PushPoly mem stack (PolyClone topPoly) with
        | Except.ok stack1 => Except.ok (InputErr.NoError, stack1, "")
        | Except.error f => Except.error f
    | Except.error f => Except.error f

/-- The body shared by `ExecuteAdd`, `ExecuteMul` and `ExecuteSub` of `calc.c`: two
polynomials are taken, `p1` first, and `op p1 p2` is pushed. -/
def ExecuteBinary (op : Poly → Poly → Poly) (mem : Nat → Bool) (stack : stack_t) : Outcome :=
  if StackSize stack < 2 then Except.ok (InputErr.StackUnderflow, stack, "")
  else
    match TakePoly stack with
    | Except.ok (p1, stack1) =>
        match TakePoly stack1 with
        | Except.ok (p2, stack2) =>
            match PushPoly mem stack2 (op p1 p2) with
            | Except.ok stack3 => Except.ok (InputErr.NoError, stack3, "")
            | Except.error f => Except.error f
        | Except.error f => Except.error f
    | Except.error f => Except.error f

/-- Function `ExecuteAdd` of `calc.c`. -/
def ExecuteAdd (mem : Nat → Bool) (stack : stack_t) : Outcome := ExecuteBinary PolyAdd mem stack

/-- Function `ExecuteMul` of `calc.c`. -/
def ExecuteMul (mem : Nat → Bool) (stack : stack_t) : Outcome := ExecuteBinary PolyMul mem stack

/-- Function `ExecuteNeg` of `calc.c`. -/
def ExecuteNeg (mem : Nat → Bool) (stack : stack_t) : Outcome :=
  if StackIsEmpty stack then Except.ok (InputErr.StackUnderflow, stack, "")
  else
    match TakePoly stack with
    | Except.ok (p, stack1) =>
        match PushPoly mem stack1 (PolyNeg p) with
        | Except.ok stack2 => Except.ok (InputErr.NoError, stack2, "")
        | Except.error f => Except.error f
    | Except.error f => Except.error f

/-- Function `ExecuteSub` of `calc.c`. -/
def ExecuteSub (mem : Nat → Bool) (stack : stack_t) : Outcome := ExecuteBinary PolySub mem stack

/-- Function `ExecuteIsEq` of `calc.c`. -/
def ExecuteIsEq (mem : Nat → Bool) (stack : stack_t) : Outcome :=
  if StackSize stack < 2 then Except.ok (InputErr.StackUnderflow, stack, "")
  else
    match TakePoly stack with
    | Except.ok (p1, stack1) =>
        match ShowTop stack1 with
        | Except.ok p2 =>
            match PushPoly mem stack1 p1 with
            | Except.ok stack2 =>
                if PolyIsEq p1 p2 then Except.ok (InputErr.NoError, stack2, "1\n")
                else Except.ok (InputErr.NoError, stack2, "0\n")
            | Except.error f => Except.error f
        | Except.error f => Except.error f
    | Except.error f => Except.error f

/-- Function `ExecuteDeg` of `calc.c`. -/
def ExecuteDeg (stack : stack_t) : Outcome :=
  if StackIsEmpty stack then Except.ok (InputErr.StackUnderflow, stack, "")
  else
    match ShowTop stack with
    | Except.ok p => Except.ok (InputErr.NoError, stack, toString (PolyDeg p) ++ "\n")
    | Except.error f => Except.error f

/-- Function `ExecuteDegBy` of `calc.c`. -/
def ExecuteDegBy (stack : stack_t) (idx : Nat) : Outcome :=
  if StackIsEmpty stack then Except.ok (InputErr.StackUnderflow, stack, "")
  else
    match ShowTop stack with
    | Except.ok p => Except.ok (InputErr.NoError, stack, toString (PolyDegBy p idx) ++ "\n")
    | Except.error f => Except.error f

/-- Function `ExecuteAt` of `calc.c`. -/
def ExecuteAt (mem : Nat → Bool) (stack : stack_t) (x : Int) : Outcome :=
  if StackIsEmpty stack then Except.ok (InputErr.StackUnderflow, stack, "")
  else
    match TakePoly stack with
    | Except.ok (p, stack1) =>
        match PushPoly mem stack1 (PolyAt p x) with
        | Except.ok stack2 => Except.ok (InputErr.NoError, stack2, "")
        | Except.error f => Except.error f
    | Except.error f => Except.error f

mutual
/-- Function `AuxPrintPoly` of `calc.c`: the text written for a polynomial. -/
def AuxPrintPoly : Poly → String
  | Poly.coeff c => toString c
  | Poly.sum arr => AuxPrintMonos arr
/-- The `for` loop of `AuxPrintPoly` over the monomials not yet written. -/
def AuxPrintMonos : List (Poly × Int) → String
  | [] => ""
  | (p, e) :: tl =>
      "(" ++ AuxPrintPoly p ++ "," ++ toString (MonoGetExp (p, e)) ++ ")" ++
        (if tl.isEmpty then "" else "+") ++ AuxPrintMonos tl
end

/-- Function `PrintPoly` of `calc.c`: the text written. -/
def PrintPoly (p : Poly) : String := AuxPrintPoly p ++ "\n"

/-- Function `ExecutePrint` of `calc.c`. -/
def ExecutePrint (stack : stack_t) : Outcome :=
  if StackIsEmpty stack then Except.ok (InputErr.StackUnderflow, stack, "")
  else
    match ShowTop stack with
    | Except.ok p => Except.ok (InputErr.NoError, stack, PrintPoly p)
    | Except.error f => Except.error f

/-- Function `ExecutePop` of `calc.c`. -/
def ExecutePop (stack : stack_t) : Outcome :=
  if StackIsEmpty stack then Except.ok (InputErr.StackUnderflow, stack, "")
  else
    match TakePoly stack with
    | Except.ok (_, stack1) => Except.ok (InputErr.NoError, stack1, "")
    | Except.error f => Except.error f

/-- The `for` loop of `ExecuteCompose` with `n` rounds left, `i = polysNum - n`: the
polynomial taken from the stack is stored in `polys[polysNum - 1 - i]`. -/
def ExecuteComposeLoop (polysNum : Nat) :
    Nat → stack_t → List Poly → Except Fault (stack_t × List Poly)
  | 0, stack, polys => Except.ok (stack, polys)
  | n + 1, stack, polys =>
      match TakePoly stack with
      | Except.ok (p, stack1) =>
          if polysNum - 1 - (polysNum - (n + 1)) < polys.length then
            ExecuteComposeLoop polysNum n stack1
              (polys.set (polysNum - 1 - (polysNum - (n + 1))) p)
          else Except.error Fault.outOfBounds
      | Except.error f => Except.error f

/-- Function `ExecuteCompose` of `calc.c`. -/
def ExecuteCompose (mem : Nat → Bool) (stack : stack_t) (polysNum : Nat) : Outcome :=
  if StackIsEmpty stack || decide (StackSize stack - 1 < polysNum) then
    Except.ok (InputErr.StackUnderflow, stack, "")
  else
    match TakePoly stack with
    | Except.ok (p, stack1) =>
        if polysNum > 0 then
          if mem ((polysNum * SIZEOF_POLY) % SIZE_BOUND) then
            match ExecuteComposeLoop polysNum polysNum stack1
                (mallocPolys ((polysNum * SIZEOF_POLY) % SIZE_BOUND)) with
            | Except.ok (stack2, polys) =>
                match PushPoly mem stack2 (PolyCompose p polysNum polys) with
                | Except.ok stack3 => Except.ok (InputErr.NoError, stack3, "")
                | Except.error f => Except.error f
            | Except.error f => Except.error f
          else Except.error Fault.exit
        else
          match PushPoly mem stack1 (PolyCompose p 0 []) with
          | Except.ok stack3 => Except.ok (InputErr.NoError, stack3, "")
          | Except.error f => Except.error f
    | Except.error f => Except.error f

/-- A stack of capacity `4` holding, bottom to top, `5`, `1 + x_0` and `x_1 + x_0`. -/
def exStackCompose : stack_t :=
  { polys := [Poly.coeff 5, exOnePlusX, exOverflowQ, PolyZero], size := 3, maxSize := 4 }

/-- The value a command function returned, when it returned. -/
def returned (r : Outcome) : Option InputErr :=
  match r with
  | Except.ok (e, _, _) => some e
  | Except.error _ => none

/-- The underflow behaviour of a command that needs `n` polynomials, for its outcome `r`
on the stack `s`: it returns `StackUnderflow` exactly when the stack holds fewer than
`n`, and it then leaves the stack as it was and writes nothing. -/
def UnderflowSpec (r : Outcome) (s : stack_t) (n : Nat) : Prop :=
  (returned r = some InputErr.StackUnderflow ↔ s.size < n) ∧
    (s.size < n → r = Except.ok (InputErr.StackUnderflow, s, ""))

/-! ## Strings and numbers (`newstring.c`, the C library) -/

/-- Type `string_t` of `newstring.h`: `chars` are the slots of the allocated array, a
slot that C leaves indeterminate holds the character `0`. -/
structure string_t where
  /-- The slots of the allocated array. -/
  chars : List Char
  /-- The number of characters of the line. -/
  length : Nat
  /-- The number of characters the array is meant to hold. -/
  size : Nat

/-- Type `LineType` of `newstring.h`. -/
inductive LineType
  | EndOfFile
  | EndOfLine
  deriving DecidableEq

/-- The text a `char *` points to: the characters from the pointer to the end of the
allocated array. Reading past the last one is outside the array. -/
abbrev CStr := List Char

/-- The null character that ends a C string. -/
def NUL : Char := Char.ofNat 0

/-- Function `CreateString` of `newstring.c`. -/
def CreateString : string_t := { chars := [], length := 0, size := 0 }

/-- Function `StringLength` of `newstring.c`. -/
def StringLength (string : string_t) : Nat := string.length

/-- Function `ResizeString` of `newstring.c`, with the oracle `mem` of `ResizeStack`;
`sizeof(char)` is `1`. -/
def ResizeString (mem : Nat → Bool) (string : string_t) (newSize : Nat) :
    Except Fault string_t :=
  if newSize = string.size then Except.ok string
  else if newSize = 0 then
    Except.ok { chars := [], length := MinSize_t string.length newSize, size := newSize }
  else if mem (newSize % SIZE_BOUND) then
    let newChars :=
      if string.size = 0 then List.replicate (newSize % SIZE_BOUND) NUL
      else string.chars.take (newSize % SIZE_BOUND) ++
        List.replicate (newSize % SIZE_BOUND - string.chars.length) NUL
    Except.ok { chars := newChars, length := MinSize_t string.length newSize, size := newSize }
  else Except.error Fault.exit

/-- Function `AppendChar` of `newstring.c`; `DEFAULT_SIZE` of that file is `32`. -/
def AppendChar (mem : Nat → Bool) (string : string_t) (c : Char) : Except Fault string_t :=
  let resized :=
    if string.length ≥ string.size then
      if string.size = MAX_SIZE then Except.error Fault.exit
      else if string.size = 0 then ResizeString mem string 32
      else ResizeString mem string (ChooseNewSize string.size)
    else Except.ok string
  match resized with
  | Except.ok string1 =>
      if string1.length < string1.chars.length then
        Except.ok { chars := string1.chars.set string1.length c,
                    length := (string1.length + 1) % SIZE_BOUND, size := string1.size }
      else Except.error Fault.outOfBounds
  | Except.error f => Except.error f

/-- Function `ScanString` of `newstring.c` on the characters `input` not yet read from
the standard input: the line type, the string, and the input left. The end of the input
is `EOF`; the character `255` is `EOF` too, since `getchar` is stored in a `char`. -/
def ScanString (mem : Nat → Bool) : List Char → string_t →
    Except Fault (LineType × string_t × List Char)
  | [], string => Except.ok (LineType.EndOfFile, string, [])
  | newChar :: input, string =>
      if newChar = Char.ofNat 10 then Except.ok (LineType.EndOfLine, string, input)
      else if newChar = Char.ofNat 255 then Except.ok (LineType.EndOfFile, string, input)
      else
        match AppendChar mem string newChar with
        | Except.ok string1 => ScanString mem input string1
        | Except.error f => Except.error f

/-- Function `CharAt` of `newstring.c`. -/
def CharAt (string : string_t) (index : Nat) : Except Fault Char :=
  if index < string.length then
    match string.chars.get? index with
    | some c => Except.ok c
    | none => Except.error Fault.outOfBounds
  else Except.error Fault.assertFail

/-- The comparison loop of `CompareTo`: `cs` are the characters of the string from
`index` on, `text` is the rest of the command name. -/
def CompareToLoop : List Char → List Char → Bool
  | c :: cs, t :: text => if c ≠ t then false else CompareToLoop cs text
  | [], [] => true
  | _, _ => false

/-- Function `CompareTo` of `newstring.c`. -/
def CompareTo (string : string_t) (text : String) : Bool :=
  CompareToLoop (string.chars.take string.length) text.toList

/-- Function `GetCharArrayAt` of `newstring.c`: the string, in which the null character
is written behind the line when the array has room for it, and the pointer returned. -/
def GetCharArrayAt (string : string_t) (index : Nat) : Except Fault (string_t × CStr) :=
  if index < string.length then
    let string1 : string_t :=
      if string.length < string.size then
        { chars := string.chars.set string.length NUL, length := string.length,
          size := string.size }
      else string
    Except.ok (string1, string1.chars.drop index)
  else Except.error Fault.assertFail

/-- Function `ResetString` of `newstring.c`. -/
def ResetString (string : string_t) : string_t :=
  { chars := string.chars, length := 0, size := string.size }

/-- Function `isspace` of the C library, in the C locale. -/
def isspace (c : Char) : Bool :=
  c = ' ' || c = Char.ofNat 9 || c = Char.ofNat 10 || c = Char.ofNat 11 ||
    c = Char.ofNat 12 || c = Char.ofNat 13

/-- The white space `strtol` skips. -/
def skipSpaces : CStr → Except Fault CStr
  | [] => Except.error Fault.outOfBounds
  | c :: rest => if isspace c then skipSpaces rest else Except.ok (c :: rest)

/-- The decimal digits `strtol` reads, with the number read so far. -/
def scanDigits : CStr → Nat → Except Fault (Nat × CStr)
  | [], _ => Except.error Fault.outOfBounds
  | c :: rest, acc =>
      if c.isDigit then scanDigits rest (10 * acc + (c.toNat - 48))
      else Except.ok (acc, c :: rest)

/-- The optional sign `strtol` reads: whether it is a minus, and the text behind it. -/
def scanSign : CStr → Bool × CStr
  | '-' :: rest => (true, rest)
  | '+' :: rest => (false, rest)
  | cs => (false, cs)

/-- Function `strtol` of the C library in base `10`, on a 64-bit `long`: the value, the
end pointer, and `errno`, which is `true` for `ERANGE` and is only ever set. -/
def strtol (nptr : CStr) (errno : Bool) : Except Fault (Int × CStr × Bool) :=
  match skipSpaces nptr with
  | Except.error f => Except.error f
  | Except.ok s1 =>
      match (scanSign s1).2 with
      | [] => Except.error Fault.outOfBounds
      | c :: s2 =>
          if c.isDigit then
            match scanDigits (c :: s2) 0 with
            | Except.error f => Except.error f
            | Except.ok (n, endptr) =>
                let val : Int := if (scanSign s1).1 then -(n : Int) else (n : Int)
                if val ≥ LONG_BOUND then Except.ok (LONG_BOUND - 1, endptr, true)
                else if val < -LONG_BOUND then Except.ok (-LONG_BOUND, endptr, true)
                else Except.ok (val, endptr, errno)
          else Except.ok (0, nptr, errno)

/-- Function `strtoul` of the C library in base `10`, on a 64-bit `unsigned long`. -/
def strtoul (nptr : CStr) (errno : Bool) : Except Fault (Nat × CStr × Bool) :=
  match skipSpaces nptr with
  | Except.error f => Except.error f
  | Except.ok s1 =>
      match (scanSign s1).2 with
      | [] => Except.error Fault.outOfBounds
      | c :: s2 =>
          if c.isDigit then
            match scanDigits (c :: s2) 0 with
            | Except.error f => Except.error f
            | Except.ok (n, endptr) =>
                if n ≥ SIZE_BOUND then Except.ok (SIZE_MAX, endptr, true)
                else if (scanSign s1).1 then Except.ok ((SIZE_BOUND - n) % SIZE_BOUND, endptr, errno)
                else Except.ok (n, endptr, errno)
          else Except.ok (0, nptr, errno)

/-! ## Lines of the calculator (`calc.c`) -/

/-- Type `CommandType` of `calc.c`. -/
inductive CommandType
  | ZERO
  | IS_COEFF
  | IS_ZERO
  | CLONE
  | ADD
  | MUL
  | NEG
  | SUB
  | IS_EQ
  | DEG
  | PRINT
  | POP
  | DEG_BY
  | AT
  | COMPOSE
  | INVALID_COMMAND
  deriving DecidableEq

/-- Table `NonParamCommands` of `calc.c`. -/
def NonParamCommands : List (CommandType × String) :=
  [(CommandType.ZERO, "ZERO"), (CommandType.IS_COEFF, "IS_COEFF"),
   (CommandType.IS_ZERO, "IS_ZERO"), (CommandType.CLONE, "CLONE"),
   (CommandType.ADD, "ADD"), (CommandType.MUL, "MUL"), (CommandType.NEG, "NEG"),
   (CommandType.SUB, "SUB"), (CommandType.IS_EQ, "IS_EQ"), (CommandType.DEG, "DEG"),
   (CommandType.PRINT, "PRINT"), (CommandType.POP, "POP")]

/-- Table `ParamCommands` of `calc.c`: type, name and `nameLength`. -/
def ParamCommands : List (CommandType × String × Nat) :=
  [(CommandType.DEG_BY, "DEG_BY", 6), (CommandType.AT, "AT", 2),
   (CommandType.COMPOSE, "COMPOSE", 7)]

/-- The comparison loop of `IsParamCommand` from the index `i` on, over the rest `name`
of the command name. -/
def IsParamCommandLoop (line : string_t) : List Char → Nat → Except Fault Bool
  | [], _ => Except.ok true
  | n :: name, i =>
      match CharAt line i with
      | Except.ok c => if c ≠ n then Except.ok false else IsParamCommandLoop line name (i + 1)
      | Except.error f => Except.error f

/-- Function `IsParamCommand` of `calc.c`, for an entry of `ParamCommands`. -/
def IsParamCommand (line : string_t) (command : CommandType × String × Nat) :
    Except Fault Bool :=
  if StringLength line < command.2.2 then Except.ok false
  else
    match IsParamCommandLoop line (command.2.1.toList.take command.2.2) 0 with
    | Except.ok true =>
        if StringLength line = command.2.2 + 1 then
          match CharAt line command.2.2 with
          | Except.ok c => if c.isAlpha then Except.ok false else Except.ok true
          | Except.error f => Except.error f
        else Except.ok true
    | Except.ok false => Except.ok false
    | Except.error f => Except.error f

/-- The `for` loop of `DefineParamCommand` over the entries not yet compared. -/
def DefineParamCommandLoop (line : string_t) :
    List (CommandType × String × Nat) → Except Fault CommandType
  | [] => Except.ok CommandType.INVALID_COMMAND
  | command :: rest =>
      match IsParamCommand line command with
      | Except.ok true => Except.ok command.1
      | Except.ok false => DefineParamCommandLoop line rest
      | Except.error f => Except.error f

/-- Function `DefineParamCommand` of `calc.c`. -/
def DefineParamCommand (line : string_t) : Except Fault CommandType :=
  DefineParamCommandLoop line ParamCommands

/-- The `for` loop of `DefineCommand` over the entries not yet compared. -/
def DefineCommandLoop (line : string_t) : List (CommandType × String) → Except Fault CommandType
  | [] => DefineParamCommand line
  | command :: rest =>
      if CompareTo line command.2 then Except.ok command.1 else DefineCommandLoop line rest

/-- Function `DefineCommand` of `calc.c`. -/
def DefineCommand (line : string_t) : Except Fault CommandType :=
  DefineCommandLoop line NonParamCommands

/-- Table `INVALID_WHITESPACE_CHARS` of `calc.c`: tab, line feed, vertical tab, form
feed, carriage return. -/
def INVALID_WHITESPACE_CHARS : List Char :=
  [Char.ofNat 9, Char.ofNat 10, Char.ofNat 11, Char.ofNat 12, Char.ofNat 13]

/-- The `nameLength` of the entry of `ParamCommands` for a command type, as the first
loop of `InitialParamCommCheck` finds it. -/
def paramCommandLen (commType : CommandType) : Nat :=
  match ParamCommands.find? (fun command => command.1 = commType) with
  | some command => command.2.2
  | none => 0

/-- Function `InitialParamCommCheck` of `calc.c`: the value returned, the string, and
the pointer `*arrayPtr` to the argument. -/
def InitialParamCommCheck (line : string_t) (commType : CommandType) :
    Except Fault (InputErr × string_t × CStr) :=
  let commandLen := paramCommandLen commType
  if StringLength line = commandLen then Except.ok (InputErr.NoParam, line, [])
  else
    match CharAt line commandLen with
    | Except.error f => Except.error f
    | Except.ok c =>
        if INVALID_WHITESPACE_CHARS.contains c then Except.ok (InputErr.NoParam, line, [])
        else if c ≠ ' ' then Except.ok (InputErr.InvalidCommandName, line, [])
        else if StringLength line = commandLen + 1 then Except.ok (InputErr.NoParam, line, [])
        else
          match GetCharArrayAt line (commandLen + 1) with
          | Except.ok (line1, arg) => Except.ok (InputErr.NoError, line1, arg)
          | Except.error f => Except.error f

/-- What the execution of a line leaves: the value returned, the stack, the text written
to the standard output, `errno`, and the string of the line. -/
structure LineResult where
  /-- The value returned. -/
  err : InputErr
  /-- The stack after the call. -/
  stack : stack_t
  /-- The text written to the standard output. -/
  out : String
  /-- Whether `errno` is `ERANGE` after the call. -/
  errno : Bool
  /-- The string of the line after the call. -/
  line : string_t

/-- A command function of the first part of `calc.c` called from the functions of this
part: its outcome with `errno` and the string of the line. -/
def withLine (r : Outcome) (errno : Bool) (line : string_t) : Except Fault LineResult :=
  match r with
  | Except.ok (e, stack, out) =>
      Except.ok { err := e, stack := stack, out := out, errno := errno, line := line }
  | Except.error f => Except.error f

/-- The part `RunDegBy` and `RunCompose` of `calc.c` share: the check of the command,
the conversion of the argument by `strtoul`, and the call of `execute` with the number;
`paramErr` is `NoDegByParam` or `NoComposeParam`. -/
def RunSizeParam (commType : CommandType) (paramErr : InputErr)
    (execute : stack_t → Nat → Outcome) (errno : Bool) (stack : stack_t) (line : string_t) :
    Except Fault LineResult :=
  match InitialParamCommCheck line commType with
  | Except.error f => Except.error f
  | Except.ok (InputErr.NoParam, line1, _) =>
      Except.ok { err := paramErr, stack := stack, out := "", errno := errno, line := line1 }
  | Except.ok (InputErr.InvalidCommandName, line1, _) =>
      Except.ok { err := InputErr.InvalidCommandName, stack := stack, out := "",
                  errno := errno, line := line1 }
  | Except.ok (InputErr.NoError, line1, arg) =>
      match arg with
      | [] => Except.error Fault.outOfBounds
      | a0 :: _ =>
          if !a0.isDigit then
            Except.ok { err := paramErr, stack := stack, out := "", errno := errno,
                        line := line1 }
          else
            match strtoul arg errno with
            | Except.error f => Except.error f
            | Except.ok (_, [], _) => Except.error Fault.outOfBounds
            | Except.ok (num, c :: ptr, errno1) =>
                if errno1 || c ≠ NUL then
                  Except.ok { err := paramErr, stack := stack, out := "", errno := errno1,
                              line := line1 }
                else
                  match GetCharArrayAt line1 0 with
                  | Except.error f => Except.error f
                  | Except.ok (line2, lineStart) =>
                      if lineStart.length - (c :: ptr).length < StringLength line2 then
                        Except.ok { err := paramErr, stack := stack, out := "",
                                    errno := errno1, line := line2 }
                      else withLine (execute stack num) errno1 line2
  | Except.ok (_, _, _) => Except.error Fault.assertFail

/-- Function `RunDegBy` of `calc.c`. -/
def RunDegBy (errno : Bool) (stack : stack_t) (line : string_t) : Except Fault LineResult :=
  RunSizeParam CommandType.DEG_BY InputErr.NoDegByParam ExecuteDegBy errno stack line

/-- Function `RunCompose` of `calc.c`. -/
def RunCompose (mem : Nat → Bool) (errno : Bool) (stack : stack_t) (line : string_t) :
    Except Fault LineResult :=
  RunSizeParam CommandType.COMPOSE InputErr.NoComposeParam (ExecuteCompose mem) errno stack line

/-- Function `RunAt` of `calc.c`. -/
def RunAt (mem : Nat → Bool) (errno : Bool) (stack : stack_t) (line : string_t) :
    Except Fault LineResult :=
  match InitialParamCommCheck line CommandType.AT with
  | Except.error f => Except.error f
  | Except.ok (InputErr.NoParam, line1, _) =>
      Except.ok { err := InputErr.NoAtParam, stack := stack, out := "", errno := errno,
                  line := line1 }
  | Except.ok (InputErr.InvalidCommandName, line1, _) =>
      Except.ok { err := InputErr.InvalidCommandName, stack := stack, out := "",
                  errno := errno, line := line1 }
  | Except.ok (InputErr.NoError, line1, arg) =>
      match arg with
      | [] => Except.error Fault.outOfBounds
      | a0 :: _ =>
          if !a0.isDigit && a0 ≠ '-' then
            Except.ok { err := InputErr.NoAtParam, stack := stack, out := "", errno := errno,
                        line := line1 }
          else
            match strtol arg errno with
            | Except.error f => Except.error f
            | Except.ok (_, [], _) => Except.error Fault.outOfBounds
            | Except.ok (num, c :: ptr, errno1) =>
                if errno1 || c ≠ NUL then
                  Except.ok { err := InputErr.NoAtParam, stack := stack, out := "",
                              errno := errno1, line := line1 }
                else
                  match GetCharArrayAt line1 0 with
                  | Except.error f => Except.error f
                  | Except.ok (line2, lineStart) =>
                      if lineStart.length - (c :: ptr).length < StringLength line2 then
                        Except.ok { err := InputErr.NoAtParam, stack := stack, out := "",
                                    errno := errno1, line := line2 }
                      else withLine (ExecuteAt mem stack num) errno1 line2
  | Except.ok (_, _, _) => Except.error Fault.assertFail

/-- Function `ExecuteCommand` of `calc.c`. -/
def ExecuteCommand (mem : Nat → Bool) (errno : Bool) (stack : stack_t) (line : string_t) :
    Except Fault LineResult :=
  match DefineCommand line with
  | Except.error f => Except.error f
  | Except.ok CommandType.ZERO => withLine (ExecuteZero mem stack) errno line
  | Except.ok CommandType.IS_COEFF => withLine (ExecuteIsCoeff stack) errno line
  | Except.ok CommandType.IS_ZERO => withLine (ExecuteIsZero stack) errno line
  | Except.ok CommandType.CLONE => withLine (ExecuteClone mem stack) errno line
  | Except.ok CommandType.ADD => withLine (ExecuteAdd mem stack) errno line
  | Except.ok CommandType.MUL => withLine (ExecuteMul mem stack) errno line
  | Except.ok CommandType.NEG => withLine (ExecuteNeg mem stack) errno line
  | Except.ok CommandType.SUB => withLine (ExecuteSub mem stack) errno line
  | Except.ok CommandType.IS_EQ => withLine (ExecuteIsEq mem stack) errno line
  | Except.ok CommandType.DEG => withLine (ExecuteDeg stack) errno line
  | Except.ok CommandType.PRINT => withLine (ExecutePrint stack) errno line
  | Except.ok CommandType.POP => withLine (ExecutePop stack) errno line
  | Except.ok CommandType.DEG_BY => RunDegBy errno stack line
  | Except.ok CommandType.AT => RunAt mem errno stack line
  | Except.ok CommandType.COMPOSE => RunCompose mem errno stack line
  | Except.ok CommandType.INVALID_COMMAND =>
      Except.ok { err := InputErr.InvalidCommandName, stack := stack, out := "",
                  errno := errno, line := line }

/-- Function `ConvertToPolyCoeffT` of `calc.c`: the value returned, the pointer
`*number`, `errno`, and the polynomial `*p` (the zero polynomial stands for one not
assigned). -/
def ConvertToPolyCoeffT (number : CStr) (errno : Bool) :
    Except Fault (InputErr × CStr × Bool × Poly) :=
  match strtol number errno with
  | Except.error f => Except.error f
  | Except.ok (val, ptr, errno1) =>
      if errno1 || ptr.length = number.length then
        Except.ok (InputErr.ParsingErr, number, errno1, PolyZero)
      else Except.ok (InputErr.NoError, ptr, errno1, PolyFromCoeff val)

/-- Function `strtoi` of `calc.c` in base `10`: the `long` that `strtol` returns is
stored in an `int`, so the two range checks that follow never hold. -/
def strtoi (num : CStr) (errno : Bool) : Except Fault (Int × CStr × Bool) :=
  match strtol num errno with
  | Except.error f => Except.error f
  | Except.ok (v, ptr, errno1) =>
      let val := wrap32 v
      if val < -INT_BOUND then Except.ok (-INT_BOUND, ptr, true)
      else if val > INT_BOUND - 1 then Except.ok (INT_BOUND - 1, ptr, true)
      else Except.ok (val, ptr, errno1)

/-- Function `ConvertToPolyExpT` of `calc.c`: the value returned, the pointer `*exp`,
`errno`, and the exponent `*val`. -/
def ConvertToPolyExpT (exp : CStr) (errno : Bool) :
    Except Fault (InputErr × CStr × Bool × Int) :=
  match strtoi exp errno with
  | Except.error f => Except.error f
  | Except.ok (val, ptr, errno1) =>
      if errno1 || ptr.length = exp.length || val < 0 then
        Except.ok (InputErr.ParsingErr, exp, errno1, val)
      else Except.ok (InputErr.NoError, ptr, errno1, val)

/-- Function `GetExpInMono` of `calc.c`. -/
def GetExpInMono (ptr : CStr) (errno : Bool) : Except Fault (InputErr × CStr × Bool × Int) :=
  match ptr with
  | [] => Except.error Fault.outOfBounds
  | c :: _ =>
      if !c.isDigit then Except.ok (InputErr.ParsingErr, ptr, errno, 0)
      else
        match ConvertToPolyExpT ptr errno with
        | Except.error f => Except.error f
        | Except.ok (InputErr.NoError, ptr1, errno1, exp) =>
            Except.ok (InputErr.NoError, ptr1, errno1, exp)
        | Except.ok (_, ptr1, errno1, exp) => Except.ok (InputErr.ParsingErr, ptr1, errno1, exp)

/-- Function `CloseMono` of `calc.c`: the value returned, the pointer `*ptr`, and
`*continueLoop`. -/
def CloseMono (ptr : CStr) (recursiveCall : Bool) : Except Fault (InputErr × CStr × Bool) :=
  match ptr with
  | [] => Except.error Fault.outOfBounds
  | c :: rest =>
      if c = ',' then
        if recursiveCall then Except.ok (InputErr.NoError, ptr, false)
        else Except.ok (InputErr.ParsingErr, ptr, false)
      else if c = '+' then Except.ok (InputErr.NoError, rest, true)
      else if c = NUL then Except.ok (InputErr.NoError, ptr, false)
      else Except.ok (InputErr.ParsingErr, ptr, false)

mutual
/-- Function `GetPoly` of `calc.c`: the value returned, the pointer `*input`, `errno`,
and the polynomial `*p`. The monomial vector is a list, whose allocations succeed. The
first argument bounds the number of nested calls. -/
def GetPoly : Nat → CStr → Bool → Bool → Except Fault (InputErr × CStr × Bool × Poly)
  | 0, _, _, _ => Except.error Fault.outOfFuel
  | fuel + 1, input, errno, recursiveCall => GetPolyLoop fuel input errno recursiveCall []
/-- The `while` loop of `GetPoly`, with the monomials read so far. -/
def GetPolyLoop : Nat → CStr → Bool → Bool → List Mono →
    Except Fault (InputErr × CStr × Bool × Poly)
  | 0, _, _, _, _ => Except.error Fault.outOfFuel
  | fuel + 1, input, errno, recursiveCall, vector =>
      match GetMono fuel input errno vector with
      | Except.error f => Except.error f
      | Except.ok (InputErr.NoError, input1, errno1, vector1) =>
          match CloseMono input1 recursiveCall with
          | Except.error f => Except.error f
          | Except.ok (InputErr.NoError, input2, continueLoop) =>
              if continueLoop then GetPolyLoop fuel input2 errno1 recursiveCall vector1
              else if vector1.length > 0 then
                Except.ok (InputErr.NoError, input2, errno1, PolyAddMonos vector1)
              else Except.ok (InputErr.NoError, input2, errno1, PolyZero)
          | Except.ok (_, input2, _) =>
              Except.ok (InputErr.ParsingErr, input2, errno1, PolyZero)
      | Except.ok (_, input1, errno1, _) =>
          Except.ok (InputErr.ParsingErr, input1, errno1, PolyZero)
/-- Function `GetMono` of `calc.c`: the value returned, the pointer `*ptr`, `errno`, and
the vector. -/
def GetMono : Nat → CStr → Bool → List Mono → Except Fault (InputErr × CStr × Bool × List Mono)
  | 0, _, _, _ => Except.error Fault.outOfFuel
  | _ + 1, [], _, _ => Except.error Fault.outOfBounds
  | fuel + 1, c :: ptr1, errno, vector =>
      if c ≠ '(' then Except.ok (InputErr.ParsingErr, c :: ptr1, errno, vector)
      else
        match GetPolyInMono fuel ptr1 errno with
        | Except.error f => Except.error f
        | Except.ok (InputErr.NoError, ptr2, errno2, newPoly) =>
            match ptr2 with
            | [] => Except.error Fault.outOfBounds
            | c2 :: ptr3 =>
                if c2 ≠ ',' then Except.ok (InputErr.ParsingErr, ptr2, errno2, vector)
                else
                  match GetExpInMono ptr3 errno2 with
                  | Except.error f => Except.error f
                  | Except.ok (InputErr.NoError, ptr4, errno3, exp) =>
                      let vector1 :=
                        if !PolyIsZero newPoly then vector ++ [(newPoly, exp)] else vector
                      match ptr4 with
                      | [] => Except.error Fault.outOfBounds
                      | c3 :: ptr5 =>
                          if c3 ≠ ')' then
                            Except.ok (InputErr.ParsingErr, ptr4, errno3, vector1)
                          else Except.ok (InputErr.NoError, ptr5, errno3, vector1)
                  | Except.ok (_, ptr4, errno3, _) =>
                      Except.ok (InputErr.ParsingErr, ptr4, errno3, vector)
        | Except.ok (_, ptr2, errno2, _) =>
            Except.ok (InputErr.ParsingErr, ptr2, errno2, vector)
/-- Function `GetPolyInMono` of `calc.c`. -/
def GetPolyInMono : Nat → CStr → Bool → Except Fault (InputErr × CStr × Bool × Poly)
  | 0, _, _ => Except.error Fault.outOfFuel
  | _ + 1, [], _ => Except.error Fault.outOfBounds
  | fuel + 1, c :: rest, errno =>
      if c = '(' then
        match GetPoly fuel (c :: rest) errno true with
        | Except.error f => Except.error f
        | Except.ok (InputErr.NoError, ptr1, errno1, newPoly) =>
            Except.ok (InputErr.NoError, ptr1, errno1, newPoly)
        | Except.ok (_, ptr1, errno1, _) =>
            Except.ok (InputErr.ParsingErr, ptr1, errno1, PolyZero)
      else if c.isDigit || c = '-' then
        match ConvertToPolyCoeffT (c :: rest) errno with
        | Except.error f => Except.error f
        | Except.ok (InputErr.NoError, ptr1, errno1, newPoly) =>
            Except.ok (InputErr.NoError, ptr1, errno1, newPoly)
        | Except.ok (_, ptr1, errno1, _) =>
            Except.ok (InputErr.ParsingErr, ptr1, errno1, PolyZero)
      else Except.ok (InputErr.ParsingErr, c :: rest, errno, PolyZero)
end

/-- Function `ParsePoly` of `calc.c`: the value returned, the pointer `*poly`, `errno`,
and the stack; the nesting of a text is at most its length. -/
def ParsePoly (mem : Nat → Bool) (errno : Bool) (stack : stack_t) (poly : CStr) :
    Except Fault (InputErr × CStr × Bool × stack_t) :=
  match GetPoly (4 * poly.length + 4) poly errno false with
  | Except.error f => Except.error f
  | Except.ok (InputErr.NoError, poly1, errno1, newPoly) =>
      match PushPoly mem stack newPoly with
      | Except.ok stack1 => Except.ok (InputErr.NoError, poly1, errno1, stack1)
      | Except.error f => Except.error f
  | Except.ok (_, poly1, errno1, _) => Except.ok (InputErr.ParsingErr, poly1, errno1, stack)

/-- The end of `ExecutePoly` of `calc.c`: a polynomial read up to a null character
inside the line is taken from the stack again. -/
def ExecutePolyEnd (errors : InputErr) (errno : Bool) (stack : stack_t) (line : string_t)
    (copy poly : CStr) : Except Fault LineResult :=
  if copy.length - poly.length < StringLength line ∧ errors = InputErr.NoError then
    match ExecutePop stack with
    | Except.ok (_, stack1, _) =>
        Except.ok { err := InputErr.ParsingErr, stack := stack1, out := "", errno := errno,
                    line := line }
    | Except.error f => Except.error f
  else Except.ok { err := errors, stack := stack, out := "", errno := errno, line := line }

/-- Function `ExecutePoly` of `calc.c`. -/
def ExecutePoly (mem : Nat → Bool) (errno : Bool) (stack : stack_t) (line : string_t) :
    Except Fault LineResult :=
  match GetCharArrayAt line 0 with
  | Except.error f => Except.error f
  | Except.ok (line1, poly) =>
      match CharAt line1 0 with
      | Except.error f => Except.error f
      | Except.ok c0 =>
          if c0 = '-' || c0.isDigit then
            match strtol poly errno with
            | Except.error f => Except.error f
            | Except.ok (_, [], _) => Except.error Fault.outOfBounds
            | Except.ok (argValue, r :: remainingChar, errno1) =>
                if errno1 || r ≠ NUL then
                  Except.ok { err := InputErr.ParsingErr, stack := stack, out := "",
                              errno := errno1, line := line1 }
                else
                  match PushPoly mem stack (PolyFromCoeff argValue) with
                  | Except.ok stack1 =>
                      ExecutePolyEnd InputErr.NoError errno1 stack1 line1 poly
                        (r :: remainingChar)
                  | Except.error f => Except.error f
          else
            match ParsePoly mem errno stack poly with
            | Except.error f => Except.error f
            | Except.ok (errors, poly1, errno1, stack1) =>
                ExecutePolyEnd errors errno1 stack1 line1 poly poly1

/-- Function `ExecuteLine` of `calc.c`. -/
def ExecuteLine (mem : Nat → Bool) (errno : Bool) (stack : stack_t) (line : string_t) :
    Except Fault LineResult :=
  if StringLength line = 0 then
    Except.ok { err := InputErr.NoError, stack := stack, out := "", errno := errno,
                line := line }
  else
    match CharAt line 0 with
    | Except.error f => Except.error f
    | Except.ok c0 =>
        if c0 = '#' then
          Except.ok { err := InputErr.NoError, stack := stack, out := "", errno := errno,
                      line := line }
        else if c0.isAlpha then ExecuteCommand mem errno stack line
        else ExecutePoly mem errno stack line

/-- Function `PrintError` of `calc.c`: the text written to the standard error. -/
def PrintError (errorMessage : InputErr) (numberOfLine : Nat) : String :=
  match errorMessage with
  | InputErr.InvalidCommandName => "ERROR " ++ toString numberOfLine ++ " WRONG COMMAND\n"
  | InputErr.NoDegByParam => "ERROR " ++ toString numberOfLine ++ " DEG BY WRONG VARIABLE\n"
  | InputErr.NoAtParam => "ERROR " ++ toString numberOfLine ++ " AT WRONG VALUE\n"
  | InputErr.NoComposeParam =>
      "ERROR " ++ toString numberOfLine ++ " COMPOSE WRONG PARAMETER\n"
  | InputErr.StackUnderflow => "ERROR " ++ toString numberOfLine ++ " STACK UNDERFLOW\n"
  | InputErr.ParsingErr => "ERROR " ++ toString numberOfLine ++ " WRONG POLY\n"
  | InputErr.NoError => ""
  | InputErr.NoParam => ""

/-- The variables of `RunCalculator` of `calc.c`, `errno`, and the texts written to the
standard output and the standard error. -/
structure CalcState where
  /-- The stack of polynomials. -/
  polyStack : stack_t
  /-- The string of the line. -/
  newLine : string_t
  /-- The number of the line. -/
  numberOfLine : Nat
  /-- Whether `errno` is `ERANGE`. -/
  errno : Bool
  /-- The standard output. -/
  out : String
  /-- The standard error. -/
  err : String

/-- The `while` loop of `RunCalculator` of `calc.c` on the characters `input` of the
standard input; the first argument bounds the number of lines. -/
def RunCalculatorLoop (mem : Nat → Bool) : Nat → List Char → CalcState → Except Fault CalcState
  | 0, _, _ => Except.error Fault.outOfFuel
  | fuel + 1, input, st =>
      match ScanString mem input st.newLine with
      | Except.error f => Except.error f
      | Except.ok (type, newLine1, input1) =>
          match ExecuteLine mem st.errno st.polyStack newLine1 with
          | Except.error f => Except.error f
          | Except.ok r =>
              match AdjustStack mem r.stack with
              | Except.error f => Except.error f
              | Except.ok polyStack1 =>
                  let st1 : CalcState :=
                    { polyStack := polyStack1, newLine := ResetString r.line,
                      numberOfLine := (st.numberOfLine + 1) % SIZE_BOUND, errno := r.errno,
                      out := st.out ++ r.out,
                      err := st.err ++ PrintError r.err st.numberOfLine }
                  if type = LineType.EndOfFile then Except.ok st1
                  else RunCalculatorLoop mem fuel input1 st1

/-- Function `RunCalculator` of `calc.c` on the text `input` of the standard input, up
to the release of the memory: the state when the input has been read. -/
def RunCalculator (mem : Nat → Bool) (input : String) : Except Fault CalcState :=
  RunCalculatorLoop mem (input.length + 1) input.toList
    { polyStack := CreateStack, newLine := CreateString, numberOfLine := 1, errno := false,
      out := "", err := "" }

/-- The string of a line holding the characters of `text`, in an array of `size`
characters whose further slots hold `rest`. -/
def lineOf (text : String) (rest : List Char) (size : Nat) : string_t :=
  { chars := text.toList ++ rest, length := text.length, size := size }

/-- The text a run of the calculator wrote to the standard output, when the run ended. -/
def outputOf (r : Except Fault CalcState) : Option String :=
  match r with
  | Except.ok st => some st.out
  | Except.error _ => none

/-- The text a run of the calculator wrote to the standard error, when the run ended. -/
def errorsOf (r : Except Fault CalcState) : Option String :=
  match r with
  | Except.ok st => some st.err
  | Except.error _ => none

/-- The polynomials on the stack when a run of the calculator ended, bottom first, each
as `AuxPrintPoly` writes it. -/
def stackOf (r : Except Fault CalcState) : Option (List String) :=
  match r with
  | Except.ok st => some ((StackPolys st.polyStack).map AuxPrintPoly)
  | Except.error _ => none

/-- The state of a string the library is used on: the array has `size` characters,
`length` is at most `size`, and `size` is a value of `size_t`. -/
def string_t.valid (s : string_t) : Prop :=
  s.chars.length = s.size ∧ s.length ≤ s.size ∧ s.size ≤ SIZE_MAX

instance string_t.valid.decidable (s : string_t) : Decidable s.valid := by
  unfold string_t.valid
  infer_instance

/-- The characters of the line a string holds: the slots below `length`. -/
def StringChars (s : string_t) : List Char := s.chars.take s.length

/-- The value the execution of a line returned, when it returned. -/
def lineErr (r : Except Fault LineResult) : Option InputErr :=
  match r with
  | Except.ok res => some res.err
  | Except.error _ => none

/-- Whether `errno` is `ERANGE` after the execution of a line, when it returned. -/
def lineErrno (r : Except Fault LineResult) : Option Bool :=
  match r with
  | Except.ok res => some res.errno
  | Except.error _ => none

/-- The fault that ended a run of the calculator, when one did. -/
def faultOf (r : Except Fault CalcState) : Option Fault :=
  match r with
  | Except.ok _ => none
  | Except.error f => some f

/-- A stack of capacity `4` holding the constant `5`. -/
def exStackFive : stack_t :=
  { polys := [Poly.coeff 5, PolyZero, PolyZero, PolyZero], size := 1, maxSize := 4 }

/-- The outcome `r` of a command function on the stack `s` reports an error only with
the stack `s` itself and with nothing written. -/
def KeepsOnError (r : Outcome) (s : stack_t) : Prop :=
  ∀ e s1 out, r = Except.ok (e, s1, out) → e ≠ InputErr.NoError → s1 = s ∧ out = ""

/-! ## The naive definition of composition (claim C36) -/

/-- The power of the naive definition of composition: `q` raised to `n` by `n`
multiplications with `PolyMul`, starting from `Scalar(1)`. -/
def NaivePow (q : Poly) : Nat → Poly
  | 0 => Poly.coeff 1
  | n + 1 => PolyMul (NaivePow q n) q

mutual
/-- The naive definition `C(s, l)` of composition, in the words of the specification:
`s` if `s` is a Scalar; when `l ≥ |qs|` or `qs[l]` is zero, `C` of the exponent-0
coefficient at level `l + 1` if the Sum has one and `Scalar(0)` otherwise; and otherwise
the `PolyAdd`-fold, from `Scalar(0)`, over the terms `(p, e)` of `s` of
`PolyMul (C(p, l + 1)) (qs[l] ^ e)`. No running power, no exponent deltas and no zero
short-circuits. -/
def NaiveCompose : Poly → Nat → List Poly → Poly
  | Poly.coeff c, _, _ => Poly.coeff c
  | Poly.sum arr, l, qs =>
      if l ≥ qs.length ∨ PolyIsZero (qs.getD l PolyZero) = true then NaiveZeroTerm arr l qs
      else NaiveSum arr l qs (Poly.coeff 0)
/-- The value `C` of the exponent-0 coefficient at level `l + 1` if the array has a term
of exponent `0`, and `Scalar(0)` otherwise. -/
def NaiveZeroTerm : List (Poly × Int) → Nat → List Poly → Poly
  | [], _, _ => Poly.coeff 0
  | (p, e) :: tl, l, qs => if e = 0 then NaiveCompose p (l + 1) qs else NaiveZeroTerm tl l qs
/-- The `PolyAdd`-fold over the terms of an array, from the sum `acc` on. -/
def NaiveSum : List (Poly × Int) → Nat → List Poly → Poly → Poly
  | [], _, _, acc => acc
  | (p, e) :: tl, l, qs, acc =>
      NaiveSum tl l qs
        (PolyAdd acc
          (PolyMul (NaiveCompose p (l + 1) qs) (NaivePow (qs.getD l PolyZero) e.toNat)))
end

/-- Every exponent sum formed by the `PolyMul` calls of `NaivePow q n` fits in `int`. -/
def NaivePowFits (q : Poly) : Nat → Bool
  | 0 => true
  | n + 1 => NaivePowFits q n && MulExpFits (NaivePow q n) q

mutual
/-- Every exponent sum formed by the `PolyMul` calls of `NaiveCompose s l qs` (those of
the powers and of the products with them, at every nesting level) fits in `int`; the
recursion is the one of `NaiveCompose`. -/
def NaiveComposeFits : Poly → Nat → List Poly → Bool
  | Poly.coeff _, _, _ => true
  | Poly.sum arr, l, qs =>
      if l ≥ qs.length ∨ PolyIsZero (qs.getD l PolyZero) = true then NaiveZeroTermFits arr l qs
      else NaiveSumFits arr l qs
/-- The condition of `NaiveComposeFits` along `NaiveZeroTerm`. -/
def NaiveZeroTermFits : List (Poly × Int) → Nat → List Poly → Bool
  | [], _, _ => true
  | (p, e) :: tl, l, qs =>
      if e = 0 then NaiveComposeFits p (l + 1) qs else NaiveZeroTermFits tl l qs
/-- The condition of `NaiveComposeFits` along `NaiveSum`. -/
def NaiveSumFits : List (Poly × Int) → Nat → List Poly → Bool
  | [], _, _ => true
  | (p, e) :: tl, l, qs =>
      NaiveComposeFits p (l + 1) qs && NaivePowFits (qs.getD l PolyZero) e.toNat &&
        MulExpFits (NaiveCompose p (l + 1) qs) (NaivePow (qs.getD l PolyZero) e.toNat) &&
        NaiveSumFits tl l qs
end

/-- Example input: `x_0^3`, the array `[(1, 3)]`. -/
def exCube : Poly := Poly.sum [(Poly.coeff 1, 3)]

/-- Example input: `1 + x_0 * x_1^2147483647 + x_0^2`. -/
def exCubeQ : Poly :=
  Poly.sum [(Poly.coeff 1, 0), (Poly.sum [(Poly.coeff 1, 2147483647)], 1), (Poly.coeff 1, 2)]

/-- Example input: `x_0 + x_0^2 + x_0^3 + x_0^4 + x_0^1000`, a canonical Poly whose text
`(1,1)+(1,2)+(1,3)+(1,4)+(1,1000)` is 32 characters long. -/
def exLine32 : Poly :=
  Poly.sum [(Poly.coeff 1, 1), (Poly.coeff 1, 2), (Poly.coeff 1, 3), (Poly.coeff 1, 4),
    (Poly.coeff 1, 1000)]

/-- Example input: `x_0 + x_0^2 + x_0^3 + x_0^4 + x_0^100`, a canonical Poly whose text
`(1,1)+(1,2)+(1,3)+(1,4)+(1,100)` is 31 characters long. -/
def exLine31 : Poly :=
  Poly.sum [(Poly.coeff 1, 1), (Poly.coeff 1, 2), (Poly.coeff 1, 3), (Poly.coeff 1, 4),
    (Poly.coeff 1, 100)]

/-- A full stack of capacity `SIZE_MAX - 1`, which is not below `SIZE_MAX / 2`. -/
def exStackHuge : stack_t :=
  { polys := List.replicate (SIZE_MAX - 1) PolyZero, size := SIZE_MAX - 1,
    maxSize := SIZE_MAX - 1 }

/-! # Theorems -/

/-! ## Basic facts -/

open Poly

mutual
theorem PolyClone_eq : ∀ p : Poly, PolyClone p = p
  | Poly.coeff c => rfl
  | Poly.sum arr => by rw [PolyClone, CloneMonoArr_eq arr]
theorem CloneMonoArr_eq : ∀ l : List (Poly × Int), CloneMonoArr l = l
  | [] => rfl
  | (p, e) :: tl => by rw [CloneMonoArr, PolyClone_eq p, CloneMonoArr_eq tl]
end

theorem size_pos (p : Poly) : 0 < p.size := by
  cases p <;> simp [Poly.size]

theorem size_lt_of_mem {arr : List (Poly × Int)} {m : Poly × Int} (h : m ∈ arr) :
    m.1.size < monosSize arr := by
  induction arr with
  | nil => cases h
  | cons x tl ih =>
    obtain ⟨p, e⟩ := x
    rcases List.mem_cons.1 h with rfl | h
    · simp [monosSize]; omega
    · have := ih h
      simp [monosSize]; omega

theorem PolyIsZero_iff (p : Poly) : PolyIsZero p = true ↔ p = Poly.coeff 0 := by
  cases p with
  | coeff c => simp [PolyIsZero]
  | sum arr => simp [PolyIsZero]

theorem PolyIsZero_sum (arr : List (Poly × Int)) : PolyIsZero (Poly.sum arr) = false := rfl

theorem monosCanonical_iff (arr : List (Poly × Int)) :
    monosCanonical arr = true ↔ ∀ m ∈ arr, Canonical m.1 ∧ PolyIsZero m.1 = false ∧ 0 ≤ m.2 := by
  induction arr with
  | nil => simp [monosCanonical]
  | cons x tl ih =>
    obtain ⟨p, e⟩ := x
    simp [monosCanonical, ih, Canonical, and_assoc]

theorem canonical_coeff (c : Int) : Canonical (Poly.coeff c) := by
  simp [Canonical, Poly.isCanonical]

theorem canonical_sum_iff (arr : List (Poly × Int)) :
    Canonical (Poly.sum arr) ↔ arr ≠ [] ∧ MonosOK arr ∧ IsLoneConst arr = false := by
  unfold Canonical MonosOK
  rw [Poly.isCanonical]
  simp only [Bool.and_eq_true, Bool.not_eq_true', decide_eq_true_eq, monosCanonical_iff]
  cases arr <;> simp [and_assoc]

theorem MonosOK_nil : MonosOK [] := by
  simp [MonosOK, ExpsIncreasing]

theorem MonosOK_cons {m : Mono} {tl : List Mono} :
    MonosOK (m :: tl) ↔
      (Canonical m.1 ∧ PolyIsZero m.1 = false ∧ 0 ≤ m.2) ∧ (∀ x ∈ tl, m.2 < x.2) ∧ MonosOK tl := by
  simp only [MonosOK, ExpsIncreasing, List.mem_cons, forall_eq_or_imp, List.pairwise_cons,
    MonoGetExp]
  tauto

theorem MonosOK_tail {m : Mono} {tl : List Mono} (h : MonosOK (m :: tl)) : MonosOK tl :=
  (MonosOK_cons.1 h).2.2

/-! ## Unfolding the operations -/

theorem merge_induction {P : List (Poly × Int) → List (Poly × Int) → Prop}
    (h00 : P [] [])
    (h10 : ∀ p e ps, P ps [] → P ((p, e) :: ps) [])
    (h01 : ∀ q f qs, P [] qs → P [] ((q, f) :: qs))
    (h11 : ∀ p e ps q f qs, (e < f → P ps ((q, f) :: qs)) →
      (¬ e < f → e > f → P ((p, e) :: ps) qs) →
      (¬ e < f → ¬ e > f → P ps qs) → P ((p, e) :: ps) ((q, f) :: qs)) :
    ∀ ps qs, P ps qs := by
  intro ps
  induction ps with
  | nil =>
    intro qs
    induction qs with
    | nil => exact h00
    | cons n qs ih => exact h01 n.1 n.2 qs ih
  | cons m ps ihp =>
    intro qs
    induction qs with
    | nil => exact h10 m.1 m.2 ps (ihp [])
    | cons n qs ihq =>
      exact h11 m.1 m.2 ps n.1 n.2 qs (fun _ => ihp _) (fun _ _ => ihq) (fun _ _ => ihp _)

theorem BuildPolyFromMonos_cases (l : List Mono) :
    (l = [] ∧ BuildPolyFromMonos l = Poly.coeff 0) ∨
    (∃ c, l = [(Poly.coeff c, 0)] ∧ BuildPolyFromMonos l = Poly.coeff c) ∨
    (l ≠ [] ∧ IsLoneConst l = false ∧ BuildPolyFromMonos l = Poly.sum l) := by
  match l with
  | [] => left; exact ⟨rfl, rfl⟩
  | [(Poly.coeff c, 0)] => right; left; exact ⟨c, rfl, rfl⟩
  | m :: tl =>
    by_cases h : ∃ c, m :: tl = [(Poly.coeff c, 0)]
    · obtain ⟨c, hc⟩ := h
      right; left; exact ⟨c, hc, by rw [hc]; rfl⟩
    · right; right
      refine ⟨by simp, ?_, ?_⟩
      · cases hl : IsLoneConst (m :: tl) with
        | false => rfl
        | true =>
          exfalso
          unfold IsLoneConst at hl
          split at hl
          · exact h ⟨_, by assumption⟩
          · cases hl
      · unfold BuildPolyFromMonos
        split
        · rename_i heq; cases heq
        · rename_i heq; exact absurd ⟨_, heq⟩ h
        · rename_i heq; cases heq; rfl

theorem PolyAdd_zero_sum (qs : List (Poly × Int)) :
    PolyAdd (Poly.coeff 0) (Poly.sum qs) = Poly.sum qs := by
  rw [PolyAdd, if_pos rfl, PolyClone_eq]

theorem PolyAdd_coeff_sum_cons (a : Int) (ha : a ≠ 0) (q0 : Poly) (e0 : Int)
    (tl : List (Poly × Int)) :
    PolyAdd (Poly.coeff a) (Poly.sum ((q0, e0) :: tl)) =
      if e0 ≠ 0 then Poly.sum ((Poly.coeff a, 0) :: (q0, e0) :: tl)
      else if PolyIsZero (PolyAdd (Poly.coeff a) q0) then Poly.sum tl
      else Poly.sum ((PolyAdd (Poly.coeff a) q0, 0) :: tl) := by
  rw [PolyAdd, if_neg ha, SumConstPoly, SumConstPoly0]
  simp only [CloneMonoArr_eq, PolyFromCoeff]

theorem PolyAdd_sum_coeff (ps : List (Poly × Int)) (b : Int) :
    PolyAdd (Poly.sum ps) (Poly.coeff b) = PolyAdd (Poly.coeff b) (Poly.sum ps) :=
  PolyAdd.eq_3 ps b

theorem PolyAdd_sum_sum (ps qs : List (Poly × Int)) :
    PolyAdd (Poly.sum ps) (Poly.sum qs) = BuildPolyFromMonos (SumPolyPolyLoop ps qs) := by
  rw [PolyAdd, SumPolyPoly]

theorem PolyAdd_coeff_sum_isSum (a : Int) (qs : List (Poly × Int)) :
    ∃ l, PolyAdd (Poly.coeff a) (Poly.sum qs) = Poly.sum l := by
  by_cases ha : a = 0
  · subst ha; exact ⟨qs, PolyAdd_zero_sum qs⟩
  · cases qs with
    | nil => exact ⟨_, by rw [PolyAdd, if_neg ha, SumConstPoly]⟩
    | cons m tl =>
      obtain ⟨q0, e0⟩ := m
      rw [PolyAdd_coeff_sum_cons a ha]
      split_ifs <;> exact ⟨_, rfl⟩

/-! ## C1: `PolyAdd` keeps the canonical form -/

theorem mem_keepMono {m x : Mono} {out : List Mono} (h : x ∈ keepMono m out) :
    (x = m ∧ PolyIsZero m.1 = false) ∨ x ∈ out := by
  unfold keepMono at h
  split at h
  · exact Or.inr h
  · rcases List.mem_cons.1 h with rfl | h
    · left; simp_all
    · exact Or.inr h

theorem MonosOK_keepMono {m : Mono} {out : List Mono} (hc : Canonical m.1) (he : 0 ≤ m.2)
    (hlt : ∀ x ∈ out, m.2 < x.2) (hout : MonosOK out) : MonosOK (keepMono m out) := by
  unfold keepMono
  split
  · exact hout
  · rename_i hz
    exact MonosOK_cons.2 ⟨⟨hc, by simpa using hz, he⟩, hlt, hout⟩

theorem SumPolyPolyLoop_exp (ps qs : List (Poly × Int)) :
    ∀ x ∈ SumPolyPolyLoop ps qs, (∃ m ∈ ps, x.2 = m.2) ∨ (∃ n ∈ qs, x.2 = n.2) := by
  refine merge_induction (P := fun ps qs => ∀ x ∈ SumPolyPolyLoop ps qs,
    (∃ m ∈ ps, x.2 = m.2) ∨ (∃ n ∈ qs, x.2 = n.2)) ?_ ?_ ?_ ?_ ps qs
  · intro x hx; simp [SumPolyPolyLoop] at hx
  · intro p e ps ih x hx
    rw [SumPolyPolyLoop] at hx
    rcases mem_keepMono hx with ⟨rfl, -⟩ | h
    · left; exact ⟨_, List.mem_cons_self _ _, rfl⟩
    · rcases ih x h with ⟨m, hm, hxm⟩ | ⟨n, hn, _⟩
      · left; exact ⟨m, List.mem_cons_of_mem _ hm, hxm⟩
      · cases hn
  · intro q f qs ih x hx
    rw [SumPolyPolyLoop] at hx
    rcases mem_keepMono hx with ⟨rfl, -⟩ | h
    · right; exact ⟨_, List.mem_cons_self _ _, rfl⟩
    · rcases ih x h with ⟨m, hm, _⟩ | ⟨n, hn, hxn⟩
      · cases hm
      · right; exact ⟨n, List.mem_cons_of_mem _ hn, hxn⟩
  · intro p e ps q f qs ih1 ih2 ih3 x hx
    rw [SumPolyPolyLoop] at hx
    split_ifs at hx with h1 h2
    · rcases mem_keepMono hx with ⟨rfl, -⟩ | h
      · left; exact ⟨_, List.mem_cons_self _ _, rfl⟩
      · rcases ih1 h1 x h with ⟨m, hm, hxm⟩ | ⟨n, hn, hxn⟩
        · left; exact ⟨m, List.mem_cons_of_mem _ hm, hxm⟩
        · right; exact ⟨n, hn, hxn⟩
    · rcases mem_keepMono hx with ⟨rfl, -⟩ | h
      · right; exact ⟨_, List.mem_cons_self _ _, rfl⟩
      · rcases ih2 h1 h2 x h with ⟨m, hm, hxm⟩ | ⟨n, hn, hxn⟩
        · left; exact ⟨m, hm, hxm⟩
        · right; exact ⟨n, List.mem_cons_of_mem _ hn, hxn⟩
    · rcases mem_keepMono hx with ⟨rfl, -⟩ | h
      · left; exact ⟨_, List.mem_cons_self _ _, rfl⟩
      · rcases ih3 h1 h2 x h with ⟨m, hm, hxm⟩ | ⟨n, hn, hxn⟩
        · left; exact ⟨m, List.mem_cons_of_mem _ hm, hxm⟩
        · right; exact ⟨n, List.mem_cons_of_mem _ hn, hxn⟩

theorem IsLoneConst_iff (l : List Mono) :
    IsLoneConst l = true ↔ ∃ c, l = [(Poly.coeff c, 0)] := by
  constructor
  · intro h
    unfold IsLoneConst at h
    split at h
    · exact ⟨_, rfl⟩
    · cases h
  · rintro ⟨c, rfl⟩; rfl

theorem IsLoneConst_cons_cons (m n : Mono) (tl : List Mono) :
    IsLoneConst (m :: n :: tl) = false := by
  cases h : IsLoneConst (m :: n :: tl) with
  | false => rfl
  | true => obtain ⟨c, hc⟩ := (IsLoneConst_iff _).1 h; cases hc

theorem BuildPolyFromMonos_canonical {l : List Mono} (h : MonosOK l) :
    Canonical (BuildPolyFromMonos l) := by
  rcases BuildPolyFromMonos_cases l with ⟨-, h2⟩ | ⟨c, -, h2⟩ | ⟨hne, hl, h2⟩
  · rw [h2]; exact canonical_coeff 0
  · rw [h2]; exact canonical_coeff c
  · rw [h2]; exact (canonical_sum_iff l).2 ⟨hne, h, hl⟩

theorem SumPolyPolyLoop_lt (e : Int) (ps qs : List (Poly × Int))
    (h1 : ∀ m ∈ ps, e < m.2) (h2 : ∀ n ∈ qs, e < n.2) :
    ∀ x ∈ SumPolyPolyLoop ps qs, e < x.2 := by
  intro x hx
  rcases SumPolyPolyLoop_exp ps qs x hx with ⟨m, hm, hxm⟩ | ⟨n, hn, hxn⟩
  · rw [hxm]; exact h1 m hm
  · rw [hxn]; exact h2 n hn

theorem SumPolyPolyLoop_ok (ps qs : List (Poly × Int)) :
    MonosOK ps → MonosOK qs → (∀ m ∈ ps, ∀ n ∈ qs, Canonical (PolyAdd m.1 n.1)) →
      MonosOK (SumPolyPolyLoop ps qs) := by
  refine merge_induction (P := fun ps qs => MonosOK ps → MonosOK qs →
    (∀ m ∈ ps, ∀ n ∈ qs, Canonical (PolyAdd m.1 n.1)) → MonosOK (SumPolyPolyLoop ps qs))
    ?_ ?_ ?_ ?_ ps qs
  · intro _ _ _
    rw [SumPolyPolyLoop]; exact MonosOK_nil
  · intro p e ps ih hps hqs hadd
    obtain ⟨⟨hc, hz, he⟩, hlt, htl⟩ := MonosOK_cons.1 hps
    rw [SumPolyPolyLoop, PolyClone_eq]
    refine MonosOK_keepMono hc he ?_ (ih htl hqs (fun m _ n hn => by cases hn))
    exact SumPolyPolyLoop_lt e ps [] hlt (fun n hn => by cases hn)
  · intro q f qs ih hps hqs hadd
    obtain ⟨⟨hc, hz, he⟩, hlt, htl⟩ := MonosOK_cons.1 hqs
    rw [SumPolyPolyLoop, PolyClone_eq]
    refine MonosOK_keepMono hc he ?_ (ih hps htl (fun m hm => by cases hm))
    exact SumPolyPolyLoop_lt f [] qs (fun n hn => by cases hn) hlt
  · intro p e ps q f qs ih1 ih2 ih3 hps hqs hadd
    obtain ⟨⟨hpc, hpz, hpe⟩, hplt, hptl⟩ := MonosOK_cons.1 hps
    obtain ⟨⟨hqc, hqz, hqe⟩, hqlt, hqtl⟩ := MonosOK_cons.1 hqs
    rw [SumPolyPolyLoop]
    split_ifs with h1 h2
    · rw [PolyClone_eq]
      refine MonosOK_keepMono hpc hpe ?_ (ih1 h1 hptl hqs
        (fun m hm n hn => hadd m (List.mem_cons_of_mem _ hm) n hn))
      refine SumPolyPolyLoop_lt e ps _ hplt ?_
      intro n hn
      rcases List.mem_cons.1 hn with rfl | hn
      · exact h1
      · exact lt_trans h1 (hqlt n hn)
    · rw [PolyClone_eq]
      refine MonosOK_keepMono hqc hqe ?_ (ih2 h1 h2 hps hqtl
        (fun m hm n hn => hadd m hm n (List.mem_cons_of_mem _ hn)))
      refine SumPolyPolyLoop_lt f _ qs ?_ hqlt
      intro m hm
      rcases List.mem_cons.1 hm with rfl | hm
      · exact h2
      · exact lt_trans h2 (hplt m hm)
    · have hef : e = f := le_antisymm (not_lt.1 h2) (not_lt.1 h1)
      refine MonosOK_keepMono (hadd _ (List.mem_cons_self _ _) _ (List.mem_cons_self _ _)) hpe ?_
        (ih3 h1 h2 hptl hqtl (fun m hm n hn =>
          hadd m (List.mem_cons_of_mem _ hm) n (List.mem_cons_of_mem _ hn)))
      exact SumPolyPolyLoop_lt e ps qs hplt (fun n hn => hef ▸ hqlt n hn)

theorem lone_sum_head {q0 : Poly} {e : Int} (h : IsLoneConst [(q0, e)] = false) (he : e = 0) :
    ∃ l, q0 = Poly.sum l := by
  cases q0 with
  | coeff c => subst he; simp [IsLoneConst] at h
  | sum l => exact ⟨l, rfl⟩

theorem PolyAdd_coeff_sum_canonical (a : Int) (qs : List (Poly × Int))
    (hq : Canonical (Poly.sum qs))
    (ih : ∀ m ∈ qs, Canonical (PolyAdd (Poly.coeff a) m.1)) :
    Canonical (PolyAdd (Poly.coeff a) (Poly.sum qs)) := by
  by_cases ha : a = 0
  · subst ha; rw [PolyAdd_zero_sum]; exact hq
  obtain ⟨hne, hok, hlone⟩ := (canonical_sum_iff qs).1 hq
  cases qs with
  | nil => exact absurd rfl hne
  | cons m tl =>
    obtain ⟨q0, e0⟩ := m
    obtain ⟨⟨hc, hz, he⟩, hlt, htl⟩ := MonosOK_cons.1 hok
    rw [PolyAdd_coeff_sum_cons a ha]
    have hsum : tl = [] → e0 = 0 → PolyIsCoeff (PolyAdd (Poly.coeff a) q0) = false := by
      intro ht he0
      subst ht
      obtain ⟨l, rfl⟩ := lone_sum_head hlone he0
      obtain ⟨l2, hl2⟩ := PolyAdd_coeff_sum_isSum a l
      rw [hl2]; rfl
    split_ifs with h1 h2
    · refine (canonical_sum_iff _).2 ⟨by simp, MonosOK_cons.2 ⟨⟨canonical_coeff a, ?_, le_refl _⟩,
        ?_, hok⟩, IsLoneConst_cons_cons _ _ _⟩
      · simp [PolyIsZero, ha]
      · intro x hx
        rcases List.mem_cons.1 hx with rfl | hx
        · exact lt_of_le_of_ne he (Ne.symm h1)
        · exact lt_of_le_of_lt he (hlt x hx)
    · have he0 : e0 = 0 := not_not.1 h1
      have hne2 : tl ≠ [] := by
        intro ht
        have := hsum ht he0
        cases hadd : PolyAdd (Poly.coeff a) q0 with
        | coeff c => rw [hadd] at this; cases this
        | sum l => rw [hadd] at h2; cases h2
      refine (canonical_sum_iff _).2 ⟨hne2, htl, ?_⟩
      cases hl : IsLoneConst tl with
      | false => rfl
      | true =>
        obtain ⟨c, rfl⟩ := (IsLoneConst_iff _).1 hl
        have := hlt _ (List.mem_cons_self _ _)
        simp only at this
        omega
    · have he0 : e0 = 0 := not_not.1 h1
      refine (canonical_sum_iff _).2 ⟨by simp, MonosOK_cons.2 ⟨⟨ih _ (List.mem_cons_self _ _),
        by simpa using h2, le_refl _⟩, fun x hx => he0 ▸ hlt x hx, htl⟩, ?_⟩
      cases tl with
      | nil =>
        have := hsum rfl he0
        cases hadd : PolyAdd (Poly.coeff a) q0 with
        | coeff c => rw [hadd] at this; cases this
        | sum l => rfl
      | cons n tl2 => exact IsLoneConst_cons_cons _ _ _

theorem PolyAdd_canonical_aux : ∀ (n : Nat) (p q : Poly), p.size + q.size ≤ n →
    Canonical p → Canonical q → Canonical (PolyAdd p q) := by
  intro n
  induction n with
  | zero =>
    intro p q h
    have := size_pos p
    omega
  | succ n ih =>
    intro p q hn hp hq
    cases p with
    | coeff a =>
      cases q with
      | coeff b => rw [PolyAdd]; exact canonical_coeff _
      | sum qs =>
        refine PolyAdd_coeff_sum_canonical a qs hq (fun m hm => ih _ _ ?_ (canonical_coeff a) ?_)
        · have := size_lt_of_mem hm
          simp only [Poly.size] at hn ⊢
          omega
        · exact (((canonical_sum_iff qs).1 hq).2.1.1 m hm).1
    | sum ps =>
      cases q with
      | coeff b =>
        rw [PolyAdd_sum_coeff]
        refine PolyAdd_coeff_sum_canonical b ps hp (fun m hm => ih _ _ ?_ (canonical_coeff b) ?_)
        · have := size_lt_of_mem hm
          simp only [Poly.size] at hn ⊢
          omega
        · exact (((canonical_sum_iff ps).1 hp).2.1.1 m hm).1
      | sum qs =>
        rw [PolyAdd_sum_sum]
        have hps := ((canonical_sum_iff ps).1 hp).2.1
        have hqs := ((canonical_sum_iff qs).1 hq).2.1
        refine BuildPolyFromMonos_canonical (SumPolyPolyLoop_ok ps qs hps hqs ?_)
        intro m hm n' hn'
        refine ih _ _ ?_ (hps.1 m hm).1 (hqs.1 n' hn').1
        have h1 := size_lt_of_mem hm
        have h2 := size_lt_of_mem hn'
        simp only [Poly.size] at hn
        omega

theorem PolyAdd_canonical_of {p q : Poly} (hp : Canonical p) (hq : Canonical q) :
    Canonical (PolyAdd p q) :=
  PolyAdd_canonical_aux _ p q (le_refl _) hp hq

/-- C1. For all canonical Polys `p` and `q` (§3: an array is non-empty, has no zero
coefficient, has exponents `≥ 0` in strictly increasing order, is not a single
`(Scalar, 0)` monomial, and every coefficient is canonical), `PolyAdd p q` is
canonical; this includes the constant-plus-array paths `SumConstPoly` and
`SumConstPoly0`. -/
theorem PolyAdd_canonical (p q : Poly) (hp : Canonical p) (hq : Canonical q) :
    Canonical (PolyAdd p q) :=
  PolyAdd_canonical_aux _ p q (le_refl _) hp hq

theorem PolyAdd_canonical_witness :
    Canonical (Poly.coeff 1) ∧ Canonical (Poly.sum [(Poly.coeff (-1), 0), (Poly.coeff 2, 3)]) ∧
      Canonical (PolyAdd (Poly.coeff 1) (Poly.sum [(Poly.coeff (-1), 0), (Poly.coeff 2, 3)])) :=
  ⟨by decide, by decide, PolyAdd_canonical _ _ (by decide) (by decide)⟩

/-! ## C3: the `Poly*Monos` constructors return canonical polynomials -/

theorem SortMonos_isSortOf (monos : List Mono) : IsSortOf (SortMonos monos) monos :=
  ⟨List.perm_insertionSort MonoLe monos, List.sorted_insertionSort MonoLe monos⟩

theorem OwnMonosLoop_append (done : List Mono) (cur : Mono) (rest : List Mono) :
    OwnMonosLoop done cur rest = done ++ OwnMonosLoop [] cur rest := by
  induction rest generalizing done cur with
  | nil =>
    simp only [OwnMonosLoop]
    split_ifs <;> simp
  | cons m rest ih =>
    simp only [OwnMonosLoop]
    split_ifs with h1 h2
    · exact ih done _
    · rw [ih (done ++ [cur]) m, ih ([] ++ [cur]) m]; simp
    · exact ih done m

theorem OwnMonosLoop_ok (rest : List Mono) :
    ∀ cur : Mono, Canonical cur.1 → 0 ≤ cur.2 → (∀ x ∈ rest, Canonical x.1 ∧ 0 ≤ x.2) →
      (∀ x ∈ rest, cur.2 ≤ x.2) → List.Sorted MonoLe rest →
      MonosOK (OwnMonosLoop [] cur rest) ∧ ∀ x ∈ OwnMonosLoop [] cur rest, cur.2 ≤ x.2 := by
  induction rest with
  | nil =>
    intro cur hc he _ _ _
    simp only [OwnMonosLoop]
    split_ifs with hz
    · exact ⟨MonosOK_nil, fun x hx => by cases hx⟩
    · refine ⟨MonosOK_cons.2 ⟨⟨hc, by simpa using hz, he⟩, (fun x hx => by cases hx), MonosOK_nil⟩, ?_⟩
      intro x hx
      simp only [List.nil_append, List.mem_singleton] at hx
      rw [hx]
  | cons m rest ih =>
    intro cur hc he hrest hle hsorted
    have hm := hrest m (List.mem_cons_self _ _)
    have hrest2 : ∀ x ∈ rest, Canonical x.1 ∧ 0 ≤ x.2 :=
      fun x hx => hrest x (List.mem_cons_of_mem _ hx)
    have hs := List.pairwise_cons.1 hsorted
    have hcm : cur.2 ≤ m.2 := hle m (List.mem_cons_self _ _)
    simp only [OwnMonosLoop, MonoGetExp]
    split_ifs with h1 h2
    · exact ih (PolyAdd cur.1 m.1, cur.2) (PolyAdd_canonical_of hc hm.1) he hrest2
        (fun x hx => hle x (List.mem_cons_of_mem _ hx)) hs.2
    · obtain ⟨hok, hge⟩ := ih m hm.1 hm.2 hrest2 hs.1 hs.2
      rw [OwnMonosLoop_append]
      simp only [List.nil_append, List.singleton_append]
      have hlt : cur.2 < m.2 := lt_of_le_of_ne hcm h1
      refine ⟨MonosOK_cons.2 ⟨⟨hc, by simpa using h2, he⟩,
        fun x hx => lt_of_lt_of_le hlt (hge x hx), hok⟩, ?_⟩
      intro x hx
      rcases List.mem_cons.1 hx with rfl | hx
      · exact le_refl _
      · exact le_trans hcm (hge x hx)
    · obtain ⟨hok, hge⟩ := ih m hm.1 hm.2 hrest2 hs.1 hs.2
      exact ⟨hok, fun x hx => le_trans hcm (hge x hx)⟩

theorem PolyOwnMonosSorted_canonical (s : List Mono)
    (h : ∀ m ∈ s, Canonical m.1 ∧ 0 ≤ m.2) (hs : List.Sorted MonoLe s) :
    Canonical (PolyOwnMonosSorted s) := by
  cases s with
  | nil => exact canonical_coeff 0
  | cons m rest =>
    have hp := List.pairwise_cons.1 hs
    have hm := h m (List.mem_cons_self _ _)
    exact BuildPolyFromMonos_canonical
      (OwnMonosLoop_ok rest m hm.1 hm.2 (fun x hx => h x (List.mem_cons_of_mem _ hx)) hp.1 hp.2).1

theorem PolyOwnMonos_canonical_of (monos : List Mono)
    (h : ∀ m ∈ monos, Canonical m.1 ∧ 0 ≤ m.2) : Canonical (PolyOwnMonos monos) := by
  unfold PolyOwnMonos
  split_ifs
  · exact canonical_coeff 0
  · have hs := SortMonos_isSortOf monos
    exact PolyOwnMonosSorted_canonical _ (fun m hm => h m (hs.1.mem_iff.1 hm)) hs.2

/-- C3. For every list of monomials whose coefficients are canonical and whose
exponents are `≥ 0` (repeated exponents and zero coefficients allowed, any order),
`PolyOwnMonos` returns a canonical `Poly`, whatever array `qsort` leaves, and so do
`PolyAddMonos` and `PolyCloneMonos`; the monomials of the literal `(1,2)+(1,0)` give
the array `[(1,0),(1,2)]`. -/
theorem PolyOwnMonos_canonical (monos : List Mono)
    (h : ∀ m ∈ monos, Canonical m.1 ∧ 0 ≤ m.2) :
    (∀ s, IsSortOf s monos → Canonical (PolyOwnMonosSorted s)) ∧
      Canonical (PolyOwnMonos monos) ∧ Canonical (PolyAddMonos monos) ∧
      Canonical (PolyCloneMonos monos) ∧
      PolyOwnMonos [(Poly.coeff 1, 2), (Poly.coeff 1, 0)] =
        Poly.sum [(Poly.coeff 1, 0), (Poly.coeff 1, 2)] := by
  refine ⟨?_, PolyOwnMonos_canonical_of monos h, ?_, ?_, ?_⟩
  · intro s hs
    exact PolyOwnMonosSorted_canonical s (fun m hm => h m (hs.1.mem_iff.1 hm)) hs.2
  · unfold PolyAddMonos CopyMonoArr
    split_ifs
    · exact canonical_coeff 0
    · exact PolyOwnMonos_canonical_of monos h
  · unfold PolyCloneMonos
    rw [CloneMonoArr_eq]
    split_ifs
    · exact canonical_coeff 0
    · exact PolyOwnMonos_canonical_of monos h
  · simp [PolyOwnMonos, SortMonos, PolyOwnMonosSorted, OwnMonosLoop, MonoGetExp, MonoLe,
      List.insertionSort, List.orderedInsert, PolyIsZero, BuildPolyFromMonos]

theorem PolyOwnMonos_canonical_witness :
    (∀ m ∈ [((Poly.coeff 1, 2) : Mono), (Poly.coeff 1, 0)], Canonical m.1 ∧ 0 ≤ m.2) ∧
      Canonical (PolyOwnMonos [(Poly.coeff 1, 2), (Poly.coeff 1, 0)]) :=
  ⟨by decide, (PolyOwnMonos_canonical [(Poly.coeff 1, 2), (Poly.coeff 1, 0)] (by decide)).2.1⟩

/-! ## C2: `PolyMul` and the canonical form -/

theorem PolyMul_coeff_sum (a : Int) (ha : a ≠ 0) (qs : List (Poly × Int)) :
    PolyMul (Poly.coeff a) (Poly.sum qs) = BuildPolyFromMonos (MulCoeffPolyLoop a qs) := by
  rw [PolyMul, if_neg ha, MulCoeffPoly]

theorem PolyMul_sum_coeff (ps : List (Poly × Int)) (b : Int) :
    PolyMul (Poly.sum ps) (Poly.coeff b) = PolyMul (Poly.coeff b) (Poly.sum ps) :=
  PolyMul.eq_3 ps b

theorem PolyMul_sum_sum (ps qs : List (Poly × Int)) :
    PolyMul (Poly.sum ps) (Poly.sum qs) = PolyOwnMonos (MulMonos ps qs) :=
  PolyMul.eq_4 ps qs

theorem MulCoeffPolyLoop_cons (a : Int) (q : Poly) (e : Int) (tl : List (Poly × Int)) :
    MulCoeffPolyLoop a ((q, e) :: tl) =
      keepMono (PolyMul (Poly.coeff a) q, e) (MulCoeffPolyLoop a tl) := by
  rw [MulCoeffPolyLoop, MonoGetExp]

theorem MulCoeffPolyLoop_exp (a : Int) (qs : List (Poly × Int)) :
    ∀ x ∈ MulCoeffPolyLoop a qs, ∃ m ∈ qs, x.2 = m.2 := by
  induction qs with
  | nil => intro x hx; simp [MulCoeffPolyLoop] at hx
  | cons m tl ih =>
    obtain ⟨q, e⟩ := m
    intro x hx
    rw [MulCoeffPolyLoop_cons] at hx
    rcases mem_keepMono hx with ⟨rfl, -⟩ | h
    · exact ⟨_, List.mem_cons_self _ _, rfl⟩
    · obtain ⟨m, hm, hxm⟩ := ih x h
      exact ⟨m, List.mem_cons_of_mem _ hm, hxm⟩

theorem MulCoeffPolyLoop_ok (a : Int) (qs : List (Poly × Int)) (hqs : MonosOK qs)
    (ih : ∀ m ∈ qs, Canonical (PolyMul (Poly.coeff a) m.1)) :
    MonosOK (MulCoeffPolyLoop a qs) := by
  induction qs with
  | nil => rw [MulCoeffPolyLoop]; exact MonosOK_nil
  | cons m tl ihl =>
    obtain ⟨q, e⟩ := m
    obtain ⟨⟨hc, hz, he⟩, hlt, htl⟩ := MonosOK_cons.1 hqs
    rw [MulCoeffPolyLoop_cons]
    refine MonosOK_keepMono (ih _ (List.mem_cons_self _ _)) he ?_
      (ihl htl (fun m hm => ih m (List.mem_cons_of_mem _ hm)))
    intro x hx
    obtain ⟨m, hm, hxm⟩ := MulCoeffPolyLoop_exp a tl x hx
    rw [hxm]; exact hlt m hm

theorem mem_MulMonosRow (p : Poly) (e : Int) (qs : List (Poly × Int)) (x : Poly × Int) :
    x ∈ MulMonosRow p e qs ↔ ∃ n ∈ qs, x = (PolyMul p n.1, wrap32 (e + n.2)) := by
  induction qs with
  | nil => simp [MulMonosRow]
  | cons n tl ih =>
    obtain ⟨q, f⟩ := n
    rw [MulMonosRow, List.mem_cons, ih]
    simp

theorem mem_MulMonos (ps qs : List (Poly × Int)) (x : Poly × Int) :
    x ∈ MulMonos ps qs ↔
      ∃ m ∈ ps, ∃ n ∈ qs, x = (PolyMul m.1 n.1, wrap32 (m.2 + n.2)) := by
  induction ps with
  | nil => simp [MulMonos]
  | cons m tl ih =>
    obtain ⟨p, e⟩ := m
    rw [MulMonos, List.mem_append, ih, mem_MulMonosRow]
    simp

theorem MulMonosRowFits_iff (p : Poly) (e : Int) (qs : List (Poly × Int)) :
    MulMonosRowFits p e qs = true ↔
      ∀ n ∈ qs, (-INT_BOUND ≤ e + n.2 ∧ e + n.2 < INT_BOUND) ∧ MulExpFits p n.1 = true := by
  induction qs with
  | nil => simp [MulMonosRowFits]
  | cons n tl ih =>
    obtain ⟨q, f⟩ := n
    rw [MulMonosRowFits]
    simp [ih, and_assoc]

theorem MulMonosFits_iff (ps qs : List (Poly × Int)) :
    MulMonosFits ps qs = true ↔
      ∀ m ∈ ps, ∀ n ∈ qs,
        (-INT_BOUND ≤ m.2 + n.2 ∧ m.2 + n.2 < INT_BOUND) ∧ MulExpFits m.1 n.1 = true := by
  induction ps with
  | nil => simp [MulMonosFits]
  | cons m tl ih =>
    obtain ⟨p, e⟩ := m
    rw [MulMonosFits]
    simp [ih, MulMonosRowFits_iff]

theorem MulExpFits_sum_sum (ps qs : List (Poly × Int)) :
    MulExpFits (Poly.sum ps) (Poly.sum qs) = true ↔
      ∀ m ∈ ps, ∀ n ∈ qs,
        (-INT_BOUND ≤ m.2 + n.2 ∧ m.2 + n.2 < INT_BOUND) ∧ MulExpFits m.1 n.1 = true := by
  rw [MulExpFits, MulMonosFits_iff]

theorem MulExpFits_coeff_left (a : Int) (q : Poly) : MulExpFits (Poly.coeff a) q = true := by
  cases q <;> rw [MulExpFits]

theorem wrap32_of_fits {x : Int} (h : -INT_BOUND ≤ x ∧ x < INT_BOUND) : wrap32 x = x := by
  unfold INT_BOUND at h
  unfold wrap32
  omega

theorem PolyMul_canonical_aux : ∀ (n : Nat) (p q : Poly), p.size + q.size ≤ n →
    Canonical p → Canonical q → MulExpFits p q = true → Canonical (PolyMul p q) := by
  intro n
  induction n with
  | zero =>
    intro p q h
    have := size_pos p
    omega
  | succ n ih =>
    have hcs : ∀ (a : Int) (qs : List (Poly × Int)), 1 + (1 + monosSize qs) ≤ n + 1 →
        Canonical (Poly.sum qs) → Canonical (PolyMul (Poly.coeff a) (Poly.sum qs)) := by
      intro a qs hn hq
      by_cases ha : a = 0
      · rw [PolyMul, if_pos ha]; exact canonical_coeff 0
      · rw [PolyMul_coeff_sum a ha]
        have hqs := ((canonical_sum_iff qs).1 hq).2.1
        refine BuildPolyFromMonos_canonical (MulCoeffPolyLoop_ok a qs hqs ?_)
        intro m hm
        refine ih _ _ ?_ (canonical_coeff a) (hqs.1 m hm).1 (MulExpFits_coeff_left a _)
        have := size_lt_of_mem hm
        simp only [Poly.size]
        omega
    intro p q hn hp hq hfit
    cases p with
    | coeff a =>
      cases q with
      | coeff b => rw [PolyMul]; exact canonical_coeff _
      | sum qs => exact hcs a qs (by simpa only [Poly.size] using hn) hq
    | sum ps =>
      cases q with
      | coeff b =>
        rw [PolyMul_sum_coeff]
        refine hcs b ps ?_ hp
        simp only [Poly.size] at hn
        omega
      | sum qs =>
        rw [PolyMul_sum_sum]
        have hps := ((canonical_sum_iff ps).1 hp).2.1
        have hqs := ((canonical_sum_iff qs).1 hq).2.1
        rw [MulExpFits_sum_sum] at hfit
        refine PolyOwnMonos_canonical_of _ ?_
        intro x hx
        obtain ⟨m, hm, n', hn', rfl⟩ := (mem_MulMonos ps qs x).1 hx
        obtain ⟨hfe, hfp⟩ := hfit m hm n' hn'
        constructor
        · refine ih _ _ ?_ (hps.1 m hm).1 (hqs.1 n' hn').1 hfp
          have h1 := size_lt_of_mem hm
          have h2 := size_lt_of_mem hn'
          simp only [Poly.size] at hn
          omega
        · simp only
          rw [wrap32_of_fits hfe]
          exact add_nonneg (hps.1 m hm).2.2 (hqs.1 n' hn').2.2

/-- C2 (as stated, refuted). `x_0^2147483647` and `x_0` are canonical and hold values of
`long` and `int`, yet their product is the array `[(1, -2147483648)]`: the exponent
sum wrapped in `int`, and the result has a negative exponent. -/
theorem PolyMul_canonical_counterexample :
    Canonical (Poly.sum [(Poly.coeff 1, 2147483647)]) ∧
      InRange (Poly.sum [(Poly.coeff 1, 2147483647)]) ∧
      Canonical (Poly.sum [(Poly.coeff 1, 1)]) ∧ InRange (Poly.sum [(Poly.coeff 1, 1)]) ∧
      PolyMul (Poly.sum [(Poly.coeff 1, 2147483647)]) (Poly.sum [(Poly.coeff 1, 1)]) =
        Poly.sum [(Poly.coeff 1, -2147483648)] ∧
      ¬ Canonical
        (PolyMul (Poly.sum [(Poly.coeff 1, 2147483647)]) (Poly.sum [(Poly.coeff 1, 1)])) := by
  have h : PolyMul (Poly.sum [(Poly.coeff 1, 2147483647)]) (Poly.sum [(Poly.coeff 1, 1)]) =
      Poly.sum [(Poly.coeff 1, -2147483648)] := by
    simp [PolyMul, MulMonos, MulMonosRow, PolyOwnMonos, SortMonos, PolyOwnMonosSorted,
      OwnMonosLoop, MonoGetExp, List.insertionSort, List.orderedInsert, PolyIsZero,
      BuildPolyFromMonos, wrap32, wrap64, PolyFromCoeff]
  refine ⟨by decide, by decide, by decide, by decide, h, ?_⟩
  rw [h]
  decide

theorem PolyMul_canonical_of {p q : Poly} (hp : Canonical p) (hq : Canonical q)
    (hfit : MulExpFits p q = true) : Canonical (PolyMul p q) :=
  PolyMul_canonical_aux _ p q (le_refl _) hp hq hfit

/-- C2 (amended). For all canonical Polys `p` and `q` such that every exponent sum
`PolyMul` forms, at every nesting level, fits in `int`, `PolyMul p q` is canonical:
zero coefficients (also those produced by 64-bit wraparound) are dropped, like
exponents are combined, exponents stay `≥ 0` and strictly increasing, and a single
`(Scalar, 0)` monomial is returned as that Scalar. -/
theorem PolyMul_canonical (p q : Poly) (hp : Canonical p) (hq : Canonical q)
    (hfit : MulExpFits p q = true) : Canonical (PolyMul p q) :=
  PolyMul_canonical_aux _ p q (le_refl _) hp hq hfit

theorem PolyMul_canonical_witness :
    Canonical (Poly.sum [(Poly.coeff 4294967296, 1)]) ∧
      MulExpFits (Poly.sum [(Poly.coeff 4294967296, 1)])
        (Poly.sum [(Poly.coeff 4294967296, 1)]) = true ∧
      Canonical (PolyMul (Poly.sum [(Poly.coeff 4294967296, 1)])
        (Poly.sum [(Poly.coeff 4294967296, 1)])) :=
  ⟨by decide, by simp [MulExpFits, MulMonosFits, MulMonosRowFits, INT_BOUND],
    PolyMul_canonical _ _ (by decide) (by decide)
      (by simp [MulExpFits, MulMonosFits, MulMonosRowFits, INT_BOUND])⟩

/-! ## C5: `PolyAdd` is the sum of the denotations -/

theorem cast_two_pow : (18446744073709551616 : ZMod (2 ^ 64)) = 0 := by
  have h := ZMod.natCast_self (2 ^ 64)
  exact_mod_cast h

theorem wrap64_cast (x : Int) : ((wrap64 x : Int) : ZMod (2 ^ 64)) = (x : ZMod (2 ^ 64)) := by
  have h : wrap64 x = x - 18446744073709551616 * ((x + 9223372036854775808) / 18446744073709551616) := by
    unfold wrap64; omega
  rw [h]
  push_cast
  rw [cast_two_pow]
  ring

theorem den_coeff (c : Int) : den (Poly.coeff c) = MvPolynomial.C (c : ZMod (2 ^ 64)) := by
  rw [den]

theorem den_sum (arr : List (Poly × Int)) : den (Poly.sum arr) = denMonos arr := by
  rw [den]

theorem denMonos_nil : denMonos [] = 0 := by
  rw [denMonos]

theorem denMonos_cons (p : Poly) (e : Int) (tl : List (Poly × Int)) :
    denMonos ((p, e) :: tl) =
      MvPolynomial.X 0 ^ e.toNat * MvPolynomial.rename Nat.succ (den p) + denMonos tl := by
  rw [denMonos]

theorem den_zero_of_isZero {p : Poly} (h : PolyIsZero p = true) : den p = 0 := by
  rw [(PolyIsZero_iff p).1 h, den_coeff]; simp

theorem denMonos_keepMono (m : Mono) (out : List Mono) :
    denMonos (keepMono m out) =
      MvPolynomial.X 0 ^ m.2.toNat * MvPolynomial.rename Nat.succ (den m.1) + denMonos out := by
  unfold keepMono
  split_ifs with h
  · rw [den_zero_of_isZero h]; simp
  · obtain ⟨p, e⟩ := m
    rw [denMonos_cons]

theorem den_BuildPolyFromMonos (l : List Mono) : den (BuildPolyFromMonos l) = denMonos l := by
  rcases BuildPolyFromMonos_cases l with ⟨h1, h2⟩ | ⟨c, h1, h2⟩ | ⟨-, -, h2⟩
  · rw [h2, h1, den_coeff, denMonos_nil]; simp
  · rw [h2, h1, den_coeff, denMonos_cons, denMonos_nil, den_coeff]; simp
  · rw [h2, den_sum]

theorem denMonos_SumPolyPolyLoop (ps qs : List (Poly × Int)) :
    (∀ m ∈ ps, ∀ n ∈ qs, den (PolyAdd m.1 n.1) = den m.1 + den n.1) →
      denMonos (SumPolyPolyLoop ps qs) = denMonos ps + denMonos qs := by
  refine merge_induction (P := fun ps qs =>
    (∀ m ∈ ps, ∀ n ∈ qs, den (PolyAdd m.1 n.1) = den m.1 + den n.1) →
      denMonos (SumPolyPolyLoop ps qs) = denMonos ps + denMonos qs) ?_ ?_ ?_ ?_ ps qs
  · intro _
    rw [SumPolyPolyLoop, denMonos_nil]; simp
  · intro p e ps ih hadd
    rw [SumPolyPolyLoop, denMonos_keepMono, PolyClone_eq, ih (fun m _ n hn => by cases hn),
      denMonos_cons, denMonos_nil]
    ring
  · intro q f qs ih hadd
    rw [SumPolyPolyLoop, denMonos_keepMono, PolyClone_eq, ih (fun m hm => by cases hm),
      denMonos_cons, denMonos_nil]
    ring
  · intro p e ps q f qs ih1 ih2 ih3 hadd
    rw [SumPolyPolyLoop]
    split_ifs with h1 h2
    · rw [denMonos_keepMono, PolyClone_eq,
        ih1 h1 (fun m hm n hn => hadd m (List.mem_cons_of_mem _ hm) n hn)]
      simp only [denMonos_cons]
      ring
    · rw [denMonos_keepMono, PolyClone_eq,
        ih2 h1 h2 (fun m hm n hn => hadd m hm n (List.mem_cons_of_mem _ hn))]
      simp only [denMonos_cons]
      ring
    · have hef : e = f := le_antisymm (not_lt.1 h2) (not_lt.1 h1)
      rw [denMonos_keepMono, hadd _ (List.mem_cons_self _ _) _ (List.mem_cons_self _ _),
        ih3 h1 h2 (fun m hm n hn =>
          hadd m (List.mem_cons_of_mem _ hm) n (List.mem_cons_of_mem _ hn))]
      simp only [denMonos_cons, map_add, hef]
      ring

theorem den_PolyAdd_coeff_sum (a : Int) (qs : List (Poly × Int))
    (ih : ∀ m ∈ qs, den (PolyAdd (Poly.coeff a) m.1) = den (Poly.coeff a) + den m.1) :
    den (PolyAdd (Poly.coeff a) (Poly.sum qs)) = den (Poly.coeff a) + den (Poly.sum qs) := by
  by_cases ha : a = 0
  · subst ha; rw [PolyAdd_zero_sum, den_coeff]; simp
  cases qs with
  | nil =>
    rw [PolyAdd, if_neg ha, SumConstPoly, den_sum, den_sum, denMonos_cons, denMonos_nil,
      PolyFromCoeff, den_coeff]
    simp
  | cons m tl =>
    obtain ⟨q0, e0⟩ := m
    have h0 := ih _ (List.mem_cons_self _ _)
    simp only [den_coeff] at h0
    rw [PolyAdd_coeff_sum_cons a ha]
    split_ifs with h1 h2
    · simp only [den_sum, denMonos_cons, den_coeff]
      simp
    · have he0 : e0 = 0 := not_not.1 h1
      have hz := den_zero_of_isZero h2
      rw [h0] at hz
      have hz2 := congrArg (MvPolynomial.rename Nat.succ) hz
      simp only [map_add, MvPolynomial.rename_C, map_zero] at hz2
      simp only [den_sum, denMonos_cons, den_coeff, he0]
      simp only [Int.toNat_zero, pow_zero, one_mul]
      rw [← add_assoc, hz2, zero_add]
    · have he0 : e0 = 0 := not_not.1 h1
      simp only [den_sum, denMonos_cons, den_coeff, he0, h0]
      simp only [Int.toNat_zero, pow_zero, one_mul, map_add, MvPolynomial.rename_C]
      ring

theorem den_PolyAdd_aux : ∀ (n : Nat) (p q : Poly), p.size + q.size ≤ n →
    den (PolyAdd p q) = den p + den q := by
  intro n
  induction n with
  | zero =>
    intro p q h
    have := size_pos p
    omega
  | succ n ih =>
    intro p q hn
    cases p with
    | coeff a =>
      cases q with
      | coeff b =>
        rw [PolyAdd, PolyFromCoeff, den_coeff, den_coeff, den_coeff, wrap64_cast]
        simp
      | sum qs =>
        refine den_PolyAdd_coeff_sum a qs (fun m hm => ih _ _ ?_)
        have := size_lt_of_mem hm
        simp only [Poly.size] at hn ⊢
        omega
    | sum ps =>
      cases q with
      | coeff b =>
        rw [PolyAdd_sum_coeff, add_comm]
        refine den_PolyAdd_coeff_sum b ps (fun m hm => ih _ _ ?_)
        have := size_lt_of_mem hm
        simp only [Poly.size] at hn ⊢
        omega
      | sum qs =>
        rw [PolyAdd_sum_sum, den_BuildPolyFromMonos, den_sum, den_sum]
        refine denMonos_SumPolyPolyLoop ps qs ?_
        intro m hm n' hn'
        refine ih _ _ ?_
        have h1 := size_lt_of_mem hm
        have h2 := size_lt_of_mem hn'
        simp only [Poly.size] at hn
        omega

theorem den_PolyAdd (p q : Poly) : den (PolyAdd p q) = den p + den q :=
  den_PolyAdd_aux _ p q (le_refl _)

/-- C5. `PolyAdd` computes the polynomial sum: with `den` the denotation of a
`Poly` as a formal polynomial in `x_0, x_1, ...` over the integers modulo `2^64`,
the denotation of `PolyAdd p q` is the denotation of `p` plus the denotation of
`q`, for all canonical `p` and `q`. -/
theorem PolyAdd_den (p q : Poly) (hp : Canonical p) (hq : Canonical q) :
    den (PolyAdd p q) = den p + den q :=
  den_PolyAdd p q

theorem PolyAdd_den_witness :
    Canonical (Poly.sum [(Poly.coeff 1, 0), (Poly.coeff 2, 3)]) ∧
      Canonical (Poly.sum [(Poly.coeff (-1), 0), (Poly.coeff 5, 7)]) ∧
      den (PolyAdd (Poly.sum [(Poly.coeff 1, 0), (Poly.coeff 2, 3)])
        (Poly.sum [(Poly.coeff (-1), 0), (Poly.coeff 5, 7)])) =
        den (Poly.sum [(Poly.coeff 1, 0), (Poly.coeff 2, 3)]) +
          den (Poly.sum [(Poly.coeff (-1), 0), (Poly.coeff 5, 7)]) :=
  ⟨by decide, by decide, PolyAdd_den _ _ (by decide) (by decide)⟩

/-! ## C6: `PolyMul` is the product of the denotations -/

theorem denMonos_eq_sum (l : List Mono) : denMonos l = (l.map monoDen).sum := by
  induction l with
  | nil => rw [denMonos_nil]; rfl
  | cons m tl ih =>
    obtain ⟨p, e⟩ := m
    rw [denMonos_cons, ih, List.map_cons, List.sum_cons, monoDen]

theorem denMonos_perm {l1 l2 : List Mono} (h : List.Perm l1 l2) : denMonos l1 = denMonos l2 := by
  rw [denMonos_eq_sum, denMonos_eq_sum]
  exact (h.map monoDen).sum_eq

theorem denMonos_append (l1 l2 : List Mono) :
    denMonos (l1 ++ l2) = denMonos l1 + denMonos l2 := by
  simp only [denMonos_eq_sum, List.map_append, List.sum_append]

theorem denMonos_OwnMonosLoop (rest : List Mono) :
    ∀ cur : Mono, denMonos (OwnMonosLoop [] cur rest) = denMonos (cur :: rest) := by
  induction rest with
  | nil =>
    intro cur
    obtain ⟨p, e⟩ := cur
    simp only [OwnMonosLoop]
    split_ifs with hz
    · rw [denMonos_cons, den_zero_of_isZero hz, denMonos_nil]; simp
    · simp
  | cons m rest ih =>
    intro cur
    obtain ⟨p, e⟩ := cur
    obtain ⟨q, f⟩ := m
    simp only [OwnMonosLoop, MonoGetExp]
    split_ifs with h1 h2
    · rw [ih]
      simp only [denMonos_cons, den_PolyAdd, map_add, h1]
      ring
    · rw [OwnMonosLoop_append, denMonos_append, ih]
      simp only [List.nil_append, denMonos_cons, denMonos_nil]
      ring
    · have hz : PolyIsZero p = true := by simpa using h2
      rw [ih]
      simp only [denMonos_cons, den_zero_of_isZero hz]
      simp

theorem den_PolyOwnMonosSorted (s : List Mono) : den (PolyOwnMonosSorted s) = denMonos s := by
  cases s with
  | nil => rw [PolyOwnMonosSorted, PolyZero, PolyFromCoeff, den_coeff, denMonos_nil]; simp
  | cons m rest => rw [PolyOwnMonosSorted, den_BuildPolyFromMonos, denMonos_OwnMonosLoop]

theorem den_PolyOwnMonos (monos : List Mono) : den (PolyOwnMonos monos) = denMonos monos := by
  unfold PolyOwnMonos
  split_ifs with h
  · rw [List.length_eq_zero.1 h, PolyZero, PolyFromCoeff, den_coeff, denMonos_nil]; simp
  · rw [den_PolyOwnMonosSorted]
    exact denMonos_perm (SortMonos_isSortOf monos).1

theorem denMonos_MulCoeffPolyLoop (a : Int) (qs : List (Poly × Int))
    (ih : ∀ m ∈ qs, den (PolyMul (Poly.coeff a) m.1) = den (Poly.coeff a) * den m.1) :
    denMonos (MulCoeffPolyLoop a qs) = den (Poly.coeff a) * denMonos qs := by
  induction qs with
  | nil => rw [MulCoeffPolyLoop, denMonos_nil]; simp
  | cons m tl ihl =>
    obtain ⟨q, e⟩ := m
    rw [MulCoeffPolyLoop_cons, denMonos_keepMono, ih _ (List.mem_cons_self _ _),
      ihl (fun m hm => ih m (List.mem_cons_of_mem _ hm)), denMonos_cons]
    simp only [den_coeff, map_mul, MvPolynomial.rename_C]
    ring

theorem denMonos_MulMonosRow (p : Poly) (e : Int) (he : 0 ≤ e) (qs : List (Poly × Int))
    (ih : ∀ n ∈ qs, den (PolyMul p n.1) = den p * den n.1)
    (hfit : ∀ n ∈ qs, (-INT_BOUND ≤ e + n.2 ∧ e + n.2 < INT_BOUND) ∧ 0 ≤ n.2) :
    denMonos (MulMonosRow p e qs) = monoDen (p, e) * denMonos qs := by
  induction qs with
  | nil => rw [MulMonosRow, denMonos_nil]; simp
  | cons n tl ihl =>
    obtain ⟨q, f⟩ := n
    obtain ⟨hf1, hf2⟩ := hfit _ (List.mem_cons_self _ _)
    rw [MulMonosRow, denMonos_cons, ih _ (List.mem_cons_self _ _),
      ihl (fun m hm => ih m (List.mem_cons_of_mem _ hm))
        (fun m hm => hfit m (List.mem_cons_of_mem _ hm)), denMonos_cons, wrap32_of_fits hf1,
      Int.toNat_add he hf2]
    simp only [monoDen, map_mul, pow_add]
    ring

theorem denMonos_MulMonos (ps qs : List (Poly × Int))
    (ih : ∀ m ∈ ps, ∀ n ∈ qs, den (PolyMul m.1 n.1) = den m.1 * den n.1)
    (hfit : ∀ m ∈ ps, ∀ n ∈ qs, (-INT_BOUND ≤ m.2 + n.2 ∧ m.2 + n.2 < INT_BOUND))
    (hps : ∀ m ∈ ps, 0 ≤ m.2) (hqs : ∀ n ∈ qs, 0 ≤ n.2) :
    denMonos (MulMonos ps qs) = denMonos ps * denMonos qs := by
  induction ps with
  | nil => rw [MulMonos, denMonos_nil]; simp
  | cons m tl ihl =>
    obtain ⟨p, e⟩ := m
    rw [MulMonos, denMonos_append,
      denMonos_MulMonosRow p e (hps _ (List.mem_cons_self _ _)) qs
        (fun n hn => ih _ (List.mem_cons_self _ _) n hn)
        (fun n hn => ⟨hfit _ (List.mem_cons_self _ _) n hn, hqs n hn⟩),
      ihl (fun m hm => ih m (List.mem_cons_of_mem _ hm))
        (fun m hm => hfit m (List.mem_cons_of_mem _ hm))
        (fun m hm => hps m (List.mem_cons_of_mem _ hm)), denMonos_cons, monoDen]
    ring

theorem den_PolyMul_coeff_sum (a : Int) (qs : List (Poly × Int))
    (ih : ∀ m ∈ qs, den (PolyMul (Poly.coeff a) m.1) = den (Poly.coeff a) * den m.1) :
    den (PolyMul (Poly.coeff a) (Poly.sum qs)) = den (Poly.coeff a) * den (Poly.sum qs) := by
  by_cases ha : a = 0
  · rw [PolyMul, if_pos ha, ha, PolyZero, PolyFromCoeff, den_coeff]; simp
  · rw [PolyMul_coeff_sum a ha, den_BuildPolyFromMonos, denMonos_MulCoeffPolyLoop a qs ih,
      den_sum]

theorem den_PolyMul_aux : ∀ (n : Nat) (p q : Poly), p.size + q.size ≤ n →
    Canonical p → Canonical q → MulExpFits p q = true → den (PolyMul p q) = den p * den q := by
  intro n
  induction n with
  | zero =>
    intro p q h
    have := size_pos p
    omega
  | succ n ih =>
    have hcs : ∀ (a : Int) (qs : List (Poly × Int)), 1 + (1 + monosSize qs) ≤ n + 1 →
        Canonical (Poly.sum qs) →
        den (PolyMul (Poly.coeff a) (Poly.sum qs)) = den (Poly.coeff a) * den (Poly.sum qs) := by
      intro a qs hn hq
      have hqs := ((canonical_sum_iff qs).1 hq).2.1
      refine den_PolyMul_coeff_sum a qs (fun m hm => ?_)
      refine ih _ _ ?_ (canonical_coeff a) (hqs.1 m hm).1 (MulExpFits_coeff_left a _)
      have := size_lt_of_mem hm
      simp only [Poly.size]
      omega
    intro p q hn hp hq hfit
    cases p with
    | coeff a =>
      cases q with
      | coeff b =>
        rw [PolyMul, PolyFromCoeff, den_coeff, den_coeff, den_coeff, wrap64_cast]
        simp
      | sum qs => exact hcs a qs (by simpa only [Poly.size] using hn) hq
    | sum ps =>
      cases q with
      | coeff b =>
        rw [PolyMul_sum_coeff, mul_comm]
        refine hcs b ps ?_ hp
        simp only [Poly.size] at hn
        omega
      | sum qs =>
        have hps := ((canonical_sum_iff ps).1 hp).2.1
        have hqs := ((canonical_sum_iff qs).1 hq).2.1
        rw [MulExpFits_sum_sum] at hfit
        rw [PolyMul_sum_sum, den_PolyOwnMonos, den_sum, den_sum]
        refine denMonos_MulMonos ps qs ?_ (fun m hm n' hn' => (hfit m hm n' hn').1)
          (fun m hm => (hps.1 m hm).2.2) (fun m hm => (hqs.1 m hm).2.2)
        intro m hm n' hn'
        refine ih _ _ ?_ (hps.1 m hm).1 (hqs.1 n' hn').1 (hfit m hm n' hn').2
        have h1 := size_lt_of_mem hm
        have h2 := size_lt_of_mem hn'
        simp only [Poly.size] at hn
        omega

/-- C6. `PolyMul` computes the polynomial product: the denotation of `PolyMul p q`
is the product of the denotations of `p` and `q`, for all canonical `p` and `q` for
which every exponent sum `p.e + q.e` that is formed (at every nesting level) fits in
the `int` exponent type. -/
theorem PolyMul_den (p q : Poly) (hp : Canonical p) (hq : Canonical q)
    (hfit : MulExpFits p q = true) : den (PolyMul p q) = den p * den q :=
  den_PolyMul_aux _ p q (le_refl _) hp hq hfit

theorem PolyMul_den_witness :
    Canonical (Poly.sum [(Poly.coeff 1, 0), (Poly.coeff 2, 3)]) ∧
      MulExpFits (Poly.sum [(Poly.coeff 1, 0), (Poly.coeff 2, 3)])
        (Poly.sum [(Poly.coeff 1, 0), (Poly.coeff 2, 3)]) = true ∧
      den (PolyMul (Poly.sum [(Poly.coeff 1, 0), (Poly.coeff 2, 3)])
        (Poly.sum [(Poly.coeff 1, 0), (Poly.coeff 2, 3)])) =
        den (Poly.sum [(Poly.coeff 1, 0), (Poly.coeff 2, 3)]) *
          den (Poly.sum [(Poly.coeff 1, 0), (Poly.coeff 2, 3)]) :=
  ⟨by decide, by simp [MulExpFits, MulMonosFits, MulMonosRowFits, INT_BOUND],
    PolyMul_den _ _ (by decide) (by decide)
      (by simp [MulExpFits, MulMonosFits, MulMonosRowFits, INT_BOUND])⟩

/-! ## C8: `PolyIsEq` decides equality of the denotations -/

theorem MonosIsEq_iff (ps : List (Poly × Int)) :
    ∀ qs : List (Poly × Int), ps.length = qs.length →
      (∀ m ∈ ps, ∀ q : Poly, PolyIsEq m.1 q = true ↔ m.1 = q) →
      (MonosIsEq ps qs = true ↔ ps = qs) := by
  induction ps with
  | nil =>
    intro qs hl _
    cases qs with
    | nil => simp [MonosIsEq]
    | cons n qs => cases hl
  | cons m ps ih =>
    intro qs hl hm
    cases qs with
    | nil => cases hl
    | cons n qs =>
      obtain ⟨p, e⟩ := m
      obtain ⟨q, f⟩ := n
      have hl2 : ps.length = qs.length := by simpa using hl
      have h1 := hm (p, e) (List.mem_cons_self _ _) q
      have h2 := ih qs hl2 (fun m hm' => hm m (List.mem_cons_of_mem _ hm'))
      rw [MonosIsEq]
      by_cases hef : e = f
      · by_cases hpq : PolyIsEq p q = true
        · have hpq2 : p = q := h1.1 hpq
          subst hef
          subst hpq2
          simp [hpq, h2]
        · have hne : p ≠ q := fun h => hpq (h1.2 h)
          simp [hef, hpq, hne]
      · simp [hef]

theorem PolyIsEq_iff_aux : ∀ (n : Nat) (p q : Poly), p.size ≤ n →
    (PolyIsEq p q = true ↔ p = q) := by
  intro n
  induction n with
  | zero =>
    intro p q h
    have := size_pos p
    omega
  | succ n ih =>
    intro p q hn
    cases p with
    | coeff a =>
      cases q with
      | coeff b => simp [PolyIsEq]
      | sum qs => simp [PolyIsEq]
    | sum ps =>
      cases q with
      | coeff b => simp [PolyIsEq]
      | sum qs =>
        rw [PolyIsEq]
        by_cases hl : ps.length = qs.length
        · rw [if_neg (not_not.2 hl), MonosIsEq_iff ps qs hl]
          · simp
          · intro m hm q
            refine ih _ _ ?_
            have := size_lt_of_mem hm
            simp only [Poly.size] at hn
            omega
        · rw [if_pos hl]
          simp only [Bool.false_eq_true, false_iff]
          intro h
          injection h with h
          exact hl (by rw [h])

/-- The function `PolyIsEq` is the structural equality of two polynomials. -/
theorem PolyIsEq_iff (p q : Poly) : PolyIsEq p q = true ↔ p = q :=
  PolyIsEq_iff_aux _ p q (le_refl _)

theorem splitX0_X0 : splitX0 (MvPolynomial.X 0) = Polynomial.X := by
  simp [splitX0]

theorem splitX0_rename (g : MvPolynomial ℕ (ZMod (2 ^ 64))) :
    splitX0 (MvPolynomial.rename Nat.succ g) = Polynomial.C g := by
  have h : (splitX0.comp (MvPolynomial.rename Nat.succ)) =
      (Polynomial.CAlgHom : MvPolynomial ℕ (ZMod (2 ^ 64)) →ₐ[ZMod (2 ^ 64)] _) := by
    apply MvPolynomial.algHom_ext
    intro i
    simp [splitX0]
  have := congrArg (fun φ => φ g) h
  simpa using this

theorem splitX0_monoDen (m : Mono) :
    splitX0 (monoDen m) = Polynomial.monomial m.2.toNat (den m.1) := by
  rw [monoDen, map_mul, map_pow, splitX0_X0, splitX0_rename, mul_comm,
    Polynomial.C_mul_X_pow_eq_monomial]

theorem coeff_splitX0_denMonos (l : List Mono) (k : ℕ) :
    Polynomial.coeff (splitX0 (denMonos l)) k =
      (l.map (fun m : Mono => if m.2.toNat = k then den m.1 else 0)).sum := by
  induction l with
  | nil => simp [denMonos_nil]
  | cons m tl ih =>
    obtain ⟨p, e⟩ := m
    rw [denMonos_cons, map_add, Polynomial.coeff_add, ih, List.map_cons, List.sum_cons]
    have := splitX0_monoDen (p, e)
    rw [monoDen] at this
    rw [this, Polynomial.coeff_monomial]

theorem coeff_splitX0_denMonos_zero (l : List Mono) (k : ℕ) (h : ∀ m ∈ l, m.2.toNat ≠ k) :
    Polynomial.coeff (splitX0 (denMonos l)) k = 0 := by
  rw [coeff_splitX0_denMonos]
  apply List.sum_eq_zero
  intro x hx
  obtain ⟨m, hm, rfl⟩ := List.mem_map.1 hx
  simp [h m hm]

theorem coeff_splitX0_denMonos_head (p : Poly) (e : Int) (tl : List Mono)
    (h : ∀ m ∈ tl, m.2.toNat ≠ e.toNat) :
    Polynomial.coeff (splitX0 (denMonos ((p, e) :: tl))) e.toNat = den p := by
  rw [coeff_splitX0_denMonos, List.map_cons, List.sum_cons, ← coeff_splitX0_denMonos,
    coeff_splitX0_denMonos_zero tl _ h]
  simp

theorem intCast_inj_of_range {a b : Int} (ha : -LONG_BOUND ≤ a ∧ a < LONG_BOUND)
    (hb : -LONG_BOUND ≤ b ∧ b < LONG_BOUND) (h : (a : ZMod (2 ^ 64)) = (b : ZMod (2 ^ 64))) :
    a = b := by
  have h2 := (ZMod.intCast_eq_intCast_iff_dvd_sub a b (2 ^ 64)).1 h
  have h3 : (18446744073709551616 : Int) ∣ b - a := by
    have h4 : ((2 ^ 64 : ℕ) : Int) = 18446744073709551616 := by norm_num
    rw [← h4]; exact h2
  unfold LONG_BOUND at ha hb
  omega

theorem inRange_coeff_iff (c : Int) :
    InRange (Poly.coeff c) ↔ -LONG_BOUND ≤ c ∧ c < LONG_BOUND := by
  simp [InRange, Poly.inRange]

theorem monosInRange_iff (arr : List (Poly × Int)) :
    monosInRange arr = true ↔
      ∀ m ∈ arr, InRange m.1 ∧ (-INT_BOUND ≤ m.2 ∧ m.2 < INT_BOUND) := by
  induction arr with
  | nil => simp [monosInRange]
  | cons x tl ih =>
    obtain ⟨p, e⟩ := x
    simp [monosInRange, ih, InRange, and_assoc]

theorem inRange_sum_iff (arr : List (Poly × Int)) :
    InRange (Poly.sum arr) ↔
      ∀ m ∈ arr, InRange m.1 ∧ (-INT_BOUND ≤ m.2 ∧ m.2 < INT_BOUND) := by
  rw [← monosInRange_iff]
  simp [InRange, Poly.inRange]

theorem denMonos_inj (ps : List Mono) :
    ∀ qs : List Mono, MonosOK ps → MonosOK qs →
      (∀ m ∈ ps, den m.1 ≠ 0) → (∀ n ∈ qs, den n.1 ≠ 0) →
      (∀ m ∈ ps, ∀ n ∈ qs, den m.1 = den n.1 → m.1 = n.1) →
      denMonos ps = denMonos qs → ps = qs := by
  induction ps with
  | nil =>
    intro qs _ hqs _ hq0 _ H
    cases qs with
    | nil => rfl
    | cons n tl =>
      exfalso
      obtain ⟨q, f⟩ := n
      obtain ⟨⟨-, -, hf⟩, hlt, -⟩ := MonosOK_cons.1 hqs
      have h1 := coeff_splitX0_denMonos_head q f tl (fun m hm => by
        have := hlt m hm
        simp only at this
        omega)
      rw [← H, denMonos_nil] at h1
      simp only [map_zero, Polynomial.coeff_zero] at h1
      exact hq0 _ (List.mem_cons_self _ _) h1.symm
  | cons m ps ih =>
    intro qs hps hqs hp0 hq0 hinj H
    obtain ⟨p, e⟩ := m
    obtain ⟨⟨-, -, he⟩, hplt, hptl⟩ := MonosOK_cons.1 hps
    have hP := coeff_splitX0_denMonos_head p e ps (fun m hm => by
      have := hplt m hm
      simp only at this
      omega)
    cases qs with
    | nil =>
      exfalso
      rw [H, denMonos_nil] at hP
      simp only [map_zero, Polynomial.coeff_zero] at hP
      exact hp0 _ (List.mem_cons_self _ _) hP.symm
    | cons n qs =>
      obtain ⟨q, f⟩ := n
      obtain ⟨⟨-, -, hf⟩, hqlt, hqtl⟩ := MonosOK_cons.1 hqs
      have hQ := coeff_splitX0_denMonos_head q f qs (fun m hm => by
        have := hqlt m hm
        simp only at this
        omega)
      rcases lt_trichotomy e f with hef | hef | hef
      · exfalso
        have hz := coeff_splitX0_denMonos_zero ((q, f) :: qs) e.toNat (fun m hm => by
          rcases List.mem_cons.1 hm with rfl | hm
          · simp only; omega
          · have := hqlt m hm
            simp only at this
            omega)
        rw [← H, hP] at hz
        exact hp0 _ (List.mem_cons_self _ _) hz
      · subst hef
        rw [H, hQ] at hP
        have hpq : p = q := (hinj _ (List.mem_cons_self _ _) _ (List.mem_cons_self _ _) hP.symm)
        subst hpq
        rw [denMonos_cons, denMonos_cons] at H
        have H2 := add_left_cancel H
        rw [ih qs hptl hqtl (fun m hm => hp0 m (List.mem_cons_of_mem _ hm))
          (fun m hm => hq0 m (List.mem_cons_of_mem _ hm))
          (fun m hm n hn => hinj m (List.mem_cons_of_mem _ hm) n (List.mem_cons_of_mem _ hn)) H2]
      · exfalso
        have hz := coeff_splitX0_denMonos_zero ((p, e) :: ps) f.toNat (fun m hm => by
          rcases List.mem_cons.1 hm with rfl | hm
          · simp only; omega
          · have := hplt m hm
            simp only at this
            omega)
        rw [H, hQ] at hz
        exact hq0 _ (List.mem_cons_self _ _) hz

theorem den_coeff_ne_zero {a : Int} (ha : InRange (Poly.coeff a)) (h0 : a ≠ 0) :
    den (Poly.coeff a) ≠ 0 := by
  intro h
  rw [den_coeff, ← MvPolynomial.C_0] at h
  have h2 := MvPolynomial.C_injective _ _ h
  have h3 : (a : ZMod (2 ^ 64)) = ((0 : Int) : ZMod (2 ^ 64)) := by simpa using h2
  exact h0 (intCast_inj_of_range ((inRange_coeff_iff a).1 ha) (by decide) h3)

theorem den_inj_aux : ∀ (n : Nat) (p q : Poly), p.size + q.size ≤ n →
    Canonical p → Canonical q → InRange p → InRange q → den p = den q → p = q := by
  intro n
  induction n with
  | zero =>
    intro p q h
    have := size_pos p
    omega
  | succ n ih =>
    -- a canonical monomial coefficient of a polynomial of size at most `n` is not zero
    have hne : ∀ (arr : List (Poly × Int)), monosSize arr + 1 ≤ n → MonosOK arr →
        InRange (Poly.sum arr) → ∀ m ∈ arr, den m.1 ≠ 0 := by
      intro arr hn hok hr m hm h0
      have hm1 := hok.1 m hm
      have hm2 := (inRange_sum_iff arr).1 hr m hm
      have : m.1 = Poly.coeff 0 := by
        refine ih _ _ ?_ hm1.1 (canonical_coeff 0) hm2.1 (by decide) ?_
        · have := size_lt_of_mem hm
          simp only [Poly.size]
          omega
        · rw [h0, den_coeff]; simp
      rw [this] at hm1
      simp [PolyIsZero] at hm1
    -- a constant and an array never denote the same polynomial
    have hcs : ∀ (a : Int) (qs : List (Poly × Int)), 1 + (1 + monosSize qs) ≤ n + 1 →
        Canonical (Poly.sum qs) → InRange (Poly.coeff a) → InRange (Poly.sum qs) →
        den (Poly.coeff a) = den (Poly.sum qs) → False := by
      intro a qs hn hq hra hrq H
      obtain ⟨hnil, hok, hlone⟩ := (canonical_sum_iff qs).1 hq
      have hq0 := hne qs (by omega) hok hrq
      by_cases ha : a = 0
      · have H2 : denMonos [] = denMonos qs := by
          rw [denMonos_nil, ← den_sum, ← H, ha, den_coeff]; simp
        exact hnil (denMonos_inj [] qs MonosOK_nil hok (fun m hm => by cases hm) hq0
          (fun m hm => by cases hm) H2).symm
      · have H2 : denMonos [(Poly.coeff a, 0)] = denMonos qs := by
          rw [← den_sum qs, ← H, denMonos_cons, denMonos_nil, den_coeff]; simp
        have hok1 : MonosOK [(Poly.coeff a, 0)] :=
          MonosOK_cons.2 ⟨⟨canonical_coeff a, by simp [PolyIsZero, ha], le_refl _⟩,
            (fun x hx => by cases hx), MonosOK_nil⟩
        have h3 := denMonos_inj [(Poly.coeff a, 0)] qs hok1 hok
          (fun m hm => by
            rw [List.mem_singleton.1 hm]
            exact den_coeff_ne_zero hra ha) hq0
          (fun m hm n' hn' hd => by
            rw [List.mem_singleton.1 hm] at hd ⊢
            refine ih _ _ ?_ (canonical_coeff a) (hok.1 n' hn').1 hra
              ((inRange_sum_iff qs).1 hrq n' hn').1 hd
            have := size_lt_of_mem hn'
            simp only [Poly.size]
            omega) H2
        rw [← h3] at hlone
        simp [IsLoneConst] at hlone
    intro p q hn hp hq hrp hrq H
    cases p with
    | coeff a =>
      cases q with
      | coeff b =>
        rw [den_coeff, den_coeff] at H
        have h2 := MvPolynomial.C_injective _ _ H
        rw [intCast_inj_of_range ((inRange_coeff_iff a).1 hrp) ((inRange_coeff_iff b).1 hrq) h2]
      | sum qs =>
        exact (hcs a qs (by simpa only [Poly.size] using hn) hq hrp hrq H).elim
    | sum ps =>
      cases q with
      | coeff b =>
        refine (hcs b ps ?_ hp hrq hrp H.symm).elim
        simp only [Poly.size] at hn
        omega
      | sum qs =>
        simp only [Poly.size] at hn
        have hps := ((canonical_sum_iff ps).1 hp).2.1
        have hqs := ((canonical_sum_iff qs).1 hq).2.1
        rw [den_sum, den_sum] at H
        rw [denMonos_inj ps qs hps hqs (hne ps (by omega) hps hrp) (hne qs (by omega) hqs hrq)
          (fun m hm n' hn' hd => by
            refine ih _ _ ?_ (hps.1 m hm).1 (hqs.1 n' hn').1
              ((inRange_sum_iff ps).1 hrp m hm).1 ((inRange_sum_iff qs).1 hrq n' hn').1 hd
            have h1 := size_lt_of_mem hm
            have h2 := size_lt_of_mem hn'
            omega) H]

/-- The canonical form of a polynomial is unique: two canonical polynomials holding
values of `long` and `int` that denote the same formal polynomial are equal. -/
theorem den_inj {p q : Poly} (hp : Canonical p) (hq : Canonical q) (hrp : InRange p)
    (hrq : InRange q) (h : den p = den q) : p = q :=
  den_inj_aux _ p q (le_refl _) hp hq hrp hrq h

/-- C8. `PolyIsEq` decides polynomial equality on canonical inputs: for all canonical
`p` and `q` (holding values of `long` and `int`), `PolyIsEq p q` is true if and only
if `p` and `q` denote the same formal polynomial over the integers modulo `2^64`. -/
theorem PolyIsEq_iff_den (p q : Poly) (hp : Canonical p) (hq : Canonical q)
    (hrp : InRange p) (hrq : InRange q) : PolyIsEq p q = true ↔ den p = den q := by
  rw [PolyIsEq_iff]
  exact ⟨fun h => by rw [h], den_inj hp hq hrp hrq⟩

theorem PolyIsEq_iff_den_witness :
    Canonical (Poly.sum [(Poly.coeff 1, 0), (Poly.coeff 2, 3)]) ∧
      InRange (Poly.sum [(Poly.coeff 1, 0), (Poly.coeff 2, 3)]) ∧
      Canonical (Poly.coeff 5) ∧ InRange (Poly.coeff 5) ∧
      (PolyIsEq (Poly.sum [(Poly.coeff 1, 0), (Poly.coeff 2, 3)]) (Poly.coeff 5) = true ↔
        den (Poly.sum [(Poly.coeff 1, 0), (Poly.coeff 2, 3)]) = den (Poly.coeff 5)) :=
  ⟨by decide, by decide, by decide, by decide,
    PolyIsEq_iff_den _ _ (by decide) (by decide) (by decide) (by decide)⟩

/-! ## C10: `PolyAdd` is commutative -/

theorem SumPolyPolyLoop_comm (ps qs : List (Poly × Int)) :
    (∀ m ∈ ps, ∀ n ∈ qs, PolyAdd m.1 n.1 = PolyAdd n.1 m.1) →
      SumPolyPolyLoop ps qs = SumPolyPolyLoop qs ps := by
  refine merge_induction (P := fun ps qs =>
    (∀ m ∈ ps, ∀ n ∈ qs, PolyAdd m.1 n.1 = PolyAdd n.1 m.1) →
      SumPolyPolyLoop ps qs = SumPolyPolyLoop qs ps) ?_ ?_ ?_ ?_ ps qs
  · intro _; rfl
  · intro p e ps ih _
    rw [SumPolyPolyLoop.eq_2, SumPolyPolyLoop.eq_3, ih (fun m _ n hn => by cases hn)]
  · intro q f qs ih _
    rw [SumPolyPolyLoop.eq_3, SumPolyPolyLoop.eq_2, ih (fun m hm => by cases hm)]
  · intro p e ps q f qs ih1 ih2 ih3 hadd
    rw [SumPolyPolyLoop.eq_4 p e ps q f qs, SumPolyPolyLoop.eq_4 q f qs p e ps]
    simp only [gt_iff_lt]
    rcases lt_trichotomy e f with hef | hef | hef
    · have h1 := ih1 hef (fun m hm n hn => hadd m (List.mem_cons_of_mem _ hm) n hn)
      have h2 : ¬ f < e := not_lt.2 (le_of_lt hef)
      simp only [hef, h2, if_true, if_false, h1]
    · subst hef
      have h1 := hadd _ (List.mem_cons_self _ _) _ (List.mem_cons_self _ _)
      have h3 := ih3 (lt_irrefl _) (lt_irrefl _) (fun m hm n hn =>
        hadd m (List.mem_cons_of_mem _ hm) n (List.mem_cons_of_mem _ hn))
      simp only at h1
      simp only [lt_irrefl, if_false, h1, h3]
    · have h2 : ¬ e < f := not_lt.2 (le_of_lt hef)
      have h1 := ih2 h2 hef (fun m hm n hn => hadd m hm n (List.mem_cons_of_mem _ hn))
      simp only [hef, h2, if_true, if_false, h1]

theorem PolyAdd_comm_aux : ∀ (n : Nat) (p q : Poly), p.size + q.size ≤ n →
    PolyAdd p q = PolyAdd q p := by
  intro n
  induction n with
  | zero =>
    intro p q h
    have := size_pos p
    omega
  | succ n ih =>
    intro p q hn
    cases p with
    | coeff a =>
      cases q with
      | coeff b => rw [PolyAdd, PolyAdd, add_comm]
      | sum qs => rw [PolyAdd_sum_coeff]
    | sum ps =>
      cases q with
      | coeff b => rw [PolyAdd_sum_coeff]
      | sum qs =>
        rw [PolyAdd_sum_sum, PolyAdd_sum_sum, SumPolyPolyLoop_comm ps qs]
        intro m hm n' hn'
        refine ih _ _ ?_
        have h1 := size_lt_of_mem hm
        have h2 := size_lt_of_mem hn'
        simp only [Poly.size] at hn
        omega

theorem PolyAdd_comm_eq (p q : Poly) : PolyAdd p q = PolyAdd q p :=
  PolyAdd_comm_aux _ p q (le_refl _)

/-- C10. `PolyAdd` is commutative: for all canonical Polys `p` and `q`,
`PolyIsEq (PolyAdd p q) (PolyAdd q p)` is true. -/
theorem PolyAdd_comm (p q : Poly) (hp : Canonical p) (hq : Canonical q) :
    PolyIsEq (PolyAdd p q) (PolyAdd q p) = true :=
  (PolyIsEq_iff _ _).2 (PolyAdd_comm_eq p q)

theorem PolyAdd_comm_witness :
    Canonical (Poly.sum [(Poly.coeff 1, 0), (Poly.coeff 2, 3)]) ∧
      Canonical (Poly.sum [(Poly.sum [(Poly.coeff 7, 1)], 3), (Poly.coeff 5, 7)]) ∧
      PolyIsEq
        (PolyAdd (Poly.sum [(Poly.coeff 1, 0), (Poly.coeff 2, 3)])
          (Poly.sum [(Poly.sum [(Poly.coeff 7, 1)], 3), (Poly.coeff 5, 7)]))
        (PolyAdd (Poly.sum [(Poly.sum [(Poly.coeff 7, 1)], 3), (Poly.coeff 5, 7)])
          (Poly.sum [(Poly.coeff 1, 0), (Poly.coeff 2, 3)])) = true :=
  ⟨by decide, by decide, PolyAdd_comm _ _ (by decide) (by decide)⟩

/-! ## C9: `PolySub p q` is `PolyAdd p (PolyNeg q)` -/

theorem NegMonoArr_cons (p : Poly) (e : Int) (tl : List Mono) :
    NegMonoArr ((p, e) :: tl) = (PolyNeg p, e) :: NegMonoArr tl := by
  rw [NegMonoArr, MonoGetExp]

theorem PolyNeg_coeff (b : Int) : PolyNeg (Poly.coeff b) = Poly.coeff (wrap64 (b * -1)) := by
  rw [PolyNeg, PolyFromCoeff, PolyMul, PolyFromCoeff]

theorem PolyMul_neg_one (q : Poly) : PolyMul (Poly.coeff (-1)) q = PolyNeg q := by
  cases q with
  | coeff b => rw [PolyNeg_coeff, PolyMul, PolyFromCoeff, mul_comm]
  | sum qs => rw [PolyNeg, PolyFromCoeff, PolyMul_sum_coeff]

theorem PolyNeg_sum (qs : List (Poly × Int)) :
    PolyNeg (Poly.sum qs) = BuildPolyFromMonos (MulCoeffPolyLoop (-1) qs) := by
  rw [← PolyMul_neg_one, PolyMul_coeff_sum (-1) (by decide)]

theorem MulCoeffPolyLoop_neg_one (qs : List (Poly × Int))
    (h : ∀ m ∈ qs, PolyIsZero (PolyNeg m.1) = false) :
    MulCoeffPolyLoop (-1) qs = NegMonoArr qs := by
  induction qs with
  | nil => rw [MulCoeffPolyLoop, NegMonoArr]
  | cons m tl ih =>
    obtain ⟨q, e⟩ := m
    have h1 := h _ (List.mem_cons_self _ _)
    simp only at h1
    rw [MulCoeffPolyLoop_cons, NegMonoArr_cons, PolyMul_neg_one, keepMono,
      ih (fun m hm => h m (List.mem_cons_of_mem _ hm))]
    simp [h1]

theorem wrap64_neg_ne_zero {b : Int} (hb : -LONG_BOUND ≤ b ∧ b < LONG_BOUND) (h0 : b ≠ 0) :
    wrap64 (b * -1) ≠ 0 := by
  unfold LONG_BOUND at hb
  unfold wrap64
  omega

/-- The opposite of a canonical array is the array of the opposite monomials, and
the opposite of a non-zero canonical polynomial is not zero. -/
theorem PolyNeg_shape_aux : ∀ (n : Nat) (q : Poly), q.size ≤ n → Canonical q → InRange q →
    (∀ qs, q = Poly.sum qs → PolyNeg q = Poly.sum (NegMonoArr qs)) ∧
      (PolyIsZero q = false → PolyIsZero (PolyNeg q) = false) := by
  intro n
  induction n with
  | zero =>
    intro q h
    have := size_pos q
    omega
  | succ n ih =>
    intro q hn hq hr
    cases q with
    | coeff b =>
      refine ⟨(fun qs h => by cases h), fun hz => ?_⟩
      rw [PolyNeg_coeff]
      have hb : b ≠ 0 := by simpa [PolyIsZero] using hz
      simpa [PolyIsZero] using wrap64_neg_ne_zero ((inRange_coeff_iff b).1 hr) hb
    | sum qs =>
      obtain ⟨hnil, hok, hlone⟩ := (canonical_sum_iff qs).1 hq
      have hmem : ∀ m ∈ qs, (∀ l, m.1 = Poly.sum l → PolyNeg m.1 = Poly.sum (NegMonoArr l)) ∧
          PolyIsZero (PolyNeg m.1) = false := by
        intro m hm
        have hs := size_lt_of_mem hm
        simp only [Poly.size] at hn
        have := ih m.1 (by omega) (hok.1 m hm).1 ((inRange_sum_iff qs).1 hr m hm).1
        exact ⟨this.1, this.2 (hok.1 m hm).2.1⟩
      have key : PolyNeg (Poly.sum qs) = Poly.sum (NegMonoArr qs) := by
        rw [PolyNeg_sum, MulCoeffPolyLoop_neg_one qs (fun m hm => (hmem m hm).2)]
        rcases BuildPolyFromMonos_cases (NegMonoArr qs) with ⟨h1, -⟩ | ⟨c, h1, -⟩ | ⟨-, -, h2⟩
        · cases qs with
          | nil => exact absurd rfl hnil
          | cons m tl => obtain ⟨q0, e0⟩ := m; rw [NegMonoArr_cons] at h1; cases h1
        · exfalso
          cases qs with
          | nil => exact absurd rfl hnil
          | cons m tl =>
            obtain ⟨q0, e0⟩ := m
            rw [NegMonoArr_cons] at h1
            injection h1 with h3 h4
            injection h3 with h5 h6
            cases tl with
            | nil =>
              subst h6
              obtain ⟨l, rfl⟩ := lone_sum_head hlone rfl
              rw [(hmem _ (List.mem_cons_self _ _)).1 l rfl] at h5
              cases h5
            | cons m2 tl2 => obtain ⟨q1, e1⟩ := m2; rw [NegMonoArr_cons] at h4; cases h4
        · exact h2
      refine ⟨fun l hl => ?_, fun _ => ?_⟩
      · injection hl with hl
        subst hl
        exact key
      · rw [key]; rfl

theorem PolyNeg_sum_canonical {qs : List (Poly × Int)} (hq : Canonical (Poly.sum qs))
    (hr : InRange (Poly.sum qs)) : PolyNeg (Poly.sum qs) = Poly.sum (NegMonoArr qs) :=
  (PolyNeg_shape_aux _ _ (le_refl _) hq hr).1 qs rfl

theorem PolySub_coeff_sum_cons (a : Int) (ha : a ≠ 0) (q0 : Poly) (e0 : Int)
    (tl : List (Poly × Int)) :
    PolySub (Poly.coeff a) (Poly.sum ((q0, e0) :: tl)) =
      if e0 = 0 then
        if PolyIsZero (PolySub (Poly.coeff a) q0) then Poly.sum (NegMonoArr tl)
        else Poly.sum ((PolySub (Poly.coeff a) q0, 0) :: NegMonoArr tl)
      else Poly.sum ((Poly.coeff a, 0) :: NegMonoArr ((q0, e0) :: tl)) := by
  rw [PolySub, if_neg ha, SubConstPoly, SubConstPoly0]
  simp only [PolyClone_eq]

theorem PolySub_sum_coeff_cons (p0 : Poly) (e0 : Int) (tl : List (Poly × Int)) (b : Int)
    (hb : b ≠ 0) :
    PolySub (Poly.sum ((p0, e0) :: tl)) (Poly.coeff b) =
      if e0 ≠ 0 then Poly.sum ((PolyNeg (Poly.coeff b), 0) :: (p0, e0) :: tl)
      else if PolyIsZero (PolySub p0 (Poly.coeff b)) then
        if tl.length + 1 > 1 then Poly.sum tl else PolyZero
      else Poly.sum ((PolySub p0 (Poly.coeff b), 0) :: tl) := by
  rw [PolySub, if_neg hb, SubPolyConst, SubPolyConst0]
  simp only [CloneMonoArr_eq]

theorem PolySub_sum_sum (ps qs : List (Poly × Int)) :
    PolySub (Poly.sum ps) (Poly.sum qs) = BuildPolyFromMonos (SubPolyPolyLoop ps qs) := by
  rw [PolySub, SubPolyPoly]

theorem SubPolyPolyLoop_eq (ps qs : List (Poly × Int)) :
    (∀ m ∈ ps, ∀ n ∈ qs, PolySub m.1 n.1 = PolyAdd m.1 (PolyNeg n.1)) →
      SubPolyPolyLoop ps qs = SumPolyPolyLoop ps (NegMonoArr qs) := by
  refine merge_induction (P := fun ps qs =>
    (∀ m ∈ ps, ∀ n ∈ qs, PolySub m.1 n.1 = PolyAdd m.1 (PolyNeg n.1)) →
      SubPolyPolyLoop ps qs = SumPolyPolyLoop ps (NegMonoArr qs)) ?_ ?_ ?_ ?_ ps qs
  · intro _
    rw [SubPolyPolyLoop, NegMonoArr, SumPolyPolyLoop]
  · intro p e ps ih _
    have h := ih (fun m _ n hn => by cases hn)
    rw [NegMonoArr] at h ⊢
    rw [SubPolyPolyLoop, SumPolyPolyLoop, h]
  · intro q f qs ih _
    rw [SubPolyPolyLoop, NegMonoArr_cons, SumPolyPolyLoop, PolyClone_eq,
      ih (fun m hm => by cases hm)]
  · intro p e ps q f qs ih1 ih2 ih3 hsub
    rw [SubPolyPolyLoop, NegMonoArr_cons, SumPolyPolyLoop]
    split_ifs with h1 h2
    · rw [ih1 h1 (fun m hm n hn => hsub m (List.mem_cons_of_mem _ hm) n hn), NegMonoArr_cons]
    · rw [ih2 h1 h2 (fun m hm n hn => hsub m hm n (List.mem_cons_of_mem _ hn)), PolyClone_eq]
    · rw [ih3 h1 h2 (fun m hm n hn =>
        hsub m (List.mem_cons_of_mem _ hm) n (List.mem_cons_of_mem _ hn)),
        hsub _ (List.mem_cons_self _ _) _ (List.mem_cons_self _ _)]

theorem wrap64_sub_eq (a b : Int) : wrap64 (a - b) = wrap64 (a + wrap64 (b * -1)) := by
  unfold wrap64
  omega

theorem PolySub_eq_aux : ∀ (n : Nat) (p q : Poly), p.size + q.size ≤ n →
    Canonical p → Canonical q → InRange q → PolySub p q = PolyAdd p (PolyNeg q) := by
  intro n
  induction n with
  | zero =>
    intro p q h
    have := size_pos p
    omega
  | succ n ih =>
    intro p q hn hp hq hr
    cases p with
    | coeff a =>
      cases q with
      | coeff b =>
        rw [PolySub, PolyNeg_coeff, PolyAdd, wrap64_sub_eq]
      | sum qs =>
        obtain ⟨hnil, hok, hlone⟩ := (canonical_sum_iff qs).1 hq
        rw [PolyNeg_sum_canonical hq hr]
        by_cases ha : a = 0
        · subst ha
          rw [PolySub, if_pos rfl, PolyAdd_zero_sum, PolyNeg_sum_canonical hq hr]
        · cases qs with
          | nil => exact absurd rfl hnil
          | cons m tl =>
            obtain ⟨q0, e0⟩ := m
            have h0 : PolySub (Poly.coeff a) q0 = PolyAdd (Poly.coeff a) (PolyNeg q0) := by
              refine ih _ _ ?_ (canonical_coeff a) (hok.1 _ (List.mem_cons_self _ _)).1
                ((inRange_sum_iff _).1 hr _ (List.mem_cons_self _ _)).1
              simp only [Poly.size, monosSize] at hn ⊢
              omega
            rw [PolySub_coeff_sum_cons a ha, NegMonoArr_cons, PolyAdd_coeff_sum_cons a ha, h0]
            by_cases he : e0 = 0
            · simp only [he, if_true, ne_eq, not_true_eq_false, if_false]
            · simp only [he, if_false, ne_eq, not_false_eq_true, if_true]
    | sum ps =>
      obtain ⟨hnilp, hokp, hlonep⟩ := (canonical_sum_iff ps).1 hp
      cases q with
      | coeff b =>
        rw [PolyNeg_coeff, PolyAdd_sum_coeff]
        by_cases hb : b = 0
        · subst hb
          have hw : wrap64 (0 * -1) = 0 := by decide
          rw [PolySub, if_pos rfl, PolyClone_eq, hw, PolyAdd_zero_sum]
        · have hnb := wrap64_neg_ne_zero ((inRange_coeff_iff b).1 hr) hb
          cases ps with
          | nil => exact absurd rfl hnilp
          | cons m tl =>
            obtain ⟨p0, e0⟩ := m
            have h0 : PolySub p0 (Poly.coeff b) =
                PolyAdd (Poly.coeff (wrap64 (b * -1))) p0 := by
              rw [PolyAdd_comm_eq, ← PolyNeg_coeff]
              refine ih _ _ ?_ (hokp.1 _ (List.mem_cons_self _ _)).1 (canonical_coeff b) hr
              simp only [Poly.size, monosSize] at hn ⊢
              omega
            rw [PolySub_sum_coeff_cons p0 e0 tl b hb, PolyAdd_coeff_sum_cons _ hnb, h0,
              PolyNeg_coeff]
            by_cases he : e0 = 0
            · simp only [he, ne_eq, not_true_eq_false, if_false]
              split_ifs with hz hl
              · rfl
              · exfalso
                have htl : tl = [] := by
                  cases tl with
                  | nil => rfl
                  | cons x xs => simp at hl
                subst htl
                obtain ⟨l, rfl⟩ := lone_sum_head hlonep he
                obtain ⟨l2, hl2⟩ := PolyAdd_coeff_sum_isSum (wrap64 (b * -1)) l
                rw [hl2] at hz
                cases hz
              · rfl
            · simp only [he, ne_eq, not_false_eq_true, if_true]
      | sum qs =>
        obtain ⟨hnilq, hokq, hloneq⟩ := (canonical_sum_iff qs).1 hq
        rw [PolyNeg_sum_canonical hq hr, PolySub_sum_sum, PolyAdd_sum_sum,
          SubPolyPolyLoop_eq ps qs]
        intro m hm n' hn'
        refine ih _ _ ?_ (hokp.1 m hm).1 (hokq.1 n' hn').1 ((inRange_sum_iff qs).1 hr n' hn').1
        have h1 := size_lt_of_mem hm
        have h2 := size_lt_of_mem hn'
        simp only [Poly.size] at hn
        omega

/-- C9. For all canonical Polys `p` and `q` (`q` holding values of `long` and `int`),
`PolySub p q` is equal under `PolyIsEq` to `PolyAdd p (PolyNeg q)`, on every path of
`PolySub`: constant-constant, constant-array with and without a constant term,
array-constant with and without a constant term, and the merge of two arrays. -/
theorem PolySub_eq_PolyAdd_PolyNeg (p q : Poly) (hp : Canonical p) (hq : Canonical q)
    (hr : InRange q) : PolyIsEq (PolySub p q) (PolyAdd p (PolyNeg q)) = true :=
  (PolyIsEq_iff _ _).2 (PolySub_eq_aux _ p q (le_refl _) hp hq hr)

theorem PolySub_eq_PolyAdd_PolyNeg_witness :
    Canonical (Poly.sum [(Poly.coeff 1, 0), (Poly.coeff 2, 3)]) ∧
      Canonical (Poly.sum [(Poly.coeff 1, 0), (Poly.sum [(Poly.coeff 7, 1)], 3)]) ∧
      InRange (Poly.sum [(Poly.coeff 1, 0), (Poly.sum [(Poly.coeff 7, 1)], 3)]) ∧
      PolyIsEq
        (PolySub (Poly.sum [(Poly.coeff 1, 0), (Poly.coeff 2, 3)])
          (Poly.sum [(Poly.coeff 1, 0), (Poly.sum [(Poly.coeff 7, 1)], 3)]))
        (PolyAdd (Poly.sum [(Poly.coeff 1, 0), (Poly.coeff 2, 3)])
          (PolyNeg (Poly.sum [(Poly.coeff 1, 0), (Poly.sum [(Poly.coeff 7, 1)], 3)]))) = true :=
  ⟨by decide, by decide, by decide,
    PolySub_eq_PolyAdd_PolyNeg _ _ (by decide) (by decide) (by decide)⟩

/-! ## `PolyAdd` and `PolyOwnMonos` return values of `long` and `int` -/

theorem wrap64_inRange (x : Int) : -LONG_BOUND ≤ wrap64 x ∧ wrap64 x < LONG_BOUND := by
  unfold LONG_BOUND wrap64
  omega

theorem inRange_sum_iff_IR (arr : List (Poly × Int)) : InRange (Poly.sum arr) ↔ MonosIR arr :=
  inRange_sum_iff arr

theorem MonosIR_cons {m : Mono} {tl : List Mono} :
    MonosIR (m :: tl) ↔ (InRange m.1 ∧ (-INT_BOUND ≤ m.2 ∧ m.2 < INT_BOUND)) ∧ MonosIR tl := by
  simp [MonosIR]

theorem MonosIR_keepMono {m : Mono} {out : List Mono}
    (hm : InRange m.1 ∧ (-INT_BOUND ≤ m.2 ∧ m.2 < INT_BOUND)) (hout : MonosIR out) :
    MonosIR (keepMono m out) := by
  unfold keepMono
  split
  · exact hout
  · exact MonosIR_cons.2 ⟨hm, hout⟩

theorem BuildPolyFromMonos_inRange {l : List Mono} (h : MonosIR l) :
    InRange (BuildPolyFromMonos l) := by
  rcases BuildPolyFromMonos_cases l with ⟨-, h2⟩ | ⟨c, h1, h2⟩ | ⟨-, -, h2⟩
  · rw [h2]; decide
  · rw [h2]
    exact (h (Poly.coeff c, 0) (by rw [h1]; exact List.mem_cons_self _ _)).1
  · rw [h2]; exact (inRange_sum_iff_IR l).2 h

theorem SumPolyPolyLoop_IR (ps qs : List (Poly × Int)) :
    MonosIR ps → MonosIR qs → (∀ m ∈ ps, ∀ n ∈ qs, InRange (PolyAdd m.1 n.1)) →
      MonosIR (SumPolyPolyLoop ps qs) := by
  refine merge_induction (P := fun ps qs => MonosIR ps → MonosIR qs →
    (∀ m ∈ ps, ∀ n ∈ qs, InRange (PolyAdd m.1 n.1)) → MonosIR (SumPolyPolyLoop ps qs))
    ?_ ?_ ?_ ?_ ps qs
  · intro _ _ _
    rw [SumPolyPolyLoop]
    intro m hm; cases hm
  · intro p e ps ih hps hqs _
    obtain ⟨hm, htl⟩ := MonosIR_cons.1 hps
    rw [SumPolyPolyLoop, PolyClone_eq]
    exact MonosIR_keepMono hm (ih htl hqs (fun m _ n hn => by cases hn))
  · intro q f qs ih hps hqs _
    obtain ⟨hm, htl⟩ := MonosIR_cons.1 hqs
    rw [SumPolyPolyLoop, PolyClone_eq]
    exact MonosIR_keepMono hm (ih hps htl (fun m hm => by cases hm))
  · intro p e ps q f qs ih1 ih2 ih3 hps hqs hadd
    obtain ⟨hpm, hptl⟩ := MonosIR_cons.1 hps
    obtain ⟨hqm, hqtl⟩ := MonosIR_cons.1 hqs
    rw [SumPolyPolyLoop]
    split_ifs with h1 h2
    · rw [PolyClone_eq]
      exact MonosIR_keepMono hpm (ih1 h1 hptl hqs
        (fun m hm n hn => hadd m (List.mem_cons_of_mem _ hm) n hn))
    · rw [PolyClone_eq]
      exact MonosIR_keepMono hqm (ih2 h1 h2 hps hqtl
        (fun m hm n hn => hadd m hm n (List.mem_cons_of_mem _ hn)))
    · exact MonosIR_keepMono
        ⟨hadd _ (List.mem_cons_self _ _) _ (List.mem_cons_self _ _), hpm.2⟩
        (ih3 h1 h2 hptl hqtl (fun m hm n hn =>
          hadd m (List.mem_cons_of_mem _ hm) n (List.mem_cons_of_mem _ hn)))

theorem PolyAdd_coeff_sum_inRange (a : Int) (qs : List (Poly × Int))
    (ha : InRange (Poly.coeff a)) (hq : InRange (Poly.sum qs))
    (ih : ∀ m ∈ qs, InRange (PolyAdd (Poly.coeff a) m.1)) :
    InRange (PolyAdd (Poly.coeff a) (Poly.sum qs)) := by
  by_cases h0 : a = 0
  · subst h0; rw [PolyAdd_zero_sum]; exact hq
  have hz : (-INT_BOUND ≤ (0 : Int) ∧ (0 : Int) < INT_BOUND) := by decide
  cases qs with
  | nil =>
    rw [PolyAdd, if_neg h0, SumConstPoly, PolyFromCoeff]
    exact (inRange_sum_iff_IR _).2 (MonosIR_cons.2 ⟨⟨ha, hz⟩, fun m hm => by cases hm⟩)
  | cons m tl =>
    obtain ⟨q0, e0⟩ := m
    have hIR := (inRange_sum_iff_IR _).1 hq
    obtain ⟨hm, htl⟩ := MonosIR_cons.1 hIR
    rw [PolyAdd_coeff_sum_cons a h0]
    split_ifs with h1 h2
    · exact (inRange_sum_iff_IR _).2 (MonosIR_cons.2 ⟨⟨ha, hz⟩, hIR⟩)
    · exact (inRange_sum_iff_IR _).2 htl
    · exact (inRange_sum_iff_IR _).2
        (MonosIR_cons.2 ⟨⟨ih _ (List.mem_cons_self _ _), hz⟩, htl⟩)

theorem PolyAdd_inRange_aux : ∀ (n : Nat) (p q : Poly), p.size + q.size ≤ n →
    InRange p → InRange q → InRange (PolyAdd p q) := by
  intro n
  induction n with
  | zero =>
    intro p q h
    have := size_pos p
    omega
  | succ n ih =>
    intro p q hn hp hq
    cases p with
    | coeff a =>
      cases q with
      | coeff b =>
        rw [PolyAdd, PolyFromCoeff]
        exact (inRange_coeff_iff _).2 (wrap64_inRange _)
      | sum qs =>
        refine PolyAdd_coeff_sum_inRange a qs hp hq (fun m hm => ih _ _ ?_ hp ?_)
        · have := size_lt_of_mem hm
          simp only [Poly.size] at hn ⊢
          omega
        · exact ((inRange_sum_iff qs).1 hq m hm).1
    | sum ps =>
      cases q with
      | coeff b =>
        rw [PolyAdd_sum_coeff]
        refine PolyAdd_coeff_sum_inRange b ps hq hp (fun m hm => ih _ _ ?_ hq ?_)
        · have := size_lt_of_mem hm
          simp only [Poly.size] at hn ⊢
          omega
        · exact ((inRange_sum_iff ps).1 hp m hm).1
      | sum qs =>
        rw [PolyAdd_sum_sum]
        have hps := (inRange_sum_iff_IR ps).1 hp
        have hqs := (inRange_sum_iff_IR qs).1 hq
        refine BuildPolyFromMonos_inRange (SumPolyPolyLoop_IR ps qs hps hqs ?_)
        intro m hm n' hn'
        refine ih _ _ ?_ (hps m hm).1 (hqs n' hn').1
        have h1 := size_lt_of_mem hm
        have h2 := size_lt_of_mem hn'
        simp only [Poly.size] at hn
        omega

theorem PolyAdd_inRange {p q : Poly} (hp : InRange p) (hq : InRange q) :
    InRange (PolyAdd p q) :=
  PolyAdd_inRange_aux _ p q (le_refl _) hp hq

theorem OwnMonosLoop_IR (rest : List Mono) :
    ∀ cur : Mono, (InRange cur.1 ∧ (-INT_BOUND ≤ cur.2 ∧ cur.2 < INT_BOUND)) → MonosIR rest →
      MonosIR (OwnMonosLoop [] cur rest) := by
  induction rest with
  | nil =>
    intro cur hc _
    simp only [OwnMonosLoop]
    split_ifs
    · intro m hm; cases hm
    · exact MonosIR_cons.2 ⟨hc, fun m hm => by cases hm⟩
  | cons m rest ih =>
    intro cur hc hrest
    obtain ⟨hm, htl⟩ := MonosIR_cons.1 hrest
    simp only [OwnMonosLoop]
    split_ifs with h1 h2
    · exact ih _ ⟨PolyAdd_inRange hc.1 hm.1, hc.2⟩ htl
    · rw [OwnMonosLoop_append]
      exact MonosIR_cons.2 ⟨hc, ih m hm htl⟩
    · exact ih m hm htl

theorem PolyOwnMonosSorted_inRange {s : List Mono} (h : MonosIR s) :
    InRange (PolyOwnMonosSorted s) := by
  cases s with
  | nil => decide
  | cons m rest =>
    obtain ⟨hm, htl⟩ := MonosIR_cons.1 h
    exact BuildPolyFromMonos_inRange (OwnMonosLoop_IR rest m hm htl)

/-! ## C7: `PolyOwnMonos` is the algebraic sum of its monomials, in any order -/

theorem den_MonoAsPoly (m : Mono) (he : 0 ≤ m.2) : den (MonoAsPoly m) = monoDen m := by
  obtain ⟨c, e⟩ := m
  unfold MonoAsPoly monoDen
  split_ifs with h1 h2
  · rw [den_zero_of_isZero h1, den_coeff]; simp
  · simp only [Bool.and_eq_true, decide_eq_true_eq] at h2
    cases c with
    | coeff a => simp only [h2.2, den_coeff]; simp
    | sum l => simp [PolyIsCoeff] at h2
  · rw [den_sum, denMonos_cons, denMonos_nil, add_zero]

theorem MonoAsPoly_canonical (m : Mono) (hc : Canonical m.1) (he : 0 ≤ m.2) :
    Canonical (MonoAsPoly m) := by
  obtain ⟨c, e⟩ := m
  unfold MonoAsPoly
  split_ifs with h1 h2
  · exact canonical_coeff 0
  · exact hc
  · refine (canonical_sum_iff _).2 ⟨by simp, MonosOK_cons.2 ⟨⟨hc, by simpa using h1, he⟩,
      (fun x hx => by cases hx), MonosOK_nil⟩, ?_⟩
    cases hl : IsLoneConst [(c, e)] with
    | false => rfl
    | true =>
      exfalso
      obtain ⟨a, ha⟩ := (IsLoneConst_iff _).1 hl
      injection ha with ha _
      injection ha with ha1 ha2
      subst ha1 ha2
      simp [PolyIsCoeff] at h2

theorem MonoAsPoly_inRange (m : Mono)
    (hr : InRange m.1 ∧ (-INT_BOUND ≤ m.2 ∧ m.2 < INT_BOUND)) : InRange (MonoAsPoly m) := by
  unfold MonoAsPoly
  split_ifs
  · decide
  · exact hr.1
  · exact (inRange_sum_iff_IR _).2 (MonosIR_cons.2 ⟨hr, fun x hx => by cases hx⟩)

theorem foldl_PolyAdd_spec (ms : List Mono) :
    ∀ acc : Poly, Canonical acc → InRange acc →
      (∀ m ∈ ms, Canonical m.1 ∧ 0 ≤ m.2) → MonosIR ms →
      Canonical ((ms.map MonoAsPoly).foldl PolyAdd acc) ∧
        InRange ((ms.map MonoAsPoly).foldl PolyAdd acc) ∧
        den ((ms.map MonoAsPoly).foldl PolyAdd acc) = den acc + denMonos ms := by
  induction ms with
  | nil =>
    intro acc hc hr _ _
    simp only [List.map_nil, List.foldl_nil, denMonos_nil, add_zero]
    exact ⟨hc, hr, trivial⟩
  | cons m tl ih =>
    intro acc hc hr hms hir
    have hm := hms m (List.mem_cons_self _ _)
    obtain ⟨hmr, htlr⟩ := MonosIR_cons.1 hir
    have h := ih (PolyAdd acc (MonoAsPoly m))
      (PolyAdd_canonical_of hc (MonoAsPoly_canonical m hm.1 hm.2))
      (PolyAdd_inRange hr (MonoAsPoly_inRange m hmr))
      (fun x hx => hms x (List.mem_cons_of_mem _ hx)) htlr
    simp only [List.map_cons, List.foldl_cons]
    refine ⟨h.1, h.2.1, ?_⟩
    obtain ⟨p, e⟩ := m
    rw [h.2.2, den_PolyAdd, den_MonoAsPoly _ hm.2, denMonos_cons, monoDen]
    ring

theorem SumOfMonos_spec (ms : List Mono) (h : ∀ m ∈ ms, Canonical m.1 ∧ 0 ≤ m.2)
    (hir : MonosIR ms) :
    Canonical (SumOfMonos ms) ∧ InRange (SumOfMonos ms) ∧
      den (SumOfMonos ms) = denMonos ms := by
  have := foldl_PolyAdd_spec ms (Poly.coeff 0) (canonical_coeff 0) (by decide) h hir
  refine ⟨this.1, this.2.1, ?_⟩
  rw [SumOfMonos, this.2.2, den_coeff]
  simp

theorem PolyOwnMonosSorted_eq_SumOfMonos (ms s : List Mono)
    (h : ∀ m ∈ ms, Canonical m.1 ∧ 0 ≤ m.2) (hir : MonosIR ms) (hs : IsSortOf s ms) :
    PolyOwnMonosSorted s = SumOfMonos ms := by
  obtain ⟨h1, h2, h3⟩ := SumOfMonos_spec ms h hir
  refine den_inj
    (PolyOwnMonosSorted_canonical s (fun m hm => h m (hs.1.mem_iff.1 hm)) hs.2) h1
    (PolyOwnMonosSorted_inRange (fun m hm => hir m (hs.1.mem_iff.1 hm))) h2 ?_
  rw [den_PolyOwnMonosSorted, h3]
  exact denMonos_perm hs.1

theorem PolyOwnMonos_eq_SumOfMonos (ms : List Mono)
    (h : ∀ m ∈ ms, Canonical m.1 ∧ 0 ≤ m.2) (hir : MonosIR ms) :
    PolyOwnMonos ms = SumOfMonos ms := by
  unfold PolyOwnMonos
  split_ifs with h0
  · rw [List.length_eq_zero.1 h0]; rfl
  · exact PolyOwnMonosSorted_eq_SumOfMonos ms _ h hir (SortMonos_isSortOf ms)

/-- C7. `PolyOwnMonos` returns the algebraic sum of its inputs independently of their
order: for every list `ms` of monomials with canonical coefficients (holding values
of `long` and `int`) and exponents `≥ 0`, the result equals the left fold of
`PolyAdd`, starting from `Scalar(0)`, over the one-term polynomials of `ms`,
whatever array `qsort` leaves; consequently every permutation of `ms` gives the
same result. -/
theorem PolyOwnMonos_eq_fold (ms : List Mono)
    (h : ∀ m ∈ ms, Canonical m.1 ∧ 0 ≤ m.2) (hir : MonosIR ms) :
    (∀ s, IsSortOf s ms →
        PolyOwnMonosSorted s = (ms.map MonoAsPoly).foldl PolyAdd (Poly.coeff 0)) ∧
      PolyOwnMonos ms = (ms.map MonoAsPoly).foldl PolyAdd (Poly.coeff 0) ∧
      ∀ ms' : List Mono, List.Perm ms' ms →
        PolyOwnMonos ms' = PolyOwnMonos ms ∧
          ∀ s', IsSortOf s' ms' → PolyOwnMonosSorted s' = PolyOwnMonos ms := by
  refine ⟨fun s hs => PolyOwnMonosSorted_eq_SumOfMonos ms s h hir hs,
    PolyOwnMonos_eq_SumOfMonos ms h hir, ?_⟩
  intro ms' hp
  have h' : ∀ m ∈ ms', Canonical m.1 ∧ 0 ≤ m.2 := fun m hm => h m (hp.mem_iff.1 hm)
  have hir' : MonosIR ms' := fun m hm => hir m (hp.mem_iff.1 hm)
  have hs := SortMonos_isSortOf ms
  have key : ∀ s', IsSortOf s' ms' → PolyOwnMonosSorted s' = PolyOwnMonos ms := by
    intro s' hs'
    rw [PolyOwnMonos_eq_SumOfMonos ms h hir]
    exact PolyOwnMonosSorted_eq_SumOfMonos ms s' h hir ⟨hs'.1.trans hp, hs'.2⟩
  refine ⟨?_, key⟩
  rw [PolyOwnMonos_eq_SumOfMonos ms' h' hir', PolyOwnMonos_eq_SumOfMonos ms h hir]
  obtain ⟨a1, a2, a3⟩ := SumOfMonos_spec ms' h' hir'
  obtain ⟨b1, b2, b3⟩ := SumOfMonos_spec ms h hir
  exact den_inj a1 b1 a2 b2 (by rw [a3, b3]; exact denMonos_perm hp)

theorem PolyOwnMonos_eq_fold_witness :
    (∀ m ∈ [((Poly.coeff 1, 2) : Mono), (Poly.coeff 3, 0), (Poly.coeff (-1), 2)],
        Canonical m.1 ∧ 0 ≤ m.2) ∧
      MonosIR [(Poly.coeff 1, 2), (Poly.coeff 3, 0), (Poly.coeff (-1), 2)] ∧
      PolyOwnMonos [(Poly.coeff 1, 2), (Poly.coeff 3, 0), (Poly.coeff (-1), 2)] =
        ([((Poly.coeff 1, 2) : Mono), (Poly.coeff 3, 0), (Poly.coeff (-1), 2)].map
          MonoAsPoly).foldl PolyAdd (Poly.coeff 0) :=
  ⟨by decide, by unfold MonosIR; decide,
    (PolyOwnMonos_eq_fold [(Poly.coeff 1, 2), (Poly.coeff 3, 0), (Poly.coeff (-1), 2)]
      (by decide) (by unfold MonosIR; decide)).2.1⟩

/-! ## C4: `PolyCompose` and the canonical form -/

theorem PolyFastExpLoop_zero (acc result : Poly) : PolyFastExpLoop acc result 0 = acc := by
  rw [PolyFastExpLoop]; simp

theorem PolyFastExpLoop_one (acc result : Poly) :
    PolyFastExpLoop acc result 1 = PolyMul acc result := by
  rw [PolyFastExpLoop]
  have h : Int.tdiv 1 2 = 0 := by decide
  have h2 : Int.tmod 1 2 ≠ 0 := by decide
  simp only [ne_eq, one_ne_zero, not_false_eq_true, dite_true, h, h2, if_true, not_true_eq_false,
    if_false, PolyFastExpLoop_zero]

theorem PolyFastExpLoop_two (acc result : Poly) :
    PolyFastExpLoop acc result 2 = PolyMul acc (PolyMul result result) := by
  rw [PolyFastExpLoop]
  have h : Int.tdiv 2 2 = 1 := by decide
  have h2 : ¬ Int.tmod 2 2 ≠ 0 := by decide
  have h3 : (2 : Int) ≠ 0 := by decide
  have h4 : (2 : Int) ≠ 1 := by decide
  simp only [h3, h4, ne_eq, not_false_eq_true, dite_true, h, h2, if_true, if_false,
    PolyFastExpLoop_one]

theorem PolyFastExpLoop_canonical : ∀ (n : Nat) (exp : Int) (acc result : Poly),
    exp.natAbs ≤ n → Canonical acc → Canonical result →
    PolyFastExpLoopFits acc result exp = true → Canonical (PolyFastExpLoop acc result exp) := by
  intro n
  induction n with
  | zero =>
    intro exp acc result hn ha _ _
    have h0 : exp = 0 := by omega
    rw [h0, PolyFastExpLoop_zero]; exact ha
  | succ n ih =>
    intro exp acc result hn ha hr hf
    rw [PolyFastExpLoop]
    rw [PolyFastExpLoopFits] at hf
    by_cases h0 : exp = 0
    · simp only [h0, ne_eq, not_true_eq_false, dite_false]; exact ha
    · simp only [ne_eq, h0, not_false_eq_true, dite_true, Bool.and_eq_true] at hf ⊢
      obtain ⟨⟨hf1, hf2⟩, hf3⟩ := hf
      have hd : (Int.tdiv exp 2).natAbs = exp.natAbs / 2 := Int.natAbs_tdiv exp 2
      refine ih _ _ _ (by omega) ?_ ?_ hf3
      · by_cases h1 : Int.tmod exp 2 = 0
        · simp only [h1, not_true_eq_false, if_false]; exact ha
        · simp only [h1, not_false_eq_true, if_true] at hf1 ⊢
          exact PolyMul_canonical_of ha hr hf1
      · by_cases h1 : exp = 1
        · simp only [h1, not_true_eq_false, if_false]; exact hr
        · simp only [h1, not_false_eq_true, if_true] at hf2 ⊢
          exact PolyMul_canonical_of hr hr hf2

theorem PolyFastExp_canonical (p : Poly) (exp : Int) (hp : Canonical p)
    (hf : PolyFastExpFits p exp = true) : Canonical (PolyFastExp p exp) := by
  unfold PolyFastExp
  unfold PolyFastExpFits at hf
  split_ifs with h0 h1
  · exact canonical_coeff 1
  · rw [PolyClone_eq]; exact hp
  · rw [if_neg h0, if_neg h1] at hf
    rw [PolyClone_eq] at hf ⊢
    exact PolyFastExpLoop_canonical _ exp _ _ (le_refl _) (canonical_coeff 1) hp hf

theorem getD_canonical (q : List Poly) (hq : ∀ x ∈ q, Canonical x) (level : Nat) :
    Canonical (q.getD level PolyZero) := by
  rw [List.getD_eq_getElem?_getD]
  cases h : q[level]? with
  | none => exact canonical_coeff 0
  | some x => exact hq x (List.getElem?_mem h)

theorem AuxPolyComposeLoop_canonical (k : Nat) (q : List Poly) (hq : ∀ x ∈ q, Canonical x)
    (level : Nat) (rest : List (Poly × Int))
    (ih : ∀ m ∈ rest, AuxPolyComposeFits m.1 (level + 1) k q = true →
      Canonical (AuxPolyCompose m.1 (level + 1) k q)) :
    ∀ (sum exp : Poly) (expVal : Int), Canonical sum → Canonical exp →
      AuxPolyComposeLoopFits rest level k q exp expVal = true →
      Canonical (AuxPolyComposeLoop rest level k q sum exp expVal) := by
  induction rest with
  | nil =>
    intro sum exp expVal hs _ _
    rw [AuxPolyComposeLoop]; exact hs
  | cons m rest ihl =>
    obtain ⟨p, e⟩ := m
    intro sum exp expVal hs he hf
    have ihr := ihl (fun m hm => ih m (List.mem_cons_of_mem _ hm))
    rw [AuxPolyComposeLoopFits] at hf
    rw [AuxPolyComposeLoop]
    simp only [Bool.and_eq_true, SmartPolyMul, SmartPolyAdd] at hf ⊢
    obtain ⟨hfp, hf⟩ := hf
    have htmp := ih _ (List.mem_cons_self _ _) hfp
    by_cases hz1 : PolyIsZero (AuxPolyCompose p (level + 1) k q) = true
    · simp only [hz1, Bool.not_true, Bool.false_eq_true, if_false] at hf ⊢
      exact ihr sum exp expVal hs he hf
    · simp only [hz1, Bool.not_false, if_true, Bool.and_eq_true] at hf ⊢
      obtain ⟨hfe, hf⟩ := hf
      have htmp2 := PolyFastExp_canonical _ _ (getD_canonical q hq level) hfe
      by_cases hz2 : PolyIsZero (PolyFastExp (q.getD level PolyZero)
          (wrap32 (MonoGetExp (p, e) - expVal))) = true
      · simp only [hz2, Bool.not_true, Bool.false_eq_true, if_false] at hf ⊢
        exact ihr sum exp expVal hs he hf
      · simp only [hz2, Bool.not_false, if_true, Bool.and_eq_true] at hf ⊢
        obtain ⟨hfm, hf⟩ := hf
        have hexp1 := PolyMul_canonical_of he htmp2 hfm
        by_cases hz3 : PolyIsZero (PolyMul exp (PolyFastExp (q.getD level PolyZero)
            (wrap32 (MonoGetExp (p, e) - expVal)))) = true
        · simp only [hz3, Bool.not_true, Bool.false_eq_true, if_false] at hf ⊢
          exact ihr sum _ _ hs hexp1 hf
        · simp only [hz3, Bool.not_false, if_true, Bool.and_eq_true] at hf ⊢
          obtain ⟨hfm2, hf⟩ := hf
          have htmp3 := PolyMul_canonical_of htmp hexp1 hfm2
          split_ifs
          · exact ihr _ _ _ (PolyAdd_canonical_of hs htmp3) hexp1 hf
          · exact ihr sum _ _ hs hexp1 hf

theorem AuxPolyCompose_canonical_aux (k : Nat) (q : List Poly) (hq : ∀ x ∈ q, Canonical x) :
    ∀ (n : Nat) (p : Poly) (level : Nat), p.size ≤ n →
      AuxPolyComposeFits p level k q = true → Canonical (AuxPolyCompose p level k q) := by
  intro n
  induction n with
  | zero =>
    intro p level h
    have := size_pos p
    omega
  | succ n ih =>
    intro p level hn hf
    cases p with
    | coeff c => rw [AuxPolyCompose, PolyClone_eq]; exact canonical_coeff c
    | sum arr =>
      cases arr with
      | nil =>
        rw [AuxPolyCompose]
        split_ifs
        · exact canonical_coeff 0
        · rw [AuxPolyComposeLoop]; exact canonical_coeff 0
      | cons m tl =>
        obtain ⟨p0, e0⟩ := m
        rw [AuxPolyCompose]
        rw [AuxPolyComposeFits] at hf
        have hsz : ∀ x ∈ (p0, e0) :: tl, x.1.size ≤ n := by
          intro x hx
          have := size_lt_of_mem hx
          simp only [Poly.size] at hn
          omega
        split_ifs with h1 h2
        · rw [if_pos h1, if_pos h2] at hf
          exact ih p0 (level + 1) (hsz _ (List.mem_cons_self _ _)) hf
        · exact canonical_coeff 0
        · rw [if_neg h1] at hf
          exact AuxPolyComposeLoop_canonical k q hq level _
            (fun x hx hfx => ih x.1 (level + 1) (hsz x hx) hfx) _ _ _
            (canonical_coeff 0) (canonical_coeff 1) hf

/-- C4 (as stated, refuted). `x_0^2` and `x_0^1073741824` are canonical and hold values
of `long` and `int`, yet composing the first with the second gives the array
`[(1, -2147483648)]`: the square formed by `PolyFastExp` adds the exponents in `int`,
the sum wraps, and the result has a negative exponent. -/
theorem PolyCompose_canonical_counterexample :
    Canonical (Poly.sum [(Poly.coeff 1, 2)]) ∧ InRange (Poly.sum [(Poly.coeff 1, 2)]) ∧
      Canonical (Poly.sum [(Poly.coeff 1, 1073741824)]) ∧
      InRange (Poly.sum [(Poly.coeff 1, 1073741824)]) ∧
      PolyCompose (Poly.sum [(Poly.coeff 1, 2)]) 1 [Poly.sum [(Poly.coeff 1, 1073741824)]] =
        Poly.sum [(Poly.coeff 1, -2147483648)] ∧
      ¬ Canonical
        (PolyCompose (Poly.sum [(Poly.coeff 1, 2)]) 1 [Poly.sum [(Poly.coeff 1, 1073741824)]]) := by
  have h : PolyCompose (Poly.sum [(Poly.coeff 1, 2)]) 1
      [Poly.sum [(Poly.coeff 1, 1073741824)]] = Poly.sum [(Poly.coeff 1, -2147483648)] := by
    simp [PolyCompose, AuxPolyCompose, AuxPolyComposeLoop, PolyFastExp, PolyFastExpLoop_two,
      SmartPolyMul, SmartPolyAdd, PolyAdd, PolyClone, CloneMonoArr, MulCoeffPoly,
      MulCoeffPolyLoop, keepMono, PolyZero, PolyMul, MulMonos, MulMonosRow, PolyOwnMonos,
      SortMonos, PolyOwnMonosSorted, OwnMonosLoop, MonoGetExp, List.insertionSort,
      List.orderedInsert, PolyIsZero, BuildPolyFromMonos, wrap32, wrap64, PolyFromCoeff]
  refine ⟨by decide, by decide, by decide, by decide, h, ?_⟩
  rw [h]
  decide

/-- C4 (amended). For every canonical Poly `p` and every finite sequence `qs` of
canonical Polys such that every exponent sum formed by the `PolyMul` calls of the
computation (in `PolyFastExp`, for the running power and for the products with it,
at every nesting level) fits in `int`, `PolyCompose p |qs| qs` is canonical. -/
theorem PolyCompose_canonical (p : Poly) (qs : List Poly) (hp : Canonical p)
    (hq : ∀ x ∈ qs, Canonical x) (hfit : AuxPolyComposeFits p 0 qs.length qs = true) :
    Canonical (PolyCompose p qs.length qs) :=
  AuxPolyCompose_canonical_aux qs.length qs hq _ p 0 (le_refl _) hfit
theorem PolyFastExpLoopFits_zero (acc result : Poly) :
    PolyFastExpLoopFits acc result 0 = true := by
  rw [PolyFastExpLoopFits]; simp

theorem PolyFastExpLoopFits_one (acc result : Poly) :
    PolyFastExpLoopFits acc result 1 = MulExpFits acc result := by
  rw [PolyFastExpLoopFits]
  have h : Int.tdiv 1 2 = 0 := by decide
  have h2 : Int.tmod 1 2 ≠ 0 := by decide
  simp only [ne_eq, one_ne_zero, not_false_eq_true, dite_true, h, h2, if_true, not_true_eq_false,
    if_false, PolyFastExpLoopFits_zero, Bool.and_true]

theorem PolyFastExpLoopFits_two (acc result : Poly) :
    PolyFastExpLoopFits acc result 2 =
      (MulExpFits result result && MulExpFits acc (PolyMul result result)) := by
  rw [PolyFastExpLoopFits]
  have h : Int.tdiv 2 2 = 1 := by decide
  have h2 : ¬ Int.tmod 2 2 ≠ 0 := by decide
  have h3 : (2 : Int) ≠ 0 := by decide
  have h4 : (2 : Int) ≠ 1 := by decide
  simp only [h3, h4, ne_eq, not_false_eq_true, dite_true, h, h2, if_true, if_false,
    PolyFastExpLoopFits_one, Bool.true_and]

theorem PolyCompose_canonical_witness :
    Canonical (Poly.sum [(Poly.coeff 1, 2)]) ∧
      (∀ x ∈ [Poly.sum [(Poly.coeff 1, 0), (Poly.coeff 1, 1)]], Canonical x) ∧
      AuxPolyComposeFits (Poly.sum [(Poly.coeff 1, 2)]) 0
        [Poly.sum [(Poly.coeff 1, 0), (Poly.coeff 1, 1)]].length
        [Poly.sum [(Poly.coeff 1, 0), (Poly.coeff 1, 1)]] = true ∧
      Canonical (PolyCompose (Poly.sum [(Poly.coeff 1, 2)])
        [Poly.sum [(Poly.coeff 1, 0), (Poly.coeff 1, 1)]].length
        [Poly.sum [(Poly.coeff 1, 0), (Poly.coeff 1, 1)]]) := by
  have hfit : AuxPolyComposeFits (Poly.sum [(Poly.coeff 1, 2)]) 0
      [Poly.sum [(Poly.coeff 1, 0), (Poly.coeff 1, 1)]].length
      [Poly.sum [(Poly.coeff 1, 0), (Poly.coeff 1, 1)]] = true := by
    simp [AuxPolyComposeFits, AuxPolyComposeLoopFits, PolyFastExpFits, PolyFastExpLoopFits_two,
      MulExpFits, MulMonosFits, MulMonosRowFits, INT_BOUND,
      AuxPolyCompose, AuxPolyComposeLoop, PolyFastExp, PolyFastExpLoop_two,
      SmartPolyMul, SmartPolyAdd, PolyAdd, PolyClone, CloneMonoArr, MulCoeffPoly,
      MulCoeffPolyLoop, keepMono, PolyZero, PolyMul, MulMonos, MulMonosRow, PolyOwnMonos,
      SortMonos, PolyOwnMonosSorted, OwnMonosLoop, MonoGetExp, MonoLe, List.insertionSort,
      List.orderedInsert, PolyIsZero, BuildPolyFromMonos, wrap32, wrap64, PolyFromCoeff]
  exact ⟨by decide, by decide, hfit, PolyCompose_canonical _ _ (by decide) (by decide) hfit⟩

/-! ## `PolyMul` returns values of `long` and `int` -/

theorem wrap32_inRange (x : Int) : -INT_BOUND ≤ wrap32 x ∧ wrap32 x < INT_BOUND := by
  unfold INT_BOUND wrap32
  omega

theorem PolyOwnMonos_inRange {monos : List Mono} (h : MonosIR monos) :
    InRange (PolyOwnMonos monos) := by
  unfold PolyOwnMonos
  split_ifs
  · decide
  · have hs := SortMonos_isSortOf monos
    exact PolyOwnMonosSorted_inRange (fun m hm => h m (hs.1.mem_iff.1 hm))

theorem MulCoeffPolyLoop_IR (a : Int) (qs : List (Poly × Int)) (hqs : MonosIR qs)
    (ih : ∀ m ∈ qs, InRange (PolyMul (Poly.coeff a) m.1)) :
    MonosIR (MulCoeffPolyLoop a qs) := by
  induction qs with
  | nil => rw [MulCoeffPolyLoop]; intro m hm; cases hm
  | cons m tl ihl =>
    obtain ⟨q, e⟩ := m
    obtain ⟨hm, htl⟩ := MonosIR_cons.1 hqs
    rw [MulCoeffPolyLoop_cons]
    exact MonosIR_keepMono ⟨ih _ (List.mem_cons_self _ _), hm.2⟩
      (ihl htl (fun m hm => ih m (List.mem_cons_of_mem _ hm)))

theorem PolyMul_inRange_aux : ∀ (n : Nat) (p q : Poly), p.size + q.size ≤ n →
    InRange p → InRange q → InRange (PolyMul p q) := by
  intro n
  induction n with
  | zero =>
    intro p q h
    have := size_pos p
    omega
  | succ n ih =>
    have hcs : ∀ (a : Int) (qs : List (Poly × Int)), 1 + (1 + monosSize qs) ≤ n + 1 →
        InRange (Poly.coeff a) → InRange (Poly.sum qs) →
        InRange (PolyMul (Poly.coeff a) (Poly.sum qs)) := by
      intro a qs hn ha hq
      by_cases h0 : a = 0
      · rw [PolyMul, if_pos h0]; decide
      · rw [PolyMul_coeff_sum a h0]
        have hqs := (inRange_sum_iff_IR qs).1 hq
        refine BuildPolyFromMonos_inRange (MulCoeffPolyLoop_IR a qs hqs ?_)
        intro m hm
        refine ih _ _ ?_ ha (hqs m hm).1
        have := size_lt_of_mem hm
        simp only [Poly.size]
        omega
    intro p q hn hp hq
    cases p with
    | coeff a =>
      cases q with
      | coeff b =>
        rw [PolyMul, PolyFromCoeff]
        exact (inRange_coeff_iff _).2 (wrap64_inRange _)
      | sum qs => exact hcs a qs (by simpa only [Poly.size] using hn) hp hq
    | sum ps =>
      cases q with
      | coeff b =>
        rw [PolyMul_sum_coeff]
        refine hcs b ps ?_ hq hp
        simp only [Poly.size] at hn
        omega
      | sum qs =>
        rw [PolyMul_sum_sum]
        have hps := (inRange_sum_iff_IR ps).1 hp
        have hqs := (inRange_sum_iff_IR qs).1 hq
        refine PolyOwnMonos_inRange ?_
        intro x hx
        obtain ⟨m, hm, n', hn', rfl⟩ := (mem_MulMonos ps qs x).1 hx
        refine ⟨ih _ _ ?_ (hps m hm).1 (hqs n' hn').1, wrap32_inRange _⟩
        have h1 := size_lt_of_mem hm
        have h2 := size_lt_of_mem hn'
        simp only [Poly.size] at hn
        omega

theorem PolyMul_inRange {p q : Poly} (hp : InRange p) (hq : InRange q) :
    InRange (PolyMul p q) :=
  PolyMul_inRange_aux _ p q (le_refl _) hp hq

theorem MulExpFits_symm_aux : ∀ (n : Nat) (p q : Poly), p.size + q.size ≤ n →
    MulExpFits p q = true → MulExpFits q p = true := by
  intro n
  induction n with
  | zero =>
    intro p q h
    have := size_pos p
    omega
  | succ n ih =>
    intro p q hn hf
    cases p with
    | coeff a => cases q <;> rw [MulExpFits]
    | sum ps =>
      cases q with
      | coeff b => rw [MulExpFits]
      | sum qs =>
        rw [MulExpFits_sum_sum] at hf ⊢
        intro n' hn' m hm
        obtain ⟨h1, h2⟩ := hf m hm n' hn'
        refine ⟨by rw [add_comm]; exact h1, ih _ _ ?_ h2⟩
        have h3 := size_lt_of_mem hm
        have h4 := size_lt_of_mem hn'
        simp only [Poly.size] at hn
        omega

theorem MulExpFits_symm {p q : Poly} (h : MulExpFits p q = true) : MulExpFits q p = true :=
  MulExpFits_symm_aux _ p q (le_refl _) h

theorem den_PolyMul_of {p q : Poly} (hp : Canonical p) (hq : Canonical q)
    (hfit : MulExpFits p q = true) : den (PolyMul p q) = den p * den q :=
  den_PolyMul_aux _ p q (le_refl _) hp hq hfit

/-! ## C11: `PolyAdd` is associative -/

/-- C11. `PolyAdd` is associative: for all canonical Polys `p`, `q` and `r` (holding
values of `long` and `int`), `PolyIsEq (PolyAdd (PolyAdd p q) r) (PolyAdd p (PolyAdd q r))`
is true, including when intermediate coefficients wrap around or cancel to zero. -/
theorem PolyAdd_assoc (p q r : Poly) (hp : Canonical p) (hq : Canonical q) (hr : Canonical r)
    (hrp : InRange p) (hrq : InRange q) (hrr : InRange r) :
    PolyIsEq (PolyAdd (PolyAdd p q) r) (PolyAdd p (PolyAdd q r)) = true := by
  rw [PolyIsEq_iff]
  refine den_inj (PolyAdd_canonical_of (PolyAdd_canonical_of hp hq) hr)
    (PolyAdd_canonical_of hp (PolyAdd_canonical_of hq hr))
    (PolyAdd_inRange (PolyAdd_inRange hrp hrq) hrr)
    (PolyAdd_inRange hrp (PolyAdd_inRange hrq hrr)) ?_
  simp only [den_PolyAdd, add_assoc]

theorem PolyAdd_assoc_witness :
    Canonical (Poly.sum [(Poly.coeff 9223372036854775807, 0), (Poly.coeff 2, 3)]) ∧
      Canonical (Poly.sum [(Poly.coeff 1, 0), (Poly.coeff (-2), 3)]) ∧
      Canonical (Poly.coeff (-9223372036854775808)) ∧
      InRange (Poly.sum [(Poly.coeff 9223372036854775807, 0), (Poly.coeff 2, 3)]) ∧
      InRange (Poly.sum [(Poly.coeff 1, 0), (Poly.coeff (-2), 3)]) ∧
      InRange (Poly.coeff (-9223372036854775808)) ∧
      PolyIsEq
        (PolyAdd (PolyAdd (Poly.sum [(Poly.coeff 9223372036854775807, 0), (Poly.coeff 2, 3)])
          (Poly.sum [(Poly.coeff 1, 0), (Poly.coeff (-2), 3)]))
          (Poly.coeff (-9223372036854775808)))
        (PolyAdd (Poly.sum [(Poly.coeff 9223372036854775807, 0), (Poly.coeff 2, 3)])
          (PolyAdd (Poly.sum [(Poly.coeff 1, 0), (Poly.coeff (-2), 3)])
            (Poly.coeff (-9223372036854775808)))) = true :=
  ⟨by decide, by decide, by decide, by decide, by decide, by decide,
    PolyAdd_assoc _ _ _ (by decide) (by decide) (by decide) (by decide) (by decide)
      (by decide)⟩

/-! ## C12, C13, C14: commutativity, associativity and distributivity of `PolyMul` -/

/-- C12 (as stated, refuted). The canonical Polys `exCommP` and `exCommQ` hold values of
`long` and `int`; the products of their coefficients wrap in `int`, and then the
coefficient of `x_0^2` is summed from the same three products in opposite orders:
`PolyMul exCommP exCommQ` and `PolyMul exCommQ exCommP` differ. -/
theorem PolyMul_comm_counterexample :
    Canonical exCommP ∧ InRange exCommP ∧ Canonical exCommQ ∧ InRange exCommQ ∧
      PolyMul exCommP exCommQ =
        Poly.sum [(Poly.sum [(Poly.coeff 1, 2)], 0),
          (Poly.sum [(Poly.coeff 1, -2147483647), (Poly.coeff 1, 1)], 1),
          (Poly.sum [(Poly.coeff 1, -2147483647), (Poly.coeff 1, 0),
            (Poly.coeff 1, -2147483648)], 2),
          (Poly.sum [(Poly.coeff 1, -2147483648), (Poly.coeff 1, 2147483647)], 3),
          (Poly.sum [(Poly.coeff 1, 2147483647)], 4)] ∧
      PolyMul exCommQ exCommP =
        Poly.sum [(Poly.sum [(Poly.coeff 1, 2)], 0),
          (Poly.sum [(Poly.coeff 1, -2147483647), (Poly.coeff 1, 1)], 1),
          (Poly.sum [(Poly.coeff 1, 0), (Poly.coeff 1, -2147483648),
            (Poly.coeff 1, -2147483647)], 2),
          (Poly.sum [(Poly.coeff 1, -2147483648), (Poly.coeff 1, 2147483647)], 3),
          (Poly.sum [(Poly.coeff 1, 2147483647)], 4)] ∧
      PolyIsEq (PolyMul exCommP exCommQ) (PolyMul exCommQ exCommP) = false := by
  have h1 : PolyMul exCommP exCommQ =
      Poly.sum [(Poly.sum [(Poly.coeff 1, 2)], 0),
        (Poly.sum [(Poly.coeff 1, -2147483647), (Poly.coeff 1, 1)], 1),
        (Poly.sum [(Poly.coeff 1, -2147483647), (Poly.coeff 1, 0),
          (Poly.coeff 1, -2147483648)], 2),
        (Poly.sum [(Poly.coeff 1, -2147483648), (Poly.coeff 1, 2147483647)], 3),
        (Poly.sum [(Poly.coeff 1, 2147483647)], 4)] := by
    simp [exCommP, exCommQ, PolyMul, MulMonos, MulMonosRow, MulCoeffPoly, MulCoeffPolyLoop,
      keepMono, PolyOwnMonos, SortMonos, PolyOwnMonosSorted, OwnMonosLoop, MonoGetExp, MonoLe,
      List.insertionSort, List.orderedInsert, PolyIsZero, BuildPolyFromMonos, wrap32, wrap64,
      PolyFromCoeff, PolyZero, PolyAdd, SumConstPoly, SumConstPoly0, SumPolyPoly,
      SumPolyPolyLoop, PolyClone, CloneMonoArr]
  have h2 : PolyMul exCommQ exCommP =
      Poly.sum [(Poly.sum [(Poly.coeff 1, 2)], 0),
        (Poly.sum [(Poly.coeff 1, -2147483647), (Poly.coeff 1, 1)], 1),
        (Poly.sum [(Poly.coeff 1, 0), (Poly.coeff 1, -2147483648),
          (Poly.coeff 1, -2147483647)], 2),
        (Poly.sum [(Poly.coeff 1, -2147483648), (Poly.coeff 1, 2147483647)], 3),
        (Poly.sum [(Poly.coeff 1, 2147483647)], 4)] := by
    simp [exCommP, exCommQ, PolyMul, MulMonos, MulMonosRow, MulCoeffPoly, MulCoeffPolyLoop,
      keepMono, PolyOwnMonos, SortMonos, PolyOwnMonosSorted, OwnMonosLoop, MonoGetExp, MonoLe,
      List.insertionSort, List.orderedInsert, PolyIsZero, BuildPolyFromMonos, wrap32, wrap64,
      PolyFromCoeff, PolyZero, PolyAdd, SumConstPoly, SumConstPoly0, SumPolyPoly,
      SumPolyPolyLoop, PolyClone, CloneMonoArr]
  refine ⟨by decide, by decide, by decide, by decide, h1, h2, ?_⟩
  rw [h1, h2]
  decide

/-- C12 (amended). `PolyMul` is commutative when the exponent sums fit: for all
canonical Polys `p` and `q` (holding values of `long` and `int`) for which every
exponent sum that `PolyMul` forms, at every nesting level, fits in `int`,
`PolyIsEq (PolyMul p q) (PolyMul q p)` is true. -/
theorem PolyMul_comm (p q : Poly) (hp : Canonical p) (hq : Canonical q)
    (hrp : InRange p) (hrq : InRange q) (hfit : MulExpFits p q = true) :
    PolyIsEq (PolyMul p q) (PolyMul q p) = true := by
  rw [PolyIsEq_iff]
  have hfit2 := MulExpFits_symm hfit
  refine den_inj (PolyMul_canonical_of hp hq hfit) (PolyMul_canonical_of hq hp hfit2)
    (PolyMul_inRange hrp hrq) (PolyMul_inRange hrq hrp) ?_
  rw [den_PolyMul_of hp hq hfit, den_PolyMul_of hq hp hfit2, mul_comm]

theorem PolyMul_comm_witness :
    Canonical exOnePlusX ∧ Canonical exXY5 ∧ InRange exOnePlusX ∧ InRange exXY5 ∧
      MulExpFits exOnePlusX exXY5 = true ∧
      PolyIsEq (PolyMul exOnePlusX exXY5) (PolyMul exXY5 exOnePlusX) = true := by
  have hfit : MulExpFits exOnePlusX exXY5 = true := by
    simp [exOnePlusX, exXY5, MulExpFits, MulMonosFits, MulMonosRowFits, INT_BOUND]
  exact ⟨by decide, by decide, by decide, by decide, hfit,
    PolyMul_comm _ _ (by decide) (by decide) (by decide) (by decide) hfit⟩

/-- C13 (as stated, refuted). For the canonical Polys `exOverflowP`, `exOverflowQ` and
`exOnePlusX`, the product of the coefficients `x_1^2147483647` and `x_1` wraps in
`int`; the coefficient of `x_0` is then summed in two different groupings, and
`PolyMul (PolyMul p q) r` and `PolyMul p (PolyMul q r)` differ. -/
theorem PolyMul_assoc_counterexample :
    Canonical exOverflowP ∧ InRange exOverflowP ∧ Canonical exOverflowQ ∧
      InRange exOverflowQ ∧ Canonical exOnePlusX ∧ InRange exOnePlusX ∧
      PolyMul (PolyMul exOverflowP exOverflowQ) exOnePlusX =
        Poly.sum [(Poly.sum [(Poly.coeff 1, 1)], 0),
          (Poly.sum [(Poly.coeff 1, 0), (Poly.coeff 1, -2147483648), (Poly.coeff 1, 1)], 1),
          (Poly.sum [(Poly.coeff 1, 0), (Poly.coeff 1, -2147483648),
            (Poly.coeff 1, 2147483647)], 2),
          (Poly.sum [(Poly.coeff 1, 2147483647)], 3)] ∧
      PolyMul exOverflowP (PolyMul exOverflowQ exOnePlusX) =
        Poly.sum [(Poly.sum [(Poly.coeff 1, 1)], 0),
          (Poly.sum [(Poly.coeff 1, -2147483648), (Poly.coeff 1, 0), (Poly.coeff 1, 1)], 1),
          (Poly.sum [(Poly.coeff 1, 0), (Poly.coeff 1, -2147483648),
            (Poly.coeff 1, 2147483647)], 2),
          (Poly.sum [(Poly.coeff 1, 2147483647)], 3)] ∧
      PolyIsEq (PolyMul (PolyMul exOverflowP exOverflowQ) exOnePlusX)
        (PolyMul exOverflowP (PolyMul exOverflowQ exOnePlusX)) = false := by
  have h1 : PolyMul (PolyMul exOverflowP exOverflowQ) exOnePlusX =
      Poly.sum [(Poly.sum [(Poly.coeff 1, 1)], 0),
        (Poly.sum [(Poly.coeff 1, 0), (Poly.coeff 1, -2147483648), (Poly.coeff 1, 1)], 1),
        (Poly.sum [(Poly.coeff 1, 0), (Poly.coeff 1, -2147483648),
          (Poly.coeff 1, 2147483647)], 2),
        (Poly.sum [(Poly.coeff 1, 2147483647)], 3)] := by
    simp [exOverflowP, exOverflowQ, exOnePlusX, PolyMul, MulMonos, MulMonosRow, MulCoeffPoly,
      MulCoeffPolyLoop, keepMono, PolyOwnMonos, SortMonos, PolyOwnMonosSorted, OwnMonosLoop,
      MonoGetExp, MonoLe, List.insertionSort, List.orderedInsert, PolyIsZero,
      BuildPolyFromMonos, wrap32, wrap64, PolyFromCoeff, PolyZero, PolyAdd, SumConstPoly,
      SumConstPoly0, SumPolyPoly, SumPolyPolyLoop, PolyClone, CloneMonoArr]
  have h2 : PolyMul exOverflowP (PolyMul exOverflowQ exOnePlusX) =
      Poly.sum [(Poly.sum [(Poly.coeff 1, 1)], 0),
        (Poly.sum [(Poly.coeff 1, -2147483648), (Poly.coeff 1, 0), (Poly.coeff 1, 1)], 1),
        (Poly.sum [(Poly.coeff 1, 0), (Poly.coeff 1, -2147483648),
          (Poly.coeff 1, 2147483647)], 2),
        (Poly.sum [(Poly.coeff 1, 2147483647)], 3)] := by
    simp [exOverflowP, exOverflowQ, exOnePlusX, PolyMul, MulMonos, MulMonosRow, MulCoeffPoly,
      MulCoeffPolyLoop, keepMono, PolyOwnMonos, SortMonos, PolyOwnMonosSorted, OwnMonosLoop,
      MonoGetExp, MonoLe, List.insertionSort, List.orderedInsert, PolyIsZero,
      BuildPolyFromMonos, wrap32, wrap64, PolyFromCoeff, PolyZero, PolyAdd, SumConstPoly,
      SumConstPoly0, SumPolyPoly, SumPolyPolyLoop, PolyClone, CloneMonoArr]
  refine ⟨by decide, by decide, by decide, by decide, by decide, by decide, h1, h2, ?_⟩
  rw [h1, h2]
  decide

/-- C13 (amended). `PolyMul` is associative when the exponent sums fit: for all
canonical Polys `p`, `q` and `r` (holding values of `long` and `int`) for which every
exponent sum formed in the four multiplications `PolyMul p q`, `PolyMul (PolyMul p q) r`,
`PolyMul q r` and `PolyMul p (PolyMul q r)` fits in `int`,
`PolyIsEq (PolyMul (PolyMul p q) r) (PolyMul p (PolyMul q r))` is true, including when
coefficient products wrap to zero modulo `2^64`. -/
theorem PolyMul_assoc (p q r : Poly) (hp : Canonical p) (hq : Canonical q) (hr : Canonical r)
    (hrp : InRange p) (hrq : InRange q) (hrr : InRange r)
    (hpq : MulExpFits p q = true) (hpqr : MulExpFits (PolyMul p q) r = true)
    (hqr : MulExpFits q r = true) (hpqr2 : MulExpFits p (PolyMul q r) = true) :
    PolyIsEq (PolyMul (PolyMul p q) r) (PolyMul p (PolyMul q r)) = true := by
  rw [PolyIsEq_iff]
  have c1 := PolyMul_canonical_of hp hq hpq
  have c2 := PolyMul_canonical_of hq hr hqr
  refine den_inj (PolyMul_canonical_of c1 hr hpqr) (PolyMul_canonical_of hp c2 hpqr2)
    (PolyMul_inRange (PolyMul_inRange hrp hrq) hrr)
    (PolyMul_inRange hrp (PolyMul_inRange hrq hrr)) ?_
  rw [den_PolyMul_of c1 hr hpqr, den_PolyMul_of hp hq hpq, den_PolyMul_of hp c2 hpqr2,
    den_PolyMul_of hq hr hqr, mul_assoc]

theorem PolyMul_assoc_witness :
    Canonical (Poly.sum [(Poly.coeff 4294967296, 1)]) ∧
      InRange (Poly.sum [(Poly.coeff 4294967296, 1)]) ∧
      Canonical exOnePlusX ∧ InRange exOnePlusX ∧
      MulExpFits (Poly.sum [(Poly.coeff 4294967296, 1)])
        (Poly.sum [(Poly.coeff 4294967296, 1)]) = true ∧
      MulExpFits (PolyMul (Poly.sum [(Poly.coeff 4294967296, 1)])
        (Poly.sum [(Poly.coeff 4294967296, 1)])) exOnePlusX = true ∧
      MulExpFits (Poly.sum [(Poly.coeff 4294967296, 1)]) exOnePlusX = true ∧
      MulExpFits (Poly.sum [(Poly.coeff 4294967296, 1)])
        (PolyMul (Poly.sum [(Poly.coeff 4294967296, 1)]) exOnePlusX) = true ∧
      PolyIsEq
        (PolyMul (PolyMul (Poly.sum [(Poly.coeff 4294967296, 1)])
          (Poly.sum [(Poly.coeff 4294967296, 1)])) exOnePlusX)
        (PolyMul (Poly.sum [(Poly.coeff 4294967296, 1)])
          (PolyMul (Poly.sum [(Poly.coeff 4294967296, 1)]) exOnePlusX)) = true := by
  have h1 : MulExpFits (Poly.sum [(Poly.coeff 4294967296, 1)])
      (Poly.sum [(Poly.coeff 4294967296, 1)]) = true := by
    simp [MulExpFits, MulMonosFits, MulMonosRowFits, INT_BOUND]
  have h2 : MulExpFits (PolyMul (Poly.sum [(Poly.coeff 4294967296, 1)])
      (Poly.sum [(Poly.coeff 4294967296, 1)])) exOnePlusX = true := by
    simp [exOnePlusX, MulExpFits, MulMonosFits, MulMonosRowFits, INT_BOUND, PolyMul, MulMonos,
      MulMonosRow, keepMono, PolyOwnMonos, SortMonos, PolyOwnMonosSorted, OwnMonosLoop,
      MonoGetExp, List.insertionSort, List.orderedInsert, PolyIsZero, BuildPolyFromMonos,
      wrap32, wrap64, PolyFromCoeff, PolyZero]
  have h3 : MulExpFits (Poly.sum [(Poly.coeff 4294967296, 1)]) exOnePlusX = true := by
    simp [exOnePlusX, MulExpFits, MulMonosFits, MulMonosRowFits, INT_BOUND]
  have h4 : MulExpFits (Poly.sum [(Poly.coeff 4294967296, 1)])
      (PolyMul (Poly.sum [(Poly.coeff 4294967296, 1)]) exOnePlusX) = true := by
    simp [exOnePlusX, MulExpFits, MulMonosFits, MulMonosRowFits, INT_BOUND, PolyMul, MulMonos,
      MulMonosRow, keepMono, PolyOwnMonos, SortMonos, PolyOwnMonosSorted, OwnMonosLoop,
      MonoGetExp, MonoLe, List.insertionSort, List.orderedInsert, PolyIsZero,
      BuildPolyFromMonos, wrap32, wrap64, PolyFromCoeff, PolyZero]
  exact ⟨by decide, by decide, by decide, by decide, h1, h2, h3, h4,
    PolyMul_assoc _ _ _ (by decide) (by decide) (by decide) (by decide) (by decide)
      (by decide) h1 h2 h3 h4⟩

/-- C14 (as stated, refuted). For the canonical Polys `exOverflowP`, `exOverflowQ` and
`exXY5`, the product of the coefficients `x_1^2147483647` and `x_1` wraps in `int`;
the coefficient of `x_0` is then merged in two different orders, and
`PolyMul p (PolyAdd q r)` and `PolyAdd (PolyMul p q) (PolyMul p r)` differ. -/
theorem PolyMul_distrib_counterexample :
    Canonical exOverflowP ∧ InRange exOverflowP ∧ Canonical exOverflowQ ∧
      InRange exOverflowQ ∧ Canonical exXY5 ∧ InRange exXY5 ∧
      PolyMul exOverflowP (PolyAdd exOverflowQ exXY5) =
        Poly.sum [(Poly.sum [(Poly.coeff 1, 1)], 0),
          (Poly.sum [(Poly.coeff 1, -2147483648), (Poly.coeff 1, 0), (Poly.coeff 1, 5)], 1),
          (Poly.sum [(Poly.coeff 1, -2147483644), (Poly.coeff 1, 2147483647)], 2)] ∧
      PolyAdd (PolyMul exOverflowP exOverflowQ) (PolyMul exOverflowP exXY5) =
        Poly.sum [(Poly.sum [(Poly.coeff 1, 1)], 0),
          (Poly.sum [(Poly.coeff 1, 0), (Poly.coeff 1, -2147483648), (Poly.coeff 1, 5)], 1),
          (Poly.sum [(Poly.coeff 1, -2147483644), (Poly.coeff 1, 2147483647)], 2)] ∧
      PolyIsEq (PolyMul exOverflowP (PolyAdd exOverflowQ exXY5))
        (PolyAdd (PolyMul exOverflowP exOverflowQ) (PolyMul exOverflowP exXY5)) = false := by
  have h1 : PolyMul exOverflowP (PolyAdd exOverflowQ exXY5) =
      Poly.sum [(Poly.sum [(Poly.coeff 1, 1)], 0),
        (Poly.sum [(Poly.coeff 1, -2147483648), (Poly.coeff 1, 0), (Poly.coeff 1, 5)], 1),
        (Poly.sum [(Poly.coeff 1, -2147483644), (Poly.coeff 1, 2147483647)], 2)] := by
    simp [exOverflowP, exOverflowQ, exXY5, PolyMul, MulMonos, MulMonosRow, MulCoeffPoly,
      MulCoeffPolyLoop, keepMono, PolyOwnMonos, SortMonos, PolyOwnMonosSorted, OwnMonosLoop,
      MonoGetExp, MonoLe, List.insertionSort, List.orderedInsert, PolyIsZero,
      BuildPolyFromMonos, wrap32, wrap64, PolyFromCoeff, PolyZero, PolyAdd, SumConstPoly,
      SumConstPoly0, SumPolyPoly, SumPolyPolyLoop, PolyClone, CloneMonoArr]
  have h2 : PolyAdd (PolyMul exOverflowP exOverflowQ) (PolyMul exOverflowP exXY5) =
      Poly.sum [(Poly.sum [(Poly.coeff 1, 1)], 0),
        (Poly.sum [(Poly.coeff 1, 0), (Poly.coeff 1, -2147483648), (Poly.coeff 1, 5)], 1),
        (Poly.sum [(Poly.coeff 1, -2147483644), (Poly.coeff 1, 2147483647)], 2)] := by
    simp [exOverflowP, exOverflowQ, exXY5, PolyMul, MulMonos, MulMonosRow, MulCoeffPoly,
      MulCoeffPolyLoop, keepMono, PolyOwnMonos, SortMonos, PolyOwnMonosSorted, OwnMonosLoop,
      MonoGetExp, MonoLe, List.insertionSort, List.orderedInsert, PolyIsZero,
      BuildPolyFromMonos, wrap32, wrap64, PolyFromCoeff, PolyZero, PolyAdd, SumConstPoly,
      SumConstPoly0, SumPolyPoly, SumPolyPolyLoop, PolyClone, CloneMonoArr]
  refine ⟨by decide, by decide, by decide, by decide, by decide, by decide, h1, h2, ?_⟩
  rw [h1, h2]
  decide

/-- C14 (amended). `PolyMul` distributes over `PolyAdd` when the exponent sums fit:
for all canonical Polys `p`, `q` and `r` (holding values of `long` and `int`) for
which every exponent sum formed in the three multiplications `PolyMul p (PolyAdd q r)`,
`PolyMul p q` and `PolyMul p r` fits in `int`,
`PolyIsEq (PolyMul p (PolyAdd q r)) (PolyAdd (PolyMul p q) (PolyMul p r))` is true. -/
theorem PolyMul_distrib (p q r : Poly) (hp : Canonical p) (hq : Canonical q)
    (hr : Canonical r) (hrp : InRange p) (hrq : InRange q) (hrr : InRange r)
    (hfit : MulExpFits p (PolyAdd q r) = true) (hpq : MulExpFits p q = true)
    (hpr : MulExpFits p r = true) :
    PolyIsEq (PolyMul p (PolyAdd q r)) (PolyAdd (PolyMul p q) (PolyMul p r)) = true := by
  rw [PolyIsEq_iff]
  have c1 := PolyAdd_canonical_of hq hr
  refine den_inj (PolyMul_canonical_of hp c1 hfit)
    (PolyAdd_canonical_of (PolyMul_canonical_of hp hq hpq) (PolyMul_canonical_of hp hr hpr))
    (PolyMul_inRange hrp (PolyAdd_inRange hrq hrr))
    (PolyAdd_inRange (PolyMul_inRange hrp hrq) (PolyMul_inRange hrp hrr)) ?_
  rw [den_PolyMul_of hp c1 hfit, den_PolyAdd, den_PolyAdd, den_PolyMul_of hp hq hpq,
    den_PolyMul_of hp hr hpr, mul_add]

theorem PolyMul_distrib_witness :
    Canonical exOnePlusX ∧ InRange exOnePlusX ∧ Canonical exXY5 ∧ InRange exXY5 ∧
      Canonical (Poly.coeff (-1)) ∧ InRange (Poly.coeff (-1)) ∧
      MulExpFits exOnePlusX (PolyAdd exXY5 (Poly.coeff (-1))) = true ∧
      MulExpFits exOnePlusX exXY5 = true ∧ MulExpFits exOnePlusX (Poly.coeff (-1)) = true ∧
      PolyIsEq (PolyMul exOnePlusX (PolyAdd exXY5 (Poly.coeff (-1))))
        (PolyAdd (PolyMul exOnePlusX exXY5) (PolyMul exOnePlusX (Poly.coeff (-1)))) = true := by
  have h1 : MulExpFits exOnePlusX (PolyAdd exXY5 (Poly.coeff (-1))) = true := by
    simp [exOnePlusX, exXY5, MulExpFits, MulMonosFits, MulMonosRowFits, INT_BOUND, PolyAdd,
      SumConstPoly, SumConstPoly0, PolyClone, CloneMonoArr, PolyFromCoeff]
  have h2 : MulExpFits exOnePlusX exXY5 = true := by
    simp [exOnePlusX, exXY5, MulExpFits, MulMonosFits, MulMonosRowFits, INT_BOUND]
  have h3 : MulExpFits exOnePlusX (Poly.coeff (-1)) = true := by
    simp [exOnePlusX, MulExpFits]
  exact ⟨by decide, by decide, by decide, by decide, by decide, by decide, h1, h2, h3,
    PolyMul_distrib _ _ _ (by decide) (by decide) (by decide) (by decide) (by decide)
      (by decide) h1 h2 h3⟩

/-! ## C15, C16, C17: the identities of `PolyAdd` and `PolyMul`, and `PolyNeg` twice -/

theorem wrap64_of_range {c : Int} (h : -LONG_BOUND ≤ c ∧ c < LONG_BOUND) : wrap64 c = c := by
  unfold LONG_BOUND at h
  unfold wrap64
  omega

/-- C15. Zero is the identity of `PolyAdd`: for every canonical Poly `p` (holding
values of `long` and `int`), `PolyAdd p PolyZero` and `PolyAdd PolyZero p` are both
equal to `p`. -/
theorem PolyAdd_zero (p : Poly) (hp : Canonical p) (hr : InRange p) :
    PolyAdd p PolyZero = p ∧ PolyAdd PolyZero p = p := by
  unfold PolyZero PolyFromCoeff
  cases p with
  | coeff c =>
    have hc := (inRange_coeff_iff c).1 hr
    constructor
    · rw [PolyAdd, PolyFromCoeff, add_zero, wrap64_of_range hc]
    · rw [PolyAdd, PolyFromCoeff, zero_add, wrap64_of_range hc]
  | sum qs => exact ⟨by rw [PolyAdd_sum_coeff, PolyAdd_zero_sum], PolyAdd_zero_sum qs⟩

theorem PolyAdd_zero_witness :
    Canonical (Poly.sum [(Poly.coeff 1, 0), (Poly.coeff 2, 3)]) ∧
      InRange (Poly.sum [(Poly.coeff 1, 0), (Poly.coeff 2, 3)]) ∧
      PolyAdd (Poly.sum [(Poly.coeff 1, 0), (Poly.coeff 2, 3)]) PolyZero =
        Poly.sum [(Poly.coeff 1, 0), (Poly.coeff 2, 3)] ∧
      PolyAdd PolyZero (Poly.sum [(Poly.coeff 1, 0), (Poly.coeff 2, 3)]) =
        Poly.sum [(Poly.coeff 1, 0), (Poly.coeff 2, 3)] :=
  ⟨by decide, by decide, PolyAdd_zero _ (by decide) (by decide)⟩

theorem BuildPolyFromMonos_of_canonical {qs : List (Poly × Int)}
    (hq : Canonical (Poly.sum qs)) : BuildPolyFromMonos qs = Poly.sum qs := by
  obtain ⟨hnil, -, hlone⟩ := (canonical_sum_iff qs).1 hq
  rcases BuildPolyFromMonos_cases qs with ⟨h1, -⟩ | ⟨c, h1, -⟩ | ⟨-, -, h2⟩
  · exact absurd h1 hnil
  · rw [h1] at hlone; simp [IsLoneConst] at hlone
  · exact h2

theorem MulCoeffPolyLoop_one (qs : List (Poly × Int))
    (h : ∀ m ∈ qs, PolyMul (Poly.coeff 1) m.1 = m.1 ∧ PolyIsZero m.1 = false) :
    MulCoeffPolyLoop 1 qs = qs := by
  induction qs with
  | nil => rw [MulCoeffPolyLoop]
  | cons m tl ih =>
    obtain ⟨q, e⟩ := m
    obtain ⟨h1, h2⟩ := h _ (List.mem_cons_self _ _)
    simp only at h1 h2
    rw [MulCoeffPolyLoop_cons, h1, keepMono, ih (fun m hm => h m (List.mem_cons_of_mem _ hm))]
    simp [h2]

theorem PolyMul_one_left_aux : ∀ (n : Nat) (p : Poly), p.size ≤ n → Canonical p → InRange p →
    PolyMul (Poly.coeff 1) p = p := by
  intro n
  induction n with
  | zero =>
    intro p h
    have := size_pos p
    omega
  | succ n ih =>
    intro p hn hp hr
    cases p with
    | coeff c =>
      rw [PolyMul, PolyFromCoeff, one_mul, wrap64_of_range ((inRange_coeff_iff c).1 hr)]
    | sum qs =>
      have hok := ((canonical_sum_iff qs).1 hp).2.1
      have hir := (inRange_sum_iff qs).1 hr
      rw [PolyMul_coeff_sum 1 (by decide), MulCoeffPolyLoop_one qs,
        BuildPolyFromMonos_of_canonical hp]
      intro m hm
      refine ⟨ih _ ?_ (hok.1 m hm).1 (hir m hm).1, (hok.1 m hm).2.1⟩
      have := size_lt_of_mem hm
      simp only [Poly.size] at hn
      omega

/-- C16. One is the identity of `PolyMul`: for every canonical Poly `p` (holding
values of `long` and `int`), `PolyMul p (PolyFromCoeff 1)` and
`PolyMul (PolyFromCoeff 1) p` are both equal to `p`: the scalar path drops and
reorders no term. -/
theorem PolyMul_one (p : Poly) (hp : Canonical p) (hr : InRange p) :
    PolyMul p (PolyFromCoeff 1) = p ∧ PolyMul (PolyFromCoeff 1) p = p := by
  have h := PolyMul_one_left_aux _ p (le_refl _) hp hr
  refine ⟨?_, h⟩
  unfold PolyFromCoeff
  cases p with
  | coeff c =>
    rw [PolyMul, PolyFromCoeff, mul_one, wrap64_of_range ((inRange_coeff_iff c).1 hr)]
  | sum qs => rw [PolyMul_sum_coeff]; exact h

theorem PolyMul_one_witness :
    Canonical (Poly.sum [(Poly.coeff 1, 0), (Poly.sum [(Poly.coeff (-3), 2)], 3)]) ∧
      InRange (Poly.sum [(Poly.coeff 1, 0), (Poly.sum [(Poly.coeff (-3), 2)], 3)]) ∧
      PolyMul (Poly.sum [(Poly.coeff 1, 0), (Poly.sum [(Poly.coeff (-3), 2)], 3)])
          (PolyFromCoeff 1) =
        Poly.sum [(Poly.coeff 1, 0), (Poly.sum [(Poly.coeff (-3), 2)], 3)] ∧
      PolyMul (PolyFromCoeff 1)
          (Poly.sum [(Poly.coeff 1, 0), (Poly.sum [(Poly.coeff (-3), 2)], 3)]) =
        Poly.sum [(Poly.coeff 1, 0), (Poly.sum [(Poly.coeff (-3), 2)], 3)] :=
  ⟨by decide, by decide, PolyMul_one _ (by decide) (by decide)⟩

theorem MulExpFits_coeff_right (p : Poly) (b : Int) : MulExpFits p (Poly.coeff b) = true := by
  cases p <;> rw [MulExpFits]

theorem PolyNeg_canonical {p : Poly} (hp : Canonical p) : Canonical (PolyNeg p) := by
  unfold PolyNeg PolyFromCoeff
  exact PolyMul_canonical_of hp (canonical_coeff _) (MulExpFits_coeff_right p _)

theorem PolyNeg_inRange {p : Poly} (hp : InRange p) : InRange (PolyNeg p) := by
  unfold PolyNeg PolyFromCoeff
  exact PolyMul_inRange hp (by decide)

theorem NegMonoArr_NegMonoArr (qs : List (Poly × Int))
    (h : ∀ m ∈ qs, PolyNeg (PolyNeg m.1) = m.1) : NegMonoArr (NegMonoArr qs) = qs := by
  induction qs with
  | nil => rw [NegMonoArr, NegMonoArr]
  | cons m tl ih =>
    obtain ⟨q, e⟩ := m
    have h1 := h _ (List.mem_cons_self _ _)
    simp only at h1
    rw [NegMonoArr_cons, NegMonoArr_cons, h1, ih (fun m hm => h m (List.mem_cons_of_mem _ hm))]

theorem wrap64_neg_neg {c : Int} (h : -LONG_BOUND ≤ c ∧ c < LONG_BOUND) :
    wrap64 (wrap64 (c * -1) * -1) = c := by
  unfold LONG_BOUND at h
  unfold wrap64
  omega

theorem PolyNeg_PolyNeg_aux : ∀ (n : Nat) (p : Poly), p.size ≤ n → Canonical p → InRange p →
    PolyNeg (PolyNeg p) = p := by
  intro n
  induction n with
  | zero =>
    intro p h
    have := size_pos p
    omega
  | succ n ih =>
    intro p hn hp hr
    cases p with
    | coeff c =>
      rw [PolyNeg_coeff, PolyNeg_coeff, wrap64_neg_neg ((inRange_coeff_iff c).1 hr)]
    | sum qs =>
      have hok := ((canonical_sum_iff qs).1 hp).2.1
      have hir := (inRange_sum_iff qs).1 hr
      have h1 := PolyNeg_sum_canonical hp hr
      have hc2 : Canonical (Poly.sum (NegMonoArr qs)) := h1 ▸ PolyNeg_canonical hp
      have hr2 : InRange (Poly.sum (NegMonoArr qs)) := h1 ▸ PolyNeg_inRange hr
      rw [h1, PolyNeg_sum_canonical hc2 hr2, NegMonoArr_NegMonoArr]
      intro m hm
      refine ih _ ?_ (hok.1 m hm).1 (hir m hm).1
      have := size_lt_of_mem hm
      simp only [Poly.size] at hn
      omega

/-- C17. Negation is an involution: for every canonical Poly `p` (holding values of
`long` and `int`), `PolyNeg (PolyNeg p)` equals `p`, including for coefficients equal
to the minimum 64-bit integer, whose negation wraps to itself. -/
theorem PolyNeg_PolyNeg (p : Poly) (hp : Canonical p) (hr : InRange p) :
    PolyNeg (PolyNeg p) = p :=
  PolyNeg_PolyNeg_aux _ p (le_refl _) hp hr

theorem PolyNeg_PolyNeg_witness :
    Canonical (Poly.sum [(Poly.coeff (-9223372036854775808), 0), (Poly.coeff 2, 3)]) ∧
      InRange (Poly.sum [(Poly.coeff (-9223372036854775808), 0), (Poly.coeff 2, 3)]) ∧
      PolyNeg (PolyNeg (Poly.sum [(Poly.coeff (-9223372036854775808), 0), (Poly.coeff 2, 3)])) =
        Poly.sum [(Poly.coeff (-9223372036854775808), 0), (Poly.coeff 2, 3)] :=
  ⟨by decide, by decide, PolyNeg_PolyNeg _ (by decide) (by decide)⟩

/-! ## The monomials of a denotation -/

theorem shiftMono_zero (e : ℕ) (m : ℕ →₀ ℕ) : shiftMono e m 0 = e := by
  unfold shiftMono
  rw [Finsupp.add_apply, Finsupp.single_eq_same, Finsupp.mapDomain_notin_range]
  · rfl
  · rintro ⟨k, hk⟩; exact Nat.succ_ne_zero k hk

theorem shiftMono_succ (e : ℕ) (m : ℕ →₀ ℕ) (j : ℕ) : shiftMono e m (j + 1) = m j := by
  unfold shiftMono
  rw [Finsupp.add_apply, Finsupp.single_eq_of_ne (by omega),
    Finsupp.mapDomain_apply Nat.succ_injective, zero_add]

theorem shiftMono_degree (e : ℕ) (m : ℕ →₀ ℕ) :
    ((shiftMono e m).sum fun _ k => k) = e + m.sum fun _ k => k := by
  unfold shiftMono
  rw [Finsupp.sum_add_index' (fun _ => rfl) (fun _ _ _ => rfl),
    Finsupp.sum_single_index rfl,
    Finsupp.sum_mapDomain_index (fun _ => rfl) (fun _ _ _ => rfl)]

theorem support_monoDen (m : Mono) :
    (monoDen m).support = Finset.image (shiftMono m.2.toNat) (den m.1).support := by
  classical
  unfold monoDen
  rw [MvPolynomial.X_pow_eq_monomial]
  have h := AddMonoidAlgebra.support_single_mul
    (MvPolynomial.rename Nat.succ (den m.1) : AddMonoidAlgebra (ZMod (2 ^ 64)) (ℕ →₀ ℕ))
    (1 : ZMod (2 ^ 64)) (fun y => by simp) (Finsupp.single 0 m.2.toNat)
  have h2 : (MvPolynomial.monomial (Finsupp.single 0 m.2.toNat) (1 : ZMod (2 ^ 64)) *
      MvPolynomial.rename Nat.succ (den m.1)).support =
      ((MvPolynomial.rename Nat.succ (den m.1)).support).map
        (addLeftEmbedding (Finsupp.single 0 m.2.toNat)) := h
  rw [h2, MvPolynomial.support_rename_of_injective Nat.succ_injective, Finset.map_eq_image,
    Finset.image_image]
  rfl

theorem support_monoDen_zero (m : Mono) (s : ℕ →₀ ℕ) (hs : s ∈ (monoDen m).support) :
    s 0 = m.2.toNat := by
  classical
  rw [support_monoDen] at hs
  obtain ⟨t, -, rfl⟩ := Finset.mem_image.1 hs
  exact shiftMono_zero _ _

theorem support_denMonos_zero (arr : List Mono) (s : ℕ →₀ ℕ)
    (hs : s ∈ (denMonos arr).support) : ∃ x ∈ arr, s 0 = x.2.toNat := by
  classical
  induction arr with
  | nil => rw [denMonos_nil] at hs; simp at hs
  | cons m tl ih =>
    obtain ⟨p, e⟩ := m
    have hd : denMonos ((p, e) :: tl) = monoDen (p, e) + denMonos tl := by
      rw [denMonos_cons, monoDen]
    rw [hd] at hs
    rcases Finset.mem_union.1 (MvPolynomial.support_add hs) with h | h
    · exact ⟨_, List.mem_cons_self _ _, support_monoDen_zero _ s h⟩
    · obtain ⟨x, hx, hsx⟩ := ih h
      exact ⟨x, List.mem_cons_of_mem _ hx, hsx⟩

theorem support_denMonos_cons (p : Poly) (e : Int) (tl : List Mono)
    (h : MonosOK ((p, e) :: tl)) :
    (denMonos ((p, e) :: tl)).support = (monoDen (p, e)).support ∪ (denMonos tl).support := by
  classical
  have hd : denMonos ((p, e) :: tl) = monoDen (p, e) + denMonos tl := by
    rw [denMonos_cons, monoDen]
  rw [hd]
  obtain ⟨⟨-, -, he⟩, hlt, -⟩ := MonosOK_cons.1 h
  refine Finsupp.support_add_eq ?_
  rw [Finset.disjoint_left]
  intro s hs1 hs2
  have h1 := support_monoDen_zero _ s hs1
  obtain ⟨x, hx, h2⟩ := support_denMonos_zero tl s hs2
  have := hlt x hx
  simp only at this h1
  omega

theorem listMax_cons (a : ℕ) (l : List ℕ) : listMax (a :: l) = max a (listMax l) := rfl

theorem le_listMax {l : List ℕ} {a : ℕ} (h : a ∈ l) : a ≤ listMax l := by
  induction l with
  | nil => cases h
  | cons b tl ih =>
    rw [listMax_cons]
    rcases List.mem_cons.1 h with rfl | h
    · exact le_max_left _ _
    · exact le_trans (ih h) (le_max_right _ _)

/-- The largest weight of a monomial of the denotation of a canonical array is the
largest of the values for its monomials. -/
theorem sup_support_denMonos (w : (ℕ →₀ ℕ) → ℕ) (arr : List Mono) (h : MonosOK arr) :
    (denMonos arr).support.sup w = listMax (arr.map fun x => (monoDen x).support.sup w) := by
  classical
  induction arr with
  | nil => rw [denMonos_nil]; simp [listMax]
  | cons m tl ih =>
    obtain ⟨p, e⟩ := m
    rw [support_denMonos_cons p e tl h, Finset.sup_union, ih (MonosOK_tail h), List.map_cons,
      listMax_cons]

theorem sup_const_add (s : Finset (ℕ →₀ ℕ)) (hs : s.Nonempty) (e : ℕ) (d : (ℕ →₀ ℕ) → ℕ) :
    (s.sup fun m => e + d m) = e + s.sup d := by
  apply le_antisymm
  · exact Finset.sup_le (fun m hm => Nat.add_le_add_left (Finset.le_sup hm) e)
  · obtain ⟨m, hm, hsup⟩ := Finset.exists_mem_eq_sup s hs d
    rw [hsup]
    exact Finset.le_sup (f := fun m => e + d m) hm

theorem totalDegree_monoDen (m : Mono) (h : den m.1 ≠ 0) :
    (monoDen m).totalDegree = m.2.toNat + (den m.1).totalDegree := by
  classical
  unfold MvPolynomial.totalDegree
  rw [support_monoDen, Finset.sup_image]
  have hne : (den m.1).support.Nonempty := by
    rw [Finset.nonempty_iff_ne_empty, Ne, MvPolynomial.support_eq_empty]; exact h
  rw [← sup_const_add _ hne]
  congr 1
  funext s
  exact shiftMono_degree _ _

theorem degreeOf_zero_monoDen (m : Mono) (h : den m.1 ≠ 0) :
    (monoDen m).degreeOf 0 = m.2.toNat := by
  classical
  rw [MvPolynomial.degreeOf_eq_sup, support_monoDen, Finset.sup_image]
  have hne : (den m.1).support.Nonempty := by
    rw [Finset.nonempty_iff_ne_empty, Ne, MvPolynomial.support_eq_empty]; exact h
  have : ((fun s : ℕ →₀ ℕ => s 0) ∘ shiftMono m.2.toNat) = fun _ => m.2.toNat := by
    funext s; exact shiftMono_zero _ _
  rw [this]
  exact Finset.sup_const hne _

theorem degreeOf_succ_monoDen (m : Mono) (j : ℕ) :
    (monoDen m).degreeOf (j + 1) = (den m.1).degreeOf j := by
  classical
  rw [MvPolynomial.degreeOf_eq_sup, MvPolynomial.degreeOf_eq_sup, support_monoDen,
    Finset.sup_image]
  congr 1
  funext s
  exact shiftMono_succ _ _ _

theorem totalDegree_denMonos (arr : List Mono) (h : MonosOK arr)
    (hne : ∀ x ∈ arr, den x.1 ≠ 0) :
    (denMonos arr).totalDegree =
      listMax (arr.map fun x => x.2.toNat + (den x.1).totalDegree) := by
  unfold MvPolynomial.totalDegree
  rw [sup_support_denMonos _ arr h]
  congr 1
  refine List.map_congr_left (fun x hx => ?_)
  exact totalDegree_monoDen x (hne x hx)

theorem degreeOf_zero_denMonos (arr : List Mono) (h : MonosOK arr)
    (hne : ∀ x ∈ arr, den x.1 ≠ 0) :
    (denMonos arr).degreeOf 0 = listMax (arr.map fun x => x.2.toNat) := by
  rw [MvPolynomial.degreeOf_eq_sup, sup_support_denMonos _ arr h]
  congr 1
  refine List.map_congr_left (fun x hx => ?_)
  rw [← MvPolynomial.degreeOf_eq_sup]
  exact degreeOf_zero_monoDen x (hne x hx)

theorem degreeOf_succ_denMonos (arr : List Mono) (h : MonosOK arr) (j : ℕ) :
    (denMonos arr).degreeOf (j + 1) = listMax (arr.map fun x => (den x.1).degreeOf j) := by
  rw [MvPolynomial.degreeOf_eq_sup, sup_support_denMonos _ arr h]
  congr 1
  refine List.map_congr_left (fun x hx => ?_)
  rw [← MvPolynomial.degreeOf_eq_sup]
  exact degreeOf_succ_monoDen x j

theorem totalDegree_X_pow_le0 (i n : ℕ) :
    (MvPolynomial.X i ^ n : MvPolynomial ℕ (ZMod (2 ^ 64))).totalDegree ≤ n := by
  haveI : Nontrivial (ZMod (2 ^ 64)) := ZMod.nontrivial_iff.2 (by norm_num)
  rw [MvPolynomial.totalDegree_X_pow]

/-! ## C18, C19, C20: `PolyDeg` and `PolyDegBy` -/

mutual
theorem totalDegree_den_le : ∀ p : Poly, (den p).totalDegree ≤ degBound p
  | Poly.coeff c => by rw [den_coeff, MvPolynomial.totalDegree_C, degBound]
  | Poly.sum arr => by rw [den_sum, degBound]; exact totalDegree_denMonos_le arr
theorem totalDegree_denMonos_le :
    ∀ arr : List (Poly × Int), (denMonos arr).totalDegree ≤ degBoundMonos arr
  | [] => by rw [denMonos_nil, MvPolynomial.totalDegree_zero, degBoundMonos]
  | (p, e) :: tl => by
    rw [denMonos_cons, degBoundMonos]
    refine le_trans (MvPolynomial.totalDegree_add _ _) (max_le_max ?_ (totalDegree_denMonos_le tl))
    refine le_trans (MvPolynomial.totalDegree_mul _ _) (Nat.add_le_add ?_ ?_)
    · exact totalDegree_X_pow_le0 0 e.toNat
    · exact le_trans (MvPolynomial.totalDegree_rename_le _ _) (totalDegree_den_le p)
end

theorem max_eq_ite (m t : Int) : (if t > m then t else m) = max m t := by
  rw [max_def]
  split_ifs <;> omega

theorem PolyDegByLoop0_eq (arr : List (Poly × Int)) :
    ∀ m : Int, PolyDegByLoop0 arr m = (arr.map fun x => x.2).foldl max m := by
  induction arr with
  | nil => intro m; rfl
  | cons x tl ih =>
    obtain ⟨p, e⟩ := x
    intro m
    rw [PolyDegByLoop0, List.map_cons, List.foldl_cons, ← max_eq_ite, MonoGetExp]
    split_ifs <;> exact ih _

theorem PolyDegByLoop_eq (idx : Nat) (arr : List (Poly × Int)) :
    ∀ m : Int, PolyDegByLoop arr idx m = (arr.map fun x => PolyDegBy x.1 idx).foldl max m := by
  induction arr with
  | nil => intro m; rw [PolyDegByLoop]; rfl
  | cons x tl ih =>
    obtain ⟨p, e⟩ := x
    intro m
    rw [PolyDegByLoop, List.map_cons, List.foldl_cons, ← max_eq_ite]
    simp only
    split_ifs <;> exact ih _

theorem PolyDegLoop_eq (arr : List (Poly × Int)) :
    ∀ m : Int, PolyDegLoop arr m =
      (arr.map fun x => wrap32 (PolyDeg x.1 + x.2)).foldl max m := by
  induction arr with
  | nil => intro m; rw [PolyDegLoop]; rfl
  | cons x tl ih =>
    obtain ⟨p, e⟩ := x
    intro m
    rw [PolyDegLoop, List.map_cons, List.foldl_cons, ← max_eq_ite, MonoGetExp]
    simp only
    split_ifs <;> exact ih _

theorem foldl_max_cast (w : Mono → ℕ) (arr : List Mono) :
    ∀ (a : Mono) (m : Int), ((a :: arr).map fun x => (w x : Int)).foldl max m =
      max m (listMax ((a :: arr).map w) : Int) := by
  induction arr with
  | nil => intro a m; simp [listMax]
  | cons b tl ih =>
    intro a m
    rw [List.map_cons, List.foldl_cons, ih, List.map_cons w a, listMax_cons, Nat.cast_max,
      max_assoc]

theorem foldl_max_neg_one (w : Mono → ℕ) (arr : List Mono) (t : Mono → Int) (hne : arr ≠ [])
    (h : ∀ x ∈ arr, t x = (w x : Int)) :
    (arr.map t).foldl max (-1) = (listMax (arr.map w) : Int) := by
  rw [List.map_congr_left h]
  cases arr with
  | nil => exact absurd rfl hne
  | cons a tl =>
    rw [foldl_max_cast]
    exact max_eq_right (by omega)

theorem den_ne_zero_of {p : Poly} (hp : Canonical p) (hr : InRange p)
    (hz : PolyIsZero p = false) : den p ≠ 0 := by
  intro h
  have h2 : p = Poly.coeff 0 :=
    den_inj hp (canonical_coeff 0) hr (by decide) (by rw [h, den_coeff]; simp)
  rw [h2] at hz
  simp [PolyIsZero] at hz

theorem monos_den_ne_zero {arr : List (Poly × Int)} (hp : Canonical (Poly.sum arr))
    (hr : InRange (Poly.sum arr)) : ∀ x ∈ arr, den x.1 ≠ 0 := by
  intro x hx
  have hok := ((canonical_sum_iff arr).1 hp).2.1
  exact den_ne_zero_of (hok.1 x hx).1 ((inRange_sum_iff arr).1 hr x hx).1 (hok.1 x hx).2.1

theorem PolyDeg_eq_aux : ∀ (n : Nat) (p : Poly), p.size ≤ n → Canonical p → InRange p →
    ((den p).totalDegree : Int) < INT_BOUND →
    PolyDeg p = if PolyIsZero p then -1 else ((den p).totalDegree : Int) := by
  intro n
  induction n with
  | zero =>
    intro p h
    have := size_pos p
    omega
  | succ n ih =>
    intro p hn hp hr hfit
    cases p with
    | coeff c =>
      rw [PolyDeg, den_coeff, MvPolynomial.totalDegree_C]
      rfl
    | sum arr =>
      obtain ⟨hnil, hok, -⟩ := (canonical_sum_iff arr).1 hp
      have hir := (inRange_sum_iff arr).1 hr
      have hne := monos_den_ne_zero hp hr
      have htd := totalDegree_denMonos arr hok hne
      rw [den_sum] at hfit
      rw [PolyDeg, PolyDegLoop_eq, PolyIsZero_sum, den_sum, htd]
      simp only [Bool.false_eq_true, if_false]
      refine foldl_max_neg_one (fun x => x.2.toNat + (den x.1).totalDegree) arr _ hnil ?_
      intro x hx
      have hle : x.2.toNat + (den x.1).totalDegree ≤ (denMonos arr).totalDegree := by
        rw [htd]
        exact le_listMax (List.mem_map_of_mem
          (fun x : Mono => x.2.toNat + (den x.1).totalDegree) hx)
      have hx0 := (hok.1 x hx).2.2
      have hsz := size_lt_of_mem hx
      simp only [Poly.size] at hn
      have hfx : ((den x.1).totalDegree : Int) < INT_BOUND := by omega
      have hdeg := ih x.1 (by omega) (hok.1 x hx).1 (hir x hx).1 hfx
      rw [(hok.1 x hx).2.1] at hdeg
      simp only [Bool.false_eq_true, if_false] at hdeg
      rw [hdeg, wrap32_of_fits]
      · push_cast
        rw [Int.toNat_of_nonneg hx0]
        ring
      · unfold INT_BOUND at hfit ⊢
        omega

theorem PolyDegBy_eq_aux : ∀ (n : Nat) (p : Poly) (i : Nat), p.size ≤ n → Canonical p →
    InRange p → PolyDegBy p i = if PolyIsZero p then -1 else ((den p).degreeOf i : Int) := by
  intro n
  induction n with
  | zero =>
    intro p i h
    have := size_pos p
    omega
  | succ n ih =>
    intro p i hn hp hr
    cases p with
    | coeff c =>
      rw [PolyDegBy, den_coeff, MvPolynomial.degreeOf_C]
      rfl
    | sum arr =>
      obtain ⟨hnil, hok, -⟩ := (canonical_sum_iff arr).1 hp
      have hir := (inRange_sum_iff arr).1 hr
      have hne := monos_den_ne_zero hp hr
      rw [PolyDegBy, PolyIsZero_sum, den_sum]
      simp only [Bool.false_eq_true, if_false]
      cases i with
      | zero =>
        rw [if_pos rfl, PolyDegByLoop0_eq, degreeOf_zero_denMonos arr hok hne]
        refine foldl_max_neg_one (fun x => x.2.toNat) arr _ hnil ?_
        intro x hx
        exact (Int.toNat_of_nonneg (hok.1 x hx).2.2).symm
      | succ j =>
        rw [if_neg (Nat.succ_ne_zero j), Nat.add_sub_cancel, PolyDegByLoop_eq,
          degreeOf_succ_denMonos arr hok j]
        refine foldl_max_neg_one (fun x => (den x.1).degreeOf j) arr _ hnil ?_
        intro x hx
        have hsz := size_lt_of_mem hx
        simp only [Poly.size] at hn
        rw [ih x.1 j (by omega) (hok.1 x hx).1 (hir x hx).1, (hok.1 x hx).2.1]
        simp

theorem PolyDeg_eq_of {p : Poly} (hp : Canonical p) (hr : InRange p)
    (hfit : ((den p).totalDegree : Int) < INT_BOUND) :
    PolyDeg p = if PolyIsZero p then -1 else ((den p).totalDegree : Int) :=
  PolyDeg_eq_aux _ p (le_refl _) hp hr hfit

theorem PolyDegBy_eq_of {p : Poly} (i : Nat) (hp : Canonical p) (hr : InRange p) :
    PolyDegBy p i = if PolyIsZero p then -1 else ((den p).degreeOf i : Int) :=
  PolyDegBy_eq_aux _ p i (le_refl _) hp hr

theorem totalDegree_fits_of_degBound {p : Poly} (h : (degBound p : Int) < INT_BOUND) :
    ((den p).totalDegree : Int) < INT_BOUND :=
  lt_of_le_of_lt (Int.ofNat_le.2 (totalDegree_den_le p)) h

/-- C20: for a canonical `p` with coefficients in range and total degree fitting in `int`,
`PolyDeg p` is `-1` for the zero polynomial and otherwise the total degree of the expanded
polynomial, and `PolyDegBy p i` is `-1` for the zero polynomial and otherwise the largest
exponent of `x_i` in the expanded polynomial; the literal `((1,2),3)+((1,0),1)` is read as
`exDegLiteral`, whose degree is `5` and whose degrees by the variables `0`, `1`, `2` are
`3`, `2`, `0`. -/
theorem PolyDeg_PolyDegBy_spec (p : Poly) (hp : Canonical p) (hr : InRange p)
    (hfit : ((den p).totalDegree : Int) < INT_BOUND) :
    PolyDeg p = (if PolyIsZero p then -1 else ((den p).totalDegree : Int)) ∧
      (∀ i : Nat, PolyDegBy p i = if PolyIsZero p then -1 else ((den p).degreeOf i : Int)) ∧
      PolyAddMonos [(PolyAddMonos [(Poly.coeff 1, 2)], 3), (PolyAddMonos [(Poly.coeff 1, 0)], 1)]
        = exDegLiteral ∧
      PolyDeg exDegLiteral = 5 ∧ PolyDegBy exDegLiteral 0 = 3 ∧
      PolyDegBy exDegLiteral 1 = 2 ∧ PolyDegBy exDegLiteral 2 = 0 := by
  refine ⟨PolyDeg_eq_of hp hr hfit, fun i => PolyDegBy_eq_of i hp hr, ?_,
    by decide, by decide, by decide, by decide⟩
  simp [PolyAddMonos, CopyMonoArr, PolyOwnMonos, SortMonos, PolyOwnMonosSorted, OwnMonosLoop,
    MonoGetExp, MonoLe, List.insertionSort, List.orderedInsert, PolyIsZero, PolyIsCoeff,
    BuildPolyFromMonos, PolyFromCoeff, PolyZero, exDegLiteral]

theorem PolyDeg_PolyDegBy_spec_witness :
    Canonical exDegLiteral ∧ InRange exDegLiteral ∧
      ((den exDegLiteral).totalDegree : Int) < INT_BOUND ∧
      PolyDeg exDegLiteral =
        (if PolyIsZero exDegLiteral then -1 else ((den exDegLiteral).totalDegree : Int)) ∧
      (∀ i : Nat, PolyDegBy exDegLiteral i =
        if PolyIsZero exDegLiteral then -1 else ((den exDegLiteral).degreeOf i : Int)) :=
  ⟨by decide, by decide, totalDegree_fits_of_degBound (by decide),
    (PolyDeg_PolyDegBy_spec exDegLiteral (by decide) (by decide)
      (totalDegree_fits_of_degBound (by decide))).1,
    (PolyDeg_PolyDegBy_spec exDegLiteral (by decide) (by decide)
      (totalDegree_fits_of_degBound (by decide))).2.1⟩

/-- C18 as stated fails: `exDegOverflow`, the canonical polynomial `x_0 * x_1 ^ 2147483647`,
is not the zero polynomial, yet `PolyDeg` returns `-1` for it, because the sum
`2147483647 + 1` wraps around in `int`. -/
theorem PolyDeg_nonneg_counterexample :
    Canonical exDegOverflow ∧ InRange exDegOverflow ∧ PolyIsZero exDegOverflow = false ∧
      PolyDeg exDegOverflow = -1 ∧ ¬ (0 ≤ PolyDeg exDegOverflow) := by
  decide

/-- C18 (amended): `PolyDeg PolyZero = -1`, and for every canonical `p` with coefficients in
range, other than the constant `0`, whose total degree fits in `int`, `0 ≤ PolyDeg p`. -/
theorem PolyDeg_nonneg (p : Poly) (hp : Canonical p) (hr : InRange p)
    (hfit : ((den p).totalDegree : Int) < INT_BOUND) (hz : PolyIsZero p = false) :
    PolyDeg PolyZero = -1 ∧ 0 ≤ PolyDeg p := by
  refine ⟨by decide, ?_⟩
  rw [PolyDeg_eq_of hp hr hfit, hz]
  simp

theorem PolyDeg_nonneg_witness :
    Canonical exDegLiteral ∧ InRange exDegLiteral ∧
      ((den exDegLiteral).totalDegree : Int) < INT_BOUND ∧ PolyIsZero exDegLiteral = false ∧
      PolyDeg PolyZero = -1 ∧ 0 ≤ PolyDeg exDegLiteral :=
  ⟨by decide, by decide, totalDegree_fits_of_degBound (by decide), by decide,
    PolyDeg_nonneg exDegLiteral (by decide) (by decide)
      (totalDegree_fits_of_degBound (by decide)) (by decide)⟩

/-- C19 as stated fails: for `exDegOverflow2`, the canonical polynomial
`x_0 ^ 2147483647 * x_1 ^ 2147483647`, `PolyDegBy` returns `2147483647` for the variable `0`
while `PolyDeg` returns `-1`, because the sum of the two exponents wraps around in `int`. -/
theorem PolyDegBy_le_PolyDeg_counterexample :
    Canonical exDegOverflow2 ∧ InRange exDegOverflow2 ∧
      PolyDegBy exDegOverflow2 0 = 2147483647 ∧ PolyDeg exDegOverflow2 = -1 ∧
      ¬ (PolyDegBy exDegOverflow2 0 ≤ PolyDeg exDegOverflow2) := by
  decide

/-- C19 (amended): for every canonical `p` with coefficients in range whose total degree
fits in `int`, and every variable index `i`, `PolyDegBy p i ≤ PolyDeg p`. -/
theorem PolyDegBy_le_PolyDeg (p : Poly) (i : Nat) (hp : Canonical p) (hr : InRange p)
    (hfit : ((den p).totalDegree : Int) < INT_BOUND) : PolyDegBy p i ≤ PolyDeg p := by
  rw [PolyDeg_eq_of hp hr hfit, PolyDegBy_eq_of i hp hr]
  split_ifs
  · exact le_refl _
  · exact Int.ofNat_le.2 (MvPolynomial.degreeOf_le_totalDegree (den p) i)

theorem PolyDegBy_le_PolyDeg_witness :
    Canonical exDegLiteral ∧ InRange exDegLiteral ∧
      ((den exDegLiteral).totalDegree : Int) < INT_BOUND ∧
      PolyDegBy exDegLiteral 7 ≤ PolyDeg exDegLiteral :=
  ⟨by decide, by decide, totalDegree_fits_of_degBound (by decide),
    PolyDegBy_le_PolyDeg exDegLiteral 7 (by decide) (by decide)
      (totalDegree_fits_of_degBound (by decide))⟩

/-! ## C21: `PolyAt` -/

theorem wrap64_congr {a b : Int} (h : (a : ZMod (2 ^ 64)) = (b : ZMod (2 ^ 64))) :
    wrap64 a = wrap64 b :=
  intCast_inj_of_range (wrap64_inRange a) (wrap64_inRange b)
    (by rw [wrap64_cast, wrap64_cast, h])

theorem FastExpLoop_eq : ∀ (n : Nat) (acc base e : Int), e.natAbs ≤ n → 0 ≤ e →
    (-LONG_BOUND ≤ acc ∧ acc < LONG_BOUND) →
    FastExpLoop acc base e = wrap64 (acc * base ^ e.toNat) := by
  intro n
  induction n with
  | zero =>
    intro acc base e hn he hacc
    have h0 : e = 0 := by omega
    subst h0
    rw [FastExpLoop]
    simp [wrap64_of_range hacc]
  | succ n ih =>
    intro acc base e hn he hacc
    rw [FastExpLoop]
    by_cases hpos : e > 0
    · rw [dif_pos hpos]
      have hm : (Int.tdiv e 2).natAbs = e.natAbs / 2 := Int.natAbs_tdiv e 2
      have hm0 : 0 ≤ Int.tdiv e 2 := Int.tdiv_nonneg he (by norm_num)
      have hdiv : Int.tdiv e 2 = e / 2 := Int.tdiv_eq_ediv he (by norm_num)
      have hmod : Int.tmod e 2 = e % 2 := Int.tmod_eq_emod he (by norm_num)
      simp only []
      by_cases hodd : Int.tmod e 2 ≠ 0
      · rw [if_pos hodd, ih _ _ _ (by omega) hm0 (wrap64_inRange _)]
        apply wrap64_congr
        have hk : e.toNat = 2 * (Int.tdiv e 2).toNat + 1 := by omega
        rw [hk]
        push_cast
        rw [wrap64_cast, wrap64_cast]
        push_cast
        ring
      · rw [if_neg hodd, ih _ _ _ (by omega) hm0 hacc]
        apply wrap64_congr
        have hk : e.toNat = 2 * (Int.tdiv e 2).toNat := by omega
        rw [hk]
        push_cast
        rw [wrap64_cast]
        push_cast
        ring
    · rw [dif_neg hpos]
      have h0 : e = 0 := by omega
      subst h0
      simp [wrap64_of_range hacc]

theorem FastExp_eq (x e : Int) (he : 0 ≤ e) : FastExp x e = wrap64 (x ^ e.toNat) := by
  unfold FastExp
  rw [FastExpLoop_eq _ 1 x e (le_refl _) he (by unfold LONG_BOUND; omega), one_mul]
theorem PolyAtLoop_eq_foldl (x : Int) (arr : List (Poly × Int)) :
    ∀ result : Poly, PolyAtLoop x arr result =
      arr.foldl (fun acc t => PolyAdd acc (PolyMul t.1 (PolyFromCoeff (FastExp x t.2)))) result := by
  induction arr with
  | nil => intro result; rfl
  | cons m tl ih =>
    obtain ⟨p, e⟩ := m
    intro result
    rw [PolyAtLoop, List.foldl_cons]
    exact ih _

theorem foldl_congr_mem {α β : Type} (f g : β → α → β) (l : List α)
    (h : ∀ b, ∀ a ∈ l, f b a = g b a) : ∀ b, l.foldl f b = l.foldl g b := by
  induction l with
  | nil => intro b; rfl
  | cons a tl ih =>
    intro b
    rw [List.foldl_cons, List.foldl_cons, h b a (List.mem_cons_self _ _)]
    exact ih (fun b x hx => h b x (List.mem_cons_of_mem _ hx)) _

theorem PolyMul_zero_right (p : Poly) : PolyMul p (Poly.coeff 0) = PolyZero := by
  cases p with
  | coeff a => rw [PolyMul]; simp [wrap64, PolyZero]
  | sum ps => rw [PolyMul_sum_coeff, PolyMul, if_pos rfl]

theorem PolyAdd_zero_right_of {p : Poly} (hr : InRange p) : PolyAdd p PolyZero = p := by
  unfold PolyZero PolyFromCoeff
  cases p with
  | coeff c => rw [PolyAdd, PolyFromCoeff, add_zero, wrap64_of_range ((inRange_coeff_iff c).1 hr)]
  | sum qs => rw [PolyAdd_sum_coeff, PolyAdd_zero_sum]

theorem PolyAdd_zero_left_of {p : Poly} (hr : InRange p) : PolyAdd PolyZero p = p := by
  unfold PolyZero PolyFromCoeff
  cases p with
  | coeff c => rw [PolyAdd, PolyFromCoeff, zero_add, wrap64_of_range ((inRange_coeff_iff c).1 hr)]
  | sum qs => exact PolyAdd_zero_sum qs

theorem PolyMul_one_left_of {p : Poly} (hp : Canonical p) (hr : InRange p) :
    PolyMul (Poly.coeff 1) p = p :=
  PolyMul_one_left_aux _ p (le_refl _) hp hr

theorem PolyMul_one_right_of {p : Poly} (hp : Canonical p) (hr : InRange p) :
    PolyMul p (Poly.coeff 1) = p := by
  cases p with
  | coeff c =>
    rw [PolyMul, PolyFromCoeff, mul_one, wrap64_of_range ((inRange_coeff_iff c).1 hr)]
  | sum qs => rw [PolyMul_sum_coeff]; exact PolyMul_one_left_of hp hr

theorem foldl_at_zero_tail (tl : List (Poly × Int)) (h : ∀ t ∈ tl, 0 < t.2) :
    ∀ acc : Poly, InRange acc →
      tl.foldl (fun acc t => PolyAdd acc
        (PolyMul t.1 (PolyFromCoeff (wrap64 ((0 : Int) ^ t.2.toNat))))) acc = acc := by
  induction tl with
  | nil => intro acc _; rfl
  | cons m tl ih =>
    intro acc hacc
    have hm := h m (List.mem_cons_self _ _)
    have hpos : m.2.toNat ≠ 0 := by omega
    rw [List.foldl_cons, zero_pow hpos]
    have hw : wrap64 0 = 0 := by decide
    rw [hw, PolyFromCoeff, PolyMul_zero_right, PolyAdd_zero_right_of hacc]
    exact ih (fun t ht => h t (List.mem_cons_of_mem _ ht)) acc hacc

theorem PolyAt_sum_eq_foldl (arr : List (Poly × Int)) (x : Int)
    (hp : Canonical (Poly.sum arr)) (hr : InRange (Poly.sum arr)) :
    PolyAt (Poly.sum arr) x =
      arr.foldl (fun acc t => PolyAdd acc
        (PolyMul t.1 (PolyFromCoeff (wrap64 (x ^ t.2.toNat))))) PolyZero := by
  obtain ⟨hnil, hok, -⟩ := (canonical_sum_iff arr).1 hp
  have hir := (inRange_sum_iff arr).1 hr
  cases arr with
  | nil => exact absurd rfl hnil
  | cons m tl =>
    obtain ⟨p0, e0⟩ := m
    rw [PolyAt]
    by_cases hx : x = 0
    · subst hx
      rw [if_pos rfl, MonoGetExp, PolyClone_eq, List.foldl_cons]
      obtain ⟨⟨hc0, hz0, he0⟩, hlt, -⟩ := MonosOK_cons.1 hok
      have hr0 := (hir _ (List.mem_cons_self _ _)).1
      simp only at he0 hlt hc0 hz0 hr0
      by_cases h0 : e0 = 0
      · subst h0
        rw [if_pos rfl]
        have hw : wrap64 ((0 : Int) ^ (0 : Int).toNat) = 1 := by decide
        simp only [hw]
        rw [PolyFromCoeff, PolyMul_one_right_of hc0 hr0, PolyAdd_zero_left_of hr0,
          foldl_at_zero_tail tl (fun t ht => hlt t ht) p0 hr0]
      · rw [if_neg h0]
        have hpos : e0.toNat ≠ 0 := by omega
        have hw : wrap64 0 = 0 := by decide
        simp only [zero_pow hpos, hw]
        rw [PolyFromCoeff, PolyMul_zero_right, PolyAdd_zero_left_of (by decide)]
        exact (foldl_at_zero_tail tl (fun t ht => by have := hlt t ht; omega) PolyZero
          (by decide)).symm
    · rw [if_neg hx, PolyAtLoop_eq_foldl]
      refine foldl_congr_mem _ _ _ (fun b t ht => ?_) _
      rw [FastExp_eq x t.2 (hok.1 t ht).2.2]

/-- C21. For every canonical Poly `p` (holding values of `long` and `int`) and every
`x`, `PolyAt p x` is `p` itself when `p` is a scalar, and otherwise the fold of `PolyAdd`,
from `PolyZero`, over the terms of `p` in order, of `PolyMul term.p (x ^ term.e mod 2^64)`
with `0 ^ 0 = 1`, also for `x = 0`; `FastExp` computes that power; and `PolyAt` of the
Poly of the literal `(2,2)` at `3` is the scalar `18`. -/
theorem PolyAt_spec (p : Poly) (x : Int) (hp : Canonical p) (hr : InRange p) :
    (∀ c, p = Poly.coeff c → PolyAt p x = p) ∧
      (∀ arr, p = Poly.sum arr → PolyAt p x =
        arr.foldl (fun acc t => PolyAdd acc
          (PolyMul t.1 (PolyFromCoeff (wrap64 (x ^ t.2.toNat))))) PolyZero) ∧
      (∀ e : Int, 0 ≤ e → FastExp x e = wrap64 (x ^ e.toNat)) ∧
      PolyAt (PolyAddMonos [(Poly.coeff 2, 2)]) 3 = Poly.coeff 18 := by
  refine ⟨?_, ?_, fun e he => FastExp_eq x e he, ?_⟩
  · intro c hc
    subst hc
    rfl
  · intro arr harr
    subst harr
    exact PolyAt_sum_eq_foldl arr x hp hr
  · have h1 : PolyAddMonos [(Poly.coeff 2, 2)] = Poly.sum [(Poly.coeff 2, 2)] := by
      simp [PolyAddMonos, CopyMonoArr, PolyOwnMonos, SortMonos, PolyOwnMonosSorted,
        OwnMonosLoop, PolyIsZero, PolyIsCoeff, BuildPolyFromMonos]
    rw [h1, PolyAt, if_neg (by decide), PolyAtLoop, PolyAtLoop, FastExp_eq 3 2 (by decide)]
    have hw : wrap64 ((3 : Int) ^ (2 : Int).toNat) = 9 := by decide
    simp only [hw]
    rw [PolyFromCoeff, PolyMul, PolyFromCoeff, PolyZero, PolyFromCoeff, PolyAdd, PolyFromCoeff]
    have hw2 : wrap64 (0 + wrap64 (2 * 9)) = 18 := by decide
    rw [hw2]

theorem PolyAt_spec_witness :
    Canonical exDegLiteral ∧ InRange exDegLiteral ∧
      PolyAt exDegLiteral 0 = PolyZero ∧
      PolyAt exDegLiteral 0 =
        [(Poly.coeff 1, (1 : Int)), (Poly.sum [(Poly.coeff 1, 2)], 3)].foldl
          (fun acc t => PolyAdd acc
            (PolyMul t.1 (PolyFromCoeff (wrap64 ((0 : Int) ^ t.2.toNat))))) PolyZero :=
  ⟨by decide, by decide, rfl,
    (PolyAt_spec exDegLiteral 0 (by decide) (by decide)).2.1 _ rfl⟩

/-! ## C23, C24: `PolyCompose` with missing substitutions -/

theorem PolyFastExpLoop_map (f : Poly → Poly)
    (hm : ∀ a b, f (PolyMul a b) = PolyMul (f a) (f b)) :
    ∀ (n : Nat) (exp : Int) (acc result : Poly), exp.natAbs ≤ n →
      f (PolyFastExpLoop acc result exp) = PolyFastExpLoop (f acc) (f result) exp := by
  intro n
  induction n with
  | zero =>
    intro exp acc result hn
    have h0 : exp = 0 := by omega
    subst h0
    rw [PolyFastExpLoop_zero, PolyFastExpLoop_zero]
  | succ n ih =>
    intro exp acc result hn
    rw [PolyFastExpLoop, PolyFastExpLoop.eq_1 (f acc)]
    by_cases h0 : exp ≠ 0
    · rw [dif_pos h0, dif_pos h0]
      have hm2 : (Int.tdiv exp 2).natAbs = exp.natAbs / 2 := Int.natAbs_tdiv exp 2
      simp only []
      rw [ih _ _ _ (by omega)]
      congr 1
      · split_ifs
        · exact hm _ _
        · rfl
      · split_ifs
        · exact hm _ _
        · rfl
    · rw [dif_neg h0, dif_neg h0]

theorem PolyFastExp_map (f : Poly → Poly) (hc : ∀ c, f (Poly.coeff c) = Poly.coeff c)
    (hm : ∀ a b, f (PolyMul a b) = PolyMul (f a) (f b)) (q : Poly) (exp : Int) :
    f (PolyFastExp q exp) = PolyFastExp (f q) exp := by
  unfold PolyFastExp
  simp only [PolyClone_eq, PolyFromCoeff]
  split_ifs
  · exact hc 1
  · rfl
  · rw [PolyFastExpLoop_map f hm _ _ _ _ (le_refl _), hc 1]

theorem AuxPolyComposeLoop_sim (f : Poly → Poly) (hc : ∀ c, f (Poly.coeff c) = Poly.coeff c)
    (hz : ∀ r, PolyIsZero (f r) = PolyIsZero r)
    (ha : ∀ a b, f (PolyAdd a b) = PolyAdd (f a) (f b))
    (hm : ∀ a b, f (PolyMul a b) = PolyMul (f a) (f b))
    (k k2 : Nat) (q q2 : List Poly) (level level2 : Nat)
    (hq : q2.getD level2 PolyZero = f (q.getD level PolyZero))
    (rest : List (Poly × Int))
    (ih : ∀ m ∈ rest, AuxPolyCompose m.1 (level2 + 1) k2 q2 =
      f (AuxPolyCompose m.1 (level + 1) k q)) :
    ∀ (sum exp : Poly) (expVal : Int),
      AuxPolyComposeLoop rest level2 k2 q2 (f sum) (f exp) expVal =
        f (AuxPolyComposeLoop rest level k q sum exp expVal) := by
  induction rest with
  | nil =>
    intro sum exp expVal
    rw [AuxPolyComposeLoop, AuxPolyComposeLoop]
  | cons m rest ihl =>
    obtain ⟨p, e⟩ := m
    intro sum exp expVal
    have ihr := ihl (fun m hm => ih m (List.mem_cons_of_mem _ hm))
    have hp := ih _ (List.mem_cons_self _ _)
    simp only at hp
    rw [AuxPolyComposeLoop, AuxPolyComposeLoop]
    simp only [SmartPolyMul, SmartPolyAdd, hp, hq, hz, ← PolyFastExp_map f hc hm, ← hm, ← ha]
    split_ifs <;> exact ihr _ _ _

theorem AuxPolyCompose_sim (f : Poly → Poly) (hc : ∀ c, f (Poly.coeff c) = Poly.coeff c)
    (hz : ∀ r, PolyIsZero (f r) = PolyIsZero r)
    (ha : ∀ a b, f (PolyAdd a b) = PolyAdd (f a) (f b))
    (hm : ∀ a b, f (PolyMul a b) = PolyMul (f a) (f b))
    (s k k2 : Nat) (q q2 : List Poly)
    (hcond : ∀ level, (decide (level + s + 1 > k2) || PolyIsZero (q2.getD (level + s) PolyZero)) =
      (decide (level + 1 > k) || PolyIsZero (q.getD level PolyZero)))
    (hq : ∀ level, (decide (level + 1 > k) || PolyIsZero (q.getD level PolyZero)) = false →
      q2.getD (level + s) PolyZero = f (q.getD level PolyZero)) :
    ∀ (n : Nat) (p : Poly) (level : Nat), p.size ≤ n →
      AuxPolyCompose p (level + s) k2 q2 = f (AuxPolyCompose p level k q) := by
  intro n
  induction n with
  | zero =>
    intro p level h
    have := size_pos p
    omega
  | succ n ih =>
    intro p level hn
    have hf0 : f PolyZero = PolyZero := hc 0
    have hf1 : f (PolyFromCoeff 1) = PolyFromCoeff 1 := hc 1
    cases p with
    | coeff c => rw [AuxPolyCompose, AuxPolyCompose, PolyClone_eq, hc]
    | sum arr =>
      cases arr with
      | nil =>
        rw [AuxPolyCompose, AuxPolyCompose, hcond level]
        split_ifs
        · exact hf0.symm
        · rw [AuxPolyComposeLoop, AuxPolyComposeLoop, hf0]
      | cons m tl =>
        obtain ⟨p0, e0⟩ := m
        rw [AuxPolyCompose, AuxPolyCompose, hcond level]
        by_cases hb : (decide (level + 1 > k) || PolyIsZero (q.getD level PolyZero)) = true
        · rw [if_pos hb, if_pos hb]
          split_ifs
          · have h := ih p0 (level + 1) (by simp only [Poly.size, monosSize] at hn; omega)
            rw [Nat.add_right_comm] at h
            exact h
          · exact hf0.symm
        · rw [if_neg hb, if_neg hb]
          have hb2 : (decide (level + 1 > k) || PolyIsZero (q.getD level PolyZero)) = false := by
            simpa using hb
          have h := AuxPolyComposeLoop_sim f hc hz ha hm k k2 q q2 level (level + s)
            (hq level hb2) ((p0, e0) :: tl) (fun m hmem => by
              have hsz := size_lt_of_mem hmem
              simp only [Poly.size] at hn hsz
              have h := ih m.1 (level + 1) (by omega)
              rw [Nat.add_right_comm] at h
              exact h) PolyZero (PolyFromCoeff 1) 0
          rw [hf0, hf1] at h
          exact h

theorem AuxPolyCompose_nil_eq : ∀ (n : Nat) (p : Poly) (level : Nat), p.size ≤ n →
    AuxPolyCompose p level 0 [] = Poly.coeff (ConstChain p) := by
  intro n
  induction n with
  | zero =>
    intro p level h
    have := size_pos p
    omega
  | succ n ih =>
    intro p level hn
    cases p with
    | coeff c => rfl
    | sum arr =>
      cases arr with
      | nil =>
        rw [AuxPolyCompose, ConstChain]
        simp [PolyZero, PolyFromCoeff]
      | cons m tl =>
        obtain ⟨p0, e0⟩ := m
        rw [AuxPolyCompose, ConstChain]
        have hb : (decide (level + 1 > 0) || PolyIsZero (([] : List Poly).getD level PolyZero))
            = true := by simp
        rw [if_pos hb]
        split_ifs
        · exact ih p0 (level + 1) (by simp only [Poly.size, monosSize] at hn; omega)
        · rfl

theorem ConstChain_PolyAt_zero (p : Poly) : ConstChain (PolyAt p 0) = ConstChain p := by
  cases p with
  | coeff c => rfl
  | sum arr =>
    cases arr with
    | nil => rfl
    | cons m tl =>
      obtain ⟨p0, e0⟩ := m
      rw [PolyAt, if_pos rfl, MonoGetExp, ConstChain, PolyClone_eq]
      split_ifs <;> rfl

theorem ConstChain_iterate (n : Nat) :
    ∀ p : Poly, ConstChain ((fun r => PolyAt r 0)^[n] p) = ConstChain p := by
  induction n with
  | zero => intro p; rfl
  | succ n ih =>
    intro p
    rw [Function.iterate_succ_apply, ih, ConstChain_PolyAt_zero]

theorem iterate_PolyAt_coeff (n : Nat) (c : Int) :
    (fun r => PolyAt r 0)^[n] (Poly.coeff c) = Poly.coeff c := by
  induction n with
  | zero => rfl
  | succ n ih => rw [Function.iterate_succ_apply]; exact ih

theorem iterate_PolyAt_zero_coeff : ∀ (n : Nat) (p : Poly), p.size ≤ n →
    PolyIsCoeff ((fun r => PolyAt r 0)^[n] p) = true := by
  intro n
  induction n with
  | zero =>
    intro p hn
    have := size_pos p
    omega
  | succ n ih =>
    intro p hn
    rw [Function.iterate_succ_apply]
    cases p with
    | coeff c =>
      have h : PolyAt (Poly.coeff c) 0 = Poly.coeff c := rfl
      rw [h, iterate_PolyAt_coeff]
      rfl
    | sum arr =>
      cases arr with
      | nil =>
        have h : PolyAt (Poly.sum []) 0 = Poly.coeff 0 := rfl
        rw [h, iterate_PolyAt_coeff]
        rfl
      | cons m tl =>
        obtain ⟨p0, e0⟩ := m
        rw [PolyAt, if_pos rfl, PolyClone_eq]
        split_ifs
        · exact ih _ (by simp only [Poly.size, monosSize] at hn; omega)
        · rw [PolyZero, PolyFromCoeff, iterate_PolyAt_coeff]
          rfl

/-- C23. For every Poly `p` (canonical or not), `PolyCompose p 0 []` is the scalar at the
end of the chain of exponent-0 first terms of `p`, `0` when that chain breaks; and it is
what applying `PolyAt . 0` repeatedly reaches: some iterate is a scalar, and every
iterate that is a scalar is equal to `PolyCompose p 0 []`. -/
theorem PolyCompose_nil (p : Poly) :
    PolyCompose p 0 [] = Poly.coeff (ConstChain p) ∧
      PolyIsCoeff (PolyCompose p 0 []) = true ∧
      (∃ n, PolyIsCoeff ((fun r => PolyAt r 0)^[n] p) = true) ∧
      (∀ n, PolyIsCoeff ((fun r => PolyAt r 0)^[n] p) = true →
        (fun r => PolyAt r 0)^[n] p = PolyCompose p 0 []) := by
  have h : PolyCompose p 0 [] = Poly.coeff (ConstChain p) :=
    AuxPolyCompose_nil_eq _ p 0 (le_refl _)
  refine ⟨h, by rw [h]; rfl, ⟨p.size, iterate_PolyAt_zero_coeff _ p (le_refl _)⟩, ?_⟩
  intro n hn
  have hc := ConstChain_iterate n p
  rw [h]
  cases hr : (fun r => PolyAt r 0)^[n] p with
  | coeff c =>
    rw [hr, ConstChain] at hc
    rw [hc]
  | sum arr =>
    rw [hr] at hn
    simp [PolyIsCoeff] at hn

/-- C24. Missing substitutions of `PolyCompose` are zero: for every Poly `p`, every list
`qs` and every `n`, `PolyCompose` of `p` with `qs` is equal to `PolyCompose` of `p`
with `qs` followed by `n` copies of the zero polynomial. -/
theorem PolyCompose_append_zeros (p : Poly) (qs : List Poly) (n : Nat) :
    PolyCompose p qs.length qs =
      PolyCompose p (qs.length + n) (qs ++ List.replicate n PolyZero) := by
  have h := AuxPolyCompose_sim id (fun _ => rfl) (fun _ => rfl) (fun _ _ => rfl)
    (fun _ _ => rfl) 0 qs.length (qs.length + n) qs (qs ++ List.replicate n PolyZero)
    (fun level => by
      by_cases hl : level < qs.length
      · have h1 : (qs ++ List.replicate n PolyZero).getD (level + 0) PolyZero
            = qs.getD level PolyZero := by
          rw [Nat.add_zero, List.getD_append _ _ _ _ hl]
        rw [h1]
        have h2 : decide (level + 0 + 1 > qs.length + n) = false := by
          simp only [decide_eq_false_iff_not]; omega
        have h3 : decide (level + 1 > qs.length) = false := by
          simp only [decide_eq_false_iff_not]; omega
        rw [h2, h3]
      · have h3 : decide (level + 1 > qs.length) = true := by
          simp only [decide_eq_true_eq]; omega
        rw [h3, Bool.true_or]
        by_cases hl2 : level < qs.length + n
        · have h1 : (qs ++ List.replicate n PolyZero).getD (level + 0) PolyZero = PolyZero := by
            rw [Nat.add_zero, List.getD_append_right _ _ _ _ (by omega)]
            rw [List.getD_eq_getElem?_getD, List.getElem?_replicate]
            split_ifs <;> rfl
          rw [h1]
          simp [PolyZero, PolyFromCoeff, PolyIsZero]
        · have h2 : decide (level + 0 + 1 > qs.length + n) = true := by
            simp only [decide_eq_true_eq]; omega
          rw [h2, Bool.true_or])
    (fun level hb => by
      have hl : level < qs.length := by
        by_contra hcon
        have h3 : decide (level + 1 > qs.length) = true := by
          simp only [decide_eq_true_eq]; omega
        rw [h3, Bool.true_or] at hb
        exact absurd hb (by decide)
      rw [Nat.add_zero, List.getD_append _ _ _ _ hl]
      rfl)
    _ p 0 (le_refl _)
  exact h.symm

/-! ## C22: `PolyAt` as a composition -/

theorem Build_keepMono_single (r : Poly) :
    BuildPolyFromMonos (keepMono (r, 0) []) = LiftPoly r := by
  cases r with
  | coeff c =>
    by_cases hc : c = 0
    · subst hc; rfl
    · simp [keepMono, PolyIsZero, PolyIsCoeff, hc, BuildPolyFromMonos, LiftPoly, PolyFromCoeff]
  | sum l => rfl

theorem LiftPoly_isZero (r : Poly) : PolyIsZero (LiftPoly r) = PolyIsZero r := by
  cases r <;> rfl

theorem LiftPoly_PolyMul_coeff_sum (a : Int) (qs : List (Poly × Int)) :
    PolyMul (Poly.coeff a) (Poly.sum [(Poly.sum qs, 0)]) =
      LiftPoly (PolyMul (Poly.coeff a) (Poly.sum qs)) := by
  by_cases ha : a = 0
  · subst ha
    rw [PolyMul, if_pos rfl, PolyMul, if_pos rfl]
    rfl
  · rw [PolyMul_coeff_sum a ha, MulCoeffPolyLoop_cons]
    have h0 : MulCoeffPolyLoop a [] = [] := by rw [MulCoeffPolyLoop]
    rw [h0, Build_keepMono_single]

theorem PolyOwnMonos_single (r : Poly) : PolyOwnMonos [(r, 0)] = LiftPoly r := by
  have h := Build_keepMono_single r
  simp only [keepMono] at h
  simp only [PolyOwnMonos, SortMonos, List.insertionSort, List.orderedInsert,
    PolyOwnMonosSorted, OwnMonosLoop, List.length_singleton, List.nil_append]
  split_ifs at h ⊢
  all_goals first
    | exact h
    | contradiction
    | omega

theorem LiftPoly_PolyMul (a b : Poly) :
    LiftPoly (PolyMul a b) = PolyMul (LiftPoly a) (LiftPoly b) := by
  cases a with
  | coeff x =>
    cases b with
    | coeff y =>
      show _ = PolyMul (Poly.coeff x) (Poly.coeff y)
      rw [PolyMul]
      rfl
    | sum qs => exact (LiftPoly_PolyMul_coeff_sum x qs).symm
  | sum ps =>
    cases b with
    | coeff y =>
      rw [PolyMul_sum_coeff]
      show _ = PolyMul (Poly.sum [(Poly.sum ps, 0)]) (Poly.coeff y)
      rw [PolyMul_sum_coeff]
      exact (LiftPoly_PolyMul_coeff_sum y ps).symm
    | sum qs =>
      show _ = PolyMul (Poly.sum [(Poly.sum ps, 0)]) (Poly.sum [(Poly.sum qs, 0)])
      rw [PolyMul_sum_sum [(Poly.sum ps, 0)]]
      have h : MulMonos [(Poly.sum ps, 0)] [(Poly.sum qs, 0)] =
          [(PolyMul (Poly.sum ps) (Poly.sum qs), 0)] := by
        simp [MulMonos, MulMonosRow, wrap32, MonoGetExp]
      rw [h, PolyOwnMonos_single]

theorem LiftPoly_PolyAdd_coeff_sum (a : Int) (qs : List (Poly × Int)) :
    PolyAdd (Poly.coeff a) (Poly.sum [(Poly.sum qs, 0)]) =
      LiftPoly (PolyAdd (Poly.coeff a) (Poly.sum qs)) := by
  by_cases ha : a = 0
  · subst ha
    rw [PolyAdd_zero_sum, PolyAdd_zero_sum]
    rfl
  · obtain ⟨l, hl⟩ := PolyAdd_coeff_sum_isSum a qs
    rw [PolyAdd_coeff_sum_cons a ha, if_neg (by simp), hl, PolyIsZero_sum]
    simp [LiftPoly]

theorem LiftPoly_PolyAdd (a b : Poly) :
    LiftPoly (PolyAdd a b) = PolyAdd (LiftPoly a) (LiftPoly b) := by
  cases a with
  | coeff x =>
    cases b with
    | coeff y =>
      show _ = PolyAdd (Poly.coeff x) (Poly.coeff y)
      rw [PolyAdd]
      rfl
    | sum qs => exact (LiftPoly_PolyAdd_coeff_sum x qs).symm
  | sum ps =>
    cases b with
    | coeff y =>
      rw [PolyAdd_sum_coeff]
      show _ = PolyAdd (Poly.sum [(Poly.sum ps, 0)]) (Poly.coeff y)
      rw [PolyAdd_sum_coeff]
      exact (LiftPoly_PolyAdd_coeff_sum y ps).symm
    | sum qs =>
      show _ = PolyAdd (Poly.sum [(Poly.sum ps, 0)]) (Poly.sum [(Poly.sum qs, 0)])
      rw [PolyAdd_sum_sum [(Poly.sum ps, 0)]]
      have h : SumPolyPolyLoop [(Poly.sum ps, 0)] [(Poly.sum qs, 0)] =
          keepMono (PolyAdd (Poly.sum ps) (Poly.sum qs), 0) [] := by
        rw [SumPolyPolyLoop]
        simp [SumPolyPolyLoop]
      rw [h, Build_keepMono_single]

theorem AuxPolyCompose_map_LiftPoly (p : Poly) (level k : Nat) (qs : List Poly) :
    AuxPolyCompose p level k (qs.map LiftPoly) = LiftPoly (AuxPolyCompose p level k qs) := by
  have hg : ∀ level, (qs.map LiftPoly).getD level PolyZero
      = LiftPoly (qs.getD level PolyZero) := by
    intro level
    have h := List.getD_map (l := qs) (d := PolyZero) (n := level) LiftPoly
    exact h
  exact AuxPolyCompose_sim LiftPoly (fun _ => rfl) LiftPoly_isZero LiftPoly_PolyAdd
    LiftPoly_PolyMul 0 k k qs (qs.map LiftPoly)
    (fun level => by simp only [Nat.add_zero, hg, LiftPoly_isZero])
    (fun level _ => by simp only [Nat.add_zero, hg]) _ p level (le_refl _)

theorem AuxPolyCompose_cons_shift (p : Poly) (level k : Nat) (q0 : Poly) (qs : List Poly) :
    AuxPolyCompose p (level + 1) (k + 1) (q0 :: qs) = AuxPolyCompose p level k qs :=
  AuxPolyCompose_sim id (fun _ => rfl) (fun _ => rfl) (fun _ _ => rfl) (fun _ _ => rfl)
    1 k (k + 1) qs (q0 :: qs)
    (fun level => by
      rw [List.getD_cons_succ]
      have h : decide (level + 1 + 1 > k + 1) = decide (level + 1 > k) := by
        simp only [decide_eq_decide]; omega
      rw [h])
    (fun level _ => by rw [List.getD_cons_succ]; rfl) _ p level (le_refl _)

theorem PolyOwnMonos_singleton (m : Mono) :
    PolyOwnMonos [m] = BuildPolyFromMonos (keepMono m []) := by
  simp only [PolyOwnMonos, SortMonos, List.insertionSort, List.orderedInsert,
    PolyOwnMonosSorted, OwnMonosLoop, List.length_singleton, List.nil_append, keepMono]
  split_ifs
  all_goals first
    | rfl
    | contradiction
    | omega

theorem VarPow_isZero (n : Int) : PolyIsZero (VarPow n) = false := by
  unfold VarPow
  split_ifs <;> rfl

theorem VarPow_canonical {n : Int} (hn : 0 ≤ n) : Canonical (VarPow n) := by
  unfold VarPow
  split_ifs with h
  · exact canonical_coeff 1
  · rw [canonical_sum_iff]
    refine ⟨by simp, ?_, ?_⟩
    · rw [MonosOK_cons]
      exact ⟨⟨canonical_coeff 1, rfl, hn⟩, by simp, MonosOK_nil⟩
    · cases hl : IsLoneConst [(Poly.coeff 1, n)] with
      | false => rfl
      | true =>
        obtain ⟨c, hc⟩ := (IsLoneConst_iff _).1 hl
        simp only [List.cons.injEq, Prod.mk.injEq, and_true] at hc
        exact absurd hc.2 h

theorem VarPow_inRange {n : Int} (hn : 0 ≤ n) (hb : n < INT_BOUND) : InRange (VarPow n) := by
  unfold VarPow
  split_ifs with h
  · decide
  · rw [inRange_sum_iff]
    intro m hm
    simp only [List.mem_singleton] at hm
    subst hm
    refine ⟨?_, ?_, hb⟩
    · show InRange (Poly.coeff 1)
      decide
    · show -INT_BOUND ≤ n
      unfold INT_BOUND
      omega

theorem VarPow_mul {a b : Int} (ha : 0 ≤ a) (hb : 0 ≤ b) (hab : a + b < INT_BOUND) :
    PolyMul (VarPow a) (VarPow b) = VarPow (a + b) := by
  by_cases ha0 : a = 0
  · subst ha0
    rw [zero_add]
    have h : VarPow 0 = Poly.coeff 1 := rfl
    rw [h]
    exact PolyMul_one_left_of (VarPow_canonical hb) (VarPow_inRange hb (by omega))
  · by_cases hb0 : b = 0
    · subst hb0
      rw [add_zero]
      have h : VarPow 0 = Poly.coeff 1 := rfl
      rw [h]
      exact PolyMul_one_right_of (VarPow_canonical ha) (VarPow_inRange ha (by omega))
    · have hab0 : a + b ≠ 0 := by omega
      unfold VarPow
      rw [if_neg ha0, if_neg hb0, if_neg hab0, PolyMul_sum_sum]
      have hw : wrap32 (a + b) = a + b :=
        wrap32_of_fits ⟨by unfold INT_BOUND; omega, hab⟩
      have h : MulMonos [(Poly.coeff 1, a)] [(Poly.coeff 1, b)] =
          [(Poly.coeff 1, a + b)] := by
        simp [MulMonos, MulMonosRow, MonoGetExp, hw, PolyMul, PolyFromCoeff, wrap64]
      rw [h, PolyOwnMonos_singleton]
      simp [keepMono, PolyIsZero, PolyIsCoeff, BuildPolyFromMonos, hab0]

theorem PolyFastExpLoop_VarPow : ∀ (n : Nat) (e a r : Int), e.natAbs ≤ n → 0 ≤ e → 0 ≤ a →
    1 ≤ r → a + r * e < INT_BOUND →
    PolyFastExpLoop (VarPow a) (VarPow r) e = VarPow (a + r * e) := by
  intro n
  induction n with
  | zero =>
    intro e a r hn he ha hr hb
    have h0 : e = 0 := by omega
    subst h0
    rw [PolyFastExpLoop_zero, mul_zero, add_zero]
  | succ n ih =>
    intro e a r hn he ha hr hb
    by_cases h0 : e = 0
    · subst h0
      rw [PolyFastExpLoop_zero, mul_zero, add_zero]
    · rw [PolyFastExpLoop, dif_pos h0]
      have hm : (Int.tdiv e 2).natAbs = e.natAbs / 2 := Int.natAbs_tdiv e 2
      have hm0 : 0 ≤ Int.tdiv e 2 := Int.tdiv_nonneg he (by norm_num)
      have hdiv : Int.tdiv e 2 = e / 2 := Int.tdiv_eq_ediv he (by norm_num)
      have hmod : Int.tmod e 2 = e % 2 := Int.tmod_eq_emod he (by norm_num)
      have hre : r ≤ r * e := by
        nlinarith [mul_nonneg (by omega : (0 : Int) ≤ r) (by omega : (0 : Int) ≤ e - 1)]
      simp only []
      by_cases h1 : e = 1
      · subst h1
        have hodd : Int.tmod 1 2 ≠ 0 := by decide
        rw [if_pos hodd, if_neg (by simp), VarPow_mul ha (by omega) (by omega)]
        have h2 : Int.tdiv 1 2 = 0 := by decide
        rw [h2, PolyFastExpLoop_zero, mul_one]
      · have he2 : 2 ≤ e := by omega
        have h2r : 2 * r ≤ r * e := by
          nlinarith [mul_nonneg (by omega : (0 : Int) ≤ r) (by omega : (0 : Int) ≤ e - 2)]
        have hsplit : r * e = r * (e % 2) + (r + r) * (e / 2) := by
          have := Int.emod_add_ediv e 2
          have h3 : e = e % 2 + 2 * (e / 2) := by omega
          calc r * e = r * (e % 2 + 2 * (e / 2)) := by rw [← h3]
            _ = r * (e % 2) + (r + r) * (e / 2) := by ring
        have hq0 : 0 ≤ (r + r) * (e / 2) := by
          have : 0 ≤ e / 2 := by omega
          nlinarith
        have hrr : PolyMul (VarPow r) (VarPow r) = VarPow (r + r) :=
          VarPow_mul (by omega) (by omega) (by omega)
        have har : PolyMul (VarPow a) (VarPow r) = VarPow (a + r) :=
          VarPow_mul ha (by omega) (by omega)
        rw [if_pos h1, hrr]
        by_cases hodd : Int.tmod e 2 ≠ 0
        · have hm1 : e % 2 = 1 := by omega
          rw [hm1, mul_one] at hsplit
          rw [if_pos hodd, har,
            ih _ _ _ (by omega) hm0 (by omega) (by omega) (by rw [hdiv]; omega), hdiv]
          congr 1
          omega
        · have hm1 : e % 2 = 0 := by omega
          rw [hm1, mul_zero, zero_add] at hsplit
          rw [if_neg hodd, ih _ _ _ (by omega) hm0 ha (by omega) (by rw [hdiv]; omega), hdiv]
          congr 1
          omega

theorem PolyFastExp_VarPoly {n : Int} (hn : 0 ≤ n) (hb : n < INT_BOUND) :
    PolyFastExp (VarPoly 0) n = VarPow n := by
  have h1 : VarPoly 0 = VarPow 1 := rfl
  have h0 : PolyFromCoeff 1 = VarPow 0 := rfl
  unfold PolyFastExp
  rw [PolyClone_eq]
  split_ifs with ha hb1
  · rw [ha]; rfl
  · rw [hb1]; rfl
  · rw [h1, h0, PolyFastExpLoop_VarPow _ n 0 1 (le_refl _) hn (le_refl _) (le_refl _)
      (by omega)]
    congr 1
    omega

theorem LiftPoly_canonical {p : Poly} (hp : Canonical p) : Canonical (LiftPoly p) := by
  cases p with
  | coeff c => exact hp
  | sum arr =>
    show Canonical (Poly.sum [(Poly.sum arr, 0)])
    rw [canonical_sum_iff]
    refine ⟨by simp, ?_, rfl⟩
    rw [MonosOK_cons]
    exact ⟨⟨hp, rfl, le_refl _⟩, by simp, MonosOK_nil⟩

theorem LiftPoly_inRange {p : Poly} (hr : InRange p) : InRange (LiftPoly p) := by
  cases p with
  | coeff c => exact hr
  | sum arr =>
    show InRange (Poly.sum [(Poly.sum arr, 0)])
    rw [inRange_sum_iff]
    intro m hm
    simp only [List.mem_singleton] at hm
    subst hm
    refine ⟨hr, ?_, ?_⟩
    · show -INT_BOUND ≤ 0
      decide
    · show (0 : Int) < INT_BOUND
      decide

theorem Build_single_isZero {p : Poly} (e : Int) (hz : PolyIsZero p = false) :
    PolyIsZero (BuildPolyFromMonos [(p, e)]) = false := by
  cases p with
  | coeff c =>
    have hc : c ≠ 0 := by
      intro h
      subst h
      exact absurd hz (by decide)
    by_cases he : e = 0
    · subst he
      simp [BuildPolyFromMonos, PolyFromCoeff, PolyIsZero, PolyIsCoeff, hc]
    · simp [BuildPolyFromMonos, he, PolyIsZero, PolyIsCoeff]
  | sum arr => rfl

theorem PolyMul_LiftPoly_VarPow {p : Poly} {e : Int} (hp : Canonical p) (hr : InRange p)
    (hz : PolyIsZero p = false) (he : 0 ≤ e) (hb : e < INT_BOUND) :
    PolyMul (LiftPoly p) (VarPow e) = BuildPolyFromMonos [(p, e)] := by
  by_cases he0 : e = 0
  · subst he0
    have h : VarPow 0 = Poly.coeff 1 := rfl
    rw [h, PolyMul_one_right_of (LiftPoly_canonical hp) (LiftPoly_inRange hr)]
    have h2 := Build_keepMono_single p
    simp only [keepMono, hz, Bool.false_eq_true, if_false] at h2
    exact h2.symm
  · unfold VarPow
    rw [if_neg he0]
    cases p with
    | coeff c =>
      have hc : c ≠ 0 := by
        intro h
        subst h
        exact absurd hz (by decide)
      show PolyMul (Poly.coeff c) (Poly.sum [(Poly.coeff 1, e)]) = _
      rw [PolyMul_coeff_sum c hc, MulCoeffPolyLoop_cons]
      have h0 : MulCoeffPolyLoop c [] = [] := by rw [MulCoeffPolyLoop]
      have h1 : PolyMul (Poly.coeff c) (Poly.coeff 1) = Poly.coeff c :=
        PolyMul_one_right_of hp hr
      rw [h0, h1]
      simp only [keepMono, hz, Bool.false_eq_true, if_false]
    | sum arr =>
      show PolyMul (Poly.sum [(Poly.sum arr, 0)]) (Poly.sum [(Poly.coeff 1, e)]) = _
      rw [PolyMul_sum_sum]
      have hw : wrap32 e = e := wrap32_of_fits ⟨by unfold INT_BOUND; omega, hb⟩
      have h1 : PolyMul (Poly.sum arr) (Poly.coeff 1) = Poly.sum arr :=
        PolyMul_one_right_of hp hr
      have h : MulMonos [(Poly.sum arr, 0)] [(Poly.coeff 1, e)] = [(Poly.sum arr, e)] := by
        simp [MulMonos, MulMonosRow, MonoGetExp, hw, h1]
      rw [h, PolyOwnMonos_singleton]
      simp only [keepMono, hz, Bool.false_eq_true, if_false]

theorem MonosOK_of_append_left {l1 l2 : List Mono} (h : MonosOK (l1 ++ l2)) : MonosOK l1 :=
  ⟨fun m hm => h.1 m (List.mem_append_left _ hm),
    List.Pairwise.sublist (List.sublist_append_left l1 l2) h.2⟩

theorem MonosOK_of_append_right {l1 l2 : List Mono} (h : MonosOK (l1 ++ l2)) : MonosOK l2 :=
  ⟨fun m hm => h.1 m (List.mem_append_right _ hm),
    List.Pairwise.sublist (List.sublist_append_right l1 l2) h.2⟩

theorem PolyAdd_Build_snoc {pre : List Mono} {m : Mono} (hok : MonosOK (pre ++ [m]))
    (hir : MonosIR (pre ++ [m])) :
    PolyAdd (BuildPolyFromMonos pre) (BuildPolyFromMonos [m]) =
      BuildPolyFromMonos (pre ++ [m]) := by
  have hok1 := MonosOK_of_append_left hok
  have hok2 := MonosOK_of_append_right hok
  have hir1 : MonosIR pre := fun x hx => hir x (List.mem_append_left _ hx)
  have hir2 : MonosIR [m] := fun x hx => hir x (List.mem_append_right _ hx)
  refine den_inj
    (PolyAdd_canonical_of (BuildPolyFromMonos_canonical hok1) (BuildPolyFromMonos_canonical hok2))
    (BuildPolyFromMonos_canonical hok)
    (PolyAdd_inRange (BuildPolyFromMonos_inRange hir1) (BuildPolyFromMonos_inRange hir2))
    (BuildPolyFromMonos_inRange hir) ?_
  rw [den_PolyAdd, den_BuildPolyFromMonos, den_BuildPolyFromMonos, den_BuildPolyFromMonos,
    denMonos_append]

theorem AuxPolyComposeLoop_VarPoly (k : Nat) (q : List Poly)
    (hq : q.getD 0 PolyZero = VarPoly 0) (rest : List (Poly × Int)) :
    ∀ (pre : List Mono) (expVal : Int),
      (∀ m ∈ rest, AuxPolyCompose m.1 1 k q = LiftPoly m.1) →
      MonosOK (pre ++ rest) → MonosIR (pre ++ rest) → 0 ≤ expVal →
      (∀ m ∈ rest, expVal ≤ m.2) →
      AuxPolyComposeLoop rest 0 k q (BuildPolyFromMonos pre) (VarPow expVal) expVal =
        BuildPolyFromMonos (pre ++ rest) := by
  induction rest with
  | nil =>
    intro pre expVal _ _ _ _ _
    rw [AuxPolyComposeLoop, List.append_nil]
  | cons m rest ihl =>
    obtain ⟨p, e⟩ := m
    intro pre expVal htmp hok hir hv hle
    have hmem : ((p, e) : Mono) ∈ pre ++ (p, e) :: rest :=
      List.mem_append_right _ (List.mem_cons_self _ _)
    obtain ⟨hcp, hzp, he0⟩ := hok.1 _ hmem
    obtain ⟨hrp, -, heb⟩ := hir _ hmem
    simp only at hcp hzp he0 hrp heb
    have hev : expVal ≤ e := hle _ (List.mem_cons_self _ _)
    have happ : pre ++ (p, e) :: rest = (pre ++ [(p, e)]) ++ rest := by
      rw [List.append_assoc]; rfl
    have hok3 : MonosOK (pre ++ [(p, e)]) := by
      rw [happ] at hok
      exact MonosOK_of_append_left hok
    have hir3 : MonosIR (pre ++ [(p, e)]) := by
      rw [happ] at hir
      exact fun x hx => hir x (List.mem_append_left _ hx)
    have hlt : ∀ x ∈ rest, e ≤ x.2 := by
      intro x hx
      have h1 := MonosOK_of_append_right hok
      have h2 := (MonosOK_cons.1 h1).2.1 x hx
      simp only at h2
      omega
    have hw : wrap32 (e - expVal) = e - expVal :=
      wrap32_of_fits ⟨by unfold INT_BOUND; omega, by omega⟩
    have h1 : AuxPolyCompose p 1 k q = LiftPoly p := htmp _ (List.mem_cons_self _ _)
    have h2 : PolyFastExp (VarPoly 0) (e - expVal) = VarPow (e - expVal) :=
      PolyFastExp_VarPoly (by omega) (by omega)
    have h3 : PolyMul (VarPow expVal) (VarPow (e - expVal)) = VarPow e := by
      rw [VarPow_mul hv (by omega) (by omega)]
      congr 1
      omega
    have h4 : PolyMul (LiftPoly p) (VarPow e) = BuildPolyFromMonos [(p, e)] :=
      PolyMul_LiftPoly_VarPow hcp hrp hzp he0 heb
    rw [AuxPolyComposeLoop]
    simp only [SmartPolyMul, SmartPolyAdd, MonoGetExp, zero_add, h1, hq, hw, h2, h3, h4,
      LiftPoly_isZero, hzp, VarPow_isZero, Build_single_isZero e hzp, Bool.not_false, if_true,
      PolyAdd_Build_snoc hok3 hir3]
    rw [happ]
    exact ihl _ _ (fun x hx => htmp x (List.mem_cons_of_mem _ hx)) (by rw [← happ]; exact hok)
      (by rw [← happ]; exact hir) he0 hlt

theorem PolyDepth_le_of_mem {arr : List (Poly × Int)} {m : Poly × Int} (hm : m ∈ arr) :
    PolyDepth m.1 ≤ monosDepth arr := by
  induction arr with
  | nil => cases hm
  | cons a tl ih =>
    obtain ⟨p, e⟩ := a
    rw [monosDepth]
    rcases List.mem_cons.1 hm with h | h
    · subst h
      exact le_max_left _ _
    · exact le_trans (ih h) (le_max_right _ _)

theorem AuxPolyCompose_VarList : ∀ (n : Nat) (p : Poly) (d : Nat), p.size ≤ n → Canonical p →
    InRange p → PolyDepth p ≤ d → AuxPolyCompose p 0 d (VarList d) = p := by
  intro n
  induction n with
  | zero =>
    intro p d h
    have := size_pos p
    omega
  | succ n ih =>
    intro p d hn hp hr hd
    cases p with
    | coeff c => rfl
    | sum arr =>
      obtain ⟨hnil, hok, -⟩ := (canonical_sum_iff arr).1 hp
      have hir := (inRange_sum_iff_IR arr).1 hr
      rw [PolyDepth] at hd
      cases d with
      | zero => omega
      | succ d =>
        have htmp : ∀ m ∈ arr, AuxPolyCompose m.1 1 (d + 1) (VarList (d + 1)) = LiftPoly m.1 := by
          intro m hm
          have hsz := size_lt_of_mem hm
          have hdm := PolyDepth_le_of_mem hm
          simp only [Poly.size] at hn hsz
          rw [VarList, AuxPolyCompose_cons_shift m.1 0 d, AuxPolyCompose_map_LiftPoly,
            ih m.1 d (by omega) (hok.1 m hm).1 ((inRange_sum_iff arr).1 hr m hm).1 (by omega)]
        have hloop := AuxPolyComposeLoop_VarPoly (d + 1) (VarList (d + 1)) rfl arr [] 0 htmp
          (by rw [List.nil_append]; exact hok) (by rw [List.nil_append]; exact hir) (le_refl _)
          (fun m hm => (hok.1 m hm).2.2)
        rw [List.nil_append, BuildPolyFromMonos_of_canonical hp] at hloop
        cases arr with
        | nil => exact absurd rfl hnil
        | cons m tl =>
          obtain ⟨p0, e0⟩ := m
          rw [AuxPolyCompose]
          have hb : (decide (0 + 1 > d + 1) ||
              PolyIsZero ((VarList (d + 1)).getD 0 PolyZero)) = false := by
            simp [VarList, VarPoly, PolyIsZero, PolyIsCoeff]
          rw [hb]
          exact hloop

theorem PolyFastExpLoop_coeff : ∀ (n : Nat) (e a r : Int), e.natAbs ≤ n → 0 ≤ e →
    (-LONG_BOUND ≤ a ∧ a < LONG_BOUND) →
    PolyFastExpLoop (Poly.coeff a) (Poly.coeff r) e = Poly.coeff (wrap64 (a * r ^ e.toNat)) := by
  intro n
  induction n with
  | zero =>
    intro e a r hn he ha
    have h0 : e = 0 := by omega
    subst h0
    rw [PolyFastExpLoop_zero]
    simp [wrap64_of_range ha]
  | succ n ih =>
    intro e a r hn he ha
    by_cases h0 : e = 0
    · subst h0
      rw [PolyFastExpLoop_zero]
      simp [wrap64_of_range ha]
    · rw [PolyFastExpLoop, dif_pos h0]
      have hm : (Int.tdiv e 2).natAbs = e.natAbs / 2 := Int.natAbs_tdiv e 2
      have hm0 : 0 ≤ Int.tdiv e 2 := Int.tdiv_nonneg he (by norm_num)
      have hdiv : Int.tdiv e 2 = e / 2 := Int.tdiv_eq_ediv he (by norm_num)
      have hmod : Int.tmod e 2 = e % 2 := Int.tmod_eq_emod he (by norm_num)
      have hmul : ∀ u v : Int, PolyMul (Poly.coeff u) (Poly.coeff v)
          = Poly.coeff (wrap64 (u * v)) := fun u v => by rw [PolyMul]; rfl
      simp only [hmul]
      by_cases h1 : e = 1
      · subst h1
        have hodd : Int.tmod 1 2 ≠ 0 := by decide
        have h2 : Int.tdiv 1 2 = 0 := by decide
        rw [if_pos hodd, if_neg (by simp), h2, PolyFastExpLoop_zero]
        simp
      · rw [if_pos h1]
        by_cases hodd : Int.tmod e 2 ≠ 0
        · rw [if_pos hodd, ih _ _ _ (by omega) hm0 (wrap64_inRange _)]
          congr 1
          apply wrap64_congr
          have hk : e.toNat = 2 * (Int.tdiv e 2).toNat + 1 := by omega
          rw [hk]
          push_cast
          rw [wrap64_cast, wrap64_cast]
          push_cast
          ring
        · rw [if_neg hodd, ih _ _ _ (by omega) hm0 ha]
          congr 1
          apply wrap64_congr
          have hk : e.toNat = 2 * (Int.tdiv e 2).toNat := by omega
          rw [hk]
          push_cast
          rw [wrap64_cast]
          push_cast
          ring

theorem PolyFastExp_coeff {x e : Int} (hx : -LONG_BOUND ≤ x ∧ x < LONG_BOUND) (he : 0 ≤ e) :
    PolyFastExp (Poly.coeff x) e = Poly.coeff (wrap64 (x ^ e.toNat)) := by
  unfold PolyFastExp
  rw [PolyClone_eq]
  split_ifs with h0 h1
  · subst h0
    rfl
  · subst h1
    simp [wrap64_of_range hx]
  · rw [PolyFromCoeff, PolyFastExpLoop_coeff _ e 1 x (le_refl _) he
      (by unfold LONG_BOUND; omega), one_mul]

theorem AuxPolyComposeLoop_coeff (x : Int) (hx : -LONG_BOUND ≤ x ∧ x < LONG_BOUND)
    (k : Nat) (q : List Poly) (hq : q.getD 0 PolyZero = Poly.coeff x)
    (rest : List (Poly × Int)) :
    ∀ (sum : Poly) (expVal : Int),
      (∀ m ∈ rest, AuxPolyCompose m.1 1 k q = m.1) →
      MonosOK rest → MonosIR rest → 0 ≤ expVal → (∀ m ∈ rest, expVal ≤ m.2) → InRange sum →
      AuxPolyComposeLoop rest 0 k q sum (Poly.coeff (wrap64 (x ^ expVal.toNat))) expVal =
        PolyAtLoop x rest sum := by
  induction rest with
  | nil =>
    intro sum expVal _ _ _ _ _ _
    rw [AuxPolyComposeLoop, PolyAtLoop]
  | cons m rest ihl =>
    obtain ⟨p, e⟩ := m
    intro sum expVal htmp hok hir hv hle hsum
    obtain ⟨⟨hcp, hzp, he0⟩, hlt, hok2⟩ := MonosOK_cons.1 hok
    obtain ⟨hrp, -, heb⟩ := hir _ (List.mem_cons_self _ _)
    simp only at hcp hzp he0 hrp heb hlt
    have hir2 : MonosIR rest := fun y hy => hir y (List.mem_cons_of_mem _ hy)
    have htmp2 : ∀ m ∈ rest, AuxPolyCompose m.1 1 k q = m.1 :=
      fun y hy => htmp y (List.mem_cons_of_mem _ hy)
    have hev : expVal ≤ e := hle _ (List.mem_cons_self _ _)
    have hle2 : ∀ m ∈ rest, expVal ≤ m.2 := fun y hy => hle y (List.mem_cons_of_mem _ hy)
    have hle3 : ∀ m ∈ rest, e ≤ m.2 := fun y hy => by have := hlt y hy; omega
    have hw : wrap32 (e - expVal) = e - expVal :=
      wrap32_of_fits ⟨by unfold INT_BOUND; omega, by omega⟩
    have h1 : AuxPolyCompose p 1 k q = p := htmp _ (List.mem_cons_self _ _)
    have h2 : PolyFastExp (Poly.coeff x) (e - expVal)
        = Poly.coeff (wrap64 (x ^ (e - expVal).toNat)) := PolyFastExp_coeff hx (by omega)
    have hy : wrap64 (x ^ e.toNat)
        = wrap64 (wrap64 (x ^ expVal.toNat) * wrap64 (x ^ (e - expVal).toNat)) := by
      apply wrap64_congr
      have hk : e.toNat = expVal.toNat + (e - expVal).toNat := by omega
      rw [hk]
      push_cast
      rw [wrap64_cast, wrap64_cast]
      push_cast
      ring
    have h3 : PolyMul (Poly.coeff (wrap64 (x ^ expVal.toNat)))
        (Poly.coeff (wrap64 (x ^ (e - expVal).toNat))) = Poly.coeff (wrap64 (x ^ e.toNat)) := by
      rw [PolyMul, hy]
      rfl
    have hzero : PolyAdd sum (PolyMul p (Poly.coeff 0)) = sum := by
      rw [PolyMul_zero_right, PolyAdd_zero_right_of hsum]
    rw [AuxPolyComposeLoop, PolyAtLoop]
    simp only [SmartPolyMul, SmartPolyAdd, MonoGetExp, h1, hq, hw, h2, h3, hzp, Bool.not_false,
      if_true, FastExp_eq x e he0, PolyFromCoeff]
    by_cases ht : wrap64 (x ^ (e - expVal).toNat) = 0
    · have hy0 : wrap64 (x ^ e.toNat) = 0 := by
        rw [hy, ht, mul_zero]
        decide
      have hz2 : PolyIsZero (Poly.coeff (wrap64 (x ^ (e - expVal).toNat))) = true := by
        rw [ht]; rfl
      simp only [hz2, Bool.not_true, Bool.false_eq_true, if_false]
      rw [hy0, hzero]
      exact ihl sum expVal htmp2 hok2 hir2 hv hle2 hsum
    · have hz2 : PolyIsZero (Poly.coeff (wrap64 (x ^ (e - expVal).toNat))) = false := by
        simp [PolyIsZero, PolyIsCoeff, ht]
      simp only [hz2, Bool.not_false, if_true]
      by_cases hy0 : wrap64 (x ^ e.toNat) = 0
      · have hz3 : PolyIsZero (Poly.coeff (wrap64 (x ^ e.toNat))) = true := by
          rw [hy0]; rfl
        simp only [hz3, Bool.not_true, Bool.false_eq_true, if_false]
        have h5 := ihl sum e htmp2 hok2 hir2 he0 hle3 hsum
        rw [hy0] at h5 ⊢
        rw [hzero]
        exact h5
      · have hz3 : PolyIsZero (Poly.coeff (wrap64 (x ^ e.toNat))) = false := by
          simp [PolyIsZero, PolyIsCoeff, hy0]
        simp only [hz3, Bool.not_false, if_true]
        by_cases hz4 : PolyIsZero (PolyMul p (Poly.coeff (wrap64 (x ^ e.toNat)))) = true
        · simp only [hz4, Bool.not_true, Bool.false_eq_true, if_false]
          rw [(PolyIsZero_iff _).1 hz4]
          have h6 : PolyAdd sum (Poly.coeff 0) = sum := PolyAdd_zero_right_of hsum
          rw [h6]
          exact ihl sum e htmp2 hok2 hir2 he0 hle3 hsum
        · simp only [hz4, Bool.not_false, if_true]
          exact ihl _ e htmp2 hok2 hir2 he0 hle3
            (PolyAdd_inRange hsum (PolyMul_inRange hrp
              ((inRange_coeff_iff _).2 (wrap64_inRange _))))

theorem VarList_eq (d : Nat) : VarList d = (List.range d).map VarPoly := by
  induction d with
  | zero => rfl
  | succ d ih =>
    rw [VarList, ih, List.range_succ_eq_map, List.map_cons, List.map_map, List.map_map]
    rfl

theorem PolyAt_eq_PolyCompose_of {p : Poly} {x : Int} (d : Nat) (hp : Canonical p)
    (hr : InRange p) (hx : -LONG_BOUND ≤ x ∧ x < LONG_BOUND) (hd : PolyDepth p ≤ d + 1) :
    PolyAt p x = PolyCompose p (d + 1) (PolyFromCoeff x :: VarList d) := by
  cases p with
  | coeff c => rfl
  | sum arr =>
    obtain ⟨hnil, hok, -⟩ := (canonical_sum_iff arr).1 hp
    have hir := (inRange_sum_iff_IR arr).1 hr
    rw [PolyDepth] at hd
    have htmp : ∀ m ∈ arr, AuxPolyCompose m.1 1 (d + 1) (PolyFromCoeff x :: VarList d) = m.1 := by
      intro m hm
      have hdm := PolyDepth_le_of_mem hm
      rw [AuxPolyCompose_cons_shift m.1 0 d]
      exact AuxPolyCompose_VarList _ m.1 d (le_refl _) (hok.1 m hm).1
        ((inRange_sum_iff arr).1 hr m hm).1 (by omega)
    cases arr with
    | nil => exact absurd rfl hnil
    | cons m tl =>
      obtain ⟨p0, e0⟩ := m
      unfold PolyCompose
      rw [PolyAt, AuxPolyCompose]
      by_cases hx0 : x = 0
      · subst hx0
        have hb : (decide (0 + 1 > d + 1) ||
            PolyIsZero ((PolyFromCoeff 0 :: VarList d).getD 0 PolyZero)) = true := by
          simp [PolyFromCoeff, PolyIsZero, PolyIsCoeff]
        rw [if_pos rfl, if_pos hb, MonoGetExp, PolyClone_eq]
        split_ifs
        · exact (htmp _ (List.mem_cons_self _ _)).symm
        · rfl
      · have hb : (decide (0 + 1 > d + 1) ||
            PolyIsZero ((PolyFromCoeff x :: VarList d).getD 0 PolyZero)) = false := by
          simp [PolyFromCoeff, PolyIsZero, PolyIsCoeff, hx0]
        rw [if_neg hx0, hb]
        have h := AuxPolyComposeLoop_coeff x hx (d + 1) (PolyFromCoeff x :: VarList d) rfl
          ((p0, e0) :: tl) PolyZero 0 htmp hok hir (le_refl _) (fun m hm => (hok.1 m hm).2.2)
          (by decide)
        have h1 : Poly.coeff (wrap64 (x ^ (0 : Int).toNat)) = PolyFromCoeff 1 := by
          simp [PolyFromCoeff]
          decide
        rw [h1] at h
        exact h.symm

theorem listMax_eq_zero {l : List ℕ} (h : ∀ a ∈ l, a = 0) : listMax l = 0 := by
  induction l with
  | nil => rfl
  | cons a tl ih =>
    rw [listMax_cons, h a (List.mem_cons_self _ _),
      ih (fun b hb => h b (List.mem_cons_of_mem _ hb))]
    rfl

theorem exists_mem_monosDepth {arr : List (Poly × Int)} (h : arr ≠ []) :
    ∃ m ∈ arr, PolyDepth m.1 = monosDepth arr := by
  induction arr with
  | nil => exact absurd rfl h
  | cons a tl ih =>
    obtain ⟨p, e⟩ := a
    rw [monosDepth]
    by_cases hle : monosDepth tl ≤ PolyDepth p
    · exact ⟨(p, e), List.mem_cons_self _ _, (max_eq_left hle).symm⟩
    · have hlt : PolyDepth p ≤ monosDepth tl := by omega
      have hne : tl ≠ [] := by
        intro h0
        subst h0
        simp [monosDepth] at hle
      obtain ⟨m, hm, hd⟩ := ih hne
      exact ⟨m, List.mem_cons_of_mem _ hm, by rw [hd, max_eq_right hlt]⟩

theorem degreeOf_eq_zero_of_depth : ∀ (n : Nat) (p : Poly) (k : Nat), p.size ≤ n →
    Canonical p → InRange p → PolyDepth p ≤ k → ∀ i, k ≤ i → (den p).degreeOf i = 0 := by
  intro n
  induction n with
  | zero =>
    intro p k h
    have := size_pos p
    omega
  | succ n ih =>
    intro p k hn hp hr hd i hi
    cases p with
    | coeff c => rw [den_coeff, MvPolynomial.degreeOf_C]
    | sum arr =>
      obtain ⟨hnil, hok, -⟩ := (canonical_sum_iff arr).1 hp
      rw [PolyDepth] at hd
      cases i with
      | zero => omega
      | succ j =>
        rw [den_sum, degreeOf_succ_denMonos arr hok j]
        apply listMax_eq_zero
        intro a ha
        obtain ⟨m, hm, rfl⟩ := List.mem_map.1 ha
        have hsz := size_lt_of_mem hm
        have hdm := PolyDepth_le_of_mem hm
        simp only [Poly.size] at hn hsz
        exact ih m.1 (k - 1) (by omega) (hok.1 m hm).1 ((inRange_sum_iff arr).1 hr m hm).1
          (by omega) j (by omega)

theorem degreeOf_pos_of_depth : ∀ (n : Nat) (p : Poly) (d : Nat), p.size ≤ n →
    Canonical p → InRange p → PolyDepth p = d + 1 → 0 < (den p).degreeOf d := by
  intro n
  induction n with
  | zero =>
    intro p d h
    have := size_pos p
    omega
  | succ n ih =>
    intro p d hn hp hr hd
    cases p with
    | coeff c => simp [PolyDepth] at hd
    | sum arr =>
      obtain ⟨hnil, hok, hlone⟩ := (canonical_sum_iff arr).1 hp
      have hne := monos_den_ne_zero hp hr
      rw [PolyDepth] at hd
      obtain ⟨m, hm, hmd⟩ := exists_mem_monosDepth hnil
      rw [den_sum]
      cases d with
      | zero =>
        rw [degreeOf_zero_denMonos arr hok hne]
        cases arr with
        | nil => exact absurd rfl hnil
        | cons a tl =>
          obtain ⟨⟨-, -, ha0⟩, hlt, -⟩ := MonosOK_cons.1 hok
          cases tl with
          | nil =>
            obtain ⟨p0, e0⟩ := a
            have hp0 : PolyDepth p0 = 0 := by
              simp only [monosDepth] at hd
              have := le_max_left (PolyDepth p0) 0
              omega
            have he0 : e0 ≠ 0 := by
              intro h0
              subst h0
              cases p0 with
              | coeff c => simp [IsLoneConst] at hlone
              | sum l => simp [PolyDepth] at hp0
            simp only at ha0
            refine lt_of_lt_of_le ?_ (le_listMax (List.mem_map_of_mem
              (fun x : Mono => x.2.toNat) (List.mem_cons_self _ _)))
            simp only
            omega
          | cons b tl2 =>
            have hb := hlt b (List.mem_cons_self _ _)
            refine lt_of_lt_of_le ?_ (le_listMax (List.mem_map_of_mem
              (fun x : Mono => x.2.toNat) (List.mem_cons_of_mem _ (List.mem_cons_self _ _))))
            simp only
            omega
      | succ j =>
        rw [degreeOf_succ_denMonos arr hok j]
        have hsz := size_lt_of_mem hm
        simp only [Poly.size] at hn hsz
        have h := ih m.1 j (by omega) (hok.1 m hm).1 ((inRange_sum_iff arr).1 hr m hm).1
          (by omega)
        exact lt_of_lt_of_le h (le_listMax (List.mem_map_of_mem
          (fun x : Mono => (den x.1).degreeOf j) hm))

theorem PolyDepth_le_iff {p : Poly} (hp : Canonical p) (hr : InRange p) (n : Nat) :
    PolyDepth p ≤ n ↔ ∀ i, n ≤ i → (den p).degreeOf i = 0 := by
  constructor
  · intro h i hi
    exact degreeOf_eq_zero_of_depth _ p n (le_refl _) hp hr h i hi
  · intro h
    by_contra hcon
    obtain ⟨d, hd⟩ : ∃ d, PolyDepth p = d + 1 := ⟨PolyDepth p - 1, by omega⟩
    have h1 := degreeOf_pos_of_depth _ p d (le_refl _) hp hr hd
    have h2 := h d (by omega)
    omega

/-- C22. `PolyAt` is the substitution of a constant for `x_0` with the other variables
shifted down: for every canonical Poly `p` (holding values of `long` and `int`) in which
no variable beyond `x_d` occurs and every 64-bit integer `x`, also `x = 0`, `PolyAt p x`
is equal to `PolyCompose` of `p` with the `d + 1` polynomials
`[Scalar x, X_0, ..., X_(d-1)]`, where `X_i` is `VarPoly i`. -/
theorem PolyAt_eq_PolyCompose (p : Poly) (x : Int) (d : Nat) (hp : Canonical p)
    (hr : InRange p) (hx : -LONG_BOUND ≤ x ∧ x < LONG_BOUND)
    (hv : ∀ i, d < i → (den p).degreeOf i = 0) :
    PolyAt p x = PolyCompose p (d + 1) (PolyFromCoeff x :: (List.range d).map VarPoly) := by
  rw [← VarList_eq]
  exact PolyAt_eq_PolyCompose_of d hp hr hx ((PolyDepth_le_iff hp hr (d + 1)).2 hv)

theorem PolyAt_eq_PolyCompose_witness :
    Canonical exDegLiteral ∧ InRange exDegLiteral ∧
      (∀ i, 1 < i → (den exDegLiteral).degreeOf i = 0) ∧
      PolyAt exDegLiteral 0 =
        PolyCompose exDegLiteral 2 [PolyFromCoeff 0, Poly.sum [(Poly.coeff 1, 1)]] ∧
      PolyAt exDegLiteral 2 =
        PolyCompose exDegLiteral 2 [PolyFromCoeff 2, Poly.sum [(Poly.coeff 1, 1)]] :=
  ⟨by decide, by decide, (PolyDepth_le_iff (by decide) (by decide) 2).1 (by decide),
    PolyAt_eq_PolyCompose exDegLiteral 0 1 (by decide) (by decide) (by decide)
      ((PolyDepth_le_iff (by decide) (by decide) 2).1 (by decide)),
    PolyAt_eq_PolyCompose exDegLiteral 2 1 (by decide) (by decide) (by decide)
      ((PolyDepth_le_iff (by decide) (by decide) 2).1 (by decide))⟩

/-! ## C27, C28, C29: the polynomial stack -/

theorem take_set_succ {l : List Poly} {n : Nat} (p : Poly) (h : n < l.length) :
    (l.set n p).take (n + 1) = l.take n ++ [p] := by
  rw [List.set_eq_take_append_cons_drop, if_pos h]
  have h1 : l.take n ++ p :: l.drop (n + 1) = (l.take n ++ [p]) ++ l.drop (n + 1) := by
    simp
  rw [h1]
  exact List.take_left' (by simp; omega)

theorem PushPolyStore_ok {s : stack_t} (p : Poly) (h1 : s.size < s.polys.length)
    (h2 : s.size < SIZE_MAX) :
    PushPolyStore s p = Except.ok
      { polys := s.polys.set s.size p, size := s.size + 1, maxSize := s.maxSize } := by
  unfold PushPolyStore StackSize
  rw [if_pos h1, Nat.mod_eq_of_lt (by unfold SIZE_BOUND; unfold SIZE_MAX at h2; omega)]

theorem StackPolys_store {s : stack_t} (p : Poly) (h1 : s.size < s.polys.length) :
    StackPolys { polys := s.polys.set s.size p, size := s.size + 1, maxSize := s.maxSize } =
      StackPolys s ++ [p] := by
  unfold StackPolys
  exact take_set_succ p h1

theorem PushPoly_of_lt (mem : Nat → Bool) {s : stack_t} (p : Poly) (hv : s.valid)
    (h : s.size < s.maxSize) :
    PushPoly mem s p = Except.ok
      { polys := s.polys.set s.size p, size := s.size + 1, maxSize := s.maxSize } := by
  obtain ⟨hl, hs, hm⟩ := hv
  unfold PushPoly
  rw [if_neg (by omega)]
  exact PushPolyStore_ok p (by omega)
    (by unfold SIZEOF_POLY SIZE_BOUND at hm; unfold SIZE_MAX; omega)

theorem PushPoly_full_max (mem : Nat → Bool) {s : stack_t} (p : Poly)
    (hfull : s.maxSize ≤ s.size) (hmax : s.maxSize = SIZE_MAX) :
    PushPoly mem s p = Except.error Fault.exit := by
  unfold PushPoly MAX_SIZE
  rw [if_pos hfull, if_pos hmax]

/-- The capacity `PushPoly` asks for when the stack is full. -/
theorem ChooseNewSize_eq (c : Nat) :
    ChooseNewSize c = if c < SIZE_MAX / 2 then 2 * c else SIZE_MAX := by
  unfold ChooseNewSize MAX_SIZE
  split_ifs with h
  · exact Nat.mod_eq_of_lt (by unfold SIZE_BOUND; unfold SIZE_MAX at h; omega)
  · rfl

theorem PushPoly_full (mem : Nat → Bool) {s : stack_t} (p : Poly) (hv : s.valid)
    (hfull : s.maxSize ≤ s.size) (hmax : s.maxSize ≠ SIZE_MAX) (newCap : Nat)
    (hcap : newCap = if s.maxSize = 0 then DEFAULT_SIZE else ChooseNewSize s.maxSize) :
    PushPoly mem s p =
      if mem ((newCap * SIZEOF_POLY) % SIZE_BOUND) then
        if s.size < (newCap * SIZEOF_POLY) % SIZE_BOUND / SIZEOF_POLY then
          Except.ok
            { polys := (s.polys ++ List.replicate
                ((newCap * SIZEOF_POLY) % SIZE_BOUND / SIZEOF_POLY - s.size) PolyZero).set
                s.size p,
              size := s.size + 1, maxSize := newCap }
        else Except.error Fault.outOfBounds
      else Except.error Fault.exit := by
  obtain ⟨hl, hs, hm⟩ := hv
  have hsz : s.size = s.maxSize := by omega
  have hne : newCap ≠ s.maxSize := by
    rw [hcap, ChooseNewSize_eq]
    unfold DEFAULT_SIZE
    split_ifs <;> omega
  have hne0 : newCap ≠ 0 := by
    rw [hcap, ChooseNewSize_eq]
    unfold DEFAULT_SIZE SIZE_MAX
    split_ifs <;> omega
  have hge : s.maxSize ≤ newCap := by
    rw [hcap, ChooseNewSize_eq]
    unfold DEFAULT_SIZE
    unfold SIZEOF_POLY SIZE_BOUND at hm
    unfold SIZE_MAX
    split_ifs <;> omega
  have hres : ResizeStack mem s newCap =
      if mem ((newCap * SIZEOF_POLY) % SIZE_BOUND) then
        Except.ok
          { polys := s.polys.take ((newCap * SIZEOF_POLY) % SIZE_BOUND / SIZEOF_POLY) ++
              List.replicate
                ((newCap * SIZEOF_POLY) % SIZE_BOUND / SIZEOF_POLY - s.polys.length) PolyZero,
            size := s.size, maxSize := newCap }
      else Except.error Fault.exit := by
    unfold ResizeStack
    rw [if_neg hne, if_neg hne0]
    simp only []
    have hmin : MinSize_t s.size newCap = s.size := by
      unfold MinSize_t
      split_ifs <;> omega
    rw [hmin]
    by_cases h0 : s.maxSize = 0
    · have hnil : s.polys = [] := List.length_eq_zero.1 (by omega)
      simp only [h0, if_true, mallocPolys, hnil, List.take_nil, List.nil_append,
        List.length_nil, Nat.sub_zero]
    · simp only [h0, if_false, reallocPolys]
  have hpush : PushPoly mem s p =
      match ResizeStack mem s newCap with
      | Except.ok stack1 => PushPolyStore stack1 p
      | Except.error f => Except.error f := by
    unfold PushPoly MAX_SIZE
    rw [if_pos hfull, if_neg hmax, hcap]
    split_ifs <;> rfl
  rw [hpush, hres]
  by_cases hmem : mem ((newCap * SIZEOF_POLY) % SIZE_BOUND) = true
  · simp only [hmem, if_true]
    unfold PushPolyStore StackSize
    simp only [List.length_append, List.length_take, List.length_replicate]
    have hmod : (s.size + 1) % SIZE_BOUND = s.size + 1 :=
      Nat.mod_eq_of_lt (by unfold SIZEOF_POLY SIZE_BOUND at hm; unfold SIZE_BOUND; omega)
    by_cases hlt : s.size < (newCap * SIZEOF_POLY) % SIZE_BOUND / SIZEOF_POLY
    · rw [if_pos hlt, if_pos (by omega), hmod, List.take_of_length_le (by omega), hl, hsz]
    · rw [if_neg hlt, if_neg (by omega)]
  · simp only [hmem, Bool.false_eq_true, if_false]

theorem StackPolys_full_store {s : stack_t} (p : Poly) (n : Nat) (hsz : s.size = s.polys.length)
    (hn : 0 < n) :
    StackPolys { polys := (s.polys ++ List.replicate n PolyZero).set s.size p,
                 size := s.size + 1, maxSize := m } = StackPolys s ++ [p] := by
  unfold StackPolys
  simp only []
  rw [take_set_succ p (by simp; omega), hsz, List.take_left, List.take_length]

theorem PushPoly_ok_spec (mem : Nat → Bool) {s s1 : stack_t} {p : Poly} (hv : s.valid)
    (h : PushPoly mem s p = Except.ok s1) :
    s1.size = s.size + 1 ∧ StackPolys s1 = StackPolys s ++ [p] ∧ s1.valid ∧
      s.maxSize ≤ s1.maxSize := by
  obtain ⟨hl, hs, hm⟩ := hv
  by_cases hlt : s.size < s.maxSize
  · rw [PushPoly_of_lt mem p ⟨hl, hs, hm⟩ hlt] at h
    injection h with h
    subst h
    exact ⟨rfl, StackPolys_store p (by omega),
      ⟨by simp only [List.length_set]; exact hl, by simp only; omega, hm⟩, le_refl _⟩
  · by_cases hmax : s.maxSize = SIZE_MAX
    · rw [PushPoly_full_max mem p (by omega) hmax] at h
      cases h
    · rw [PushPoly_full mem p ⟨hl, hs, hm⟩ (by omega) hmax _ rfl] at h
      by_cases h1 : mem ((if s.maxSize = 0 then DEFAULT_SIZE else ChooseNewSize s.maxSize)
          * SIZEOF_POLY % SIZE_BOUND) = true
      · rw [if_pos h1] at h
        by_cases h2 : s.size < (if s.maxSize = 0 then DEFAULT_SIZE else ChooseNewSize s.maxSize)
            * SIZEOF_POLY % SIZE_BOUND / SIZEOF_POLY
        · rw [if_pos h2] at h
          injection h with h
          subst h
          rw [ChooseNewSize_eq] at h2 ⊢
          refine ⟨rfl, StackPolys_full_store p _ (by omega) (by omega), ⟨?_, ?_, ?_⟩, ?_⟩
          all_goals simp only [List.length_set, List.length_append, List.length_replicate]
          all_goals unfold DEFAULT_SIZE SIZEOF_POLY SIZE_BOUND at *
          all_goals unfold SIZE_MAX at *
          all_goals split_ifs at h2 ⊢
          all_goals omega
        · rw [if_neg h2] at h
          cases h
      · rw [if_neg h1] at h
        cases h

theorem size_of_StackPolys_snoc {s : stack_t} {l : List Poly} {p : Poly} (hv : s.valid)
    (h : StackPolys s = l ++ [p]) : s.size = l.length + 1 := by
  obtain ⟨hl, hs, -⟩ := hv
  have h1 := congrArg List.length h
  unfold StackPolys at h1
  simp only [List.length_take, List.length_append, List.length_singleton] at h1
  omega

theorem get?_of_StackPolys_snoc {s : stack_t} {l : List Poly} {p : Poly} (hv : s.valid)
    (h : StackPolys s = l ++ [p]) : s.polys.get? (s.size - 1) = some p := by
  have hsz := size_of_StackPolys_snoc hv h
  have h1 : (StackPolys s)[l.length]? = some p := by
    rw [h]
    simp
  unfold StackPolys at h1
  rw [List.getElem?_take_of_lt (by omega)] at h1
  rw [List.get?_eq_getElem?, hsz, Nat.add_sub_cancel]
  exact h1

theorem ShowTop_of_snoc {s : stack_t} {l : List Poly} {p : Poly} (hv : s.valid)
    (h : StackPolys s = l ++ [p]) : ShowTop s = Except.ok p := by
  have hsz := size_of_StackPolys_snoc hv h
  unfold ShowTop StackIsEmpty
  rw [get?_of_StackPolys_snoc hv h]
  have h0 : (s.size == 0) = false := by
    rw [hsz]
    rfl
  rw [h0]
  rfl

theorem TakePoly_of_snoc {s : stack_t} {l : List Poly} {p : Poly} (hv : s.valid)
    (h : StackPolys s = l ++ [p]) :
    TakePoly s = Except.ok
      (p, { polys := s.polys, size := s.size - 1, maxSize := s.maxSize }) ∧
    StackPolys { polys := s.polys, size := s.size - 1, maxSize := s.maxSize } = l ∧
    stack_t.valid { polys := s.polys, size := s.size - 1, maxSize := s.maxSize } := by
  have hsz := size_of_StackPolys_snoc hv h
  obtain ⟨hl, hs, hm⟩ := hv
  refine ⟨?_, ?_, ⟨hl, by simp only; omega, hm⟩⟩
  · unfold TakePoly StackIsEmpty
    rw [get?_of_StackPolys_snoc ⟨hl, hs, hm⟩ h]
    have h0 : (s.size == 0) = false := by
      rw [hsz]
      rfl
    rw [h0]
    rfl
  · unfold StackPolys at h ⊢
    simp only
    have h1 : List.take (s.size - 1) s.polys
        = List.take (s.size - 1) (List.take s.size s.polys) := by
      rw [List.take_take, Nat.min_eq_left (by omega)]
    rw [h1, h, hsz, Nat.add_sub_cancel, List.take_left]

/-- C27. The stack is LIFO: for every valid stack `s` (its array has `maxSize` slots and
`size ≤ maxSize`) and every Poly `p`, a `PushPoly` that finds room returns; and whenever
`PushPoly` returns, the size is one more, `ShowTop` returns `p`, and `TakePoly` returns
`p` and leaves the size and the polynomials of `s`, in the same order. -/
theorem stack_LIFO (mem : Nat → Bool) (s : stack_t) (p : Poly) (hv : s.valid) :
    (s.size < s.maxSize → ∃ s1, PushPoly mem s p = Except.ok s1) ∧
      (∀ s1, PushPoly mem s p = Except.ok s1 →
        StackSize s1 = StackSize s + 1 ∧ ShowTop s1 = Except.ok p ∧
        ∃ s2, TakePoly s1 = Except.ok (p, s2) ∧ StackSize s2 = StackSize s ∧
          StackPolys s2 = StackPolys s) := by
  refine ⟨fun h => ⟨_, PushPoly_of_lt mem p hv h⟩, ?_⟩
  intro s1 h1
  obtain ⟨hsz, hpolys, hv1, -⟩ := PushPoly_ok_spec mem hv h1
  obtain ⟨ht, hp2, -⟩ := TakePoly_of_snoc hv1 hpolys
  refine ⟨hsz, ShowTop_of_snoc hv1 hpolys, _, ht, ?_, hp2⟩
  unfold StackSize
  simp only
  omega

theorem stack_LIFO_witness :
    CreateStack.valid ∧
      (∀ s1, PushPoly (fun _ => true) CreateStack (Poly.coeff 7) = Except.ok s1 →
        StackSize s1 = StackSize CreateStack + 1 ∧ ShowTop s1 = Except.ok (Poly.coeff 7) ∧
        ∃ s2, TakePoly s1 = Except.ok (Poly.coeff 7, s2) ∧
          StackSize s2 = StackSize CreateStack ∧ StackPolys s2 = StackPolys CreateStack) ∧
      PushPoly (fun _ => true) CreateStack (Poly.coeff 7) = Except.ok
        { polys := [Poly.coeff 7, PolyZero, PolyZero, PolyZero], size := 1, maxSize := 4 } :=
  ⟨by decide, (stack_LIFO (fun _ => true) CreateStack (Poly.coeff 7) (by decide)).2, rfl⟩

/-- C28 as stated fails: `PushPoly` on the empty stack of capacity `0`, which is not
`SIZE_MAX`, exits when `malloc` returns `NULL`, by `CHECK_PTR` of `ResizeStack`. -/
theorem PushPoly_growth_counterexample :
    CreateStack.valid ∧ CreateStack.maxSize ≠ SIZE_MAX ∧
      PushPoly (fun _ => false) CreateStack PolyZero = Except.error Fault.exit :=
  ⟨by decide, by decide, rfl⟩

theorem PushPoly_of_lt_cap (mem : Nat → Bool) {s : stack_t} (p : Poly)
    (hl : s.polys.length = s.maxSize) (hm : s.maxSize ≤ SIZE_MAX) (h : s.size < s.maxSize) :
    PushPoly mem s p = Except.ok
      { polys := s.polys.set s.size p, size := s.size + 1, maxSize := s.maxSize } := by
  unfold PushPoly
  rw [if_neg (by omega)]
  exact PushPolyStore_ok p (by omega) (by omega)

theorem ResizeStack_maxSize {mem : Nat → Bool} {s s1 : stack_t} {newSize : Nat}
    (h : ResizeStack mem s newSize = Except.ok s1) : s1.maxSize = newSize := by
  unfold ResizeStack at h
  by_cases h1 : newSize = s.maxSize
  · rw [if_pos h1] at h
    cases h
    exact h1.symm
  · rw [if_neg h1] at h
    by_cases h2 : newSize = 0
    · rw [if_pos h2] at h
      cases h
      rfl
    · rw [if_neg h2] at h
      simp only at h
      by_cases h3 : mem (newSize * SIZEOF_POLY % SIZE_BOUND) = true
      · rw [if_pos h3] at h
        cases h
        rfl
      · rw [if_neg h3] at h
        cases h

theorem PushPoly_eq_resize (mem : Nat → Bool) {s : stack_t} (p : Poly)
    (hfull : s.maxSize ≤ s.size) (hmax : s.maxSize ≠ SIZE_MAX) :
    PushPoly mem s p =
      match ResizeStack mem s (if s.maxSize = 0 then 4
          else if s.maxSize < SIZE_MAX / 2 then 2 * s.maxSize else SIZE_MAX) with
      | Except.ok stack1 => PushPolyStore stack1 p
      | Except.error f => Except.error f := by
  unfold PushPoly MAX_SIZE
  rw [if_pos hfull, if_neg hmax, ← ChooseNewSize_eq]
  unfold DEFAULT_SIZE
  split_ifs <;> rfl

theorem PushPoly_full_cap (mem : Nat → Bool) {s : stack_t} (p : Poly)
    (hl : s.polys.length = s.maxSize) (hm : s.maxSize ≤ SIZE_MAX)
    (hsz : s.size = s.maxSize) (hmax : s.maxSize ≠ SIZE_MAX) (newCap : Nat)
    (hcap : newCap = if s.maxSize = 0 then 4
      else if s.maxSize < SIZE_MAX / 2 then 2 * s.maxSize else SIZE_MAX) :
    PushPoly mem s p =
      if mem ((newCap * SIZEOF_POLY) % SIZE_BOUND) then
        if s.size < (newCap * SIZEOF_POLY) % SIZE_BOUND / SIZEOF_POLY then
          Except.ok
            { polys := (s.polys ++ List.replicate
                ((newCap * SIZEOF_POLY) % SIZE_BOUND / SIZEOF_POLY - s.size) PolyZero).set
                s.size p,
              size := s.size + 1, maxSize := newCap }
        else Except.error Fault.outOfBounds
      else Except.error Fault.exit := by
  have hne : newCap ≠ s.maxSize := by
    rw [hcap]
    unfold SIZE_MAX at *
    split_ifs <;> omega
  have hne0 : newCap ≠ 0 := by
    rw [hcap]
    unfold SIZE_MAX
    split_ifs <;> omega
  have hge : s.maxSize ≤ newCap := by
    rw [hcap]
    unfold SIZE_MAX at *
    split_ifs <;> omega
  have hres : ResizeStack mem s newCap =
      if mem ((newCap * SIZEOF_POLY) % SIZE_BOUND) then
        Except.ok
          { polys := s.polys.take ((newCap * SIZEOF_POLY) % SIZE_BOUND / SIZEOF_POLY) ++
              List.replicate
                ((newCap * SIZEOF_POLY) % SIZE_BOUND / SIZEOF_POLY - s.polys.length) PolyZero,
            size := s.size, maxSize := newCap }
      else Except.error Fault.exit := by
    unfold ResizeStack
    rw [if_neg hne, if_neg hne0]
    simp only []
    have hmin : MinSize_t s.size newCap = s.size := by
      unfold MinSize_t
      split_ifs <;> omega
    rw [hmin]
    by_cases h0 : s.maxSize = 0
    · have hnil : s.polys = [] := List.length_eq_zero.1 (by omega)
      simp only [h0, if_true, mallocPolys, hnil, List.take_nil, List.nil_append,
        List.length_nil, Nat.sub_zero]
    · simp only [h0, if_false, reallocPolys]
  rw [PushPoly_eq_resize mem p (by omega) hmax, ← hcap, hres]
  by_cases hmem : mem ((newCap * SIZEOF_POLY) % SIZE_BOUND) = true
  · simp only [hmem, if_true]
    unfold PushPolyStore StackSize
    simp only [List.length_append, List.length_take, List.length_replicate]
    have hmod : (s.size + 1) % SIZE_BOUND = s.size + 1 :=
      Nat.mod_eq_of_lt (by unfold SIZE_MAX at *; unfold SIZE_BOUND; omega)
    by_cases hlt : s.size < (newCap * SIZEOF_POLY) % SIZE_BOUND / SIZEOF_POLY
    · rw [if_pos hlt, if_pos (by omega), hmod, List.take_of_length_le (by omega), hl, hsz]
    · rw [if_neg hlt, if_neg (by omega)]
  · simp only [hmem, Bool.false_eq_true, if_false]

/-- C28 (amended). For every stack whose array has `maxSize` slots, with `size ≤ maxSize`
and `maxSize` a value of `size_t`: `PushPoly` with `size < maxSize` returns and leaves the
capacity; on a full stack of capacity `SIZE_MAX` it exits; on another full stack it calls
`ResizeStack` with the capacity `4` if it was `0`, twice the old one if that is below
`SIZE_MAX / 2`, and `SIZE_MAX` otherwise, exits when that allocation fails, and gets
this capacity when the allocation succeeds and the byte size fits in `size_t`; whenever
it returns, the polynomials stored before are kept, in order, below the new one. -/
theorem PushPoly_growth (mem : Nat → Bool) (s : stack_t) (p : Poly)
    (hl : s.polys.length = s.maxSize) (hs : s.size ≤ s.maxSize) (hm : s.maxSize ≤ SIZE_MAX)
    (newCap : Nat)
    (hcap : newCap = if s.maxSize = 0 then 4
      else if s.maxSize < SIZE_MAX / 2 then 2 * s.maxSize else SIZE_MAX) :
    (s.size < s.maxSize → ∃ s1, PushPoly mem s p = Except.ok s1 ∧ s1.maxSize = s.maxSize) ∧
      (s.size = s.maxSize → s.maxSize = SIZE_MAX →
        PushPoly mem s p = Except.error Fault.exit) ∧
      (s.size = s.maxSize → s.maxSize ≠ SIZE_MAX →
        (PushPoly mem s p =
          match ResizeStack mem s newCap with
          | Except.ok stack1 => PushPolyStore stack1 p
          | Except.error f => Except.error f) ∧
        (∀ s1, ResizeStack mem s newCap = Except.ok s1 → s1.maxSize = newCap) ∧
        (mem ((newCap * SIZEOF_POLY) % SIZE_BOUND) = false →
          ResizeStack mem s newCap = Except.error Fault.exit ∧
          PushPoly mem s p = Except.error Fault.exit) ∧
        (mem ((newCap * SIZEOF_POLY) % SIZE_BOUND) = true →
          newCap * SIZEOF_POLY < SIZE_BOUND →
          ∃ s1, PushPoly mem s p = Except.ok s1 ∧ s1.maxSize = newCap)) ∧
      (∀ s1, PushPoly mem s p = Except.ok s1 → StackPolys s1 = StackPolys s ++ [p]) := by
  refine ⟨fun h => ⟨_, PushPoly_of_lt_cap mem p hl hm h, rfl⟩,
    fun h1 h2 => PushPoly_full_max mem p (by omega) h2, ?_, ?_⟩
  · intro hfull hmax
    have hfc := PushPoly_full_cap mem p hl hm hfull hmax newCap hcap
    have heq := PushPoly_eq_resize mem p (by omega : s.maxSize ≤ s.size) hmax
    rw [← hcap] at heq
    refine ⟨heq, fun s1 h1 => ResizeStack_maxSize h1, ?_, ?_⟩
    · intro hmem
      have hexit : PushPoly mem s p = Except.error Fault.exit := by
        rw [hfc, hmem]
        rfl
      refine ⟨?_, hexit⟩
      have hne : newCap ≠ s.maxSize := by
        rw [hcap]
        unfold SIZE_MAX at *
        split_ifs <;> omega
      have hne0 : newCap ≠ 0 := by
        rw [hcap]
        unfold SIZE_MAX
        split_ifs <;> omega
      unfold ResizeStack
      rw [if_neg hne, if_neg hne0]
      simp only [hmem, Bool.false_eq_true, if_false]
    · intro hmem hfit
      rw [hfc, hmem, if_pos rfl, Nat.mod_eq_of_lt hfit,
        Nat.mul_div_cancel _ (by decide : 0 < SIZEOF_POLY)]
      have hlt : s.size < newCap := by
        rw [hcap]
        unfold SIZE_MAX at *
        split_ifs <;> omega
      rw [if_pos hlt]
      exact ⟨_, rfl, rfl⟩
  · intro s1 h1
    by_cases hlt : s.size < s.maxSize
    · rw [PushPoly_of_lt_cap mem p hl hm hlt] at h1
      cases h1
      exact StackPolys_store p (by omega)
    · have hfull : s.size = s.maxSize := by omega
      by_cases hmax : s.maxSize = SIZE_MAX
      · rw [PushPoly_full_max mem p (by omega) hmax] at h1
        cases h1
      · rw [PushPoly_full_cap mem p hl hm hfull hmax newCap hcap] at h1
        split_ifs at h1 with h2 h3
        cases h1
        exact StackPolys_full_store p _ (by omega) (by omega)

theorem PushPoly_growth_witness :
    (exStackHuge.polys.length = exStackHuge.maxSize ∧ exStackHuge.size ≤ exStackHuge.maxSize ∧
        exStackHuge.maxSize ≤ SIZE_MAX ∧ ¬ exStackHuge.maxSize < SIZE_MAX / 2 ∧
        exStackHuge.maxSize ≠ SIZE_MAX) ∧
      (PushPoly (fun _ => false) exStackHuge (Poly.coeff 7) =
          match ResizeStack (fun _ => false) exStackHuge SIZE_MAX with
          | Except.ok stack1 => PushPolyStore stack1 (Poly.coeff 7)
          | Except.error f => Except.error f) ∧
      PushPoly (fun _ => false) exStackHuge (Poly.coeff 7) = Except.error Fault.exit ∧
      (∃ s1, PushPoly (fun _ => true) CreateStack (Poly.coeff 7) = Except.ok s1 ∧
        s1.maxSize = 4) :=
  ⟨⟨List.length_replicate _ _, le_refl _, by decide, by decide, by decide⟩,
    ((PushPoly_growth (fun _ => false) exStackHuge (Poly.coeff 7) (List.length_replicate _ _)
      (le_refl _) (by decide) SIZE_MAX (by decide)).2.2.1 rfl (by decide)).1,
    (((PushPoly_growth (fun _ => false) exStackHuge (Poly.coeff 7) (List.length_replicate _ _)
      (le_refl _) (by decide) SIZE_MAX (by decide)).2.2.1 rfl (by decide)).2.2.1 rfl).2,
    (PushPoly_growth (fun _ => true) CreateStack (Poly.coeff 7) rfl (le_refl _) (by decide)
      4 rfl).2.2.1 rfl (by decide) |>.2.2.2 rfl (by decide)⟩

theorem AdjustStack_eq (mem : Nat → Bool) {s : stack_t} (hv : s.valid) :
    AdjustStack mem s =
      if s.maxSize / 4 < s.size then Except.ok s
      else if 4 * s.size = s.maxSize then Except.ok s
      else if s.size = 0 then Except.ok { polys := [], size := 0, maxSize := 0 }
      else if mem (4 * s.size * SIZEOF_POLY) then
        Except.ok { polys := s.polys.take (4 * s.size), size := s.size, maxSize := 4 * s.size }
      else Except.error Fault.exit := by
  obtain ⟨hl, hs, hm⟩ := hv
  unfold SIZEOF_POLY SIZE_BOUND at hm
  unfold AdjustStack DEFAULT_SIZE
  by_cases h1 : s.maxSize / 4 < s.size
  · rw [if_neg (by omega), if_pos h1]
  · have hmod : (s.size * 4) % SIZE_BOUND = 4 * s.size :=
      by rw [Nat.mod_eq_of_lt (by unfold SIZE_BOUND; omega)]; omega
    rw [if_pos (by omega), if_neg h1, hmod]
    unfold ResizeStack
    by_cases h2 : 4 * s.size = s.maxSize
    · rw [if_pos h2, if_pos h2]
    · rw [if_neg h2, if_neg h2]
      by_cases h3 : s.size = 0
      · rw [if_pos (by omega), if_pos h3]
        simp [MinSize_t, h3]
      · have hb : (4 * s.size * SIZEOF_POLY) % SIZE_BOUND = 4 * s.size * SIZEOF_POLY :=
          Nat.mod_eq_of_lt (by unfold SIZEOF_POLY SIZE_BOUND; omega)
        have hmin : MinSize_t s.size (4 * s.size) = s.size := by
          unfold MinSize_t
          split_ifs <;> omega
        rw [if_neg (by omega), if_neg h3]
        simp only [hb, hmin]
        have hd : 4 * s.size * SIZEOF_POLY / SIZEOF_POLY = 4 * s.size :=
          Nat.mul_div_cancel _ (by decide)
        have hm0 : s.maxSize ≠ 0 := by omega
        simp only [hm0, if_false, reallocPolys, hd]
        have hz : 4 * s.size - s.polys.length = 0 := by omega
        rw [hz, List.replicate_zero, List.append_nil]

/-- C29 as stated fails: the stack `exStack20` holds `4` polynomials in a capacity of
`20`, so `size ≤ capacity / 5`; `AdjustStack` sets the capacity to `16`, which is more
than half of `20`. -/
theorem AdjustStack_shrink_counterexample :
    exStack20.valid ∧ exStack20.size ≤ exStack20.maxSize / 5 ∧
      AdjustStack (fun _ => true) exStack20 = Except.ok
        { polys := [Poly.coeff 1, Poly.coeff 2, Poly.coeff 3, Poly.coeff 4] ++
            List.replicate 12 PolyZero,
          size := 4, maxSize := 16 } ∧
      ¬ (16 ≤ exStack20.maxSize / 2) :=
  ⟨by decide, by decide, rfl, by decide⟩

/-- C29 (amended). For every valid stack with `size ≤ maxSize / 5`, `AdjustStack` asks
for the capacity `4 * size`: when it returns, the capacity is `4 * size`, which is at
most four fifths of the previous one, and the size and the polynomials are unchanged;
it returns when the stack is empty or the reallocation succeeds, and exits when the
reallocation fails. -/
theorem AdjustStack_shrink (mem : Nat → Bool) (s : stack_t) (hv : s.valid)
    (h : s.size ≤ s.maxSize / 5) :
    (∀ s1, AdjustStack mem s = Except.ok s1 →
        s1.maxSize = 4 * s.size ∧ 5 * s1.maxSize ≤ 4 * s.maxSize ∧ s1.size = s.size ∧
        StackPolys s1 = StackPolys s) ∧
      ((s.size = 0 ∨ mem (4 * s.size * SIZEOF_POLY) = true) →
        ∃ s1, AdjustStack mem s = Except.ok s1) ∧
      (s.size ≠ 0 → mem (4 * s.size * SIZEOF_POLY) = false →
        AdjustStack mem s = Except.error Fault.exit) := by
  have heq := AdjustStack_eq mem hv
  obtain ⟨hl, hs, hm⟩ := hv
  rw [if_neg (by omega)] at heq
  by_cases h2 : 4 * s.size = s.maxSize
  · have hz : s.size = 0 := by omega
    rw [if_pos h2] at heq
    refine ⟨?_, fun _ => ⟨_, heq⟩, fun h3 => absurd hz h3⟩
    intro s1 h1
    rw [heq] at h1
    injection h1 with h1
    subst h1
    exact ⟨by omega, by omega, rfl, rfl⟩
  · rw [if_neg h2] at heq
    by_cases h3 : s.size = 0
    · rw [if_pos h3] at heq
      refine ⟨?_, fun _ => ⟨_, heq⟩, fun h4 => absurd h3 h4⟩
      intro s1 h1
      rw [heq] at h1
      injection h1 with h1
      subst h1
      refine ⟨by simp only; omega, by simp only; omega, by simp only; omega, ?_⟩
      unfold StackPolys
      simp [h3]
    · rw [if_neg h3] at heq
      by_cases h4 : mem (4 * s.size * SIZEOF_POLY) = true
      · rw [if_pos h4] at heq
        refine ⟨?_, fun _ => ⟨_, heq⟩, fun _ h5 => by rw [h4] at h5; cases h5⟩
        intro s1 h1
        rw [heq] at h1
        injection h1 with h1
        subst h1
        refine ⟨rfl, by simp only; omega, rfl, ?_⟩
        unfold StackPolys
        simp only
        rw [List.take_take, Nat.min_eq_left (by omega)]
      · rw [if_neg h4] at heq
        refine ⟨?_, ?_, fun _ _ => heq⟩
        · intro s1 h1
          rw [heq] at h1
          cases h1
        · intro h5
          rcases h5 with h5 | h5
          · exact absurd h5 h3
          · exact absurd h5 h4

theorem AdjustStack_shrink_witness :
    exStack20.valid ∧ exStack20.size ≤ exStack20.maxSize / 5 ∧
      (∀ s1, AdjustStack (fun _ => true) exStack20 = Except.ok s1 →
        s1.maxSize = 4 * exStack20.size ∧ 5 * s1.maxSize ≤ 4 * exStack20.maxSize ∧
        s1.size = exStack20.size ∧ StackPolys s1 = StackPolys exStack20) ∧
      ∃ s1, AdjustStack (fun _ => true) exStack20 = Except.ok s1 :=
  ⟨by decide, by decide,
    (AdjustStack_shrink (fun _ => true) exStack20 (by decide) (by decide)).1,
    (AdjustStack_shrink (fun _ => true) exStack20 (by decide) (by decide)).2.1 (Or.inr rfl)⟩

/-! ## C26: the operands of `COMPOSE` -/

theorem drop_set_self {l : List Poly} {n : Nat} (p : Poly) (h : n < l.length) :
    (l.set n p).drop n = p :: l.drop (n + 1) := by
  rw [List.set_eq_take_append_cons_drop, if_pos h]
  exact List.drop_left' (by simp; omega)

theorem ExecuteComposeLoop_spec (k : Nat) : ∀ (n : Nat) (stack : stack_t)
    (polys qs rest : List Poly), n ≤ k → polys.length = k → stack.valid →
    StackPolys stack = rest ++ qs → qs.length = n →
    ExecuteComposeLoop k n stack polys = Except.ok
        ({ polys := stack.polys, size := stack.size - n, maxSize := stack.maxSize },
          qs ++ polys.drop n) ∧
      StackPolys { polys := stack.polys, size := stack.size - n, maxSize := stack.maxSize }
        = rest ∧
      stack_t.valid { polys := stack.polys, size := stack.size - n, maxSize := stack.maxSize } := by
  intro n
  induction n with
  | zero =>
    intro stack polys qs rest _ _ hv hs hq
    have hnil : qs = [] := List.length_eq_zero.1 hq
    subst hnil
    rw [List.append_nil] at hs
    exact ⟨by rw [ExecuteComposeLoop]; rfl, hs, hv⟩
  | succ n ih =>
    intro stack polys qs rest hn hl hv hs hq
    have hne : qs ≠ [] := by
      intro h0
      subst h0
      simp at hq
    obtain ⟨qs1, t, hqs⟩ : ∃ qs1 t, qs = qs1 ++ [t] :=
      ⟨qs.dropLast, qs.getLast hne, (List.dropLast_append_getLast hne).symm⟩
    subst hqs
    have hq1 : qs1.length = n := by
      simp only [List.length_append, List.length_singleton] at hq
      omega
    rw [← List.append_assoc] at hs
    obtain ⟨ht, hp1, hv1⟩ := TakePoly_of_snoc hv hs
    have hidx : k - 1 - (k - (n + 1)) = n := by omega
    rw [ExecuteComposeLoop, ht]
    simp only [hidx]
    rw [if_pos (by omega)]
    obtain ⟨h1, h2, h3⟩ := ih _ (polys.set n t) qs1 rest (by omega)
      (by rw [List.length_set]; exact hl) hv1 hp1 hq1
    simp only at h1 h2 h3
    have hsub : stack.size - 1 - n = stack.size - (n + 1) := by omega
    rw [hsub] at h1 h2 h3
    refine ⟨?_, h2, h3⟩
    rw [h1, drop_set_self t (by omega), List.append_assoc]
    rfl

theorem ExecuteCompose_spec (mem : Nat → Bool) {s : stack_t} {rest qs : List Poly} {p : Poly}
    (hv : s.valid) (hs : StackPolys s = rest ++ qs ++ [p]) :
    ExecuteCompose mem s qs.length =
      if qs.length = 0 ∨ mem (qs.length * SIZEOF_POLY) = true then
        Except.ok (InputErr.NoError,
          { polys := s.polys.set rest.length (PolyCompose p qs.length qs),
            size := rest.length + 1, maxSize := s.maxSize }, "")
      else Except.error Fault.exit := by
  have hsz := size_of_StackPolys_snoc hv hs
  rw [List.length_append] at hsz
  obtain ⟨ht, hp1, hv1⟩ := TakePoly_of_snoc hv hs
  have hle : s.size ≤ s.maxSize := hv.2.1
  have hbytes : (qs.length * SIZEOF_POLY) % SIZE_BOUND = qs.length * SIZEOF_POLY := by
    obtain ⟨-, -, hm⟩ := hv
    exact Nat.mod_eq_of_lt (by unfold SIZEOF_POLY SIZE_BOUND at *; omega)
  have hcond : (StackIsEmpty s || decide (StackSize s - 1 < qs.length)) = false := by
    unfold StackIsEmpty StackSize
    rw [hsz]
    simp
  unfold ExecuteCompose
  rw [hcond, ht]
  simp only [Bool.false_eq_true, if_false, hbytes]
  by_cases hk : qs.length = 0
  · have hnil : qs = [] := List.length_eq_zero.1 hk
    subst hnil
    simp only [List.length_nil, gt_iff_lt, lt_self_iff_false, if_false, true_or, if_true]
    simp only [List.length_nil] at hsz
    have hsize : s.size - 1 = rest.length := by omega
    rw [PushPoly_of_lt mem _ hv1 (by simp only; omega)]
    simp only [hsize]
  · have hpos : qs.length > 0 := by omega
    simp only [hpos, if_true, hk, false_or]
    by_cases hmem : mem (qs.length * SIZEOF_POLY) = true
    · simp only [hmem, if_true]
      obtain ⟨h1, h2, h3⟩ := ExecuteComposeLoop_spec qs.length qs.length _
        (mallocPolys (qs.length * SIZEOF_POLY)) qs rest (le_refl _)
        (by unfold mallocPolys; rw [List.length_replicate];
            exact Nat.mul_div_cancel _ (by decide)) hv1 hp1 rfl
      have hdrop : (mallocPolys (qs.length * SIZEOF_POLY)).drop qs.length = [] := by
        apply List.drop_eq_nil_of_le
        unfold mallocPolys
        rw [List.length_replicate, Nat.mul_div_cancel _ (by decide : 0 < SIZEOF_POLY)]
      rw [h1, hdrop, List.append_nil]
      simp only
      have hsize : s.size - 1 - qs.length = rest.length := by omega
      rw [PushPoly_of_lt mem _ h3 (by simp only; omega)]
      simp only [hsize]
    · simp only [hmem, Bool.false_eq_true, if_false]

/-- C26. The operands of `COMPOSE k`: for every valid stack whose polynomials, bottom to
top, are `rest`, `q_0, ..., q_(k-1)`, `p`, `ExecuteCompose` with `k` returns `NoError`
and leaves `rest` followed by `PolyCompose p k [q_0, ..., q_(k-1)]` when `k = 0` or the
array of the `k` polynomials can be allocated, and exits when it cannot. -/
theorem ExecuteCompose_order (mem : Nat → Bool) (s : stack_t) (rest qs : List Poly) (p : Poly)
    (hv : s.valid) (hs : StackPolys s = rest ++ qs ++ [p]) :
    ((qs.length = 0 ∨ mem (qs.length * SIZEOF_POLY) = true) →
        ∃ s1, ExecuteCompose mem s qs.length = Except.ok (InputErr.NoError, s1, "") ∧
          StackPolys s1 = rest ++ [PolyCompose p qs.length qs] ∧ s1.valid) ∧
      (¬ (qs.length = 0 ∨ mem (qs.length * SIZEOF_POLY) = true) →
        ExecuteCompose mem s qs.length = Except.error Fault.exit) := by
  have h := ExecuteCompose_spec mem hv hs
  have hsz := size_of_StackPolys_snoc hv hs
  rw [List.length_append] at hsz
  obtain ⟨hl, hle, hm⟩ := hv
  constructor
  · intro hc
    rw [if_pos hc] at h
    refine ⟨_, h, ?_, ⟨by rw [List.length_set]; exact hl, by simp only; omega, hm⟩⟩
    have h1 : rest = s.polys.take rest.length := by
      have h2 : (StackPolys s).take rest.length = rest := by
        rw [hs, List.append_assoc, List.take_left]
      unfold StackPolys at h2
      rw [List.take_take, Nat.min_eq_left (by omega)] at h2
      exact h2.symm
    unfold StackPolys
    simp only
    rw [take_set_succ _ (by omega), ← h1]
  · intro hc
    rw [if_neg hc] at h
    exact h

theorem ExecuteCompose_order_witness :
    exStackCompose.valid ∧
      ∃ s1, ExecuteCompose (fun _ => true) exStackCompose 1
          = Except.ok (InputErr.NoError, s1, "") ∧
        StackPolys s1 = [Poly.coeff 5] ++ [PolyCompose exOverflowQ 1 [exOnePlusX]] ∧
        s1.valid :=
  ⟨by decide,
    (ExecuteCompose_order (fun _ => true) exStackCompose [Poly.coeff 5] [exOnePlusX]
      exOverflowQ (by decide) rfl).1 (Or.inr rfl)⟩

/-! ## C30: stack underflow -/

theorem UnderflowSpec_of_not {r : Outcome} {s : stack_t} {n : Nat} (h1 : ¬ s.size < n)
    (h2 : returned r ≠ some InputErr.StackUnderflow) : UnderflowSpec r s n :=
  ⟨⟨fun h => absurd h h2, fun h => absurd h h1⟩, fun h => absurd h h1⟩

theorem UnderflowSpec_of_lt {s : stack_t} {n : Nat} (h1 : s.size < n) :
    UnderflowSpec (Except.ok (InputErr.StackUnderflow, s, "")) s n :=
  ⟨⟨fun _ => h1, fun _ => rfl⟩, fun _ => rfl⟩

theorem UnderflowSpec_ExecuteZero (mem : Nat → Bool) (s : stack_t) :
    UnderflowSpec (ExecuteZero mem s) s 0 := by
  apply UnderflowSpec_of_not (by omega)
  unfold ExecuteZero
  split <;> simp [returned]

theorem UnderflowSpec_ExecuteIsCoeff (s : stack_t) : UnderflowSpec (ExecuteIsCoeff s) s 1 := by
  unfold ExecuteIsCoeff StackIsEmpty
  by_cases h : s.size = 0
  · simp only [h, beq_self_eq_true, if_true]
    exact UnderflowSpec_of_lt (by omega)
  · apply UnderflowSpec_of_not (by omega)
    simp only [beq_iff_eq, h, if_false]
    split
    · split <;> simp [returned]
    · simp [returned]

theorem UnderflowSpec_ExecuteIsZero (s : stack_t) : UnderflowSpec (ExecuteIsZero s) s 1 := by
  unfold ExecuteIsZero StackIsEmpty
  by_cases h : s.size = 0
  · simp only [h, beq_self_eq_true, if_true]
    exact UnderflowSpec_of_lt (by omega)
  · apply UnderflowSpec_of_not (by omega)
    simp only [beq_iff_eq, h, if_false]
    split
    · split <;> simp [returned]
    · simp [returned]

theorem UnderflowSpec_ExecuteClone (mem : Nat → Bool) (s : stack_t) :
    UnderflowSpec (ExecuteClone mem s) s 1 := by
  unfold ExecuteClone StackIsEmpty
  by_cases h : s.size = 0
  · simp only [h, beq_self_eq_true, if_true]
    exact UnderflowSpec_of_lt (by omega)
  · apply UnderflowSpec_of_not (by omega)
    simp only [beq_iff_eq, h, if_false]
    split
    · split <;> simp [returned]
    · simp [returned]

theorem UnderflowSpec_ExecuteBinary (op : Poly → Poly → Poly) (mem : Nat → Bool)
    (s : stack_t) : UnderflowSpec (ExecuteBinary op mem s) s 2 := by
  unfold ExecuteBinary StackSize
  by_cases h : s.size < 2
  · simp only [h, if_true]
    exact UnderflowSpec_of_lt h
  · apply UnderflowSpec_of_not h
    simp only [h, if_false]
    split
    · split
      · split <;> simp [returned]
      · simp [returned]
    · simp [returned]

theorem UnderflowSpec_ExecuteNeg (mem : Nat → Bool) (s : stack_t) :
    UnderflowSpec (ExecuteNeg mem s) s 1 := by
  unfold ExecuteNeg StackIsEmpty
  by_cases h : s.size = 0
  · simp only [h, beq_self_eq_true, if_true]
    exact UnderflowSpec_of_lt (by omega)
  · apply UnderflowSpec_of_not (by omega)
    simp only [beq_iff_eq, h, if_false]
    split
    · split <;> simp [returned]
    · simp [returned]

theorem UnderflowSpec_ExecuteIsEq (mem : Nat → Bool) (s : stack_t) :
    UnderflowSpec (ExecuteIsEq mem s) s 2 := by
  unfold ExecuteIsEq StackSize
  by_cases h : s.size < 2
  · simp only [h, if_true]
    exact UnderflowSpec_of_lt h
  · apply UnderflowSpec_of_not h
    simp only [h, if_false]
    split
    · split
      · split
        · split <;> simp [returned]
        · simp [returned]
      · simp [returned]
    · simp [returned]

theorem UnderflowSpec_ExecuteDeg (s : stack_t) : UnderflowSpec (ExecuteDeg s) s 1 := by
  unfold ExecuteDeg StackIsEmpty
  by_cases h : s.size = 0
  · simp only [h, beq_self_eq_true, if_true]
    exact UnderflowSpec_of_lt (by omega)
  · apply UnderflowSpec_of_not (by omega)
    simp only [beq_iff_eq, h, if_false]
    split <;> simp [returned]

theorem UnderflowSpec_ExecuteDegBy (s : stack_t) (idx : Nat) :
    UnderflowSpec (ExecuteDegBy s idx) s 1 := by
  unfold ExecuteDegBy StackIsEmpty
  by_cases h : s.size = 0
  · simp only [h, beq_self_eq_true, if_true]
    exact UnderflowSpec_of_lt (by omega)
  · apply UnderflowSpec_of_not (by omega)
    simp only [beq_iff_eq, h, if_false]
    split <;> simp [returned]

theorem UnderflowSpec_ExecuteAt (mem : Nat → Bool) (s : stack_t) (x : Int) :
    UnderflowSpec (ExecuteAt mem s x) s 1 := by
  unfold ExecuteAt StackIsEmpty
  by_cases h : s.size = 0
  · simp only [h, beq_self_eq_true, if_true]
    exact UnderflowSpec_of_lt (by omega)
  · apply UnderflowSpec_of_not (by omega)
    simp only [beq_iff_eq, h, if_false]
    split
    · split <;> simp [returned]
    · simp [returned]

theorem UnderflowSpec_ExecutePrint (s : stack_t) : UnderflowSpec (ExecutePrint s) s 1 := by
  unfold ExecutePrint StackIsEmpty
  by_cases h : s.size = 0
  · simp only [h, beq_self_eq_true, if_true]
    exact UnderflowSpec_of_lt (by omega)
  · apply UnderflowSpec_of_not (by omega)
    simp only [beq_iff_eq, h, if_false]
    split <;> simp [returned]

theorem UnderflowSpec_ExecutePop (s : stack_t) : UnderflowSpec (ExecutePop s) s 1 := by
  unfold ExecutePop StackIsEmpty
  by_cases h : s.size = 0
  · simp only [h, beq_self_eq_true, if_true]
    exact UnderflowSpec_of_lt (by omega)
  · apply UnderflowSpec_of_not (by omega)
    simp only [beq_iff_eq, h, if_false]
    split <;> simp [returned]

theorem UnderflowSpec_ExecuteCompose (mem : Nat → Bool) (s : stack_t) (k : Nat) :
    UnderflowSpec (ExecuteCompose mem s k) s (k + 1) := by
  unfold ExecuteCompose StackIsEmpty StackSize
  by_cases h : s.size < k + 1
  · have hc : (s.size == 0 || decide (s.size - 1 < k)) = true := by
      simp only [Bool.or_eq_true, beq_iff_eq, decide_eq_true_eq]
      omega
    simp only [hc, if_true]
    exact UnderflowSpec_of_lt h
  · apply UnderflowSpec_of_not h
    have hc : (s.size == 0 || decide (s.size - 1 < k)) = false := by
      simp only [Bool.or_eq_false_iff, beq_eq_false_iff_ne, decide_eq_false_iff_not]
      omega
    simp only [hc, Bool.false_eq_true, if_false]
    split
    · split
      · split
        · split
          · split <;> simp [returned]
          · simp [returned]
        · simp [returned]
      · split <;> simp [returned]
    · simp [returned]

/-- Stack underflow at the command functions (what C30 says, for a command whose
argument has been converted): for every stack, every allocation behaviour and every
argument, each command function returns `StackUnderflow` exactly when the stack holds
fewer polynomials than the command needs (none for `ZERO`; one for `IS_COEFF`, `IS_ZERO`,
`CLONE`, `NEG`, `DEG`, `PRINT`, `POP`, `DEG_BY idx` and `AT x`; two for `ADD`, `MUL`,
`SUB` and `IS_EQ`; `k + 1` for `COMPOSE k`, compared without wrapping), and it then
leaves the stack as it was and writes nothing. The lines that hold the name of a command
without an argument are dispatched by `ExecuteCommand` to these functions, whatever
`errno` is. -/
theorem StackUnderflow_iff (mem : Nat → Bool) (s : stack_t) (idx k : Nat) (x : Int) :
    (UnderflowSpec (ExecuteZero mem s) s 0 ∧
      UnderflowSpec (ExecuteIsCoeff s) s 1 ∧
      UnderflowSpec (ExecuteIsZero s) s 1 ∧
      UnderflowSpec (ExecuteClone mem s) s 1 ∧
      UnderflowSpec (ExecuteAdd mem s) s 2 ∧
      UnderflowSpec (ExecuteMul mem s) s 2 ∧
      UnderflowSpec (ExecuteNeg mem s) s 1 ∧
      UnderflowSpec (ExecuteSub mem s) s 2 ∧
      UnderflowSpec (ExecuteIsEq mem s) s 2 ∧
      UnderflowSpec (ExecuteDeg s) s 1 ∧
      UnderflowSpec (ExecutePrint s) s 1 ∧
      UnderflowSpec (ExecutePop s) s 1 ∧
      UnderflowSpec (ExecuteDegBy s idx) s 1 ∧
      UnderflowSpec (ExecuteAt mem s x) s 1 ∧
      UnderflowSpec (ExecuteCompose mem s k) s (k + 1)) ∧
    (∀ (errno : Bool) (rest : List Char) (size : Nat),
      ExecuteCommand mem errno s (lineOf "ZERO" rest size) =
        withLine (ExecuteZero mem s) errno (lineOf "ZERO" rest size) ∧
      ExecuteCommand mem errno s (lineOf "IS_COEFF" rest size) =
        withLine (ExecuteIsCoeff s) errno (lineOf "IS_COEFF" rest size) ∧
      ExecuteCommand mem errno s (lineOf "IS_ZERO" rest size) =
        withLine (ExecuteIsZero s) errno (lineOf "IS_ZERO" rest size) ∧
      ExecuteCommand mem errno s (lineOf "CLONE" rest size) =
        withLine (ExecuteClone mem s) errno (lineOf "CLONE" rest size) ∧
      ExecuteCommand mem errno s (lineOf "ADD" rest size) =
        withLine (ExecuteAdd mem s) errno (lineOf "ADD" rest size) ∧
      ExecuteCommand mem errno s (lineOf "MUL" rest size) =
        withLine (ExecuteMul mem s) errno (lineOf "MUL" rest size) ∧
      ExecuteCommand mem errno s (lineOf "NEG" rest size) =
        withLine (ExecuteNeg mem s) errno (lineOf "NEG" rest size) ∧
      ExecuteCommand mem errno s (lineOf "SUB" rest size) =
        withLine (ExecuteSub mem s) errno (lineOf "SUB" rest size) ∧
      ExecuteCommand mem errno s (lineOf "IS_EQ" rest size) =
        withLine (ExecuteIsEq mem s) errno (lineOf "IS_EQ" rest size) ∧
      ExecuteCommand mem errno s (lineOf "DEG" rest size) =
        withLine (ExecuteDeg s) errno (lineOf "DEG" rest size) ∧
      ExecuteCommand mem errno s (lineOf "PRINT" rest size) =
        withLine (ExecutePrint s) errno (lineOf "PRINT" rest size) ∧
      ExecuteCommand mem errno s (lineOf "POP" rest size) =
        withLine (ExecutePop s) errno (lineOf "POP" rest size)) :=
  ⟨⟨UnderflowSpec_ExecuteZero mem s, UnderflowSpec_ExecuteIsCoeff s,
    UnderflowSpec_ExecuteIsZero s, UnderflowSpec_ExecuteClone mem s,
    UnderflowSpec_ExecuteBinary PolyAdd mem s, UnderflowSpec_ExecuteBinary PolyMul mem s,
    UnderflowSpec_ExecuteNeg mem s, UnderflowSpec_ExecuteBinary PolySub mem s,
    UnderflowSpec_ExecuteIsEq mem s, UnderflowSpec_ExecuteDeg s,
    UnderflowSpec_ExecutePrint s, UnderflowSpec_ExecutePop s,
    UnderflowSpec_ExecuteDegBy s idx, UnderflowSpec_ExecuteAt mem s x,
    UnderflowSpec_ExecuteCompose mem s k⟩,
   fun _ _ _ => ⟨rfl, rfl, rfl, rfl, rfl, rfl, rfl, rfl, rfl, rfl, rfl, rfl⟩⟩

/-- C30, the code at the failing input. On the empty stack the lines `AT 1`, `DEG_BY 0`
and `COMPOSE 0` return `StackUnderflow` while `errno` is clear. The line
`AT 99999999999999999999` returns `NoAtParam` and leaves `errno = ERANGE`; `RunAt`,
`RunDegBy` and `RunCompose` test `errno == ERANGE` after their conversion and nothing
clears it, so from then on the same three lines return `NoAtParam`, `NoDegByParam` and
`NoComposeParam` on the empty stack, and the command functions, which would return
`StackUnderflow`, are not called: the run `AT 99999999999999999999`, `AT 1`, `DEG_BY 0`,
`COMPOSE 0` reports no stack underflow, the run `AT 1`, `DEG_BY 0`, `COMPOSE 0` reports
three. -/
theorem underflow_stale_errno :
    (lineErr (ExecuteLine (fun _ => true) false CreateStack
        (lineOf "AT 1" (List.replicate 28 NUL) 32)) = some InputErr.StackUnderflow ∧
      lineErr (ExecuteLine (fun _ => true) false CreateStack
        (lineOf "DEG_BY 0" (List.replicate 24 NUL) 32)) = some InputErr.StackUnderflow ∧
      lineErr (ExecuteLine (fun _ => true) false CreateStack
        (lineOf "COMPOSE 0" (List.replicate 23 NUL) 32)) = some InputErr.StackUnderflow) ∧
      (lineErr (ExecuteLine (fun _ => true) false CreateStack
        (lineOf "AT 99999999999999999999" (List.replicate 9 NUL) 32)) =
          some InputErr.NoAtParam ∧
        lineErrno (ExecuteLine (fun _ => true) false CreateStack
          (lineOf "AT 99999999999999999999" (List.replicate 9 NUL) 32)) = some true) ∧
      (lineErr (ExecuteLine (fun _ => true) true CreateStack
        (lineOf "AT 1" (List.replicate 28 NUL) 32)) = some InputErr.NoAtParam ∧
      lineErr (ExecuteLine (fun _ => true) true CreateStack
        (lineOf "DEG_BY 0" (List.replicate 24 NUL) 32)) = some InputErr.NoDegByParam ∧
      lineErr (ExecuteLine (fun _ => true) true CreateStack
        (lineOf "COMPOSE 0" (List.replicate 23 NUL) 32)) = some InputErr.NoComposeParam) ∧
      errorsOf (RunCalculator (fun _ => true)
          "AT 99999999999999999999\nAT 1\nDEG_BY 0\nCOMPOSE 0\n") =
        some ("ERROR 1 AT WRONG VALUE\nERROR 2 AT WRONG VALUE\n" ++
          "ERROR 3 DEG BY WRONG VARIABLE\nERROR 4 COMPOSE WRONG PARAMETER\n") ∧
      errorsOf (RunCalculator (fun _ => true) "AT 1\nDEG_BY 0\nCOMPOSE 0\n") =
        some ("ERROR 1 STACK UNDERFLOW\nERROR 2 STACK UNDERFLOW\n" ++
          "ERROR 3 STACK UNDERFLOW\n") := by
  decide!

/-! ## C25: the scenario with `COMPOSE 1` -/

/-- C25, the claim as written fails: from an empty stack, when every allocation succeeds,
the lines `(1,1)`, `(1,0)+(1,1)`, `2`, `COMPOSE 1`, `PRINT` write `2`, not `(1,0)+(1,1)`. -/
theorem compose_scenario_counterexample :
    outputOf (RunCalculator (fun _ => true) "(1,1)\n(1,0)+(1,1)\n2\nCOMPOSE 1\nPRINT\n") =
        some "2\n" ∧
      outputOf (RunCalculator (fun _ => true) "(1,1)\n(1,0)+(1,1)\n2\nCOMPOSE 1\nPRINT\n") ≠
        some "(1,0)+(1,1)\n" := by
  decide!

/-- C25, amended: from an empty stack, when every allocation succeeds, the lines `(1,1)`,
`(1,0)+(1,1)`, `2`, `COMPOSE 1`, `PRINT` make `PRINT` write `2`: the line `2` is the
polynomial on top, which `COMPOSE 1` takes as the target, and `1 + x_0` is substituted
into it; nothing is written to the standard error, and the stack is left holding `x_0`
and `2`. -/
theorem compose_scenario :
    outputOf (RunCalculator (fun _ => true) "(1,1)\n(1,0)+(1,1)\n2\nCOMPOSE 1\nPRINT\n") =
        some "2\n" ∧
      errorsOf (RunCalculator (fun _ => true) "(1,1)\n(1,0)+(1,1)\n2\nCOMPOSE 1\nPRINT\n") =
        some "" ∧
      stackOf (RunCalculator (fun _ => true) "(1,1)\n(1,0)+(1,1)\n2\nCOMPOSE 1\nPRINT\n") =
        some ["(1,1)", "2"] := by
  decide!

/-! ## C40: the operands of `SUB` -/

theorem set_of_get? {l : List Poly} {n : Nat} {p : Poly} (h : l.get? n = some p) :
    l.set n p = l := by
  induction l generalizing n with
  | nil => rfl
  | cons x xs ih =>
    cases n with
    | zero =>
      simp only [List.get?_cons_zero, Option.some.injEq] at h
      rw [List.set_cons_zero, h]
    | succ n =>
      simp only [List.get?_cons_succ] at h
      rw [List.set_cons_succ, ih h]

theorem ExecuteBinary_spec (op : Poly → Poly → Poly) (mem : Nat → Bool) {s : stack_t}
    {rest : List Poly} {a b : Poly} (hv : s.valid) (hs : StackPolys s = rest ++ [b, a]) :
    ExecuteBinary op mem s = Except.ok (InputErr.NoError,
      { polys := s.polys.set rest.length (op a b), size := rest.length + 1,
        maxSize := s.maxSize }, "") := by
  have hs1 : StackPolys s = (rest ++ [b]) ++ [a] := by rw [hs]; simp
  have hsz := size_of_StackPolys_snoc hv hs1
  rw [List.length_append, List.length_singleton] at hsz
  obtain ⟨ht, hp1, hv1⟩ := TakePoly_of_snoc hv hs1
  obtain ⟨ht2, hp2, hv2⟩ := TakePoly_of_snoc hv1 hp1
  have hle : s.size ≤ s.maxSize := hv.2.1
  unfold ExecuteBinary StackSize
  rw [if_neg (by omega), ht]
  simp only [ht2]
  rw [PushPoly_of_lt mem _ hv2 (by simp only; omega)]
  have hsize : s.size - 1 - 1 = rest.length := by omega
  simp only [hsize]

theorem StackPolys_set_top {s : stack_t} {rest : List Poly} (p : Poly) (hv : s.valid)
    (h : rest.length < s.size) (hr : (StackPolys s).take rest.length = rest) :
    StackPolys { polys := s.polys.set rest.length p, size := rest.length + 1,
                 maxSize := s.maxSize } = rest ++ [p] ∧
      stack_t.valid { polys := s.polys.set rest.length p, size := rest.length + 1,
                      maxSize := s.maxSize } := by
  obtain ⟨hl, hle, hm⟩ := hv
  refine ⟨?_, ⟨by rw [List.length_set]; exact hl, by simp only; omega, hm⟩⟩
  unfold StackPolys at hr ⊢
  simp only
  rw [List.take_take, Nat.min_eq_left (by omega)] at hr
  rw [take_set_succ _ (by omega), hr]

/-- C40. The operands of `SUB`: for every valid stack whose polynomials, bottom to top,
are `rest`, `b`, `a`, `ExecuteSub` returns `NoError`, writes nothing, and leaves `rest`
followed by `PolySub a b`, the polynomial on top minus the one below it. -/
theorem ExecuteSub_order (mem : Nat → Bool) (s : stack_t) (rest : List Poly) (a b : Poly)
    (hv : s.valid) (hs : StackPolys s = rest ++ [b, a]) :
    ∃ s1, ExecuteSub mem s = Except.ok (InputErr.NoError, s1, "") ∧
      StackPolys s1 = rest ++ [PolySub a b] ∧ s1.valid := by
  have hs1 : StackPolys s = (rest ++ [b]) ++ [a] := by rw [hs]; simp
  have hsz := size_of_StackPolys_snoc hv hs1
  rw [List.length_append, List.length_singleton] at hsz
  refine ⟨_, ExecuteBinary_spec PolySub mem hv hs, ?_⟩
  exact StackPolys_set_top _ hv (by omega) (by rw [hs, List.take_left])

theorem ExecuteSub_order_witness :
    stack_t.valid { polys := [Poly.coeff 3, Poly.coeff 5], size := 2, maxSize := 2 } ∧
      (∃ s1, ExecuteSub (fun _ => false)
          { polys := [Poly.coeff 3, Poly.coeff 5], size := 2, maxSize := 2 } =
            Except.ok (InputErr.NoError, s1, "") ∧
        StackPolys s1 = [] ++ [PolySub (Poly.coeff 5) (Poly.coeff 3)] ∧ s1.valid) ∧
      PolySub (Poly.coeff 5) (Poly.coeff 3) = Poly.coeff 2 :=
  ⟨by decide,
    ExecuteSub_order (fun _ => false)
      { polys := [Poly.coeff 3, Poly.coeff 5], size := 2, maxSize := 2 } []
      (Poly.coeff 5) (Poly.coeff 3) (by decide) rfl,
    by rw [PolySub]; rfl⟩

/-! ## C32: the commands that only observe -/

theorem ShowTop_eq_of_snoc {s : stack_t} {l : List Poly} {p : Poly} (hv : s.valid)
    (h : StackPolys s = l ++ [p]) : StackIsEmpty s = false ∧ ShowTop s = Except.ok p := by
  have hsz := size_of_StackPolys_snoc hv h
  refine ⟨?_, ShowTop_of_snoc hv h⟩
  unfold StackIsEmpty
  rw [hsz]
  rfl

theorem ExecuteIsEq_spec (mem : Nat → Bool) {s : stack_t} {rest : List Poly} {a b : Poly}
    (hv : s.valid) (hs : StackPolys s = rest ++ [b, a]) :
    ExecuteIsEq mem s =
      Except.ok (InputErr.NoError, s, if PolyIsEq a b then "1\n" else "0\n") := by
  have hs1 : StackPolys s = (rest ++ [b]) ++ [a] := by rw [hs]; simp
  have hsz := size_of_StackPolys_snoc hv hs1
  rw [List.length_append, List.length_singleton] at hsz
  obtain ⟨ht, hp1, hv1⟩ := TakePoly_of_snoc hv hs1
  have hget := get?_of_StackPolys_snoc hv hs1
  have hle : s.size ≤ s.maxSize := hv.2.1
  unfold ExecuteIsEq StackSize
  rw [if_neg (by omega), ht]
  simp only [ShowTop_of_snoc hv1 hp1]
  rw [PushPoly_of_lt mem _ hv1 (by simp only; omega)]
  simp only [set_of_get? hget]
  have hsize : s.size - 1 + 1 = s.size := by omega
  rw [hsize]
  split_ifs <;> rfl

/-- C32. The commands that only observe leave the stack as it is: for every valid stack
`s` whose top polynomial is `a`, `ExecuteIsCoeff`, `ExecuteIsZero`, `ExecuteDeg`,
`ExecuteDegBy` with every index and `ExecutePrint` return `NoError` with the stack `s`
itself and write their answer for `a`; when the polynomial directly below `a` is `b`,
`ExecuteIsEq` returns `NoError` with the stack `s` itself and writes `1` exactly when
`PolyIsEq a b` holds, and `0` otherwise. -/
theorem observers_keep_stack (mem : Nat → Bool) (s : stack_t) (rest : List Poly) (a : Poly)
    (idx : Nat) (hv : s.valid) (hs : StackPolys s = rest ++ [a]) :
    ExecuteIsCoeff s =
        Except.ok (InputErr.NoError, s, if PolyIsCoeff a then "1\n" else "0\n") ∧
      ExecuteIsZero s =
        Except.ok (InputErr.NoError, s, if PolyIsZero a then "1\n" else "0\n") ∧
      ExecuteDeg s = Except.ok (InputErr.NoError, s, toString (PolyDeg a) ++ "\n") ∧
      ExecuteDegBy s idx =
        Except.ok (InputErr.NoError, s, toString (PolyDegBy a idx) ++ "\n") ∧
      ExecutePrint s = Except.ok (InputErr.NoError, s, PrintPoly a) ∧
      ∀ (rest1 : List Poly) (b : Poly), rest = rest1 ++ [b] →
        ExecuteIsEq mem s =
            Except.ok (InputErr.NoError, s, if PolyIsEq a b then "1\n" else "0\n") ∧
          ((PolyIsEq a b = true ↔
              ExecuteIsEq mem s = Except.ok (InputErr.NoError, s, "1\n")) ∧
            (PolyIsEq a b = false ↔
              ExecuteIsEq mem s = Except.ok (InputErr.NoError, s, "0\n"))) := by
  obtain ⟨he, ht⟩ := ShowTop_eq_of_snoc hv hs
  refine ⟨?_, ?_, ?_, ?_, ?_, ?_⟩
  · unfold ExecuteIsCoeff
    rw [he, ht]
    simp only [Bool.false_eq_true, if_false]
    split_ifs <;> rfl
  · unfold ExecuteIsZero
    rw [he, ht]
    simp only [Bool.false_eq_true, if_false]
    split_ifs <;> rfl
  · unfold ExecuteDeg
    rw [he, ht]
    rfl
  · unfold ExecuteDegBy
    rw [he, ht]
    rfl
  · unfold ExecutePrint
    rw [he, ht]
    rfl
  · intro rest1 b hr
    subst hr
    have h := ExecuteIsEq_spec mem hv (show StackPolys s = rest1 ++ [b, a] by rw [hs]; simp)
    refine ⟨h, ?_, ?_⟩
    · rw [h]
      constructor
      · intro h1
        rw [h1]
        rfl
      · intro h1
        by_contra h2
        rw [if_neg h2] at h1
        injection h1 with h1
        have h3 := congrArg (fun x => x.2.2) h1
        simp only at h3
        exact absurd h3 (by decide)
    · rw [h]
      constructor
      · intro h1
        rw [h1]
        rfl
      · intro h1
        by_contra h2
        have h4 : PolyIsEq a b = true := by
          cases hb : PolyIsEq a b
          · exact absurd hb h2
          · rfl
        rw [if_pos h4] at h1
        injection h1 with h1
        have h3 := congrArg (fun x => x.2.2) h1
        simp only at h3
        exact absurd h3 (by decide)

theorem observers_keep_stack_witness :
    exStackCompose.valid ∧
      ExecutePrint exStackCompose =
        Except.ok (InputErr.NoError, exStackCompose, PrintPoly exOverflowQ) ∧
      ExecuteIsEq (fun _ => false) exStackCompose =
        Except.ok (InputErr.NoError, exStackCompose,
          if PolyIsEq exOverflowQ exOnePlusX then "1\n" else "0\n") ∧
      PolyIsEq exOverflowQ exOnePlusX = false :=
  ⟨by decide,
    (observers_keep_stack (fun _ => false) exStackCompose [Poly.coeff 5, exOnePlusX]
      exOverflowQ 0 (by decide) rfl).2.2.2.2.1,
    ((observers_keep_stack (fun _ => false) exStackCompose [Poly.coeff 5, exOnePlusX]
      exOverflowQ 0 (by decide) rfl).2.2.2.2.2 [Poly.coeff 5] exOnePlusX rfl).1,
    by decide⟩

/-! ## C39: `AdjustStack` only changes the capacity -/

theorem AdjustStack_ok_spec (mem : Nat → Bool) {s s1 : stack_t} (hv : s.valid)
    (h : AdjustStack mem s = Except.ok s1) :
    s1.size = s.size ∧ StackPolys s1 = StackPolys s ∧ s1.valid ∧
      s1.maxSize = (if s.size ≤ s.maxSize / 4 then 4 * s.size else s.maxSize) := by
  rw [AdjustStack_eq mem hv] at h
  obtain ⟨hl, hs, hm⟩ := hv
  unfold SIZEOF_POLY SIZE_BOUND at hm
  by_cases h1 : s.maxSize / 4 < s.size
  · rw [if_pos h1] at h
    injection h with h
    subst h
    exact ⟨rfl, rfl, ⟨hl, hs, hm⟩, by rw [if_neg (by omega)]⟩
  · rw [if_neg h1] at h
    rw [if_pos (by omega)]
    by_cases h2 : 4 * s.size = s.maxSize
    · rw [if_pos h2] at h
      injection h with h
      subst h
      exact ⟨rfl, rfl, ⟨hl, hs, hm⟩, h2.symm⟩
    · rw [if_neg h2] at h
      by_cases h3 : s.size = 0
      · rw [if_pos h3] at h
        injection h with h
        subst h
        refine ⟨h3.symm, ?_, ⟨rfl, le_refl _, by decide⟩, by simp only; omega⟩
        unfold StackPolys
        simp [h3]
      · rw [if_neg h3] at h
        by_cases h4 : mem (4 * s.size * SIZEOF_POLY) = true
        · rw [if_pos h4] at h
          injection h with h
          subst h
          refine ⟨rfl, ?_, ⟨?_, by simp only; omega, ?_⟩, rfl⟩
          · unfold StackPolys
            simp only
            rw [List.take_take, Nat.min_eq_left (by omega)]
          · simp only [List.length_take]
            omega
          · unfold SIZEOF_POLY SIZE_BOUND
            simp only
            omega
        · rw [if_neg h4] at h
          cases h

theorem TakePoly_ok_valid {s s1 : stack_t} {p : Poly} (hv : s.valid)
    (h : TakePoly s = Except.ok (p, s1)) : s1.valid ∧ s1.size + 1 = s.size := by
  obtain ⟨hl, hs, hm⟩ := hv
  unfold TakePoly StackIsEmpty at h
  by_cases h0 : s.size = 0
  · simp [h0] at h
  · have hb : (s.size == 0) = false := by simpa using h0
    rw [hb] at h
    simp only [Bool.false_eq_true, if_false] at h
    split at h
    · injection h with h
      injection h with h1 h2
      subst h2
      exact ⟨⟨hl, by simp only; omega, hm⟩, by simp only; omega⟩
    · cases h

/-- C39. `AdjustStack` only changes the capacity. For every valid stack (its array has
`maxSize` slots, `size ≤ maxSize`, and the byte size of the array is a `size_t`):
when `size > maxSize / 4` the call returns the stack as it is; when `size ≤ maxSize / 4`
the product `4 * size` does not wrap, and the call returns unless a reallocation is
needed and fails, in which case it exits; whenever it returns, the size and the
polynomials are unchanged, `size ≤ maxSize` holds, and the capacity is `4 * size` in the
second case and unchanged in the first. Validity, hence `size ≤ maxSize`, holds for
`CreateStack` and is kept by `PushPoly`, `TakePoly` and `AdjustStack` when they return. -/
theorem AdjustStack_frame (mem : Nat → Bool) (s : stack_t) (hv : s.valid) :
    (s.maxSize / 4 < s.size → AdjustStack mem s = Except.ok s) ∧
      (s.size ≤ s.maxSize / 4 →
        (s.size * DEFAULT_SIZE) % SIZE_BOUND = 4 * s.size ∧
        ((4 * s.size = s.maxSize ∨ s.size = 0 ∨ mem (4 * s.size * SIZEOF_POLY) = true) →
          ∃ s1, AdjustStack mem s = Except.ok s1) ∧
        (¬ (4 * s.size = s.maxSize ∨ s.size = 0 ∨ mem (4 * s.size * SIZEOF_POLY) = true) →
          AdjustStack mem s = Except.error Fault.exit)) ∧
      (∀ s1, AdjustStack mem s = Except.ok s1 →
        s1.size = s.size ∧ StackPolys s1 = StackPolys s ∧ s1.size ≤ s1.maxSize ∧
        s1.maxSize = (if s.size ≤ s.maxSize / 4 then 4 * s.size else s.maxSize) ∧
        s1.valid) ∧
      CreateStack.valid ∧
      (∀ p s1, PushPoly mem s p = Except.ok s1 → s1.valid ∧ s1.size ≤ s1.maxSize) ∧
      (∀ p s1, TakePoly s = Except.ok (p, s1) → s1.valid ∧ s1.size ≤ s1.maxSize) := by
  have heq := AdjustStack_eq mem hv
  refine ⟨?_, ?_, ?_, by decide, ?_, ?_⟩
  · intro h
    rw [heq, if_pos h]
  · intro h
    have hm := hv.2.2
    have hs := hv.2.1
    unfold SIZEOF_POLY SIZE_BOUND at hm
    refine ⟨?_, ?_, ?_⟩
    · unfold DEFAULT_SIZE
      rw [Nat.mod_eq_of_lt (by unfold SIZE_BOUND; omega)]
      omega
    · intro hc
      rw [heq, if_neg (by omega)]
      by_cases h2 : 4 * s.size = s.maxSize
      · exact ⟨_, by rw [if_pos h2]⟩
      · by_cases h3 : s.size = 0
        · exact ⟨_, by rw [if_neg h2, if_pos h3]⟩
        · have h4 : mem (4 * s.size * SIZEOF_POLY) = true := by
            rcases hc with hc | hc | hc
            · exact absurd hc h2
            · exact absurd hc h3
            · exact hc
          exact ⟨_, by rw [if_neg h2, if_neg h3, if_pos h4]⟩
    · intro hc
      rw [heq, if_neg (by omega), if_neg (fun h2 => hc (Or.inl h2)),
        if_neg (fun h3 => hc (Or.inr (Or.inl h3))),
        if_neg (fun h4 => hc (Or.inr (Or.inr h4)))]
  · intro s1 h1
    obtain ⟨h2, h3, h4, h5⟩ := AdjustStack_ok_spec mem hv h1
    exact ⟨h2, h3, h4.2.1, h5, h4⟩
  · intro p s1 h1
    obtain ⟨-, -, h4, -⟩ := PushPoly_ok_spec mem hv h1
    exact ⟨h4, h4.2.1⟩
  · intro p s1 h1
    obtain ⟨h4, -⟩ := TakePoly_ok_valid hv h1
    exact ⟨h4, h4.2.1⟩

theorem AdjustStack_frame_witness :
    exStack20.valid ∧ exStack20.size ≤ exStack20.maxSize / 4 ∧
      (∃ s1, AdjustStack (fun _ => true) exStack20 = Except.ok s1) ∧
      (∀ s1, AdjustStack (fun _ => true) exStack20 = Except.ok s1 →
        s1.size = exStack20.size ∧ StackPolys s1 = StackPolys exStack20 ∧
        s1.size ≤ s1.maxSize ∧
        s1.maxSize = (if exStack20.size ≤ exStack20.maxSize / 4 then 4 * exStack20.size
          else exStack20.maxSize) ∧
        s1.valid) :=
  ⟨by decide, by decide,
    ((AdjustStack_frame (fun _ => true) exStack20 (by decide)).2.1 (by decide)).2.1
      (Or.inr (Or.inr rfl)),
    (AdjustStack_frame (fun _ => true) exStack20 (by decide)).2.2.1⟩

/-! ## C38: composition with the variables -/

/-- C38. Composition with the variables themselves is the identity: for every canonical
Poly `p` (holding values of `long` and `int`) in which only `x_0, ..., x_(d-1)` occur,
`PolyCompose` of `p` with the `d` polynomials `[X_0, ..., X_(d-1)]` is `p`, where `X_i`
is `VarPoly i`, the array `[(1, 1)]` wrapped `i` times as the coefficient of an
exponent-0 term. -/
theorem PolyCompose_variables (p : Poly) (d : Nat) (hp : Canonical p) (hr : InRange p)
    (hv : ∀ i, d ≤ i → (den p).degreeOf i = 0) :
    PolyCompose p d ((List.range d).map VarPoly) = p := by
  rw [← VarList_eq]
  exact AuxPolyCompose_VarList p.size p d (le_refl _) hp hr ((PolyDepth_le_iff hp hr d).2 hv)

theorem PolyCompose_variables_witness :
    Canonical exDegLiteral ∧ InRange exDegLiteral ∧
      (∀ i, 2 ≤ i → (den exDegLiteral).degreeOf i = 0) ∧
      PolyCompose exDegLiteral 2
        [Poly.sum [(Poly.coeff 1, 1)], Poly.sum [(Poly.sum [(Poly.coeff 1, 1)], 0)]] =
          exDegLiteral ∧
      PolyCompose exOverflowP 2
        [Poly.sum [(Poly.coeff 1, 1)], Poly.sum [(Poly.sum [(Poly.coeff 1, 1)], 0)]] =
          exOverflowP :=
  ⟨by decide, by decide, (PolyDepth_le_iff (by decide) (by decide) 2).1 (by decide),
    PolyCompose_variables exDegLiteral 2 (by decide) (by decide)
      ((PolyDepth_le_iff (by decide) (by decide) 2).1 (by decide)),
    PolyCompose_variables exOverflowP 2 (by decide) (by decide)
      ((PolyDepth_le_iff (by decide) (by decide) 2).1 (by decide))⟩

/-! ## C35: the character behind the name of a command with an argument -/

theorem CompareTo_mk (chars : List Char) (length size : Nat) (text : String) :
    CompareTo { chars := chars, length := length, size := size } text =
      CompareToLoop (chars.take length) text.toList := rfl

theorem DefineCommand_AT_line (c : Char) (more : List Char) (k size : Nat) :
    DefineCommand { chars := 'A' :: 'T' :: c :: more, length := k + 3, size := size } =
      Except.ok (if k = 0 ∧ c.isAlpha = true then CommandType.INVALID_COMMAND
        else CommandType.AT) := by
  unfold DefineCommand NonParamCommands
  simp only [DefineCommandLoop, CompareTo_mk, List.take_succ_cons]
  simp [CompareToLoop, String.toList, DefineParamCommand, DefineParamCommandLoop, ParamCommands,
    IsParamCommand, IsParamCommandLoop, StringLength, CharAt]
  have h2 : ¬ k + 3 < 2 := by omega
  simp only [h2, if_false]
  by_cases hk : k = 0 <;> by_cases hc : c.isAlpha = true <;> simp [hk, hc]

theorem DefineCommand_DEG_BY_line (c : Char) (more : List Char) (k size : Nat) :
    DefineCommand { chars := 'D' :: 'E' :: 'G' :: '_' :: 'B' :: 'Y' :: c :: more,
                    length := k + 7, size := size } =
      Except.ok (if k = 0 ∧ c.isAlpha = true then CommandType.INVALID_COMMAND
        else CommandType.DEG_BY) := by
  unfold DefineCommand NonParamCommands
  simp only [DefineCommandLoop, CompareTo_mk, List.take_succ_cons]
  simp [CompareToLoop, String.toList, DefineParamCommand, DefineParamCommandLoop, ParamCommands,
    IsParamCommand, IsParamCommandLoop, StringLength, CharAt]
  have h2 : ¬ k + 7 < 6 := by omega
  simp only [h2, if_false]
  by_cases hk : k = 0 <;> by_cases hc : c.isAlpha = true <;> simp [hk, hc]

theorem DefineCommand_COMPOSE_line (c : Char) (more : List Char) (k size : Nat) :
    DefineCommand { chars := 'C' :: 'O' :: 'M' :: 'P' :: 'O' :: 'S' :: 'E' :: c :: more,
                    length := k + 8, size := size } =
      Except.ok (if k = 0 ∧ c.isAlpha = true then CommandType.INVALID_COMMAND
        else CommandType.COMPOSE) := by
  unfold DefineCommand NonParamCommands
  simp only [DefineCommandLoop, CompareTo_mk, List.take_succ_cons]
  simp [CompareToLoop, String.toList, DefineParamCommand, DefineParamCommandLoop, ParamCommands,
    IsParamCommand, IsParamCommandLoop, StringLength, CharAt]
  have h2 : ¬ k + 8 < 7 := by omega
  simp only [h2, if_false]
  by_cases hk : k = 0 <;> by_cases hc : c.isAlpha = true <;> simp [hk, hc]

theorem isAlpha_not_sep {c : Char} (h : c.isAlpha = true) :
    INVALID_WHITESPACE_CHARS.contains c = false ∧ c ≠ ' ' := by
  constructor
  · have hall : ∀ x ∈ INVALID_WHITESPACE_CHARS, x.isAlpha = false := by decide
    cases hcon : INVALID_WHITESPACE_CHARS.contains c
    · rfl
    · have hm : c ∈ INVALID_WHITESPACE_CHARS := by simpa using hcon
      rw [hall c hm] at h
      cases h
  · rintro rfl
    revert h
    decide

theorem ExecuteLine_AT_line (mem : Nat → Bool) (errno : Bool) (stack : stack_t) (c : Char)
    (more : List Char) (k size : Nat) :
    ExecuteLine mem errno stack
        { chars := 'A' :: 'T' :: c :: more, length := k + 3, size := size } =
      if INVALID_WHITESPACE_CHARS.contains c then
        Except.ok { err := InputErr.NoAtParam, stack := stack, out := "", errno := errno,
                    line := { chars := 'A' :: 'T' :: c :: more, length := k + 3, size := size } }
      else if c ≠ ' ' then
        Except.ok { err := InputErr.InvalidCommandName, stack := stack, out := "",
                    errno := errno,
                    line := { chars := 'A' :: 'T' :: c :: more, length := k + 3, size := size } }
      else RunAt mem errno stack
        { chars := 'A' :: 'T' :: c :: more, length := k + 3, size := size } := by
  have hline : ExecuteLine mem errno stack
        { chars := 'A' :: 'T' :: c :: more, length := k + 3, size := size } =
      ExecuteCommand mem errno stack
        { chars := 'A' :: 'T' :: c :: more, length := k + 3, size := size } := by
    simp [ExecuteLine, StringLength, CharAt]
  rw [hline]
  unfold ExecuteCommand
  rw [DefineCommand_AT_line]
  by_cases hk : k = 0 ∧ c.isAlpha = true
  · obtain ⟨h1, h2⟩ := isAlpha_not_sep hk.2
    rw [if_pos hk, h1]
    simp only [Bool.false_eq_true, if_false, if_pos h2]
  · rw [if_neg hk]
    simp only []
    by_cases hw : INVALID_WHITESPACE_CHARS.contains c = true
    · rw [if_pos hw]
      have hm : c ∈ INVALID_WHITESPACE_CHARS := by simpa using hw
      simp [RunAt, InitialParamCommCheck, paramCommandLen, ParamCommands, StringLength, CharAt, hm]
    · rw [if_neg hw]
      have hm : c ∉ INVALID_WHITESPACE_CHARS := by simpa using hw
      by_cases hs : c ≠ ' '
      · rw [if_pos hs]
        have hs1 : ¬ c = ' ' := hs
        simp [RunAt, InitialParamCommCheck, paramCommandLen, ParamCommands, StringLength, CharAt,
          hm, hs1]
      · rw [if_neg hs]

theorem ExecuteLine_DEG_BY_line (mem : Nat → Bool) (errno : Bool) (stack : stack_t) (c : Char)
    (more : List Char) (k size : Nat) :
    ExecuteLine mem errno stack
        { chars := 'D' :: 'E' :: 'G' :: '_' :: 'B' :: 'Y' :: c :: more, length := k + 7,
          size := size } =
      if INVALID_WHITESPACE_CHARS.contains c then
        Except.ok { err := InputErr.NoDegByParam, stack := stack, out := "", errno := errno,
                    line := { chars := 'D' :: 'E' :: 'G' :: '_' :: 'B' :: 'Y' :: c :: more,
                              length := k + 7, size := size } }
      else if c ≠ ' ' then
        Except.ok { err := InputErr.InvalidCommandName, stack := stack, out := "",
                    errno := errno,
                    line := { chars := 'D' :: 'E' :: 'G' :: '_' :: 'B' :: 'Y' :: c :: more,
                              length := k + 7, size := size } }
      else RunDegBy errno stack
        { chars := 'D' :: 'E' :: 'G' :: '_' :: 'B' :: 'Y' :: c :: more, length := k + 7,
          size := size } := by
  have hline : ExecuteLine mem errno stack
        { chars := 'D' :: 'E' :: 'G' :: '_' :: 'B' :: 'Y' :: c :: more, length := k + 7,
          size := size } =
      ExecuteCommand mem errno stack
        { chars := 'D' :: 'E' :: 'G' :: '_' :: 'B' :: 'Y' :: c :: more, length := k + 7,
          size := size } := by
    simp [ExecuteLine, StringLength, CharAt]
  rw [hline]
  unfold ExecuteCommand
  rw [DefineCommand_DEG_BY_line]
  by_cases hk : k = 0 ∧ c.isAlpha = true
  · obtain ⟨h1, h2⟩ := isAlpha_not_sep hk.2
    rw [if_pos hk, h1]
    simp only [Bool.false_eq_true, if_false, if_pos h2]
  · rw [if_neg hk]
    simp only []
    by_cases hw : INVALID_WHITESPACE_CHARS.contains c = true
    · rw [if_pos hw]
      have hm : c ∈ INVALID_WHITESPACE_CHARS := by simpa using hw
      simp [RunDegBy, RunSizeParam, InitialParamCommCheck, paramCommandLen, ParamCommands,
        StringLength, CharAt, hm]
    · rw [if_neg hw]
      have hm : c ∉ INVALID_WHITESPACE_CHARS := by simpa using hw
      by_cases hs : c ≠ ' '
      · rw [if_pos hs]
        have hs1 : ¬ c = ' ' := hs
        simp [RunDegBy, RunSizeParam, InitialParamCommCheck, paramCommandLen, ParamCommands,
          StringLength, CharAt, hm, hs1]
      · rw [if_neg hs]

theorem ExecuteLine_COMPOSE_line (mem : Nat → Bool) (errno : Bool) (stack : stack_t) (c : Char)
    (more : List Char) (k size : Nat) :
    ExecuteLine mem errno stack
        { chars := 'C' :: 'O' :: 'M' :: 'P' :: 'O' :: 'S' :: 'E' :: c :: more, length := k + 8,
          size := size } =
      if INVALID_WHITESPACE_CHARS.contains c then
        Except.ok { err := InputErr.NoComposeParam, stack := stack, out := "", errno := errno,
                    line := { chars := 'C' :: 'O' :: 'M' :: 'P' :: 'O' :: 'S' :: 'E' :: c :: more,
                              length := k + 8, size := size } }
      else if c ≠ ' ' then
        Except.ok { err := InputErr.InvalidCommandName, stack := stack, out := "",
                    errno := errno,
                    line := { chars := 'C' :: 'O' :: 'M' :: 'P' :: 'O' :: 'S' :: 'E' :: c :: more,
                              length := k + 8, size := size } }
      else RunCompose mem errno stack
        { chars := 'C' :: 'O' :: 'M' :: 'P' :: 'O' :: 'S' :: 'E' :: c :: more, length := k + 8,
          size := size } := by
  have hline : ExecuteLine mem errno stack
        { chars := 'C' :: 'O' :: 'M' :: 'P' :: 'O' :: 'S' :: 'E' :: c :: more, length := k + 8,
          size := size } =
      ExecuteCommand mem errno stack
        { chars := 'C' :: 'O' :: 'M' :: 'P' :: 'O' :: 'S' :: 'E' :: c :: more, length := k + 8,
          size := size } := by
    simp [ExecuteLine, StringLength, CharAt]
  rw [hline]
  unfold ExecuteCommand
  rw [DefineCommand_COMPOSE_line]
  by_cases hk : k = 0 ∧ c.isAlpha = true
  · obtain ⟨h1, h2⟩ := isAlpha_not_sep hk.2
    rw [if_pos hk, h1]
    simp only [Bool.false_eq_true, if_false, if_pos h2]
  · rw [if_neg hk]
    simp only []
    by_cases hw : INVALID_WHITESPACE_CHARS.contains c = true
    · rw [if_pos hw]
      have hm : c ∈ INVALID_WHITESPACE_CHARS := by simpa using hw
      simp [RunCompose, RunSizeParam, InitialParamCommCheck, paramCommandLen, ParamCommands,
        StringLength, CharAt, hm]
    · rw [if_neg hw]
      have hm : c ∉ INVALID_WHITESPACE_CHARS := by simpa using hw
      by_cases hs : c ≠ ' '
      · rw [if_pos hs]
        have hs1 : ¬ c = ' ' := hs
        simp [RunCompose, RunSizeParam, InitialParamCommCheck, paramCommandLen, ParamCommands,
          StringLength, CharAt, hm, hs1]
      · rw [if_neg hs]

theorem line_shape (line : string_t) (name : List Char) (c : Char)
    (hlen : name.length < line.length) (hname : line.chars.take name.length = name)
    (hc : line.chars.get? name.length = some c) :
    line = { chars := name ++ c :: line.chars.drop (name.length + 1),
             length := (line.length - (name.length + 1)) + (name.length + 1),
             size := line.size } := by
  obtain ⟨chars, length, size⟩ := line
  simp only at hlen hname hc ⊢
  have h1 : chars = chars.take name.length ++ chars.drop name.length :=
    (List.take_append_drop _ _).symm
  have h2 : chars.drop name.length = c :: chars.drop (name.length + 1) := by
    rw [List.get?_eq_getElem?] at hc
    obtain ⟨hlt, hget⟩ := List.getElem?_eq_some_iff.1 hc
    rw [List.drop_eq_getElem_cons hlt, hget]
  rw [hname, h2] at h1
  congr 1
  omega

/-- C35. The character behind the name of a command with an argument. For every entry of
`ParamCommands` (`DEG_BY`, `AT`, `COMPOSE`) and every line that holds the name of the
entry followed by a character `c`, with anything or nothing behind it: when `c` is one
of `INVALID_WHITESPACE_CHARS` (tab, line feed, vertical tab, form feed, carriage
return), `ExecuteLine` returns the parameter error of the command (`NoDegByParam`,
`NoAtParam`, `NoComposeParam`), for which `PrintError` writes `DEG BY WRONG VARIABLE`,
`AT WRONG VALUE`, `COMPOSE WRONG PARAMETER`; when `c` is none of them and not a space,
`ExecuteLine` returns `InvalidCommandName`, for which `PrintError` writes
`WRONG COMMAND`. In both cases the stack and `errno` are left as they were. (A line
read by `ScanString` holds no line feed, see `ScanString_ok_spec`.) -/
theorem param_separator (mem : Nat → Bool) (errno : Bool) (stack : stack_t) (line : string_t)
    (c : Char) (command : CommandType × String × Nat) (hcommand : command ∈ ParamCommands)
    (hlen : command.2.2 < StringLength line)
    (hname : line.chars.take command.2.2 = command.2.1.toList)
    (hc : line.chars.get? command.2.2 = some c) :
    (c ∈ INVALID_WHITESPACE_CHARS →
        ExecuteLine mem errno stack line = Except.ok
          { err := (match command.1 with
              | CommandType.DEG_BY => InputErr.NoDegByParam
              | CommandType.AT => InputErr.NoAtParam
              | _ => InputErr.NoComposeParam),
            stack := stack, out := "", errno := errno, line := line }) ∧
      (c ∉ INVALID_WHITESPACE_CHARS → c ≠ ' ' →
        ExecuteLine mem errno stack line = Except.ok
          { err := InputErr.InvalidCommandName, stack := stack, out := "", errno := errno,
            line := line }) ∧
      (∀ n : Nat,
        PrintError InputErr.NoDegByParam n =
          "ERROR " ++ toString n ++ " DEG BY WRONG VARIABLE\n" ∧
        PrintError InputErr.NoAtParam n = "ERROR " ++ toString n ++ " AT WRONG VALUE\n" ∧
        PrintError InputErr.NoComposeParam n =
          "ERROR " ++ toString n ++ " COMPOSE WRONG PARAMETER\n" ∧
        PrintError InputErr.InvalidCommandName n =
          "ERROR " ++ toString n ++ " WRONG COMMAND\n") := by
  refine ⟨?_, ?_, fun n => ⟨rfl, rfl, rfl, rfl⟩⟩
  · intro hw
    have hw1 : INVALID_WHITESPACE_CHARS.contains c = true := by simpa using hw
    simp only [ParamCommands, List.mem_cons, List.mem_singleton, List.mem_nil_iff,
      or_false] at hcommand
    rcases hcommand with h | h | h
    all_goals subst h
    all_goals simp only [StringLength] at hlen hname hc ⊢
    · have hs := line_shape line "DEG_BY".toList c hlen hname hc
      rw [hs]
      exact (ExecuteLine_DEG_BY_line mem errno stack c _ _ _).trans (by rw [if_pos hw1]; rfl)
    · have hs := line_shape line "AT".toList c hlen hname hc
      rw [hs]
      exact (ExecuteLine_AT_line mem errno stack c _ _ _).trans (by rw [if_pos hw1]; rfl)
    · have hs := line_shape line "COMPOSE".toList c hlen hname hc
      rw [hs]
      exact (ExecuteLine_COMPOSE_line mem errno stack c _ _ _).trans (by rw [if_pos hw1]; rfl)
  · intro hw hsp
    have hw1 : ¬ INVALID_WHITESPACE_CHARS.contains c = true := by simpa using hw
    simp only [ParamCommands, List.mem_cons, List.mem_singleton, List.mem_nil_iff,
      or_false] at hcommand
    rcases hcommand with h | h | h
    all_goals subst h
    all_goals simp only [StringLength] at hlen hname hc ⊢
    · have hs := line_shape line "DEG_BY".toList c hlen hname hc
      rw [hs]
      exact (ExecuteLine_DEG_BY_line mem errno stack c _ _ _).trans
        (by rw [if_neg hw1, if_pos hsp]; rfl)
    · have hs := line_shape line "AT".toList c hlen hname hc
      rw [hs]
      exact (ExecuteLine_AT_line mem errno stack c _ _ _).trans
        (by rw [if_neg hw1, if_pos hsp]; rfl)
    · have hs := line_shape line "COMPOSE".toList c hlen hname hc
      rw [hs]
      exact (ExecuteLine_COMPOSE_line mem errno stack c _ _ _).trans
        (by rw [if_neg hw1, if_pos hsp]; rfl)

theorem param_separator_witness :
    (CommandType.AT, "AT", 2) ∈ ParamCommands ∧
      ExecuteLine (fun _ => true) false CreateStack (lineOf "AT\t1" (List.replicate 28 NUL) 32) = Except.ok
        { err := InputErr.NoAtParam, stack := CreateStack, out := "", errno := false,
          line := lineOf "AT\t1" (List.replicate 28 NUL) 32 } ∧
      ExecuteLine (fun _ => true) false CreateStack (lineOf "AT1" (List.replicate 29 NUL) 32) = Except.ok
        { err := InputErr.InvalidCommandName, stack := CreateStack, out := "", errno := false,
          line := lineOf "AT1" (List.replicate 29 NUL) 32 } :=
  ⟨by decide,
    (param_separator (fun _ => true) false CreateStack (lineOf "AT\t1" (List.replicate 28 NUL) 32) '\t'
      (CommandType.AT, "AT", 2) (by decide) (by decide) rfl rfl).1 (by decide),
    (param_separator (fun _ => true) false CreateStack (lineOf "AT1" (List.replicate 29 NUL) 32) '1'
      (CommandType.AT, "AT", 2) (by decide) (by decide) rfl rfl).2.1 (by decide) (by decide)⟩

/-! ## Lines read by `ScanString` -/

theorem take_set_succ_char {l : List Char} {n : Nat} (c : Char) (h : n < l.length) :
    (l.set n c).take (n + 1) = l.take n ++ [c] := by
  rw [List.set_eq_take_append_cons_drop, if_pos h]
  have h1 : l.take n ++ c :: l.drop (n + 1) = (l.take n ++ [c]) ++ l.drop (n + 1) := by
    simp
  rw [h1]
  exact List.take_left' (by simp; omega)

theorem AppendChar_ok_spec (mem : Nat → Bool) {s s1 : string_t} {c : Char} (hv : s.valid)
    (h : AppendChar mem s c = Except.ok s1) :
    s1.valid ∧ StringChars s1 = StringChars s ++ [c] ∧ s1.length = s.length + 1 := by
  obtain ⟨hl, hle, hmax⟩ := hv
  unfold SIZE_MAX at hmax
  unfold AppendChar at h
  by_cases hfull : s.length ≥ s.size
  · rw [if_pos hfull] at h
    by_cases hm : s.size = MAX_SIZE
    · rw [if_pos hm] at h
      cases h
    · rw [if_neg hm] at h
      have hm1 : s.size < 18446744073709551615 := by
        unfold MAX_SIZE SIZE_MAX at hm
        omega
      have key : ∀ newSize : Nat, s.size < newSize → newSize ≤ 18446744073709551615 →
          (match ResizeString mem s newSize with
            | Except.ok string1 =>
                if string1.length < string1.chars.length then
                  Except.ok { chars := string1.chars.set string1.length c,
                              length := (string1.length + 1) % SIZE_BOUND,
                              size := string1.size }
                else Except.error Fault.outOfBounds
            | Except.error f => Except.error f) = Except.ok s1 →
          s1.valid ∧ StringChars s1 = StringChars s ++ [c] ∧ s1.length = s.length + 1 := by
        intro newSize hlt hle2 h
        unfold ResizeString at h
        rw [if_neg (by omega), if_neg (by omega)] at h
        have hmod : newSize % SIZE_BOUND = newSize :=
          Nat.mod_eq_of_lt (by unfold SIZE_BOUND; omega)
        have hmin : MinSize_t s.length newSize = s.length := by
          unfold MinSize_t
          split_ifs <;> omega
        rw [hmod, hmin] at h
        by_cases hmem : mem newSize = true
        · rw [if_pos hmem] at h
          simp only at h
          have hlen : (if s.size = 0 then List.replicate newSize NUL
              else s.chars.take newSize ++ List.replicate (newSize - s.chars.length) NUL).length
                = newSize := by
            split_ifs
            · simp
            · simp only [List.length_append, List.length_take, List.length_replicate]
              omega
          have htake : (if s.size = 0 then List.replicate newSize NUL
              else s.chars.take newSize ++ List.replicate (newSize - s.chars.length) NUL).take
                s.length = s.chars.take s.length := by
            split_ifs with h0
            · have hnil : s.chars = [] := List.length_eq_zero.1 (by omega)
              have hz : s.length = 0 := by omega
              rw [hz, hnil]
              rfl
            · rw [List.take_of_length_le (by omega : s.chars.length ≤ newSize)]
              rw [List.take_append_of_le_length (by omega)]
          rw [hlen, if_pos (by omega)] at h
          injection h with h
          subst h
          have hmod2 : (s.length + 1) % SIZE_BOUND = s.length + 1 :=
            Nat.mod_eq_of_lt (by unfold SIZE_BOUND; omega)
          refine ⟨⟨?_, ?_, ?_⟩, ?_, ?_⟩
          · simp only [List.length_set]
            exact hlen
          · simp only [hmod2]
            omega
          · unfold SIZE_MAX
            simp only
            omega
          · unfold StringChars
            simp only [hmod2]
            rw [take_set_succ_char c (by rw [hlen]; omega), htake]
          · simp only [hmod2]
        · rw [if_neg hmem] at h
          cases h
      by_cases h0 : s.size = 0
      · rw [if_pos h0] at h
        exact key 32 (by omega) (by omega) h
      · rw [if_neg h0] at h
        have hc : ChooseNewSize s.size =
            if s.size < SIZE_MAX / 2 then 2 * s.size else SIZE_MAX := ChooseNewSize_eq _
        refine key (ChooseNewSize s.size) ?_ ?_ h
        · rw [hc]
          unfold SIZE_MAX
          split_ifs <;> omega
        · rw [hc]
          unfold SIZE_MAX
          split_ifs <;> omega
  · rw [if_neg hfull] at h
    simp only at h
    rw [if_pos (by omega)] at h
    injection h with h
    subst h
    have hmod2 : (s.length + 1) % SIZE_BOUND = s.length + 1 :=
      Nat.mod_eq_of_lt (by unfold SIZE_BOUND; omega)
    refine ⟨⟨?_, ?_, ?_⟩, ?_, ?_⟩
    · simp only [List.length_set]
      exact hl
    · simp only [hmod2]
      omega
    · unfold SIZE_MAX
      simp only
      omega
    · unfold StringChars
      simp only [hmod2]
      rw [take_set_succ_char c (by omega)]
    · simp only [hmod2]

theorem ScanString_ok_spec (mem : Nat → Bool) : ∀ (input : List Char) (s s1 : string_t)
    (t : LineType) (rest : List Char), s.valid →
    ScanString mem input s = Except.ok (t, s1, rest) →
    s1.valid ∧ ∃ pre, StringChars s1 = StringChars s ++ pre ∧
      (∀ x ∈ pre, x ≠ Char.ofNat 10 ∧ x ≠ Char.ofNat 255) ∧
      ((t = LineType.EndOfLine ∧ input = pre ++ Char.ofNat 10 :: rest) ∨
        (t = LineType.EndOfFile ∧ (input = pre ++ Char.ofNat 255 :: rest ∨
          (input = pre ∧ rest = [])))) := by
  intro input
  induction input with
  | nil =>
    intro s s1 t rest hv h
    rw [ScanString] at h
    injection h with h
    injection h with h1 h2
    injection h2 with h2 h3
    subst h1 h2 h3
    exact ⟨hv, [], by simp, by simp, Or.inr ⟨rfl, Or.inr ⟨rfl, rfl⟩⟩⟩
  | cons x xs ih =>
    intro s s1 t rest hv h
    rw [ScanString] at h
    by_cases h1 : x = Char.ofNat 10
    · rw [if_pos h1] at h
      injection h with h
      injection h with h2 h3
      injection h3 with h3 h4
      subst h1 h2 h3 h4
      exact ⟨hv, [], by simp, by simp, Or.inl ⟨rfl, rfl⟩⟩
    · rw [if_neg h1] at h
      by_cases h2 : x = Char.ofNat 255
      · rw [if_pos h2] at h
        injection h with h
        injection h with h3 h4
        injection h4 with h4 h5
        subst h2 h3 h4 h5
        exact ⟨hv, [], by simp, by simp, Or.inr ⟨rfl, Or.inl rfl⟩⟩
      · rw [if_neg h2] at h
        cases ha : AppendChar mem s x with
        | error f =>
          rw [ha] at h
          cases h
        | ok s2 =>
          rw [ha] at h
          simp only at h
          obtain ⟨hv2, hc2, -⟩ := AppendChar_ok_spec mem hv ha
          obtain ⟨hv1, pre, hpre, hall, hin⟩ := ih s2 s1 t rest hv2 h
          refine ⟨hv1, x :: pre, ?_, ?_, ?_⟩
          · rw [hpre, hc2, List.append_assoc]
            rfl
          · intro y hy
            rcases List.mem_cons.1 hy with hy | hy
            · subst hy
              exact ⟨h1, h2⟩
            · exact hall y hy
          · rcases hin with ⟨ht, hi⟩ | ⟨ht, hi | ⟨hi, hr⟩⟩
            · exact Or.inl ⟨ht, by rw [hi]; rfl⟩
            · exact Or.inr ⟨ht, Or.inl (by rw [hi]; rfl)⟩
            · exact Or.inr ⟨ht, Or.inr ⟨by rw [hi], hr⟩⟩

/-! ## C37: `errno` is never cleared -/

theorem strtol_errno {nptr : CStr} {v : Int} {p : CStr} {e : Bool}
    (h : strtol nptr true = Except.ok (v, p, e)) : e = true := by
  unfold strtol at h
  split at h
  · cases h
  · split at h
    · cases h
    · split at h
      · split at h
        · cases h
        · simp only at h
          split_ifs at h
          all_goals injection h with h
          all_goals injection h with _ h
          all_goals injection h with _ h
          all_goals exact h.symm
      · injection h with h
        injection h with _ h
        injection h with _ h
        exact h.symm

theorem strtoul_errno {nptr : CStr} {v : Nat} {p : CStr} {e : Bool}
    (h : strtoul nptr true = Except.ok (v, p, e)) : e = true := by
  unfold strtoul at h
  split at h
  · cases h
  · split at h
    · cases h
    · split at h
      · split at h
        · cases h
        · split_ifs at h
          all_goals injection h with h
          all_goals injection h with _ h
          all_goals injection h with _ h
          all_goals exact h.symm
      · injection h with h
        injection h with _ h
        injection h with _ h
        exact h.symm

theorem ConvertToPolyCoeffT_errno {number : CStr} {e : InputErr} {p : CStr} {en : Bool}
    {q : Poly} (h : ConvertToPolyCoeffT number true = Except.ok (e, p, en, q)) :
    e = InputErr.ParsingErr ∧ en = true := by
  unfold ConvertToPolyCoeffT at h
  cases hs : strtol number true with
  | error f =>
    rw [hs] at h
    cases h
  | ok r =>
    obtain ⟨v, ptr, e1⟩ := r
    have h1 := strtol_errno hs
    subst h1
    rw [hs] at h
    simp only [Bool.true_or, if_true] at h
    injection h with h
    injection h with h2 h
    injection h with _ h
    injection h with h3 _
    exact ⟨h2.symm, h3.symm⟩

theorem strtoi_errno {num : CStr} {v : Int} {p : CStr} {e : Bool}
    (h : strtoi num true = Except.ok (v, p, e)) : e = true := by
  unfold strtoi at h
  cases hs : strtol num true with
  | error f =>
    rw [hs] at h
    cases h
  | ok r =>
    obtain ⟨v1, ptr, e1⟩ := r
    have h1 := strtol_errno hs
    subst h1
    rw [hs] at h
    simp only at h
    split_ifs at h
    all_goals injection h with h
    all_goals injection h with _ h
    all_goals injection h with _ h
    all_goals exact h.symm

theorem ConvertToPolyExpT_errno {exp : CStr} {e : InputErr} {p : CStr} {en : Bool}
    {v : Int} (h : ConvertToPolyExpT exp true = Except.ok (e, p, en, v)) :
    e = InputErr.ParsingErr ∧ en = true := by
  unfold ConvertToPolyExpT at h
  cases hs : strtoi exp true with
  | error f =>
    rw [hs] at h
    cases h
  | ok r =>
    obtain ⟨v1, ptr, e1⟩ := r
    have h1 := strtoi_errno hs
    subst h1
    rw [hs] at h
    simp only [Bool.true_or, if_true] at h
    injection h with h
    injection h with h2 h
    injection h with _ h
    injection h with h3 _
    exact ⟨h2.symm, h3.symm⟩

theorem GetExpInMono_errno {ptr : CStr} {e : InputErr} {p : CStr} {en : Bool} {v : Int}
    (h : GetExpInMono ptr true = Except.ok (e, p, en, v)) :
    e = InputErr.ParsingErr ∧ en = true := by
  unfold GetExpInMono at h
  split at h
  · cases h
  · split_ifs at h
    · injection h with h
      injection h with h2 h
      injection h with _ h
      injection h with h3 _
      exact ⟨h2.symm, h3.symm⟩
    · split at h
      · cases h
      · rename_i heq
        have := (ConvertToPolyExpT_errno heq).1
        cases this
      · rename_i heq
        have h5 := (ConvertToPolyExpT_errno heq).2
        injection h with h
        injection h with h2 h
        injection h with _ h
        injection h with h3 _
        exact ⟨h2.symm, by rw [← h3]; exact h5⟩

theorem GetPoly_errno : ∀ fuel : Nat,
    (∀ input rc e p en q, GetPoly fuel input true rc = Except.ok (e, p, en, q) →
      e = InputErr.ParsingErr ∧ en = true) ∧
    (∀ input rc vector e p en q,
      GetPolyLoop fuel input true rc vector = Except.ok (e, p, en, q) →
      e = InputErr.ParsingErr ∧ en = true) ∧
    (∀ input vector e p en v, GetMono fuel input true vector = Except.ok (e, p, en, v) →
      e = InputErr.ParsingErr ∧ en = true) ∧
    (∀ input e p en q, GetPolyInMono fuel input true = Except.ok (e, p, en, q) →
      e = InputErr.ParsingErr ∧ en = true) := by
  intro fuel
  induction fuel with
  | zero =>
    refine ⟨?_, ?_, ?_, ?_⟩
    · intro input rc e p en q h
      rw [GetPoly] at h
      cases h
    · intro input rc vector e p en q h
      rw [GetPolyLoop] at h
      cases h
    · intro input vector e p en v h
      rw [GetMono] at h
      cases h
    · intro input e p en q h
      rw [GetPolyInMono] at h
      cases h
  | succ fuel ih =>
    obtain ⟨ih1, ih2, ih3, ih4⟩ := ih
    refine ⟨?_, ?_, ?_, ?_⟩
    · intro input rc e p en q h
      rw [GetPoly] at h
      exact ih2 _ _ _ _ _ _ _ h
    · intro input rc vector e p en q h
      rw [GetPolyLoop] at h
      split at h
      · cases h
      · rename_i heq
        have := (ih3 _ _ _ _ _ _ heq).1
        cases this
      · rename_i heq
        have h5 := (ih3 _ _ _ _ _ _ heq).2
        injection h with h
        injection h with h2 h
        injection h with _ h
        injection h with h3 _
        exact ⟨h2.symm, by rw [← h3]; exact h5⟩
    · intro input vector e p en v h
      cases input with
      | nil =>
        rw [GetMono] at h
        cases h
      | cons c ptr1 =>
        rw [GetMono] at h
        split_ifs at h
        · injection h with h
          injection h with h2 h
          injection h with _ h
          injection h with h3 _
          exact ⟨h2.symm, h3.symm⟩
        · split at h
          · cases h
          · rename_i heq
            have := (ih4 _ _ _ _ _ heq).1
            cases this
          · rename_i heq
            have h5 := (ih4 _ _ _ _ _ heq).2
            injection h with h
            injection h with h2 h
            injection h with _ h
            injection h with h3 _
            exact ⟨h2.symm, by rw [← h3]; exact h5⟩
    · intro input e p en q h
      cases input with
      | nil =>
        rw [GetPolyInMono] at h
        cases h
      | cons c rest =>
        rw [GetPolyInMono] at h
        split_ifs at h
        · split at h
          · cases h
          · rename_i heq
            have := (ih1 _ _ _ _ _ _ heq).1
            cases this
          · rename_i heq
            have h5 := (ih1 _ _ _ _ _ _ heq).2
            injection h with h
            injection h with h2 h
            injection h with _ h
            injection h with h3 _
            exact ⟨h2.symm, by rw [← h3]; exact h5⟩
        · split at h
          · cases h
          · rename_i heq
            have := (ConvertToPolyCoeffT_errno heq).1
            cases this
          · rename_i heq
            have h5 := (ConvertToPolyCoeffT_errno heq).2
            injection h with h
            injection h with h2 h
            injection h with _ h
            injection h with h3 _
            exact ⟨h2.symm, by rw [← h3]; exact h5⟩
        · injection h with h
          injection h with h2 h
          injection h with _ h
          injection h with h3 _
          exact ⟨h2.symm, h3.symm⟩

theorem ExecutePoly_errno {mem : Nat → Bool} {stack : stack_t} {line : string_t}
    {r : LineResult} (h : ExecutePoly mem true stack line = Except.ok r) :
    r.err = InputErr.ParsingErr ∧ r.errno = true ∧ r.stack = stack ∧ r.out = "" := by
  unfold ExecutePoly at h
  split at h
  · cases h
  · split at h
    · cases h
    · split_ifs at h
      · split at h
        · cases h
        · cases h
        · rename_i heq
          have h1 := strtol_errno heq
          subst h1
          simp only [Bool.true_or, if_true] at h
          injection h with h
          subst h
          exact ⟨rfl, rfl, rfl, rfl⟩
      · unfold ParsePoly at h
        split at h
        · cases h
        · rename_i heq
          split at heq
          · cases heq
          · rename_i heq2
            have := ((GetPoly_errno _).1 _ _ _ _ _ _ heq2).1
            cases this
          · rename_i heq2
            have h5 := ((GetPoly_errno _).1 _ _ _ _ _ _ heq2).2
            injection heq with heq
            injection heq with h1 heq
            injection heq with h2 heq
            injection heq with h3 h4
            subst h1 h2 h3 h4
            subst h5
            unfold ExecutePolyEnd at h
            rw [if_neg (by simp)] at h
            injection h with h
            subst h
            exact ⟨rfl, rfl, rfl, rfl⟩

theorem RunAt_errno {mem : Nat → Bool} {stack : stack_t} {line : string_t} {r : LineResult}
    (h : RunAt mem true stack line = Except.ok r) :
    (r.err = InputErr.InvalidCommandName ∨ r.err = InputErr.NoAtParam) ∧ r.errno = true ∧
      r.stack = stack ∧ r.out = "" := by
  unfold RunAt at h
  split at h
  · cases h
  · injection h with h
    subst h
    exact ⟨Or.inr rfl, rfl, rfl, rfl⟩
  · injection h with h
    subst h
    exact ⟨Or.inl rfl, rfl, rfl, rfl⟩
  · split at h
    · cases h
    · split_ifs at h
      · injection h with h
        subst h
        exact ⟨Or.inr rfl, rfl, rfl, rfl⟩
      · split at h
        · cases h
        · cases h
        · rename_i heq
          have h1 := strtol_errno heq
          subst h1
          simp only [Bool.true_or, if_true] at h
          injection h with h
          subst h
          exact ⟨Or.inr rfl, rfl, rfl, rfl⟩
  · cases h

theorem RunSizeParam_errno {commType : CommandType} {paramErr : InputErr}
    {execute : stack_t → Nat → Outcome} {stack : stack_t} {line : string_t} {r : LineResult}
    (h : RunSizeParam commType paramErr execute true stack line = Except.ok r) :
    (r.err = InputErr.InvalidCommandName ∨ r.err = paramErr) ∧ r.errno = true ∧
      r.stack = stack ∧ r.out = "" := by
  unfold RunSizeParam at h
  split at h
  · cases h
  · injection h with h
    subst h
    exact ⟨Or.inr rfl, rfl, rfl, rfl⟩
  · injection h with h
    subst h
    exact ⟨Or.inl rfl, rfl, rfl, rfl⟩
  · split at h
    · cases h
    · split_ifs at h
      · injection h with h
        subst h
        exact ⟨Or.inr rfl, rfl, rfl, rfl⟩
      · split at h
        · cases h
        · cases h
        · rename_i heq
          have h1 := strtoul_errno heq
          subst h1
          simp only [Bool.true_or, if_true] at h
          injection h with h
          subst h
          exact ⟨Or.inr rfl, rfl, rfl, rfl⟩
  · cases h

theorem withLine_ok {o : Outcome} {errno : Bool} {line : string_t} {r : LineResult}
    (h : withLine o errno line = Except.ok r) :
    o = Except.ok (r.err, r.stack, r.out) ∧ r.errno = errno ∧ r.line = line := by
  unfold withLine at h
  split at h
  · injection h with h
    subst h
    exact ⟨rfl, rfl, rfl⟩
  · cases h

theorem ExecuteCommand_errno_kept {mem : Nat → Bool} {errno : Bool} {stack : stack_t}
    {line : string_t} {r : LineResult} {t : CommandType}
    (ht : DefineCommand line = Except.ok t)
    (hn : t ≠ CommandType.DEG_BY ∧ t ≠ CommandType.AT ∧ t ≠ CommandType.COMPOSE)
    (h : ExecuteCommand mem errno stack line = Except.ok r) : r.errno = errno := by
  unfold ExecuteCommand at h
  rw [ht] at h
  cases t
  all_goals simp only at h
  all_goals first
    | exact (withLine_ok h).2.1
    | (injection h with h; subst h; rfl)
    | exact absurd rfl hn.1
    | exact absurd rfl hn.2.1
    | exact absurd rfl hn.2.2

/-- C37. The flag `errno`, once `ERANGE`, is never cleared. For every stack and every
line executed while `errno` is `ERANGE`, when `ExecuteLine` returns: `errno` is still
`ERANGE`; a line that is read as a polynomial returns `ParsingErr` (`WRONG POLY`); a
line that `DefineCommand` reads as `DEG_BY`, `AT` or `COMPOSE` returns the parameter
error of the command or `InvalidCommandName`, and the command is not carried out; in
all these cases the stack is left as it was and nothing is written. The flag is set by
a conversion that overflows: on the stack holding `5`, the line
`AT 99999999999999999999` returns `NoAtParam` and leaves `errno = ERANGE`; after it the
lines `AT 1` and `5`, accepted while `errno` is clear, return `NoAtParam` and
`ParsingErr`; so the run `AT 99999999999999999999`, `AT 1`, `5` reports three errors,
and the run `5`, `AT 1` none. -/
theorem errno_never_cleared (mem : Nat → Bool) (stack : stack_t) (line : string_t)
    (r : LineResult) (h : ExecuteLine mem true stack line = Except.ok r) :
    r.errno = true ∧
      (∀ c0, CharAt line 0 = Except.ok c0 → c0 ≠ '#' → c0.isAlpha = false →
        r.err = InputErr.ParsingErr ∧ r.stack = stack ∧ r.out = "") ∧
      (∀ c0, CharAt line 0 = Except.ok c0 → c0 ≠ '#' → c0.isAlpha = true →
        (DefineCommand line = Except.ok CommandType.DEG_BY →
          (r.err = InputErr.InvalidCommandName ∨ r.err = InputErr.NoDegByParam) ∧
            r.stack = stack ∧ r.out = "") ∧
        (DefineCommand line = Except.ok CommandType.AT →
          (r.err = InputErr.InvalidCommandName ∨ r.err = InputErr.NoAtParam) ∧
            r.stack = stack ∧ r.out = "") ∧
        (DefineCommand line = Except.ok CommandType.COMPOSE →
          (r.err = InputErr.InvalidCommandName ∨ r.err = InputErr.NoComposeParam) ∧
            r.stack = stack ∧ r.out = "")) ∧
      (lineErr (ExecuteLine (fun _ => true) false exStackFive
          (lineOf "AT 99999999999999999999" (List.replicate 9 NUL) 32)) =
            some InputErr.NoAtParam ∧
        lineErrno (ExecuteLine (fun _ => true) false exStackFive
          (lineOf "AT 99999999999999999999" (List.replicate 9 NUL) 32)) = some true ∧
        lineErr (ExecuteLine (fun _ => true) false exStackFive
          (lineOf "AT 1" (List.replicate 28 NUL) 32)) = some InputErr.NoError ∧
        lineErr (ExecuteLine (fun _ => true) true exStackFive
          (lineOf "AT 1" (List.replicate 28 NUL) 32)) = some InputErr.NoAtParam ∧
        lineErr (ExecuteLine (fun _ => true) false exStackFive
          (lineOf "5" (List.replicate 31 NUL) 32)) = some InputErr.NoError ∧
        lineErr (ExecuteLine (fun _ => true) true exStackFive
          (lineOf "5" (List.replicate 31 NUL) 32)) = some InputErr.ParsingErr ∧
        errorsOf (RunCalculator (fun _ => true) "AT 99999999999999999999\nAT 1\n5\n") =
          some "ERROR 1 AT WRONG VALUE\nERROR 2 AT WRONG VALUE\nERROR 3 WRONG POLY\n" ∧
        errorsOf (RunCalculator (fun _ => true) "5\nAT 1\n") = some "") := by
  refine ⟨?_, ?_, ?_, by decide!⟩
  · unfold ExecuteLine at h
    split_ifs at h
    · injection h with h
      subst h
      rfl
    · split at h
      · cases h
      · split_ifs at h
        · injection h with h
          subst h
          rfl
        · cases ht : DefineCommand line with
          | error f =>
            unfold ExecuteCommand at h
            rw [ht] at h
            cases h
          | ok t =>
            by_cases hn : t ≠ CommandType.DEG_BY ∧ t ≠ CommandType.AT ∧ t ≠ CommandType.COMPOSE
            · exact ExecuteCommand_errno_kept ht hn h
            · unfold ExecuteCommand at h
              rw [ht] at h
              cases t
              all_goals first
                | exact absurd ⟨by decide, by decide, by decide⟩ hn
                | exact (RunSizeParam_errno h).2.1
                | exact (RunAt_errno h).2.1
        · exact (ExecutePoly_errno h).2.1
  · intro c0 hc0 h1 h2
    unfold ExecuteLine at h
    have hlen : ¬ StringLength line = 0 := by
      unfold CharAt at hc0
      unfold StringLength
      split_ifs at hc0 with h3
      omega
    rw [if_neg hlen, hc0] at h
    simp only [h1, h2, if_false, Bool.false_eq_true] at h
    obtain ⟨h3, -, h4, h5⟩ := ExecutePoly_errno h
    exact ⟨h3, h4, h5⟩
  · intro c0 hc0 h1 h2
    unfold ExecuteLine at h
    have hlen : ¬ StringLength line = 0 := by
      unfold CharAt at hc0
      unfold StringLength
      split_ifs at hc0 with h3
      omega
    rw [if_neg hlen, hc0] at h
    simp only [h1, h2, if_false, if_true] at h
    unfold ExecuteCommand at h
    refine ⟨?_, ?_, ?_⟩
    · intro ht
      rw [ht] at h
      obtain ⟨h3, -, h4, h5⟩ := RunSizeParam_errno h
      exact ⟨h3, h4, h5⟩
    · intro ht
      rw [ht] at h
      obtain ⟨h3, -, h4, h5⟩ := RunAt_errno h
      exact ⟨h3, h4, h5⟩
    · intro ht
      rw [ht] at h
      obtain ⟨h3, -, h4, h5⟩ := RunSizeParam_errno h
      exact ⟨h3, h4, h5⟩

theorem errno_never_cleared_witness :
    ExecuteLine (fun _ => true) true exStackFive (lineOf "AT 1" (List.replicate 28 NUL) 32) =
        Except.ok { err := InputErr.NoAtParam, stack := exStackFive, out := "", errno := true,
                    line := lineOf "AT 1" (List.replicate 28 NUL) 32 } ∧
      LineResult.errno { err := InputErr.NoAtParam, stack := exStackFive, out := "",
                         errno := true,
                         line := lineOf "AT 1" (List.replicate 28 NUL) 32 } = true :=
  ⟨rfl,
    (errno_never_cleared (fun _ => true) exStackFive
      (lineOf "AT 1" (List.replicate 28 NUL) 32) _ rfl).1⟩

/-! ## C31: errors leave the stack as it was -/

theorem KeepsOnError_ExecuteZero (mem : Nat → Bool) (s : stack_t) :
    KeepsOnError (ExecuteZero mem s) s := by
  intro e s1 out h hne
  unfold ExecuteZero at h
  repeat' split at h
  all_goals cases h
  all_goals first
    | exact absurd rfl hne
    | exact ⟨rfl, rfl⟩

theorem KeepsOnError_ExecuteIsCoeff (s : stack_t) : KeepsOnError (ExecuteIsCoeff s) s := by
  intro e s1 out h hne
  unfold ExecuteIsCoeff at h
  repeat' split at h
  all_goals cases h
  all_goals first
    | exact absurd rfl hne
    | exact ⟨rfl, rfl⟩

theorem KeepsOnError_ExecuteIsZero (s : stack_t) : KeepsOnError (ExecuteIsZero s) s := by
  intro e s1 out h hne
  unfold ExecuteIsZero at h
  repeat' split at h
  all_goals cases h
  all_goals first
    | exact absurd rfl hne
    | exact ⟨rfl, rfl⟩

theorem KeepsOnError_ExecuteClone (mem : Nat → Bool) (s : stack_t) :
    KeepsOnError (ExecuteClone mem s) s := by
  intro e s1 out h hne
  unfold ExecuteClone at h
  repeat' split at h
  all_goals cases h
  all_goals first
    | exact absurd rfl hne
    | exact ⟨rfl, rfl⟩

theorem KeepsOnError_ExecuteBinary (op : Poly → Poly → Poly) (mem : Nat → Bool)
    (s : stack_t) : KeepsOnError (ExecuteBinary op mem s) s := by
  intro e s1 out h hne
  unfold ExecuteBinary at h
  repeat' split at h
  all_goals cases h
  all_goals first
    | exact absurd rfl hne
    | exact ⟨rfl, rfl⟩

theorem KeepsOnError_ExecuteNeg (mem : Nat → Bool) (s : stack_t) :
    KeepsOnError (ExecuteNeg mem s) s := by
  intro e s1 out h hne
  unfold ExecuteNeg at h
  repeat' split at h
  all_goals cases h
  all_goals first
    | exact absurd rfl hne
    | exact ⟨rfl, rfl⟩

theorem KeepsOnError_ExecuteIsEq (mem : Nat → Bool) (s : stack_t) :
    KeepsOnError (ExecuteIsEq mem s) s := by
  intro e s1 out h hne
  unfold ExecuteIsEq at h
  repeat' split at h
  all_goals cases h
  all_goals first
    | exact absurd rfl hne
    | exact ⟨rfl, rfl⟩

theorem KeepsOnError_ExecuteDeg (s : stack_t) : KeepsOnError (ExecuteDeg s) s := by
  intro e s1 out h hne
  unfold ExecuteDeg at h
  repeat' split at h
  all_goals cases h
  all_goals first
    | exact absurd rfl hne
    | exact ⟨rfl, rfl⟩

theorem KeepsOnError_ExecuteDegBy (s : stack_t) (idx : Nat) :
    KeepsOnError (ExecuteDegBy s idx) s := by
  intro e s1 out h hne
  unfold ExecuteDegBy at h
  repeat' split at h
  all_goals cases h
  all_goals first
    | exact absurd rfl hne
    | exact ⟨rfl, rfl⟩

theorem KeepsOnError_ExecuteAt (mem : Nat → Bool) (s : stack_t) (x : Int) :
    KeepsOnError (ExecuteAt mem s x) s := by
  intro e s1 out h hne
  unfold ExecuteAt at h
  repeat' split at h
  all_goals cases h
  all_goals first
    | exact absurd rfl hne
    | exact ⟨rfl, rfl⟩

theorem KeepsOnError_ExecutePrint (s : stack_t) : KeepsOnError (ExecutePrint s) s := by
  intro e s1 out h hne
  unfold ExecutePrint at h
  repeat' split at h
  all_goals cases h
  all_goals first
    | exact absurd rfl hne
    | exact ⟨rfl, rfl⟩

theorem KeepsOnError_ExecutePop (s : stack_t) : KeepsOnError (ExecutePop s) s := by
  intro e s1 out h hne
  unfold ExecutePop at h
  repeat' split at h
  all_goals cases h
  all_goals first
    | exact absurd rfl hne
    | exact ⟨rfl, rfl⟩

theorem KeepsOnError_ExecuteCompose (mem : Nat → Bool) (s : stack_t) (k : Nat) :
    KeepsOnError (ExecuteCompose mem s k) s := by
  intro e s1 out h hne
  unfold ExecuteCompose at h
  repeat' split at h
  all_goals cases h
  all_goals first
    | exact absurd rfl hne
    | exact ⟨rfl, rfl⟩

theorem withLine_keeps {o : Outcome} {s : stack_t} {errno : Bool} {line : string_t}
    {r : LineResult} (hk : KeepsOnError o s) (h : withLine o errno line = Except.ok r)
    (hne : r.err ≠ InputErr.NoError) : r.stack = s ∧ r.out = "" :=
  hk _ _ _ (withLine_ok h).1 hne

theorem RunAt_keeps {mem : Nat → Bool} {errno : Bool} {stack : stack_t} {line : string_t}
    {r : LineResult} (h : RunAt mem errno stack line = Except.ok r)
    (hne : r.err ≠ InputErr.NoError) : r.stack = stack ∧ r.out = "" := by
  unfold RunAt at h
  repeat' split at h
  all_goals first
    | exact withLine_keeps (KeepsOnError_ExecuteAt _ _ _) h hne
    | cases h
  all_goals exact ⟨rfl, rfl⟩

theorem RunSizeParam_keeps {commType : CommandType} {paramErr : InputErr}
    {execute : stack_t → Nat → Outcome} {errno : Bool} {stack : stack_t} {line : string_t}
    {r : LineResult} (hk : ∀ n, KeepsOnError (execute stack n) stack)
    (h : RunSizeParam commType paramErr execute errno stack line = Except.ok r)
    (hne : r.err ≠ InputErr.NoError) : r.stack = stack ∧ r.out = "" := by
  unfold RunSizeParam at h
  repeat' split at h
  all_goals first
    | exact withLine_keeps (hk _) h hne
    | cases h
  all_goals exact ⟨rfl, rfl⟩

theorem ExecuteCommand_keeps {mem : Nat → Bool} {errno : Bool} {stack : stack_t}
    {line : string_t} {r : LineResult} (h : ExecuteCommand mem errno stack line = Except.ok r)
    (hne : r.err ≠ InputErr.NoError) : r.stack = stack ∧ r.out = "" := by
  unfold ExecuteCommand at h
  split at h
  · cases h
  · exact withLine_keeps (KeepsOnError_ExecuteZero _ _) h hne
  · exact withLine_keeps (KeepsOnError_ExecuteIsCoeff _) h hne
  · exact withLine_keeps (KeepsOnError_ExecuteIsZero _) h hne
  · exact withLine_keeps (KeepsOnError_ExecuteClone _ _) h hne
  · exact withLine_keeps (KeepsOnError_ExecuteBinary _ _ _) h hne
  · exact withLine_keeps (KeepsOnError_ExecuteBinary _ _ _) h hne
  · exact withLine_keeps (KeepsOnError_ExecuteNeg _ _) h hne
  · exact withLine_keeps (KeepsOnError_ExecuteBinary _ _ _) h hne
  · exact withLine_keeps (KeepsOnError_ExecuteIsEq _ _) h hne
  · exact withLine_keeps (KeepsOnError_ExecuteDeg _) h hne
  · exact withLine_keeps (KeepsOnError_ExecutePrint _) h hne
  · exact withLine_keeps (KeepsOnError_ExecutePop _) h hne
  · exact RunSizeParam_keeps (fun n => KeepsOnError_ExecuteDegBy _ n) h hne
  · exact RunAt_keeps h hne
  · exact RunSizeParam_keeps (fun n => KeepsOnError_ExecuteCompose _ _ n) h hne
  · cases h
    exact ⟨rfl, rfl⟩

theorem ExecutePolyEnd_pushed {mem : Nat → Bool} {errno : Bool} {stack stack1 : stack_t}
    {p : Poly} {line : string_t} {copy poly : CStr} {r : LineResult} (hv : stack.valid)
    (hp : PushPoly mem stack p = Except.ok stack1)
    (h : ExecutePolyEnd InputErr.NoError errno stack1 line copy poly = Except.ok r)
    (hne : r.err ≠ InputErr.NoError) :
    StackPolys r.stack = StackPolys stack ∧ r.out = "" := by
  obtain ⟨hsz, hpolys, hv1, -⟩ := PushPoly_ok_spec mem hv hp
  obtain ⟨ht, hp2, -⟩ := TakePoly_of_snoc hv1 hpolys
  have he : StackIsEmpty stack1 = false := by
    unfold StackIsEmpty
    rw [hsz]
    rfl
  unfold ExecutePolyEnd at h
  split_ifs at h
  · unfold ExecutePop at h
    rw [he, ht] at h
    simp only [Bool.false_eq_true, if_false] at h
    cases h
    exact ⟨hp2, rfl⟩
  · cases h
    exact absurd rfl hne

theorem ExecutePoly_keeps {mem : Nat → Bool} {errno : Bool} {stack : stack_t}
    {line : string_t} {r : LineResult} (hv : stack.valid)
    (h : ExecutePoly mem errno stack line = Except.ok r) (hne : r.err ≠ InputErr.NoError) :
    StackPolys r.stack = StackPolys stack ∧ r.out = "" := by
  unfold ExecutePoly at h
  split at h
  · cases h
  · split at h
    · cases h
    · split_ifs at h
      · split at h
        · cases h
        · cases h
        · split_ifs at h
          · cases h
            exact ⟨rfl, rfl⟩
          · split at h
            · rename_i hpush
              exact ExecutePolyEnd_pushed hv hpush h hne
            · cases h
      · split at h
        · cases h
        · rename_i hparse
          unfold ParsePoly at hparse
          split at hparse
          · cases hparse
          · split at hparse
            · rename_i hpush
              cases hparse
              exact ExecutePolyEnd_pushed hv hpush h hne
            · cases hparse
          · cases hparse
            unfold ExecutePolyEnd at h
            rw [if_neg (by simp)] at h
            cases h
            exact ⟨rfl, rfl⟩

/-- C31. Errors never change the stack: for every valid stack, every line, every state of
`errno` and every allocation behaviour, when `ExecuteLine` returns a value other than
`NoError` (`InvalidCommandName`, `StackUnderflow`, `ParsingErr`, or the parameter error of
`DEG_BY`, `AT` or `COMPOSE`), the polynomials on the stack are the ones that were there
before, in the same order, and nothing has been written to the standard output. This
covers the polynomial read up to a null character inside the line, which `ExecutePoly`
pushes and takes off again. -/
theorem errors_keep_stack (mem : Nat → Bool) (errno : Bool) (stack : stack_t)
    (line : string_t) (r : LineResult) (hv : stack.valid)
    (h : ExecuteLine mem errno stack line = Except.ok r) (hne : r.err ≠ InputErr.NoError) :
    StackPolys r.stack = StackPolys stack ∧ r.out = "" := by
  unfold ExecuteLine at h
  split_ifs at h
  · cases h
    exact absurd rfl hne
  · split at h
    · cases h
    · split_ifs at h
      · cases h
        exact absurd rfl hne
      · obtain ⟨h1, h2⟩ := ExecuteCommand_keeps h hne
        exact ⟨by rw [h1], h2⟩
      · exact ExecutePoly_keeps hv h hne

theorem errors_keep_stack_witness :
    exStackFive.valid ∧
      ExecuteLine (fun _ => true) false exStackFive
          (lineOf "(1,1)\x00x" (List.replicate 25 NUL) 32) =
        Except.ok { err := InputErr.ParsingErr,
                    stack := { polys := [Poly.coeff 5, Poly.sum [(Poly.coeff 1, 1)], PolyZero,
                                 PolyZero], size := 1, maxSize := 4 },
                    out := "", errno := false,
                    line := lineOf "(1,1)\x00x" (List.replicate 25 NUL) 32 } ∧
      InputErr.ParsingErr ≠ InputErr.NoError ∧
      StackPolys { polys := [Poly.coeff 5, Poly.sum [(Poly.coeff 1, 1)], PolyZero, PolyZero],
                   size := 1, maxSize := 4 } = StackPolys exStackFive ∧
      ("" : String) = "" :=
  ⟨by decide, rfl, by decide,
    errors_keep_stack (fun _ => true) false exStackFive
      (lineOf "(1,1)\x00x" (List.replicate 25 NUL) 32) _ (by decide) rfl (by decide)⟩

/-! ## C36: the naive definition of composition -/

theorem den_PolyFastExpLoop : ∀ (n : Nat) (exp : Int) (acc result : Poly),
    exp.natAbs ≤ n → 0 ≤ exp → Canonical acc → Canonical result →
    PolyFastExpLoopFits acc result exp = true →
    den (PolyFastExpLoop acc result exp) = den acc * den result ^ exp.toNat := by
  intro n
  induction n with
  | zero =>
    intro exp acc result hn _ _ _ _
    have h0 : exp = 0 := by omega
    rw [h0, PolyFastExpLoop_zero]
    simp
  | succ n ih =>
    intro exp acc result hn he ha hr hf
    rw [PolyFastExpLoop]
    rw [PolyFastExpLoopFits] at hf
    by_cases h0 : exp = 0
    · simp only [h0, ne_eq, not_true_eq_false, dite_false]
      simp
    · simp only [ne_eq, h0, not_false_eq_true, dite_true, Bool.and_eq_true] at hf ⊢
      obtain ⟨⟨hf1, hf2⟩, hf3⟩ := hf
      have hd : (Int.tdiv exp 2).natAbs = exp.natAbs / 2 := Int.natAbs_tdiv exp 2
      have hm0 : 0 ≤ Int.tdiv exp 2 := Int.tdiv_nonneg he (by norm_num)
      have hdiv : Int.tdiv exp 2 = exp / 2 := Int.tdiv_eq_ediv he (by norm_num)
      have hmod : Int.tmod exp 2 = exp % 2 := Int.tmod_eq_emod he (by norm_num)
      have hca : Canonical (if ¬ Int.tmod exp 2 = 0 then PolyMul acc result else acc) := by
        by_cases h1 : Int.tmod exp 2 = 0
        · simp only [h1, not_true_eq_false, if_false]
          exact ha
        · simp only [h1, not_false_eq_true, if_true] at hf1 ⊢
          exact PolyMul_canonical_of ha hr hf1
      have hcr : Canonical (if ¬ exp = 1 then PolyMul result result else result) := by
        by_cases h1 : exp = 1
        · simp only [h1, not_true_eq_false, if_false]
          exact hr
        · simp only [h1, not_false_eq_true, if_true] at hf2 ⊢
          exact PolyMul_canonical_of hr hr hf2
      rw [ih _ _ _ (by omega) hm0 hca hcr hf3]
      by_cases h1 : Int.tmod exp 2 = 0
      · have h2 : ¬ exp = 1 := by omega
        simp only [h1, not_true_eq_false, if_false, h2, not_false_eq_true, if_true] at hf2 ⊢
        rw [den_PolyMul_of hr hr hf2]
        have hk : exp.toNat = 2 * (Int.tdiv exp 2).toNat := by omega
        rw [hk]
        ring
      · simp only [h1, not_false_eq_true, if_true] at hf1 ⊢
        rw [den_PolyMul_of ha hr hf1]
        by_cases h2 : exp = 1
        · simp only [h2, not_true_eq_false, if_false]
          have hz : Int.tdiv 1 2 = 0 := by decide
          rw [hz]
          simp
        · simp only [h2, not_false_eq_true, if_true] at hf2 ⊢
          rw [den_PolyMul_of hr hr hf2]
          have hk : exp.toNat = 2 * (Int.tdiv exp 2).toNat + 1 := by omega
          rw [hk]
          ring

theorem den_PolyFastExp (p : Poly) (exp : Int) (he : 0 ≤ exp) (hp : Canonical p)
    (hf : PolyFastExpFits p exp = true) : den (PolyFastExp p exp) = den p ^ exp.toNat := by
  unfold PolyFastExp
  unfold PolyFastExpFits at hf
  split_ifs with h0 h1
  · rw [h0]
    simp [PolyFromCoeff, den_coeff]
  · rw [PolyClone_eq, h1]
    simp
  · rw [if_neg h0, if_neg h1] at hf
    rw [PolyClone_eq] at hf ⊢
    unfold PolyFromCoeff at hf ⊢
    rw [den_PolyFastExpLoop _ exp _ _ (le_refl _) he (canonical_coeff 1) hp hf]
    simp [den_coeff]

theorem PolyFastExpLoop_inRange : ∀ (n : Nat) (exp : Int) (acc result : Poly),
    exp.natAbs ≤ n → InRange acc → InRange result →
    InRange (PolyFastExpLoop acc result exp) := by
  intro n
  induction n with
  | zero =>
    intro exp acc result hn ha _
    have h0 : exp = 0 := by omega
    rw [h0, PolyFastExpLoop_zero]
    exact ha
  | succ n ih =>
    intro exp acc result hn ha hr
    rw [PolyFastExpLoop]
    by_cases h0 : exp = 0
    · simp only [h0, ne_eq, not_true_eq_false, dite_false]
      exact ha
    · simp only [ne_eq, h0, not_false_eq_true, dite_true]
      have hd : (Int.tdiv exp 2).natAbs = exp.natAbs / 2 := Int.natAbs_tdiv exp 2
      refine ih _ _ _ (by omega) ?_ ?_
      · split_ifs
        · exact ha
        · exact PolyMul_inRange ha hr
      · split_ifs
        · exact hr
        · exact PolyMul_inRange hr hr

theorem PolyFastExp_inRange (p : Poly) (exp : Int) (hp : InRange p) :
    InRange (PolyFastExp p exp) := by
  unfold PolyFastExp
  split_ifs
  · decide
  · rw [PolyClone_eq]
    exact hp
  · rw [PolyClone_eq]
    exact PolyFastExpLoop_inRange _ exp _ _ (le_refl _) (by decide) hp

theorem getD_inRange (q : List Poly) (hq : ∀ x ∈ q, InRange x) (level : Nat) :
    InRange (q.getD level PolyZero) := by
  rw [List.getD_eq_getElem?_getD]
  cases h : q[level]? with
  | none => decide
  | some x => exact hq x (List.getElem?_mem h)

theorem AuxPolyComposeLoop_inRange (k : Nat) (q : List Poly) (hq : ∀ x ∈ q, InRange x)
    (level : Nat) (rest : List (Poly × Int))
    (ih : ∀ m ∈ rest, InRange (AuxPolyCompose m.1 (level + 1) k q)) :
    ∀ (sum exp : Poly) (expVal : Int), InRange sum → InRange exp →
      InRange (AuxPolyComposeLoop rest level k q sum exp expVal) := by
  induction rest with
  | nil =>
    intro sum exp expVal hs _
    rw [AuxPolyComposeLoop]
    exact hs
  | cons m rest ihl =>
    obtain ⟨p, e⟩ := m
    intro sum exp expVal hs he
    have ihr := ihl (fun m hm => ih m (List.mem_cons_of_mem _ hm))
    have htmp := ih _ (List.mem_cons_self _ _)
    have htmp2 := PolyFastExp_inRange _ (wrap32 (MonoGetExp (p, e) - expVal))
      (getD_inRange q hq level)
    rw [AuxPolyComposeLoop]
    simp only [SmartPolyMul, SmartPolyAdd]
    split_ifs
    · exact ihr _ _ _ (PolyAdd_inRange hs (PolyMul_inRange htmp (PolyMul_inRange he htmp2)))
        (PolyMul_inRange he htmp2)
    · exact ihr _ _ _ hs (PolyMul_inRange he htmp2)
    · exact ihr _ _ _ hs (PolyMul_inRange he htmp2)
    · exact ihr _ _ _ hs he
    · exact ihr _ _ _ hs he

theorem AuxPolyCompose_inRange (k : Nat) (q : List Poly) (hq : ∀ x ∈ q, InRange x) :
    ∀ (n : Nat) (p : Poly) (level : Nat), p.size ≤ n → InRange p →
      InRange (AuxPolyCompose p level k q) := by
  intro n
  induction n with
  | zero =>
    intro p level h
    have := size_pos p
    omega
  | succ n ih =>
    intro p level hn hr
    cases p with
    | coeff c =>
      rw [AuxPolyCompose, PolyClone_eq]
      exact hr
    | sum arr =>
      cases arr with
      | nil =>
        rw [AuxPolyCompose]
        split_ifs
        · decide
        · rw [AuxPolyComposeLoop]
          decide
      | cons m tl =>
        obtain ⟨p0, e0⟩ := m
        rw [AuxPolyCompose]
        have hsz : ∀ x ∈ (p0, e0) :: tl, x.1.size ≤ n := by
          intro x hx
          have := size_lt_of_mem hx
          simp only [Poly.size] at hn
          omega
        have hir : ∀ x ∈ (p0, e0) :: tl, InRange x.1 :=
          fun x hx => ((inRange_sum_iff_IR _).1 hr x hx).1
        split_ifs with h1 h2
        · exact ih p0 (level + 1) (hsz _ (List.mem_cons_self _ _)) (hir _ (List.mem_cons_self _ _))
        · decide
        · exact AuxPolyComposeLoop_inRange k q hq level _
            (fun x hx => ih x.1 (level + 1) (hsz x hx) (hir x hx)) _ _ _ (by decide) (by decide)

theorem NaivePow_spec (q : Poly) (hq : Canonical q) (hr : InRange q) : ∀ n : Nat,
    NaivePowFits q n = true →
    Canonical (NaivePow q n) ∧ InRange (NaivePow q n) ∧ den (NaivePow q n) = den q ^ n := by
  intro n
  induction n with
  | zero =>
    intro _
    refine ⟨canonical_coeff 1, (by decide : InRange (Poly.coeff 1)), ?_⟩
    simp [NaivePow, den_coeff]
  | succ n ih =>
    intro hf
    rw [NaivePowFits, Bool.and_eq_true] at hf
    obtain ⟨h1, h2, h3⟩ := ih hf.1
    rw [NaivePow]
    refine ⟨PolyMul_canonical_of h1 hq hf.2, PolyMul_inRange h2 hr, ?_⟩
    rw [den_PolyMul_of h1 hq hf.2, h3]
    exact (pow_succ (den q) n).symm

theorem den_AuxPolyComposeLoop (k : Nat) (q : List Poly) (hq : ∀ x ∈ q, Canonical x)
    (level : Nat) (rest : List (Poly × Int))
    (ih : ∀ m ∈ rest, AuxPolyComposeFits m.1 (level + 1) k q = true →
      Canonical (AuxPolyCompose m.1 (level + 1) k q)) :
    ∀ (sum exp : Poly) (expVal : Int), Canonical sum → Canonical exp → 0 ≤ expVal →
      den exp = den (q.getD level PolyZero) ^ expVal.toNat →
      (∀ m ∈ rest, expVal ≤ m.2 ∧ m.2 < INT_BOUND) → ExpsIncreasing rest →
      AuxPolyComposeLoopFits rest level k q exp expVal = true →
      den (AuxPolyComposeLoop rest level k q sum exp expVal) =
        den sum + (rest.map fun m =>
          den (AuxPolyCompose m.1 (level + 1) k q) *
            den (q.getD level PolyZero) ^ m.2.toNat).sum := by
  induction rest with
  | nil =>
    intro sum exp expVal _ _ _ _ _ _ _
    rw [AuxPolyComposeLoop]
    simp
  | cons m rest ihl =>
    obtain ⟨p, e⟩ := m
    intro sum exp expVal hs he hv0 hden hbnd hinc hf
    have ihr := ihl (fun m hm => ih m (List.mem_cons_of_mem _ hm))
    obtain ⟨hle, hlt⟩ := hbnd _ (List.mem_cons_self _ _)
    simp only at hle hlt
    have hinc2 : ExpsIncreasing rest := (List.pairwise_cons.1 hinc).2
    have hnext : ∀ m ∈ rest, e ≤ m.2 ∧ m.2 < INT_BOUND := fun m hm =>
      ⟨le_of_lt ((List.pairwise_cons.1 hinc).1 m hm), (hbnd m (List.mem_cons_of_mem _ hm)).2⟩
    have hkeep : ∀ m ∈ rest, expVal ≤ m.2 ∧ m.2 < INT_BOUND := fun m hm =>
      hbnd m (List.mem_cons_of_mem _ hm)
    have hw : wrap32 (MonoGetExp (p, e) - expVal) = e - expVal := by
      unfold MonoGetExp
      exact wrap32_of_fits (by unfold INT_BOUND at *; constructor <;> omega)
    have hsplit : e.toNat = expVal.toNat + (e - expVal).toNat := by omega
    rw [AuxPolyComposeLoopFits] at hf
    rw [AuxPolyComposeLoop]
    simp only [Bool.and_eq_true, SmartPolyMul, SmartPolyAdd, hw] at hf ⊢
    obtain ⟨hfp, hf⟩ := hf
    have htmp := ih _ (List.mem_cons_self _ _) hfp
    simp only [List.map_cons, List.sum_cons]
    by_cases hz1 : PolyIsZero (AuxPolyCompose p (level + 1) k q) = true
    · simp only [hz1, Bool.not_true, Bool.false_eq_true, if_false] at hf ⊢
      rw [ihr sum exp expVal hs he hv0 hden hkeep hinc2 hf, den_zero_of_isZero hz1]
      ring
    · simp only [hz1, Bool.not_false, if_true, Bool.and_eq_true] at hf ⊢
      obtain ⟨hfe, hf⟩ := hf
      have htmp2 := PolyFastExp_canonical _ _ (getD_canonical q hq level) hfe
      have hd2 := den_PolyFastExp _ (e - expVal) (by omega) (getD_canonical q hq level) hfe
      by_cases hz2 : PolyIsZero (PolyFastExp (q.getD level PolyZero) (e - expVal)) = true
      · simp only [hz2, Bool.not_true, Bool.false_eq_true, if_false] at hf ⊢
        rw [ihr sum exp expVal hs he hv0 hden hkeep hinc2 hf]
        have h0 : den (q.getD level PolyZero) ^ e.toNat = 0 := by
          rw [hsplit, pow_add, ← hd2, den_zero_of_isZero hz2, mul_zero]
        rw [h0]
        ring
      · simp only [hz2, Bool.not_false, if_true, Bool.and_eq_true] at hf ⊢
        obtain ⟨hfm, hf⟩ := hf
        have hexp1 := PolyMul_canonical_of he htmp2 hfm
        have hd1 : den (PolyMul exp (PolyFastExp (q.getD level PolyZero) (e - expVal))) =
            den (q.getD level PolyZero) ^ e.toNat := by
          rw [den_PolyMul_of he htmp2 hfm, hden, hd2, hsplit, pow_add]
        unfold MonoGetExp at hf ⊢
        simp only at hf ⊢
        by_cases hz3 : PolyIsZero (PolyMul exp (PolyFastExp (q.getD level PolyZero)
            (e - expVal))) = true
        · simp only [hz3, Bool.not_true, Bool.false_eq_true, if_false] at hf ⊢
          rw [ihr sum _ e hs hexp1 (by omega) hd1 hnext hinc2 hf, ← hd1,
            den_zero_of_isZero hz3]
          ring
        · simp only [hz3, Bool.not_false, if_true, Bool.and_eq_true] at hf ⊢
          obtain ⟨hfm2, hf⟩ := hf
          have htmp3 := PolyMul_canonical_of htmp hexp1 hfm2
          have hd3 := den_PolyMul_of htmp hexp1 hfm2
          rw [hd1] at hd3
          split_ifs with hz4
          · rw [ihr _ _ e (PolyAdd_canonical_of hs htmp3) hexp1 (by omega) hd1 hnext hinc2 hf,
              den_PolyAdd, hd3]
            ring
          · have hz5 : PolyIsZero (PolyMul (AuxPolyCompose p (level + 1) k q)
                (PolyMul exp (PolyFastExp (q.getD level PolyZero) (e - expVal)))) = true := by
              simpa using hz4
            rw [ihr sum _ e hs hexp1 (by omega) hd1 hnext hinc2 hf, ← hd3,
              den_zero_of_isZero hz5]
            ring

theorem NaiveSum_spec (qs : List Poly) (hq : ∀ x ∈ qs, Canonical x) (hqr : ∀ x ∈ qs, InRange x)
    (l : Nat) (rest : List (Poly × Int))
    (hc : ∀ m ∈ rest, Canonical (NaiveCompose m.1 (l + 1) qs) ∧
      InRange (NaiveCompose m.1 (l + 1) qs)) :
    ∀ acc : Poly, Canonical acc → InRange acc → NaiveSumFits rest l qs = true →
      Canonical (NaiveSum rest l qs acc) ∧ InRange (NaiveSum rest l qs acc) ∧
        den (NaiveSum rest l qs acc) =
          den acc + (rest.map fun m =>
            den (NaiveCompose m.1 (l + 1) qs) * den (qs.getD l PolyZero) ^ m.2.toNat).sum := by
  induction rest with
  | nil =>
    intro acc ha hr _
    rw [NaiveSum]
    exact ⟨ha, hr, by simp⟩
  | cons m rest ih =>
    obtain ⟨p, e⟩ := m
    intro acc ha hr hf
    rw [NaiveSumFits] at hf
    simp only [Bool.and_eq_true] at hf
    obtain ⟨⟨⟨-, hf2⟩, hf3⟩, hf4⟩ := hf
    obtain ⟨hcp, hrp⟩ := hc _ (List.mem_cons_self _ _)
    obtain ⟨hpc, hpr, hpd⟩ := NaivePow_spec _ (getD_canonical qs hq l) (getD_inRange qs hqr l)
      e.toNat hf2
    have hmc := PolyMul_canonical_of hcp hpc hf3
    have hmr := PolyMul_inRange hrp hpr
    obtain ⟨h1, h2, h3⟩ := ih (fun m hm => hc m (List.mem_cons_of_mem _ hm)) _
      (PolyAdd_canonical_of ha hmc) (PolyAdd_inRange hr hmr) hf4
    rw [NaiveSum]
    refine ⟨h1, h2, ?_⟩
    rw [h3, den_PolyAdd, den_PolyMul_of hcp hpc hf3, hpd]
    simp only [List.map_cons, List.sum_cons]
    ring

theorem NaiveZeroTerm_none (l : Nat) (qs : List Poly) : ∀ arr : List (Poly × Int),
    (∀ m ∈ arr, m.2 ≠ 0) → NaiveZeroTerm arr l qs = Poly.coeff 0 := by
  intro arr
  induction arr with
  | nil =>
    intro _
    rw [NaiveZeroTerm]
  | cons m tl ih =>
    obtain ⟨p, e⟩ := m
    intro h
    rw [NaiveZeroTerm, if_neg (h _ (List.mem_cons_self _ _))]
    exact ih (fun m hm => h m (List.mem_cons_of_mem _ hm))

theorem AuxPolyComposeLoopFits_inner (k : Nat) (q : List Poly) (level : Nat) :
    ∀ (rest : List (Poly × Int)) (exp : Poly) (expVal : Int),
      AuxPolyComposeLoopFits rest level k q exp expVal = true →
      ∀ m ∈ rest, AuxPolyComposeFits m.1 (level + 1) k q = true := by
  intro rest
  induction rest with
  | nil =>
    intro _ _ _ m hm
    cases hm
  | cons x rest ih =>
    obtain ⟨p, e⟩ := x
    intro exp expVal hf m hm
    rw [AuxPolyComposeLoopFits] at hf
    simp only [Bool.and_eq_true] at hf
    obtain ⟨hfp, hf⟩ := hf
    rcases List.mem_cons.1 hm with hm | hm
    · subst hm
      exact hfp
    · split_ifs at hf
      all_goals try simp only [Bool.and_eq_true] at hf
      all_goals first
        | exact ih _ _ hf m hm
        | exact ih _ _ hf.2 m hm
        | exact ih _ _ hf.2.2 m hm
        | exact ih _ _ hf.2.2.2 m hm

theorem NaiveSumFits_inner (l : Nat) (qs : List Poly) : ∀ rest : List (Poly × Int),
    NaiveSumFits rest l qs = true → ∀ m ∈ rest, NaiveComposeFits m.1 (l + 1) qs = true := by
  intro rest
  induction rest with
  | nil =>
    intro _ m hm
    cases hm
  | cons x rest ih =>
    obtain ⟨p, e⟩ := x
    intro hf m hm
    rw [NaiveSumFits] at hf
    simp only [Bool.and_eq_true] at hf
    rcases List.mem_cons.1 hm with hm | hm
    · subst hm
      exact hf.1.1.1
    · exact ih hf.2 m hm

theorem AuxPolyCompose_eq_Naive (qs : List Poly) (hq : ∀ x ∈ qs, Canonical x)
    (hqr : ∀ x ∈ qs, InRange x) :
    ∀ (n : Nat) (p : Poly) (level : Nat), p.size ≤ n → Canonical p → InRange p →
      AuxPolyComposeFits p level qs.length qs = true → NaiveComposeFits p level qs = true →
      AuxPolyCompose p level qs.length qs = NaiveCompose p level qs := by
  intro n
  induction n with
  | zero =>
    intro p level h
    have := size_pos p
    omega
  | succ n ih =>
    intro p level hn hp hr hf hg
    cases p with
    | coeff c => rw [AuxPolyCompose, NaiveCompose, PolyClone_eq]
    | sum arr =>
      cases arr with
      | nil => exact absurd hp (by decide)
      | cons m tl =>
        obtain ⟨p0, e0⟩ := m
        have hc1 := AuxPolyCompose_canonical_aux qs.length qs hq _ _ level (le_refl _) hf
        have hr1 := AuxPolyCompose_inRange qs.length qs hqr _ _ level (le_refl _) hr
        have hsz : ∀ x ∈ (p0, e0) :: tl, x.1.size ≤ n := by
          intro x hx
          have := size_lt_of_mem hx
          simp only [Poly.size] at hn
          omega
        obtain ⟨-, ⟨hmon, hinc⟩, -⟩ := (canonical_sum_iff _).1 hp
        have hir := (inRange_sum_iff _).1 hr
        rw [AuxPolyCompose] at hc1 hr1 ⊢
        rw [NaiveCompose]
        rw [AuxPolyComposeFits] at hf
        rw [NaiveComposeFits] at hg
        by_cases hcond : level ≥ qs.length ∨ PolyIsZero (qs.getD level PolyZero) = true
        · have hcond1 : (decide (level + 1 > qs.length) ||
              PolyIsZero (qs.getD level PolyZero)) = true := by
            rcases hcond with h | h
            · simp only [Bool.or_eq_true, decide_eq_true_eq]
              exact Or.inl (by omega)
            · rw [h, Bool.or_true]
          rw [if_pos hcond1] at hf ⊢
          rw [if_pos hcond] at hg ⊢
          rw [NaiveZeroTerm]
          rw [NaiveZeroTermFits] at hg
          by_cases he0 : e0 = 0
          · rw [if_pos he0] at hf hg ⊢
            rw [if_pos he0]
            exact ih p0 (level + 1) (hsz _ (List.mem_cons_self _ _))
              (hmon _ (List.mem_cons_self _ _)).1 (hir _ (List.mem_cons_self _ _)).1 hf hg
          · rw [if_neg he0, if_neg he0]
            have h0 : 0 ≤ e0 := (hmon _ (List.mem_cons_self _ _)).2.2
            rw [NaiveZeroTerm_none]
            · rfl
            · intro m hm
              have := (List.pairwise_cons.1 hinc).1 m hm
              unfold MonoGetExp at this
              simp only at this
              omega
        · have hcond1 : ¬ (decide (level + 1 > qs.length) ||
              PolyIsZero (qs.getD level PolyZero)) = true := by
            simp only [Bool.or_eq_true, decide_eq_true_eq]
            intro h
            rcases h with h | h
            · exact hcond (Or.inl (by omega))
            · exact hcond (Or.inr h)
          rw [if_neg hcond1] at hf hc1 hr1 ⊢
          rw [if_neg hcond] at hg ⊢
          have hin1 := AuxPolyComposeLoopFits_inner _ _ _ _ _ _ hf
          have hin2 := NaiveSumFits_inner _ _ _ hg
          have heq : ∀ x ∈ (p0, e0) :: tl,
              AuxPolyCompose x.1 (level + 1) qs.length qs = NaiveCompose x.1 (level + 1) qs :=
            fun x hx => ih x.1 (level + 1) (hsz x hx) (hmon x hx).1 (hir x hx).1
              (hin1 x hx) (hin2 x hx)
          have hcn : ∀ x ∈ (p0, e0) :: tl, Canonical (NaiveCompose x.1 (level + 1) qs) ∧
              InRange (NaiveCompose x.1 (level + 1) qs) := by
            intro x hx
            rw [← heq x hx]
            exact ⟨AuxPolyCompose_canonical_aux qs.length qs hq _ _ _ (le_refl _) (hin1 x hx),
              AuxPolyCompose_inRange qs.length qs hqr _ _ _ (le_refl _) (hir x hx).1⟩
          obtain ⟨hc2, hr2, hd2⟩ := NaiveSum_spec qs hq hqr level _ hcn (Poly.coeff 0)
            (canonical_coeff 0) (by decide) hg
          have hd1 := den_AuxPolyComposeLoop qs.length qs hq level _
            (fun x hx hfx => AuxPolyCompose_canonical_aux qs.length qs hq _ _ _ (le_refl _) hfx)
            PolyZero (PolyFromCoeff 1) 0 (canonical_coeff 0) (canonical_coeff 1) (le_refl _)
            (by simp [PolyFromCoeff, den_coeff])
            (fun x hx => ⟨(hmon x hx).2.2, (hir x hx).2.2⟩) hinc hf
          apply den_inj hc1 hc2 hr1 hr2
          rw [hd1, hd2]
          congr 1
          apply congrArg
          apply List.map_congr_left
          intro x hx
          rw [heq x hx]

theorem PolyFastExpLoop_three (acc result : Poly) :
    PolyFastExpLoop acc result 3 =
      PolyMul (PolyMul acc result) (PolyMul result result) := by
  rw [PolyFastExpLoop]
  have h : Int.tdiv 3 2 = 1 := by decide
  have h2 : Int.tmod 3 2 ≠ 0 := by decide
  have h3 : (3 : Int) ≠ 0 := by decide
  have h4 : (3 : Int) ≠ 1 := by decide
  simp only [h3, h4, ne_eq, not_false_eq_true, dite_true, h, h2, if_true,
    PolyFastExpLoop_one]

/-- C36, the claim as written fails: `x_0^3` and `1 + x_0 * x_1^2147483647 + x_0^2` are
canonical and hold values of `long` and `int`; in the cube the products of the
coefficients wrap in `int`, the implementation multiplies `q` by `q * q` and the naive
definition `q * q` by `q`, and the coefficients of `x_0^2` and `x_0^4` of the two
results differ. -/
theorem PolyCompose_naive_counterexample :
    Canonical exCube ∧ InRange exCube ∧ Canonical exCubeQ ∧ InRange exCubeQ ∧
      PolyCompose exCube 1 [exCubeQ] ≠ NaiveCompose exCube 0 [exCubeQ] := by
  have h1 : PolyCompose exCube 1 [exCubeQ] =
      Poly.sum [(Poly.coeff 1, 0), (Poly.sum [(Poly.coeff 3, 2147483647)], 1),
        (Poly.sum [(Poly.coeff 1, 0), (Poly.coeff 2, -2), (Poly.coeff 2, 0),
          (Poly.coeff 1, -2)], 2),
        (Poly.sum [(Poly.coeff 1, 2147483645), (Poly.coeff 6, 2147483647)], 3),
        (Poly.sum [(Poly.coeff 3, 0), (Poly.coeff 3, -2)], 4),
        (Poly.sum [(Poly.coeff 3, 2147483647)], 5), (Poly.coeff 1, 6)] := by
    simp [exCube, exCubeQ, PolyCompose, AuxPolyCompose, AuxPolyComposeLoop, PolyFastExp,
      PolyFastExpLoop_three, SmartPolyMul, SmartPolyAdd, PolyMul, MulMonos, MulMonosRow,
      MulCoeffPoly, MulCoeffPolyLoop, keepMono, PolyOwnMonos, SortMonos, PolyOwnMonosSorted,
      OwnMonosLoop, MonoGetExp, MonoLe, List.insertionSort, List.orderedInsert, PolyIsZero,
      BuildPolyFromMonos, wrap32, wrap64, PolyFromCoeff, PolyZero, PolyAdd, SumConstPoly,
      SumConstPoly0, SumPolyPoly, SumPolyPolyLoop, PolyClone, CloneMonoArr]
  have h2 : NaiveCompose exCube 0 [exCubeQ] =
      Poly.sum [(Poly.coeff 1, 0), (Poly.sum [(Poly.coeff 3, 2147483647)], 1),
        (Poly.sum [(Poly.coeff 3, 0), (Poly.coeff 3, -2)], 2),
        (Poly.sum [(Poly.coeff 1, 2147483645), (Poly.coeff 6, 2147483647)], 3),
        (Poly.sum [(Poly.coeff 1, 0), (Poly.coeff 2, -2), (Poly.coeff 2, 0),
          (Poly.coeff 1, -2)], 4),
        (Poly.sum [(Poly.coeff 3, 2147483647)], 5), (Poly.coeff 1, 6)] := by
    simp [exCube, exCubeQ, NaiveCompose, NaiveSum, NaivePow, PolyMul, MulMonos, MulMonosRow,
      MulCoeffPoly, MulCoeffPolyLoop, keepMono, PolyOwnMonos, SortMonos, PolyOwnMonosSorted,
      OwnMonosLoop, MonoGetExp, MonoLe, List.insertionSort, List.orderedInsert, PolyIsZero,
      BuildPolyFromMonos, wrap32, wrap64, PolyFromCoeff, PolyZero, PolyAdd, SumConstPoly,
      SumConstPoly0, SumPolyPoly, SumPolyPolyLoop, PolyClone, CloneMonoArr]
  refine ⟨by decide, by decide, by decide, by decide, ?_⟩
  rw [h1, h2]
  simp

/-- C36 (amended). The incremental-power implementation of `PolyCompose` equals the naive
definition when no exponent sum overflows: for every canonical Poly `p` and every
sequence `qs` of canonical Polys (all holding values of `long` and `int`) such that every
exponent sum formed by the `PolyMul` calls of the implementation and of the naive
definition fits in `int`, `PolyCompose p |qs| qs` is equal to `NaiveCompose p 0 qs`, the
value `C(p, 0)` of the naive definition. -/
theorem PolyCompose_eq_NaiveCompose (p : Poly) (qs : List Poly) (hp : Canonical p)
    (hr : InRange p) (hq : ∀ x ∈ qs, Canonical x) (hqr : ∀ x ∈ qs, InRange x)
    (hfit : AuxPolyComposeFits p 0 qs.length qs = true)
    (hnaive : NaiveComposeFits p 0 qs = true) :
    PolyCompose p qs.length qs = NaiveCompose p 0 qs :=
  AuxPolyCompose_eq_Naive qs hq hqr p.size p 0 (le_refl _) hp hr hfit hnaive

theorem PolyCompose_eq_NaiveCompose_witness :
    Canonical (Poly.sum [(Poly.coeff 1, 2)]) ∧ InRange (Poly.sum [(Poly.coeff 1, 2)]) ∧
      (∀ x ∈ [exOnePlusX], Canonical x) ∧ (∀ x ∈ [exOnePlusX], InRange x) ∧
      AuxPolyComposeFits (Poly.sum [(Poly.coeff 1, 2)]) 0 [exOnePlusX].length [exOnePlusX] =
        true ∧
      NaiveComposeFits (Poly.sum [(Poly.coeff 1, 2)]) 0 [exOnePlusX] = true ∧
      PolyCompose (Poly.sum [(Poly.coeff 1, 2)]) [exOnePlusX].length [exOnePlusX] =
        NaiveCompose (Poly.sum [(Poly.coeff 1, 2)]) 0 [exOnePlusX] := by
  have hfit : AuxPolyComposeFits (Poly.sum [(Poly.coeff 1, 2)]) 0 [exOnePlusX].length
      [exOnePlusX] = true := by
    simp [exOnePlusX, AuxPolyComposeFits, AuxPolyComposeLoopFits, PolyFastExpFits,
      PolyFastExpLoopFits_two, MulExpFits, MulMonosFits, MulMonosRowFits, INT_BOUND,
      AuxPolyCompose, AuxPolyComposeLoop, PolyFastExp, PolyFastExpLoop_two,
      SmartPolyMul, SmartPolyAdd, PolyAdd, PolyClone, CloneMonoArr, MulCoeffPoly,
      MulCoeffPolyLoop, keepMono, PolyZero, PolyMul, MulMonos, MulMonosRow, PolyOwnMonos,
      SortMonos, PolyOwnMonosSorted, OwnMonosLoop, MonoGetExp, MonoLe, List.insertionSort,
      List.orderedInsert, PolyIsZero, BuildPolyFromMonos, wrap32, wrap64, PolyFromCoeff]
  have hnaive : NaiveComposeFits (Poly.sum [(Poly.coeff 1, 2)]) 0 [exOnePlusX] = true := by
    simp [exOnePlusX, NaiveComposeFits, NaiveSumFits, NaivePowFits, NaivePow, NaiveCompose,
      MulExpFits, MulMonosFits, MulMonosRowFits, INT_BOUND,
      PolyAdd, PolyClone, CloneMonoArr, MulCoeffPoly,
      MulCoeffPolyLoop, keepMono, PolyZero, PolyMul, MulMonos, MulMonosRow, PolyOwnMonos,
      SortMonos, PolyOwnMonosSorted, OwnMonosLoop, MonoGetExp, MonoLe, List.insertionSort,
      List.orderedInsert, PolyIsZero, BuildPolyFromMonos, wrap32, wrap64, PolyFromCoeff]
  exact ⟨by decide, by decide, by decide, by decide, hfit, hnaive,
    PolyCompose_eq_NaiveCompose _ _ (by decide) (by decide) (by decide) (by decide) hfit hnaive⟩

/-! ## C33: exponents beyond `int`; C34: `PRINT` and the parser -/

/-- C33, the code at the failing input: the line `(1,4294967296)` is accepted, since
`strtoi` stores the `long` of `strtol` in an `int` and the exponent read is `0`; the
polynomial pushed is the constant `1`, which `PRINT` writes, and nothing is written to
the standard error. The exponent `4294967297` is read as `1`. The line
`(1,2147483648)`, whose exponent truncates to a negative `int`, is rejected with
`WRONG POLY`. -/
theorem exponent_truncated :
    outputOf (RunCalculator (fun _ => true) "(1,4294967296)\nPRINT\n") = some "1\n" ∧
      errorsOf (RunCalculator (fun _ => true) "(1,4294967296)\nPRINT\n") = some "" ∧
      stackOf (RunCalculator (fun _ => true) "(1,4294967296)\nPRINT\n") = some ["1"] ∧
      outputOf (RunCalculator (fun _ => true) "(1,4294967297)\nPRINT\n") = some "(1,1)\n" ∧
      errorsOf (RunCalculator (fun _ => true) "(1,4294967297)\nPRINT\n") = some "" ∧
      errorsOf (RunCalculator (fun _ => true) "(1,2147483648)\n") =
        some "ERROR 1 WRONG POLY\n" ∧
      stackOf (RunCalculator (fun _ => true) "(1,2147483648)\n") = some [] := by
  decide!

/-- C34, the code at the failing input: `exLine32` is canonical and `PrintPoly` writes
the 32 characters `(1,1)+(1,2)+(1,3)+(1,4)+(1,1000)` for it. Read as the first line of
the input, these characters fill the array of 32 characters that `AppendChar` allocates,
`GetCharArrayAt` writes no null character behind them, and the parser reads past the end
of the array. The 31 characters that `PrintPoly` writes for `exLine31` are read back and
printed again; so are the 32 characters of `exLine32` once a longer line has made the
array 64 characters long. -/
theorem print_parse_full_array :
    Canonical exLine32 ∧ InRange exLine32 ∧
      PrintPoly exLine32 = "(1,1)+(1,2)+(1,3)+(1,4)+(1,1000)\n" ∧
      "(1,1)+(1,2)+(1,3)+(1,4)+(1,1000)".length = 32 ∧
      faultOf (RunCalculator (fun _ => true) "(1,1)+(1,2)+(1,3)+(1,4)+(1,1000)\nPRINT\n") =
        some Fault.outOfBounds ∧
      Canonical exLine31 ∧
      PrintPoly exLine31 = "(1,1)+(1,2)+(1,3)+(1,4)+(1,100)\n" ∧
      outputOf (RunCalculator (fun _ => true) "(1,1)+(1,2)+(1,3)+(1,4)+(1,100)\nPRINT\n") =
        some "(1,1)+(1,2)+(1,3)+(1,4)+(1,100)\n" ∧
      outputOf (RunCalculator (fun _ => true)
          "# a line of more than 32 characters\n(1,1)+(1,2)+(1,3)+(1,4)+(1,1000)\nPRINT\n") =
        some "(1,1)+(1,2)+(1,3)+(1,4)+(1,1000)\n" := by
  decide!

end IPP
